import Mathlib

/-!
# Store files, messages and background passes of `valuestore`

A shallow embedding of the store-file code of the repository
(`groupstorefile_GEN_.go`, `valuestorefile_GEN_.go`, `valuefile_GEN_.go`), of its
bulk-set-ack messages (`groupbulksetack_GEN_.go`), of the flusher
(`groupflusher_GEN_.go`), of the disk watcher (`valuediskwatcher_GEN_.go`), of the
resolution of the configuration (`groupconfig_GEN_.go`), of the push replication pass
(`grouppushreplication_GEN_.go`) and of the audit pass (`groupaudit_GEN_.go`).

Conventions of the embedding.

* A byte is a natural number (below 256 for real data); a `[]byte` whose
  capacity equals its length is a `List Nat`.
* `uint32` arithmetic is arithmetic on `Nat` reduced by `u32`, `uint64` arithmetic is
  reduced by `u64`, and `int32` and `int64` values are integers kept in range by `i32`
  and `i64`; an `int` has 64 bits.
* A function of the source that can panic or block forever returns `Option`;
  `none` stands for "the call does not return".
* For the contents of the files, the three goroutine roles of the writer pipeline are
  run in the one schedule in which a page handed to the checksummers is checksummed
  and written to the file before the foreground takes its next free buffer (the only
  schedule there is when `workers = 1`); pages therefore reach the file in `seq`
  order. For the order of events between the goroutines, `writerPipeline` keeps the
  two channels apart and runs each goroutine by steps.
* The file written through `writerFP` is the byte list `disk`; writes to it
  never fail.
* A channel is the list of what it holds, oldest first. The channels for freeable
  memblocks carry their capacity: they are filled by the store-file and emptied by code
  outside it, so a send on one that is full waits for a receiver and is `none` here.
  The other channels are pools and queues of the page buffers and messages themselves,
  made for as many as there are, and a send on them has room.
* An `int32` counter is an `Int` that `atomicAddInt32` keeps in range; a loop that waits
  for events (messages, wake-ups, polls) is run over the list of the events that happen.
* `path.Join` is `pathJoin`, with the cleaning of `path.Clean`.
* Functions and constants declared outside the available sources (`store.read`,
  `bsm.add`, the location map, the `_TSB_` bits, the file system) are parameters.
-/

namespace Valuestore

set_option linter.unusedVariables false

/-! ## Machine integers and byte strings -/

/-- Reduction of a natural number to the range of `uint32`. -/
def u32 (n : Nat) : Nat := n % 4294967296

/-- The bytes of an ASCII string literal. -/
def strBytes (s : String) : List Nat := s.toList.map (fun c => c.toNat)

/-- Bytes stored by `binary.BigEndian.PutUint32`. -/
def be32 (v : Nat) : List Nat :=
  [v / 16777216 % 256, v / 65536 % 256, v / 256 % 256, v % 256]

/-- Bytes stored by `binary.BigEndian.PutUint64`. -/
def be64 (v : Nat) : List Nat :=
  be32 (v / 4294967296) ++ be32 v

/-- Value read by `binary.BigEndian.Uint32(b)`; `none` when `b` has fewer than 4 bytes. -/
def beUint32 (b : List Nat) : Option Nat :=
  match b with
  | b0 :: b1 :: b2 :: b3 :: _ => some ((b0 <<< 24) ||| (b1 <<< 16) ||| (b2 <<< 8) ||| b3)
  | _ => none

/-- Value read by `binary.BigEndian.Uint64(b)`; `none` when `b` has fewer than 8 bytes. -/
def beUint64 (b : List Nat) : Option Nat :=
  match b with
  | b0 :: b1 :: b2 :: b3 :: b4 :: b5 :: b6 :: b7 :: _ =>
    some ((b0 <<< 56) ||| (b1 <<< 48) ||| (b2 <<< 40) ||| (b3 <<< 32) |||
          (b4 <<< 24) ||| (b5 <<< 16) ||| (b6 <<< 8) ||| b7)
  | _ => none

/-- Slice expression `b[lo:hi]` of a slice whose capacity is its length. -/
def goSlice (b : List Nat) (lo hi : Nat) : Option (List Nat) :=
  if lo ≤ hi ∧ hi ≤ b.length then some ((b.take hi).drop lo) else none

/-- Statement `n := copy(b[lo:hi], src)`: the new contents of `b`, and `n`. -/
def goCopyInto (b : List Nat) (lo hi : Nat) (src : List Nat) : Option (List Nat × Nat) :=
  if lo ≤ hi ∧ hi ≤ b.length then
    some (b.take lo ++ src.take (min (hi - lo) src.length)
            ++ b.drop (lo + min (hi - lo) src.length),
          min (hi - lo) src.length)
  else none

/-- Statement `binary.BigEndian.PutUint32(b[pos:], v)`: the new contents of `b`. -/
def putUint32At (b : List Nat) (pos v : Nat) : Option (List Nat) :=
  if pos + 4 ≤ b.length then some (b.take pos ++ be32 v ++ b.drop (pos + 4)) else none

/-! ## murmur3 (`github.com/spaolacci/murmur3`, 32-bit, seed 0) -/

namespace murmur3

/-- Rotation of a 32-bit word to the left. -/
def rotl32 (x r : Nat) : Nat := u32 ((x <<< r) ||| (x >>> (32 - r)))

/-- Scrambling of one 4-byte block. -/
def mixK (k : Nat) : Nat :=
  u32 (rotl32 (u32 (k * 0xcc9e2d51)) 15 * 0x1b873593)

/-- Folding of one scrambled block into the running hash. -/
def mixH (h k : Nat) : Nat :=
  u32 (rotl32 (h ^^^ mixK k) 13 * 5 + 0xe6546b64)

/-- Body and tail of the hash: little-endian 4-byte blocks, then up to 3 tail bytes. -/
def body (h : Nat) : List Nat → Nat
  | a :: b :: c :: d :: rest => body (mixH h (a + b * 256 + c * 65536 + d * 16777216)) rest
  | [a, b, c] => h ^^^ mixK (a + b * 256 + c * 65536)
  | [a, b] => h ^^^ mixK (a + b * 256)
  | [a] => h ^^^ mixK a
  | [] => h

/-- Final avalanche. -/
def fmix32 (h : Nat) : Nat :=
  let h1 := h ^^^ (h >>> 16)
  let h2 := u32 (h1 * 0x85ebca6b)
  let h3 := h2 ^^^ (h2 >>> 13)
  let h4 := u32 (h3 * 0xc2b2ae35)
  h4 ^^^ (h4 >>> 16)

/-- Function `murmur3.Sum32`. -/
def Sum32 (data : List Nat) : Nat := fmix32 (body 0 data ^^^ u32 data.length)

end murmur3

/-! ## Data model -/

/-- Go `error` values that occur in the store-file code. -/
inductive GoError where
  | EOF
  | ErrUnexpectedEOF
  | ErrNotFound
  | errorsNew (msg : String)
  | checksumIntervalTooSmall (checksumInterval : Nat)
  | other (code : Nat)
deriving DecidableEq, Repr

/-- The fields of `groupMemBlock` / `valueMemBlock` that a store-file touches. -/
structure groupMemBlock where
  values : List Nat
  fileID : Nat
  fileOffset : Nat
deriving DecidableEq, Repr

/-- Type `groupStoreFileWriteBuf` (also `valueStoreFileWriteBuf`, `valueFileWriteBuf`). -/
structure groupStoreFileWriteBuf where
  seq : Nat
  buf : List Nat
  offset : Nat
  memBlocks : List groupMemBlock
deriving DecidableEq, Repr

/-- The fields of `DefaultGroupStore` / `DefaultValueStore` that a store-file uses.
`freeableMemBlockChans` holds, per channel, the memblocks sent to it and not received
yet, and `freeableMemBlockChanCaps` the capacity of each channel (the `n` of
`make(chan *groupMemBlock, n)`; a channel without an entry has capacity 0). No receiver
of these channels is part of the model. `logged` collects the `logError` calls. -/
structure DefaultGroupStore where
  path : String
  checksumInterval : Nat
  workers : Nat
  fileReaders : Nat
  freeableMemBlockChans : List (List groupMemBlock)
  freeableMemBlockChanCaps : List Nat
  logged : List (String × GoError)
deriving DecidableEq, Repr

/-- Modelled from the spec: `brimutil.ChecksummedReader`, whose source is not part of
the repository. The spec says that offsets are logical (pre-checksum) offsets and that
the reader transparently skips checksums: the reader is its logical content and a
logical position. -/
structure ChecksummedReader where
  content : List Nat
  pos : Nat
deriving DecidableEq, Repr

/-- Type `groupStoreFile` (also `valueStoreFile`; `valueFile` names the same fields
`bts`, `atOffset`, `freeChan`, `buf`). `writerCurrentBuf = none` is the state in which
the writer fields are `nil` (a file opened for reading, or after `closeWriting`);
`disk` is the content of the file behind `writerFP`. -/
structure groupStoreFile where
  store : DefaultGroupStore
  name : String
  id : Nat
  nameTimestamp : Int
  readerFPs : List ChecksummedReader
  disk : List Nat
  writerOffset : Nat
  writerFreeBufChan : List groupStoreFileWriteBuf
  writerCurrentBuf : Option groupStoreFileWriteBuf
  freeableMemBlockChanIndex : Nat
deriving DecidableEq, Repr

/-! ## Creating a store-file for writing -/

/-- Modelled from the spec: the constant `_GROUP_FILE_HEADER_SIZE`, whose declaration is
not among the sources. The spec gives the header 32 bytes, the value that
`valuefile_GEN_.go` declares for `_VALUE_FILE_HEADER_SIZE`. -/
def GROUP_FILE_HEADER_SIZE : Nat := 32

/-- Decimal digits of a natural number, most significant first (`fuel` bounds the count). -/
def decDigits : Nat → Nat → List Char
  | 0, _ => []
  | fuel + 1, n =>
    if n < 10 then [Char.ofNat (48 + n)]
    else decDigits fuel (n / 10) ++ [Char.ofNat (48 + n % 10)]

/-- Text produced by `fmt.Sprintf("%019d", ts)`. -/
def sprintf019d (ts : Int) : String :=
  let ds := decDigits 20 ts.natAbs
  if ts < 0 then String.mk (['-'] ++ List.replicate (18 - ds.length) '0' ++ ds)
  else String.mk (List.replicate (19 - ds.length) '0' ++ ds)

/-- Elements of a path between its `/` separators; `cur` collects the element being
read. -/
def pathElements : List Char → List Char → List (List Char)
  | [], cur => [cur]
  | c :: cs, cur =>
    if c = '/' then cur :: pathElements cs [] else pathElements cs (cur ++ [c])

/-- One element in the loop of `path.Clean`; `out` holds the elements kept so far, the
last one first. An empty element and `.` are skipped; `..` removes the element before
it, is dropped at the root, and is kept at the front of a path that is not rooted. -/
def pathCleanStep (rooted : Bool) (out : List (List Char)) (e : List Char) :
    List (List Char) :=
  if e = [] ∨ e = ['.'] then out
  else if e = ['.', '.'] then
    match out with
    | [] => if rooted then [] else [e]
    | top :: rest => if top = ['.', '.'] then e :: out else rest
  else e :: out

/-- Function `path.Clean` of the Go standard library. -/
def pathClean (p : String) : String :=
  match p.data with
  | [] => "."
  | c :: _ =>
    let rooted := decide (c = '/')
    let out := ((pathElements p.data []).foldl (pathCleanStep rooted) []).reverse
    if rooted then String.mk ('/' :: List.intercalate ['/'] out)
    else if out = [] then "." else String.mk (List.intercalate ['/'] out)

/-- Function `path.Join(dir, file)` of the Go standard library: the elements that are
not empty are joined with `/` and the result is cleaned; two empty elements give the
empty string. -/
def pathJoin (dir file : String) : String :=
  if dir = "" then (if file = "" then "" else pathClean file)
  else pathClean (dir ++ "/" ++ file)

/-- A buffer as allocated at creation: `make([]byte, store.checksumInterval+4)`, the
sum taken in `uint32`. -/
def newWriteBuf (store : DefaultGroupStore) : groupStoreFileWriteBuf :=
  { seq := 0, buf := List.replicate (u32 (store.checksumInterval + 4)) 0,
    offset := 0, memBlocks := [] }

/-- Buffers put on `writerFreeBufChan` at creation, one per worker. -/
def newFreeBufs (store : DefaultGroupStore) : List groupStoreFileWriteBuf :=
  List.replicate store.workers (newWriteBuf store)

/-- The header literal with `checksumInterval` stored at bytes 28..32. -/
def fileHead (magic : String) (checksumInterval : Nat) : List Nat :=
  (strBytes magic).take 28 ++ be32 checksumInterval

/-- Logical content of a checksummed file: after every `checksumInterval` bytes, 4
checksum bytes are skipped (`fuel` bounds the number of pages). -/
def stripChecksums (checksumInterval : Nat) : Nat → List Nat → List Nat
  | 0, _ => []
  | fuel + 1, b =>
    if b = [] then []
    else b.take checksumInterval ++ stripChecksums checksumInterval fuel (b.drop (checksumInterval + 4))

/-- Modelled from the spec: `brimutil.NewChecksummedReader(fp, checksumInterval, murmur3.New32)`
on a file with the given bytes; the reader starts at logical position 0. -/
def NewChecksummedReader (file : List Nat) (checksumInterval : Nat) : ChecksummedReader :=
  { content := stripChecksums checksumInterval file.length file, pos := 0 }

/-- Opening of the `fileReaders` readers; stops at the first failure. -/
def openReaders (openReadSeeker : String → Except GoError (List Nat)) (name : String)
    (checksumInterval : Nat) : Nat → Except GoError (List ChecksummedReader)
  | 0 => .ok []
  | n + 1 =>
    match openReadSeeker name with
    | .error e => .error e
    | .ok file =>
      match openReaders openReadSeeker name checksumInterval n with
      | .error e => .error e
      | .ok rs => .ok (NewChecksummedReader file checksumInterval :: rs)

/-- Common body of `createGroupReadWriteFile`, `createValueReadWriteFile` and
`createValueFile`; they differ in the header literal and the file extension.
`now` is `time.Now().UnixNano()`. The source of `store.addLocBlock` is not available:
it is a parameter acting on a registry `reg` of its own. The outer `Option` is `none`
when the call does not return (no buffer on the free channel). -/
def createReadWriteFile {σ : Type} (magic ext : String) (store : DefaultGroupStore) (now : Int)
    (createWriteCloser : String → Except GoError Unit)
    (openReadSeeker : String → Except GoError (List Nat))
    (addLocBlock : σ → Except GoError Nat × σ) (reg : σ) :
    Option (Except GoError groupStoreFile × σ) :=
  let name := pathJoin store.path (sprintf019d now ++ ext)
  match createWriteCloser name with
  | .error e => some (.error e, reg)
  | .ok _ =>
    match newFreeBufs store with
    | [] => none
    | cur :: free =>
      let head := fileHead magic store.checksumInterval
      let n := min cur.buf.length head.length
      let cur1 := { cur with buf := head.take n ++ cur.buf.drop n, offset := u32 n }
      match openReaders openReadSeeker name store.checksumInterval store.fileReaders with
      | .error e => some (.error e, reg)
      | .ok readers =>
        match addLocBlock reg with
        | (.error e, reg1) => some (.error e, reg1)
        | (.ok id, reg1) =>
          some (.ok
            { store := store, name := name, id := id, nameTimestamp := now,
              readerFPs := readers, disk := [], writerOffset := cur1.offset,
              writerFreeBufChan := free, writerCurrentBuf := some cur1,
              freeableMemBlockChanIndex := 0 }, reg1)

/-- Function `createGroupReadWriteFile`. -/
def createGroupReadWriteFile {σ : Type} :=
  @createReadWriteFile σ "GROUPSTORE v0                   " ".group"

/-- Function `createValueReadWriteFile` of `valuestorefile_GEN_.go`. -/
def createValueReadWriteFile {σ : Type} :=
  @createReadWriteFile σ "VALUESTORE v0                   " ".value"

/-- Function `createValueFile` of `valuefile_GEN_.go`. -/
def createValueFile {σ : Type} :=
  @createReadWriteFile σ "VALUESTORE v0                   " ".value"

/-! ## The writer pipeline -/

namespace groupStoreFile

/-- Send of a memblock on `store.freeableMemBlockChans[freeableMemBlockChanIndex]`
followed by the round-robin step of the index. The send returns when the channel holds
fewer memblocks than its capacity; on a full channel it waits for a receiver, and as
the model has none the result is then `none`, as it is for an index out of range. -/
def freeMemBlock (fl : groupStoreFile) (memBlock : groupMemBlock) : Option groupStoreFile :=
  if fl.freeableMemBlockChanIndex < fl.store.freeableMemBlockChans.length then
    if (fl.store.freeableMemBlockChans.getD fl.freeableMemBlockChanIndex []).length
        < fl.store.freeableMemBlockChanCaps.getD fl.freeableMemBlockChanIndex 0 then
      let chans := fl.store.freeableMemBlockChans.modify (fun c => c ++ [memBlock])
        fl.freeableMemBlockChanIndex
      let idx := fl.freeableMemBlockChanIndex + 1
      some { fl with
        store := { fl.store with freeableMemBlockChans := chans },
        freeableMemBlockChanIndex :=
          if idx ≥ fl.store.freeableMemBlockChans.length then 0 else idx }
    else none
  else none

/-- Release of a list of memblocks, in order. -/
def freeMemBlocks (fl : groupStoreFile) : List groupMemBlock → Option groupStoreFile
  | [] => some fl
  | m :: ms => (fl.freeMemBlock m).bind (fun fl1 => freeMemBlocks fl1 ms)

/-- One pass of `writingChecksummer` on a buffer: the checksum of the first
`checksumInterval` bytes is stored behind them. -/
def writingChecksummer (checksumInterval : Nat) (b : groupStoreFileWriteBuf) :
    Option groupStoreFileWriteBuf := do
  let page ← goSlice b.buf 0 checksumInterval
  let buf ← putUint32At b.buf checksumInterval (murmur3.Sum32 page)
  pure { b with buf := buf }

/-- One pass of `writer` on the buffer whose `seq` is the expected one: the whole
buffer is written, its memblocks are released, and it goes back to the free channel. -/
def writer (fl : groupStoreFile) (b : groupStoreFileWriteBuf) : Option groupStoreFile := do
  let fl1 : groupStoreFile := { fl with disk := fl.disk ++ b.buf }
  let fl2 ← fl1.freeMemBlocks b.memBlocks
  pure { fl2 with
    writerFreeBufChan := fl2.writerFreeBufChan ++ [{ b with memBlocks := [], offset := 0 }] }

/-- The branch of `write` taken when the current buffer is full: the buffer goes
through the checksummer and the writer, and the next free buffer becomes current
with the following `seq`. -/
def rotate (fl : groupStoreFile) : Option groupStoreFile := do
  let cur ← fl.writerCurrentBuf
  let s := cur.seq
  let summed ← writingChecksummer fl.store.checksumInterval cur
  let fl1 ← writer fl summed
  match fl1.writerFreeBufChan with
  | [] => none
  | next :: free =>
    pure { fl1 with writerFreeBufChan := free, writerCurrentBuf := some { next with seq := s + 1 } }

/-- The `for left > 0` loop of `write`. -/
def writeLoop (values : List Nat) : Nat → groupStoreFile → Nat → Option groupStoreFile
  | 0, fl, left => if left > 0 then none else some fl
  | fuel + 1, fl, left =>
    if left > 0 then do
      let cur ← fl.writerCurrentBuf
      let (buf, n) ← goCopyInto cur.buf cur.offset fl.store.checksumInterval
        (values.drop (values.length - left))
      let fl1 : groupStoreFile := { fl with
        writerOffset := u32 (fl.writerOffset + n),
        writerCurrentBuf := some { cur with buf := buf, offset := u32 (cur.offset + n) } }
      let fl2 ← if u32 (cur.offset + n) ≥ fl.store.checksumInterval then fl1.rotate else some fl1
      writeLoop values fuel fl2 (left - n)
    else some fl

/-- Method `write` for a non-nil memblock: the file afterwards and the memblock as
updated through the pointer. -/
def write (fl : groupStoreFile) (memBlock : groupMemBlock) :
    Option (groupStoreFile × groupMemBlock) :=
  let mb : groupMemBlock := { memBlock with fileID := fl.id, fileOffset := fl.writerOffset }
  if mb.values.length < 1 then
    (fl.freeMemBlock mb).map (fun fl1 => (fl1, mb))
  else do
    let fl1 ← writeLoop mb.values (mb.values.length + 1) fl mb.values.length
    let cur ← fl1.writerCurrentBuf
    if cur.offset = 0 then
      (fl1.freeMemBlock mb).map (fun fl2 => (fl2, mb))
    else
      pure ({ fl1 with writerCurrentBuf := some { cur with memBlocks := cur.memBlocks ++ [mb] } }, mb)

/-- Successive calls of `write`; the updated memblocks are returned in order. -/
def writeAll (fl : groupStoreFile) : List groupMemBlock →
    Option (groupStoreFile × List groupMemBlock)
  | [] => some (fl, [])
  | m :: ms => do
    let (fl1, m1) ← fl.write m
    let (fl2, ms1) ← writeAll fl1 ms
    pure (fl2, m1 :: ms1)

/-- The trailer loop of `groupStoreFile.closeWriting` (and `valueStoreFile.closeWriting`). -/
def closeWritingLoop (term : List Nat) : Nat → groupStoreFile → Nat → Option groupStoreFile
  | 0, fl, left => if left > 0 then none else some fl
  | fuel + 1, fl, left =>
    if left > 0 then do
      let cur ← fl.writerCurrentBuf
      let (buf, n) ← goCopyInto cur.buf cur.offset fl.store.checksumInterval
        (term.drop (term.length - left))
      let left1 := left - n
      let off := u32 (cur.offset + n)
      let (buf1, off1) ←
        if left1 > 0 then do
          let page ← goSlice buf 0 off
          let buf1 ← putUint32At buf off (murmur3.Sum32 page)
          pure (buf1, u32 (off + 4))
        else pure (buf, off)
      let out ← goSlice buf1 0 off1
      closeWritingLoop term fuel
        { fl with disk := fl.disk ++ out,
                  writerCurrentBuf := some { cur with buf := buf1, offset := 0 } }
        left1
    else some fl

/-- Method `closeWriting` of `groupStoreFile`. -/
def closeWriting (fl : groupStoreFile) : Option groupStoreFile :=
  match fl.writerCurrentBuf with
  | none => some fl
  | some _ => do
    let term := strBytes "TERM v0 "
    let fl1 ← closeWritingLoop term (term.length + 1) fl term.length
    let cur ← fl1.writerCurrentBuf
    let fl2 ← fl1.freeMemBlocks cur.memBlocks
    pure { fl2 with writerFreeBufChan := [], writerCurrentBuf := none }

end groupStoreFile

/-- Method `closeWriting` of `valueStoreFile`, the same text as that of `groupStoreFile`. -/
def valueStoreFile.closeWriting (fl : groupStoreFile) : Option groupStoreFile :=
  groupStoreFile.closeWriting fl

namespace valueFile

/-- The trailer built by `valueFile.closeWriting`: four zero bytes, `atOffset` as a
big-endian `uint64`, and `TERM`. -/
def term (atOffset : Nat) : List Nat :=
  [0, 0, 0, 0] ++ be64 atOffset ++ strBytes "TERM"

/-- The trailer loop of `valueFile.closeWriting`. -/
def closeWritingLoop (term : List Nat) : Nat → groupStoreFile → Nat → Option groupStoreFile
  | 0, fl, left => if left > 0 then none else some fl
  | fuel + 1, fl, left =>
    if left > 0 then do
      let cur ← fl.writerCurrentBuf
      let (buf, n) ← goCopyInto cur.buf cur.offset fl.store.checksumInterval
        (term.drop (term.length - left))
      let off := u32 (cur.offset + n)
      let page ← goSlice buf 0 off
      let buf1 ← putUint32At buf off (murmur3.Sum32 page)
      let out ← goSlice buf1 0 (u32 (off + 4))
      closeWritingLoop term fuel
        { fl with disk := fl.disk ++ out,
                  writerCurrentBuf := some { cur with buf := buf1, offset := 0 } }
        (left - n)
    else some fl

/-- Method `closeWriting` of `valueFile`. -/
def closeWriting (fl : groupStoreFile) : Option groupStoreFile :=
  match fl.writerCurrentBuf with
  | none => some fl
  | some _ => do
    let t := term fl.writerOffset
    let fl1 ← closeWritingLoop t (t.length + 1) fl t.length
    let cur ← fl1.writerCurrentBuf
    let fl2 ← fl1.freeMemBlocks cur.memBlocks
    pure { fl2 with writerFreeBufChan := [], writerCurrentBuf := none }

end valueFile

/-! ## Opening a store-file for reading -/

/-- Result of `io.ReadFull(fpr, buf)` for a `buf` of `n` bytes on a reader that
delivers `content` from position 0 and then reports the end of the file. -/
def ioReadFull (content : List Nat) (n : Nat) : Except GoError (List Nat) :=
  if n ≤ content.length then .ok (content.take n)
  else if content.length = 0 then .error .EOF
  else .error .ErrUnexpectedEOF

/-- Common body of `readGroupHeader` and `readValueHeader`, which differ in the
28-byte literal: the checksum interval stored in the header and the errors found. -/
def readHeader (magic : String) (path : String)
    (openReadSeeker : String → Except GoError (List Nat)) : Nat × List GoError :=
  match openReadSeeker path with
  | .error e => (0, [e])
  | .ok file =>
    match ioReadFull file GROUP_FILE_HEADER_SIZE with
    | .error e => (0, [e])
    | .ok buf =>
      if buf.take 28 ≠ strBytes magic then
        (0, [.errorsNew "unknown file type in header"])
      else
        match beUint32 (buf.drop 28) with
        | none => (0, [])
        | some checksumInterval =>
          if checksumInterval < GROUP_FILE_HEADER_SIZE then
            (0, [.checksumIntervalTooSmall checksumInterval])
          else (checksumInterval, [])

/-- Function `readGroupHeader`. -/
def readGroupHeader := readHeader "GROUPSTORE v0               "

/-- Function `readValueHeader` of `valuestorefile_GEN_.go`. -/
def readValueHeader := readHeader "VALUESTORE v0               "

/-- Common body of `newGroupReadFile` and `newValueReadFile`: the result, the store
afterwards (with the `logError` calls) and the registry of `addLocBlock` afterwards. -/
def newReadFile {σ : Type} (magic ext : String) (store : DefaultGroupStore) (nameTimestamp : Int)
    (openReadSeeker : String → Except GoError (List Nat))
    (addLocBlock : σ → Except GoError Nat × σ) (reg : σ) :
    Except GoError groupStoreFile × DefaultGroupStore × σ :=
  let name := pathJoin store.path (sprintf019d nameTimestamp ++ ext)
  let (checksumInterval, errs) := readHeader magic name openReadSeeker
  let store1 := { store with logged := store.logged ++ errs.map (fun e => (name, e)) }
  if checksumInterval = 0 then
    (.error (.errorsNew "header check failed"), store1, reg)
  else
    match openReaders openReadSeeker name checksumInterval store.fileReaders with
    | .error e => (.error e, store1, reg)
    | .ok readers =>
      match addLocBlock reg with
      | (.error e, reg1) => (.error e, store1, reg1)
      | (.ok id, reg1) =>
        (.ok { store := store1, name := name, id := id, nameTimestamp := nameTimestamp,
               readerFPs := readers, disk := [], writerOffset := 0,
               writerFreeBufChan := [], writerCurrentBuf := none,
               freeableMemBlockChanIndex := 0 },
         store1, reg1)

/-- Function `newGroupReadFile`. -/
def newGroupReadFile {σ : Type} :=
  @newReadFile σ "GROUPSTORE v0               " ".group"

/-- Function `newValueReadFile` of `valuestorefile_GEN_.go`. -/
def newValueReadFile {σ : Type} :=
  @newReadFile σ "VALUESTORE v0               " ".value"

/-! ## Reading a value -/

/-- A Go `[]byte` argument: `nil`, or the bytes within its length (`data`) followed by
the bytes of its backing array between length and capacity (`spare`). -/
inductive ByteSlice where
  | nil
  | mk (data spare : List Nat)
deriving DecidableEq, Repr

namespace ByteSlice

/-- The bytes of the slice, `string(v)` in the tests. -/
def bytes : ByteSlice → List Nat
  | nil => []
  | mk data _ => data

/-- The bytes of the backing array behind the slice. -/
def room : ByteSlice → List Nat
  | nil => []
  | mk _ spare => spare

/-- Built-in `len`. -/
def len (v : ByteSlice) : Nat := v.bytes.length

/-- Built-in `cap`. -/
def cap (v : ByteSlice) : Nat := v.bytes.length + v.room.length

/-- The slice that `read` fills: `value[:end]` when `end <= cap(value)`, and otherwise
a new slice of `end` zero bytes onto which `value` is copied; `end = len(value)+length`. -/
def extend (v : ByteSlice) (length : Nat) : ByteSlice :=
  if v.len + length ≤ v.cap then
    match v with
    | nil => nil
    | mk data spare => mk (data ++ spare.take length) (spare.drop length)
  else mk (v.bytes ++ List.replicate length 0) []

/-- Storing `got` at the front of the last `length` bytes of the slice, the target
`value[len(value)-int(length):]` of `io.ReadFull`. -/
def fillTail (v : ByteSlice) (length : Nat) (got : List Nat) : ByteSlice :=
  match v with
  | nil => nil
  | mk data spare =>
    mk (data.take (data.length - length) ++ got ++
          (data.drop (data.length - length)).drop got.length) spare

end ByteSlice

namespace ChecksummedReader

/-- Call `Seek(int64(offset), 0)`. -/
def Seek (r : ChecksummedReader) (offset : Nat) : ChecksummedReader :=
  { r with pos := offset }

/-- Call `io.ReadFull(r, dst)` for a `dst` of `n` bytes: the bytes stored at the front
of `dst`, the error, and the reader afterwards. -/
def ReadFull (r : ChecksummedReader) (n : Nat) : List Nat × Option GoError × ChecksummedReader :=
  let got := (r.content.drop r.pos).take n
  (got,
   if got.length = n then none
   else if got.length = 0 then some GoError.EOF else some GoError.ErrUnexpectedEOF,
   { r with pos := r.pos + got.length })

end ChecksummedReader

/-- Method `read` of `groupStoreFile`, `valueStoreFile` and `valueFile` (the last two
without the name keys, which the body does not use). `tsbDeletion` is the constant
`_TSB_DELETION`, declared outside the available sources. The result is the file
afterwards (its readers move) and the three returned values; `none` is the panic of
the modulo when the file has no reader. -/
def groupStoreFile.read (tsbDeletion : Nat) (fl : groupStoreFile)
    (keyA keyB nameKeyA nameKeyB timestampbits offset length : Nat) (value : ByteSlice) :
    Option (groupStoreFile × Nat × ByteSlice × Option GoError) :=
  if timestampbits &&& tsbDeletion ≠ 0 then
    some (fl, timestampbits, value, some GoError.ErrNotFound)
  else if fl.readerFPs.length = 0 then none
  else
    let i := (keyA >>> 1) % fl.readerFPs.length
    match fl.readerFPs.get? i with
    | none => none
    | some r =>
      let value1 := value.extend length
      let (got, err, r1) := (r.Seek offset).ReadFull length
      some ({ fl with readerFPs := fl.readerFPs.set i r1 }, timestampbits,
            value1.fillTail length got, err)

/-! ## Specification-level descriptions of a file -/

/-- The first `n` chunks of `checksumInterval` bytes of a stream, each followed by the
4-byte big-endian murmur3-32 of the chunk. -/
def framePages (checksumInterval : Nat) : Nat → List Nat → List Nat
  | 0, _ => []
  | n + 1, s =>
    s.take checksumInterval ++ be32 (murmur3.Sum32 (s.take checksumInterval))
      ++ framePages checksumInterval n (s.drop checksumInterval)

/-- Number of chunks of `checksumInterval` bytes in a stream of `len` bytes, the last
chunk possibly shorter but not empty. -/
def pageCount (checksumInterval len : Nat) : Nat :=
  (len + checksumInterval - 1) / checksumInterval

/-- The framing of the spec: the stream is cut into consecutive chunks of
`checksumInterval` bytes and each chunk is followed by its checksum. -/
def frame (checksumInterval : Nat) (s : List Nat) : List Nat :=
  framePages checksumInterval (pageCount checksumInterval s.length) s

/-- The framing in which the last chunk is not followed by a checksum. -/
def frameOpen (checksumInterval : Nat) (s : List Nat) : List Nat :=
  framePages checksumInterval (pageCount checksumInterval s.length - 1) s
    ++ s.drop ((pageCount checksumInterval s.length - 1) * checksumInterval)

/-- The logical byte stream handed to the pipeline so far: the pages on disk without
their checksums, followed by the filled part of the current buffer. -/
def groupStoreFile.logicalStream (fl : groupStoreFile) : List Nat :=
  stripChecksums fl.store.checksumInterval fl.disk.length fl.disk ++
    match fl.writerCurrentBuf with
    | none => []
    | some cur => cur.buf.take cur.offset

/-- The concatenated values of a list of memblocks. -/
def allValues (ms : List groupMemBlock) : List Nat :=
  (ms.map (fun m => m.values)).flatten

/-! ## Invariants of the writer -/

/-- The current buffer holds `Q` in its filled part. -/
structure CurBuf (fl : groupStoreFile) (Q : List Nat) : Prop where
  ci_pos : 0 < fl.store.checksumInterval
  ci_u32 : fl.store.checksumInterval + 4 < 4294967296
  cur : ∃ c, fl.writerCurrentBuf = some c ∧ c.buf.length = fl.store.checksumInterval + 4 ∧
    c.offset = Q.length ∧ c.buf.take Q.length = Q
  fill : Q.length ≤ fl.store.checksumInterval

/-- The state of a file being written whose logical stream so far is `P ++ Q`: the full
pages `P` are framed on disk and `Q` is the filled part of the current buffer. -/
structure Writing (fl : groupStoreFile) (P Q : List Nat) : Prop where
  curBuf : CurBuf fl Q
  chans : fl.freeableMemBlockChanIndex < fl.store.freeableMemBlockChans.length
  free : ∀ b ∈ fl.writerFreeBufChan,
    b.buf.length = fl.store.checksumInterval + 4 ∧ b.offset = 0
  pages : ∃ k, P.length = k * fl.store.checksumInterval ∧
    fl.disk = framePages fl.store.checksumInterval k P
  woff : fl.writerOffset = u32 (P.length + Q.length)

/-- Whether `k` sends of memblocks in a row each find their channel below its capacity:
the first send goes to channel `idx` and each next one to the channel after it, back
to channel 0 after the last, as `freeableMemBlockChanIndex` steps. `held` is the number
of memblocks that each channel holds and `caps` the capacity of each. -/
def sendsFit (caps : List Nat) : Nat → List Nat → Nat → Bool
  | 0, _, _ => true
  | k + 1, held, idx =>
    decide (idx < held.length) && decide (held.getD idx 0 < caps.getD idx 0) &&
      sendsFit caps k (held.modify (fun n => n + 1) idx)
        (if idx + 1 ≥ held.length then 0 else idx + 1)

/-- The next `k` releases of memblocks by a store-file find room in their channels. -/
def groupStoreFile.hasRoom (fl : groupStoreFile) (k : Nat) : Prop :=
  sendsFit fl.store.freeableMemBlockChanCaps k
    (fl.store.freeableMemBlockChans.map List.length) fl.freeableMemBlockChanIndex = true

instance groupStoreFile.decidableHasRoom (fl : groupStoreFile) (k : Nat) :
    Decidable (fl.hasRoom k) :=
  inferInstanceAs (Decidable (sendsFit fl.store.freeableMemBlockChanCaps k
    (fl.store.freeableMemBlockChans.map List.length) fl.freeableMemBlockChanIndex = true))

/-- The `k` releases of memblocks by a store-file created on the store, whose
`freeableMemBlockChanIndex` starts at 0, find room in their channels. -/
def DefaultGroupStore.hasRoom (store : DefaultGroupStore) (k : Nat) : Prop :=
  sendsFit store.freeableMemBlockChanCaps k
    (store.freeableMemBlockChans.map List.length) 0 = true

instance DefaultGroupStore.decidableHasRoom (store : DefaultGroupStore) (k : Nat) :
    Decidable (store.hasRoom k) :=
  inferInstanceAs (Decidable (sendsFit store.freeableMemBlockChanCaps k
    (store.freeableMemBlockChans.map List.length) 0 = true))

/-- The channels have room for the release of the memblocks attached to the current
buffer and of `k` more, and the buffers on the free channel carry no memblocks. -/
structure Roomy (fl : groupStoreFile) (k : Nat) : Prop where
  cur : ∀ c, fl.writerCurrentBuf = some c → fl.hasRoom (c.memBlocks.length + k)
  free : ∀ b ∈ fl.writerFreeBufChan, b.memBlocks = []

/-- The fields of the writer that releasing memblocks leaves alone. -/
structure Kept (fl fl1 : groupStoreFile) : Prop where
  disk : fl1.disk = fl.disk
  cur : fl1.writerCurrentBuf = fl.writerCurrentBuf
  free : fl1.writerFreeBufChan = fl.writerFreeBufChan
  woff : fl1.writerOffset = fl.writerOffset
  id : fl1.id = fl.id
  ci : fl1.store.checksumInterval = fl.store.checksumInterval
  chans : fl1.freeableMemBlockChanIndex < fl1.store.freeableMemBlockChans.length

/-- The memblocks as a run of `write` calls leaves them when the first one starts at
logical offset `off`: each carries the file id and, in `uint32`, its starting offset. -/
def stamped (id : Nat) : Nat → List groupMemBlock → List groupMemBlock
  | _, [] => []
  | off, m :: ms =>
    { m with fileID := id, fileOffset := u32 off } :: stamped id (off + m.values.length) ms

/-! ## Fixtures in the manner of the repository's tests -/

/-- A store in the default path `.` with one worker, one reader per file and one
channel for freeable memblocks, made for 4 memblocks. -/
def testStore (checksumInterval : Nat) : DefaultGroupStore :=
  { path := ".", checksumInterval := checksumInterval, workers := 1, fileReaders := 1,
    freeableMemBlockChans := [[]], freeableMemBlockChanCaps := [4], logged := [] }

/-- A `createWriteCloser` that succeeds, like the one over `memFile` in the tests. -/
def okWriteCloser : String → Except GoError Unit := fun _ => .ok ()

/-- An `openReadSeeker` that opens a file with the given bytes, whatever the name. -/
def openBytes (file : List Nat) : String → Except GoError (List Nat) := fun _ => .ok file

/-- An `addLocBlock` that hands out the id 1 and keeps no registry. -/
def okAddLocBlock : Unit → Except GoError Nat × Unit := fun _ => (.ok 1, ())

/-- The file of `TestGroupValuesFileReading`: a header with checksum interval 65532
followed by `0123456789abcdef`, opened with one reader. -/
def testReadFile : groupStoreFile :=
  { store := testStore 65532, name := "0000000000000012345.group", id := 1,
    nameTimestamp := 12345,
    readerFPs := [NewChecksummedReader
      (strBytes "GROUPSTORE v0               " ++ [0, 0, 255, 252]
        ++ strBytes "0123456789abcdef") 65532],
    disk := [], writerOffset := 0, writerFreeBufChan := [], writerCurrentBuf := none,
    freeableMemBlockChanIndex := 0 }

/-! ## Bulk-set-ack messages (`groupbulksetack_GEN_.go`) -/

/-- Constant `_GROUP_BULK_SET_ACK_MSG_ENTRY_LENGTH`. -/
def GROUP_BULK_SET_ACK_MSG_ENTRY_LENGTH : Nat := 40

/-- Slice expression `v[:n]` of a slice with spare capacity: the bytes up to `n` of the
backing array. `none` is the panic for `n > cap(v)`. -/
def ByteSlice.reslice (v : ByteSlice) (n : Nat) : Option ByteSlice :=
  if n ≤ v.cap then
    match v with
    | .nil => some .nil
    | .mk data spare => some (.mk ((data ++ spare).take n) ((data ++ spare).drop n))
  else none

/-- Statement `binary.BigEndian.PutUint64(v[pos:], x)`: the slice afterwards. `none` is
the panic when fewer than 8 bytes lie between `pos` and `len(v)`. -/
def ByteSlice.putUint64At (v : ByteSlice) (pos x : Nat) : Option ByteSlice :=
  if pos + 8 ≤ v.len then
    match v with
    | .nil => none
    | .mk data spare => some (.mk (data.take pos ++ be64 x ++ data.drop (pos + 8)) spare)
  else none

/-- Type `groupBulkSetAckMsg`; the back pointer `vs` is passed explicitly where a
method uses it. -/
structure groupBulkSetAckMsg where
  body : ByteSlice
deriving DecidableEq, Repr

/-- One entry of a bulk-set-ack message: the five `uint64` arguments of `add`. -/
structure AckEntry where
  keyA : Nat
  keyB : Nat
  nameKeyA : Nat
  nameKeyB : Nat
  timestampbits : Nat
deriving DecidableEq, Repr

/-- The 40 bytes of an entry: the five numbers, 8 bytes each, most significant byte
first. -/
def AckEntry.encode (e : AckEntry) : List Nat :=
  be64 e.keyA ++ be64 e.keyB ++ be64 e.nameKeyA ++ be64 e.nameKeyB ++ be64 e.timestampbits

/-- Type `groupBulkSetAckState`: each channel is the queue of what it holds, oldest
first; a `nil` message on `inMsgChan` is `none`. The pools are created with as many
messages as the channels have room for, so a send does not wait. -/
structure groupBulkSetAckState where
  inMsgChan : List (Option groupBulkSetAckMsg)
  inFreeMsgChan : List groupBulkSetAckMsg
  outFreeMsgChan : List groupBulkSetAckMsg
deriving DecidableEq, Repr

/-- The fields of `DefaultGroupStore` that the bulk-set-ack code uses: the message
channels, the `int32` counters, and in `locmap` the state that the store's `write`
works on. -/
structure groupBulkSetAckStore (σ : Type) where
  bulkSetAckState : groupBulkSetAckState
  inBulkSetAcks : Int
  inBulkSetAckDrops : Int
  inBulkSetAckInvalids : Int
  inBulkSetAckWrites : Int
  inBulkSetAckWriteErrors : Int
  inBulkSetAckWritesOverridden : Int
  locmap : σ

/-- Conversion of an integer to `int32`: the value in `[-2^31, 2^31)` with the same
low 32 bits. -/
def i32 (x : Int) : Int := (x + 2147483648) % 4294967296 - 2147483648

/-- Call `atomic.AddInt32(&x, d)`: the new value of `x`. -/
def atomicAddInt32 (x d : Int) : Int := i32 (x + d)

/-- Method `newOutBulkSetAckMsg`: the message taken from `outFreeMsgChan`, emptied; on
an empty channel the receive waits (`none`). -/
def groupBulkSetAckStore.newOutBulkSetAckMsg {σ : Type} (vs : groupBulkSetAckStore σ) :
    Option (groupBulkSetAckMsg × groupBulkSetAckStore σ) :=
  match vs.bulkSetAckState.outFreeMsgChan with
  | [] => none
  | bsam :: free =>
    match bsam.body.reslice 0 with
    | none => none
    | some body =>
      some ({ body := body },
            { vs with bulkSetAckState := { vs.bulkSetAckState with outFreeMsgChan := free } })

/-- Method `MsgLength`: `uint64(len(bsam.body))`. -/
def groupBulkSetAckMsg.MsgLength (bsam : groupBulkSetAckMsg) : Nat := bsam.body.len

/-- Method `WriteContent`; `Write` is the method of the `io.Writer` and `w` its state.
The result is the writer afterwards, `uint64(n)` and the error. -/
def groupBulkSetAckMsg.WriteContent {ω : Type} (bsam : groupBulkSetAckMsg)
    (Write : ω → List Nat → ω × Nat × Option GoError) (w : ω) : ω × Nat × Option GoError :=
  Write w bsam.body.bytes

/-- Method `Free`: the message goes back on `outFreeMsgChan`. -/
def groupBulkSetAckMsg.Free {σ : Type} (bsam : groupBulkSetAckMsg)
    (vs : groupBulkSetAckStore σ) : groupBulkSetAckStore σ :=
  { vs with bulkSetAckState :=
      { vs.bulkSetAckState with
        outFreeMsgChan := vs.bulkSetAckState.outFreeMsgChan ++ [bsam] } }

/-- Method `add`: the message afterwards and the returned value; `none` would be a
panic of the slice expression or of `PutUint64`. -/
def groupBulkSetAckMsg.add (bsam : groupBulkSetAckMsg)
    (keyA keyB nameKeyA nameKeyB timestampbits : Nat) : Option (groupBulkSetAckMsg × Bool) :=
  let o := bsam.body.len
  if o + GROUP_BULK_SET_ACK_MSG_ENTRY_LENGTH ≥ bsam.body.cap then some (bsam, false)
  else do
    let b0 ← bsam.body.reslice (o + GROUP_BULK_SET_ACK_MSG_ENTRY_LENGTH)
    let b1 ← b0.putUint64At o keyA
    let b2 ← b1.putUint64At (o + 8) keyB
    let b3 ← b2.putUint64At (o + 16) nameKeyA
    let b4 ← b3.putUint64At (o + 24) nameKeyB
    let b5 ← b4.putUint64At (o + 32) timestampbits
    some ({ body := b5 }, true)

/-- The calls `bsam.add(...)` for a list of entries, one after the other: the message
afterwards and the values returned. -/
def groupBulkSetAckMsg.addAll (bsam : groupBulkSetAckMsg) :
    List AckEntry → Option (groupBulkSetAckMsg × List Bool)
  | [] => some (bsam, [])
  | e :: es =>
    match bsam.add e.keyA e.keyB e.nameKeyA e.nameKeyB e.timestampbits with
    | none => none
    | some (b1, ok) =>
      match addAll b1 es with
      | none => none
      | some (b2, oks) => some (b2, ok :: oks)

/-- Method `Write` of a `bytes.Buffer`: the bytes are appended, all of them. -/
def bytesBufferWrite (buf p : List Nat) : List Nat × Nat × Option GoError :=
  (buf ++ p, p.length, none)

/-- An outgoing message as `bulkSetAckConfig` makes it, `make([]byte, cap)`. -/
def newAckMsg (cap : Nat) : groupBulkSetAckMsg :=
  { body := ByteSlice.mk (List.replicate cap 0) [] }

/-- A store with one message of the given capacity in each free pool. -/
def testAckStore (cap : Nat) : groupBulkSetAckStore Unit :=
  { bulkSetAckState :=
      { inMsgChan := [], inFreeMsgChan := [newAckMsg cap], outFreeMsgChan := [newAckMsg cap] },
    inBulkSetAcks := 0, inBulkSetAckDrops := 0, inBulkSetAckInvalids := 0,
    inBulkSetAckWrites := 0, inBulkSetAckWriteErrors := 0, inBulkSetAckWritesOverridden := 0,
    locmap := () }


/-! ## Incoming bulk-set-ack messages -/

/-- Conversion of a non-negative integer to `uint64`. -/
def u64 (n : Nat) : Nat := n % 18446744073709551616

/-- Modelled from the spec: the interface `ring.Ring` of the MsgRing, whose source is
not part of the repository. The spec names `PartitionBitCount()` and
`Responsible(partition) → bool`, and says that partitioning uses the top `P` bits of
`keyA`; `PartitionBitCount` is a `uint16`, `Responsible` takes a `uint32`. -/
structure Ring where
  PartitionBitCount : Nat
  Responsible : Nat → Bool

/-- The `rightwardPartitionShift` of `inBulkSetAck`: zero without a ring, and otherwise
`64 - uint64(ring.PartitionBitCount())`, computed in `uint64`. -/
def rightwardPartitionShift (ring : Option Ring) : Nat :=
  match ring with
  | none => 0
  | some r => u64 (64 + 18446744073709551616 - r.PartitionBitCount)

/-- The test `ring != nil && !ring.Responsible(uint32(keyA>>rightwardPartitionShift))`
of `inBulkSetAck`. -/
def notResponsible (ring : Option Ring) (keyA : Nat) : Bool :=
  match ring with
  | none => false
  | some r => !r.Responsible (u32 (keyA >>> rightwardPartitionShift ring))

/-- The loop `for o := 0; o < l; o += _GROUP_BULK_SET_ACK_MSG_ENTRY_LENGTH` of
`inBulkSetAck`, from offset `o` on, over the body `b`. `tsbLocalRemoval` is the constant
`_TSB_LOCAL_REMOVAL` and `write` the method `vs.write`, both declared outside the
available sources; `write` works on `vs.locmap` and returns it with `rtimestampbits` and
`err`. `none` is a panic of a slice expression or of `Uint64`, or the end of the fuel. -/
def groupBulkSetAckStore.inBulkSetAckEntries {σ : Type} (tsbLocalRemoval : Nat)
    (write : σ → Nat → Nat → Nat → Nat → Nat → ByteSlice → Bool → σ × Nat × Option GoError)
    (ring : Option Ring) (b : List Nat) (l : Nat) :
    Nat → Nat → groupBulkSetAckStore σ → Option (groupBulkSetAckStore σ)
  | 0, o, vs => if o < l then none else some vs
  | fuel + 1, o, vs =>
    if o < l then do
      let keyA ← (goSlice b o b.length).bind beUint64
      if notResponsible ring keyA then do
        let vs1 := { vs with inBulkSetAckWrites := atomicAddInt32 vs.inBulkSetAckWrites 1 }
        let tsb ← (goSlice b (o + 32) b.length).bind beUint64
        let timestampbits := tsb ||| tsbLocalRemoval
        let keyB ← (goSlice b (o + 8) b.length).bind beUint64
        let nameKeyA ← (goSlice b (o + 16) b.length).bind beUint64
        let nameKeyB ← (goSlice b (o + 24) b.length).bind beUint64
        let r := write vs1.locmap keyA keyB nameKeyA nameKeyB timestampbits ByteSlice.nil true
        let vs2 := { vs1 with locmap := r.1 }
        let vs3 :=
          if r.2.2 ≠ none then
            { vs2 with
              inBulkSetAckWriteErrors := atomicAddInt32 vs2.inBulkSetAckWriteErrors 1 }
          else if r.2.1 ≠ timestampbits then
            { vs2 with
              inBulkSetAckWritesOverridden :=
                atomicAddInt32 vs2.inBulkSetAckWritesOverridden 1 }
          else vs2
        inBulkSetAckEntries tsbLocalRemoval write ring b l fuel
          (o + GROUP_BULK_SET_ACK_MSG_ENTRY_LENGTH) vs3
      else
        inBulkSetAckEntries tsbLocalRemoval write ring b l fuel
          (o + GROUP_BULK_SET_ACK_MSG_ENTRY_LENGTH) vs
    else some vs

/-- Method `inBulkSetAck`, run until it waits for a message that is not there yet
(result `false`) or has received `nil` and sent on `doneChan` (result `true`). `ring`
is what `vs.msgRing.Ring()` returns. `none` is a panic, or the end of the fuel. -/
def groupBulkSetAckStore.inBulkSetAck {σ : Type} (tsbLocalRemoval : Nat)
    (write : σ → Nat → Nat → Nat → Nat → Nat → ByteSlice → Bool → σ × Nat × Option GoError)
    (ring : Option Ring) :
    Nat → groupBulkSetAckStore σ → Option (groupBulkSetAckStore σ × Bool)
  | 0, _ => none
  | fuel + 1, vs =>
    match vs.bulkSetAckState.inMsgChan with
    | [] => some (vs, false)
    | none :: rest =>
      some ({ vs with bulkSetAckState := { vs.bulkSetAckState with inMsgChan := rest } }, true)
    | some bsam :: rest =>
      let vs0 := { vs with bulkSetAckState := { vs.bulkSetAckState with inMsgChan := rest } }
      let b := bsam.body.bytes
      let l := b.length / GROUP_BULK_SET_ACK_MSG_ENTRY_LENGTH
                * GROUP_BULK_SET_ACK_MSG_ENTRY_LENGTH
      match vs0.inBulkSetAckEntries tsbLocalRemoval write ring b l (b.length + 1) 0 with
      | none => none
      | some vs1 =>
        inBulkSetAck tsbLocalRemoval write ring fuel
          { vs1 with bulkSetAckState :=
              { vs1.bulkSetAckState with
                inFreeMsgChan := vs1.bulkSetAckState.inFreeMsgChan ++ [bsam] } }

/-- The entry that five calls of `binary.BigEndian.Uint64` read from a chunk of 40
bytes. -/
def decodeAckEntry (chunk : List Nat) : Option AckEntry := do
  let keyA ← beUint64 chunk
  let keyB ← beUint64 (chunk.drop 8)
  let nameKeyA ← beUint64 (chunk.drop 16)
  let nameKeyB ← beUint64 (chunk.drop 24)
  let timestampbits ← beUint64 (chunk.drop 32)
  some ⟨keyA, keyB, nameKeyA, nameKeyB, timestampbits⟩

/-- The whole entries of a body: for each `i` below `len(b)/40` the entry in the bytes
`[40*i, 40*i+40)`. -/
def ackEntries (b : List Nat) : List AckEntry :=
  (List.range (b.length / 40)).filterMap (fun i => decodeAckEntry ((b.drop (40 * i)).take 40))

/-- What the body of the loop of `inBulkSetAck` does with one entry. -/
def groupBulkSetAckStore.ackEntry {σ : Type} (tsbLocalRemoval : Nat)
    (write : σ → Nat → Nat → Nat → Nat → Nat → ByteSlice → Bool → σ × Nat × Option GoError)
    (ring : Option Ring) (vs : groupBulkSetAckStore σ) (e : AckEntry) :
    groupBulkSetAckStore σ :=
  if notResponsible ring e.keyA then
    let r := write vs.locmap e.keyA e.keyB e.nameKeyA e.nameKeyB
      (e.timestampbits ||| tsbLocalRemoval) ByteSlice.nil true
    let vs2 := { vs with inBulkSetAckWrites := atomicAddInt32 vs.inBulkSetAckWrites 1,
                         locmap := r.1 }
    if r.2.2 ≠ none then
      { vs2 with inBulkSetAckWriteErrors := atomicAddInt32 vs2.inBulkSetAckWriteErrors 1 }
    else if r.2.1 ≠ e.timestampbits ||| tsbLocalRemoval then
      { vs2 with
        inBulkSetAckWritesOverridden := atomicAddInt32 vs2.inBulkSetAckWritesOverridden 1 }
    else vs2
  else vs

/-- A `write` that only records its calls, in the order made. -/
def recordWrite (calls : List (AckEntry × ByteSlice × Bool)) (keyA keyB nameKeyA nameKeyB
    timestampbits : Nat) (value : ByteSlice) (internal : Bool) :
    List (AckEntry × ByteSlice × Bool) × Nat × Option GoError :=
  (calls ++ [(⟨keyA, keyB, nameKeyA, nameKeyB, timestampbits⟩, value, internal)],
   timestampbits, none)

/-- Modelled from the spec: one record of the location map, which keeps per key the
timestamp bits and where the value is; the value itself stands here for block id,
offset and length. A key without a record is "not present". -/
structure LocEntry where
  keyA : Nat
  keyB : Nat
  nameKeyA : Nat
  nameKeyB : Nat
  timestampbits : Nat
  value : List Nat
deriving DecidableEq, Repr

/-- Modelled from the spec: the record of a key in the location map. -/
def specLookup (m : List LocEntry) (keyA keyB nameKeyA nameKeyB : Nat) : Option LocEntry :=
  m.find? (fun x => x.keyA == keyA && x.keyB == keyB && x.nameKeyA == nameKeyA
    && x.nameKeyB == nameKeyB)

/-- Modelled from the spec: the method `write` of `DefaultGroupStore`, whose source is
not part of the repository, for values within `ValueCap`. The spec says: "If an existing
entry has `existing.tsb > tsb` (or `==` without `COMPACTION_REWRITE`), return
`existing.tsb` and do not write", and otherwise the location map is set to the new
record and the previous timestamp bits are returned (0 for a key that is not
present). -/
def specWrite (tsbCompactionRewrite : Nat) (m : List LocEntry)
    (keyA keyB nameKeyA nameKeyB timestampbits : Nat) (value : ByteSlice) (internal : Bool) :
    List LocEntry × Nat × Option GoError :=
  let existing :=
    match specLookup m keyA keyB nameKeyA nameKeyB with
    | some x => x.timestampbits
    | none => 0
  if existing > timestampbits ∨
      (existing = timestampbits ∧ timestampbits &&& tsbCompactionRewrite = 0) then
    (m, existing, none)
  else
    (⟨keyA, keyB, nameKeyA, nameKeyB, timestampbits, value.bytes⟩ ::
        m.filter (fun x => !(x.keyA == keyA && x.keyB == keyB && x.nameKeyA == nameKeyA
          && x.nameKeyB == nameKeyB)),
     existing, none)

/-- Modelled from the spec: the method `read` of `DefaultGroupStore`, whose source is
not part of the repository. The spec says: "append value bytes to `buf`; `ErrNotFound`
if deleted or absent", "`NotFound` — key absent or tombstoned", and calls a record with
`LOCAL_REMOVAL` "a local-only tombstone". -/
def specRead (tsbDeletion tsbLocalRemoval : Nat) (m : List LocEntry)
    (keyA keyB nameKeyA nameKeyB : Nat) (value : ByteSlice) :
    Nat × ByteSlice × Option GoError :=
  match specLookup m keyA keyB nameKeyA nameKeyB with
  | none => (0, value, some GoError.ErrNotFound)
  | some x =>
    if x.timestampbits &&& tsbDeletion ≠ 0 ∨ x.timestampbits &&& tsbLocalRemoval ≠ 0 then
      (x.timestampbits, value, some GoError.ErrNotFound)
    else (x.timestampbits, ByteSlice.mk (value.bytes ++ x.value) [], none)

/-- A ring with one partition bit in which the local node is responsible for nothing,
like the ring of `TestGroupBulkSetAckMsgIncoming`. -/
def testRing : Ring := { PartitionBitCount := 1, Responsible := fun _ => false }

/-- A store with the given location map and one message waiting on `inMsgChan`. -/
def testInStore {σ : Type} (locmap : σ) (body : List Nat) : groupBulkSetAckStore σ :=
  { bulkSetAckState :=
      { inMsgChan := [some ⟨ByteSlice.mk body []⟩], inFreeMsgChan := [], outFreeMsgChan := [] },
    inBulkSetAcks := 0, inBulkSetAckDrops := 0, inBulkSetAckInvalids := 0,
    inBulkSetAckWrites := 0, inBulkSetAckWriteErrors := 0, inBulkSetAckWritesOverridden := 0,
    locmap := locmap }


/-! ## Reading an incoming bulk-set-ack message -/

/-- An `io.Reader`, given by the results its next calls of `Read` have in store: each
is a chunk of bytes and the error that comes with the last byte of the chunk. `Read(p)`
hands out the first chunk when `p` has room for it; otherwise it fills `p` from the
chunk with a nil error and keeps the rest of the chunk. A reader with nothing in store
returns `0, io.EOF`. -/
structure ioReader where
  pending : List (List Nat × Option GoError)
deriving DecidableEq, Repr

/-- Call `r.Read(p)` for a `p` of `n` bytes: the bytes stored at the front of `p`, the
error, and the reader afterwards. -/
def ioReader.Read (r : ioReader) (n : Nat) : List Nat × Option GoError × ioReader :=
  match r.pending with
  | [] => ([], some GoError.EOF, r)
  | (chunk, err) :: rest =>
    if chunk.length ≤ n then (chunk, err, ⟨rest⟩)
    else (chunk.take n, none, ⟨(chunk.drop n, err) :: rest⟩)

/-- All the bytes a reader has in store. -/
def ioReader.stream (r : ioReader) : List Nat := r.pending.flatMap (fun c => c.1)

/-- Whether a reader supplies `l` bytes without reporting an error: the first `l` bytes
come in calls that return a nil error. An error that comes with the last of the `l`
bytes counts as reported. -/
def supplies : List (List Nat × Option GoError) → Nat → Bool
  | [], l => l == 0
  | (chunk, none) :: rest, l => if l ≤ chunk.length then true else supplies rest (l - chunk.length)
  | (chunk, some _) :: _, l => l == 0 || decide (l < chunk.length)

/-- The first error a reader reports when read to the end, and the number of bytes it
has supplied by then, those coming with the error included. -/
def failure : List (List Nat × Option GoError) → Nat × GoError
  | [] => (0, GoError.EOF)
  | (chunk, none) :: rest => (chunk.length + (failure rest).1, (failure rest).2)
  | (chunk, some e) :: _ => (chunk.length, e)

/-- Call `make([]byte, l)` for an `l` of type `uint64`: a panic (`none`) when `l` is
not a value of `int` (64 bits); the allocation itself is taken to succeed. -/
def goMake (l : Nat) : Option ByteSlice :=
  if l ≤ 9223372036854775807 then some (ByteSlice.mk (List.replicate l 0) []) else none

/-- The loop `for left > 0` of `newInBulkSetAckMsg`, which reads into the package
variable `toss`; `tossLen` is `len(toss)`, declared outside the available sources. The
result is the reader, `left` and `err` where the loop ends; `none` is the end of the
fuel. In `left -= uint64(sn)` no more than `left` is taken away, `sn` being at most
`len(t)`. -/
def newInBulkSetAckMsgToss (tossLen : Nat) :
    Nat → ioReader → Nat → Option (ioReader × Nat × Option GoError)
  | 0, r, left => if left > 0 then none else some (r, left, none)
  | fuel + 1, r, left =>
    if left > 0 then
      let t := if left < tossLen then left else tossLen
      let (got, err, r1) := r.Read t
      let left1 := left - got.length
      if err ≠ none then some (r1, left1, err)
      else newInBulkSetAckMsgToss tossLen fuel r1 left1
    else some (r, left, none)

/-- The loop `for n != len(bsam.body)` of `newInBulkSetAckMsg` over the bytes `body` of
`bsam.body`. The result is the reader, the body, `n` and `err` where the loop ends;
`none` is the panic of `bsam.body[n:]`, or the end of the fuel. -/
def newInBulkSetAckMsgFill :
    Nat → ioReader → List Nat → Nat → Option (ioReader × List Nat × Nat × Option GoError)
  | 0, r, body, n => if n ≠ body.length then none else some (r, body, n, none)
  | fuel + 1, r, body, n =>
    if n ≠ body.length then
      if body.length < n then none
      else
        let (got, err, r1) := r.Read (body.length - n)
        let body1 := body.take n ++ got ++ body.drop (n + got.length)
        let n1 := n + got.length
        if err ≠ none then some (r1, body1, n1, err)
        else newInBulkSetAckMsgFill fuel r1 body1 n1
    else some (r, body, n, none)

/-- A slice after the bytes within its length have been overwritten in place. -/
def ByteSlice.withBytes (v : ByteSlice) (data : List Nat) : ByteSlice :=
  match v with
  | .nil => .nil
  | .mk _ spare => .mk data spare

/-- Method `newInBulkSetAckMsg`: the store and the reader afterwards and the two
returned values. `none` is a panic, or the end of the fuel. -/
def groupBulkSetAckStore.newInBulkSetAckMsg {σ : Type} (vs : groupBulkSetAckStore σ)
    (tossLen fuel : Nat) (r : ioReader) (l : Nat) :
    Option (groupBulkSetAckStore σ × ioReader × Nat × Option GoError) :=
  match vs.bulkSetAckState.inFreeMsgChan with
  | [] =>
    match newInBulkSetAckMsgToss tossLen fuel r l with
    | none => none
    | some (r1, left, some err) =>
      some ({ vs with inBulkSetAckInvalids := atomicAddInt32 vs.inBulkSetAckInvalids 1 },
            r1, l - left, some err)
    | some (r1, _, none) =>
      some ({ vs with inBulkSetAckDrops := atomicAddInt32 vs.inBulkSetAckDrops 1 },
            r1, l, none)
  | bsam :: free =>
    match (if l > bsam.body.cap then goMake l else some bsam.body) with
    | none => none
    | some body0 =>
      match body0.reslice l with
      | none => none
      | some body1 =>
        match newInBulkSetAckMsgFill fuel r body1.bytes 0 with
        | none => none
        | some (r1, data, n, some err) =>
          some ({ vs with
                  bulkSetAckState :=
                    { vs.bulkSetAckState with
                      inFreeMsgChan := free ++ [⟨body1.withBytes data⟩] },
                  inBulkSetAckInvalids := atomicAddInt32 vs.inBulkSetAckInvalids 1 },
                r1, n, some err)
        | some (r1, data, _, none) =>
          some ({ vs with
                  bulkSetAckState :=
                    { vs.bulkSetAckState with
                      inFreeMsgChan := free,
                      inMsgChan := vs.bulkSetAckState.inMsgChan
                        ++ [some ⟨body1.withBytes data⟩] },
                  inBulkSetAcks := atomicAddInt32 vs.inBulkSetAcks 1 },
                r1, l, none)


/-! ## Flusher (`groupflusher_GEN_.go`) -/

/-- Type `groupFlusherState`, without the notification channel and its lock. -/
structure groupFlusherState where
  interval : Int
  flusherThreshold : Int
deriving DecidableEq, Repr

/-- The fields of `DefaultGroupStore` that the flusher uses. `logDebug` tells whether
the function `store.logDebug` is set (not nil); `debugLogged` and `criticalLogged` keep
the arguments of the calls of `logDebug` and `logCritical`, `flushes` counts the calls
of `store.Flush()` and `done` the sends on a notification's `doneChan`. -/
structure groupFlusherStore where
  flusherState : groupFlusherState
  modifications : Int
  logDebug : Bool
  debugLogged : List (Int × Int)
  criticalLogged : List Int
  flushes : Nat
  done : Nat
deriving DecidableEq, Repr

/-- One pass of the loop of `flusherLauncher` after the wake-up: `notification` is the
action of the notification received, if any, and `between` is what other goroutines add
to `store.modifications` between the `LoadInt32` and the `AddInt32`. `bgDisable` is the
constant `_BG_DISABLE`, declared outside the available sources. The result is the store
and `running`. -/
def groupFlusherStore.flusherLauncherPass (bgDisable : Int) (store : groupFlusherStore)
    (notification : Option Int) (between : Int) : groupFlusherStore × Bool :=
  match notification with
  | some action =>
    if action = bgDisable then ({ store with done := store.done + 1 }, false)
    else
      ({ store with criticalLogged := store.criticalLogged ++ [action],
                    done := store.done + 1 }, true)
  | none =>
    let m := store.modifications
    let store1 :=
      { store with
        modifications := atomicAddInt32 (i32 (store.modifications + between)) (i32 (-m)) }
    if store.logDebug ∧ m > 0 ∧ m < store.flusherState.flusherThreshold then
      ({ store1 with
         debugLogged := store1.debugLogged ++ [(m, store.flusherState.flusherThreshold)],
         flushes := store1.flushes + 1 }, true)
    else (store1, true)

/-- Method `flusherLauncher` over the wake-ups that happen, in order, until a
notification stops it. -/
def groupFlusherStore.flusherLauncher (bgDisable : Int) :
    List (Option Int × Int) → groupFlusherStore → groupFlusherStore
  | [], store => store
  | (notification, between) :: rest, store =>
    let r := store.flusherLauncherPass bgDisable notification between
    if r.2 then flusherLauncher bgDisable rest r.1 else r.1

/-! ## Disk watcher (`valuediskwatcher_GEN_.go`) -/

/-- A value of Go's `float32`: NaN, an infinity, or the finite number `mant * 2^exp`.
The two zeros are not told apart, as no comparison tells them apart. -/
inductive GoFloat32 where
  | nan
  | negInf
  | finite (mant : Int) (exp : Int)
  | posInf
deriving Repr

namespace GoFloat32

/-- Comparison `x <= y`. -/
def le : GoFloat32 → GoFloat32 → Bool
  | nan, _ => false
  | _, nan => false
  | negInf, _ => true
  | _, posInf => true
  | finite _ _, negInf => false
  | posInf, _ => false
  | finite m1 e1, finite m2 e2 =>
    decide (m1 * 2 ^ (e1 - min e1 e2).toNat ≤ m2 * 2 ^ (e2 - min e1 e2).toNat)

/-- Comparison `x >= y`. -/
def ge (x y : GoFloat32) : Bool := le y x

/-- Comparison `x == 0`. -/
def isZero : GoFloat32 → Bool
  | finite m _ => m == 0
  | _ => false

/-- Comparison `x < 0`. -/
def isNegative : GoFloat32 → Bool
  | negInf => true
  | finite m _ => decide (m < 0)
  | _ => false

end GoFloat32

/-- What `du.NewDiskUsage(path)` reports for a path at the time of a poll: the results
of the methods `Free`, `Used`, `Size` and `Usage` of the `du.DiskUsage` value (package
`github.com/ricochet2200/go-disk-usage/du`). -/
structure DiskUsage where
  Free : Nat
  Used : Nat
  Size : Nat
  Usage : GoFloat32
deriving Repr

/-- Type `valueDiskWatcherState`. -/
structure valueDiskWatcherState where
  freeDisableThreshold : Nat
  freeReenableThreshold : Nat
  usageDisableThreshold : GoFloat32
  usageReenableThreshold : GoFloat32
  free : Nat
  used : Nat
  size : Nat
  freetoc : Nat
  usedtoc : Nat
  sizetoc : Nat
deriving Repr

/-- A call that the disk watcher makes on the store. -/
inductive WatcherCall where
  | logCritical (msg : String)
  | disableWrites (user : Bool)
  | enableWrites (user : Bool)
deriving DecidableEq, Repr

/-- The fields of `DefaultValueStore` that the disk watcher uses, and in `calls` the
calls it has made of `logCritical`, `disableWrites` and `enableWrites`, in order. -/
structure valueDiskWatcherStore where
  path : String
  pathtoc : String
  diskWatcherState : valueDiskWatcherState
  calls : List WatcherCall
deriving Repr

/-- The thresholds of `GroupStoreConfig` (and `ValueStoreConfig`) for the disk
watcher. -/
structure GroupStoreConfig where
  FreeDisableThreshold : Nat
  FreeReenableThreshold : Nat
  UsageDisableThreshold : GoFloat32
  UsageReenableThreshold : GoFloat32
deriving Repr

/-- What `resolveGroupStoreConfig` does with the four thresholds of the disk watcher.
Each `env` argument is the value that the environment variable of the threshold parses
to, if the variable is set and parses. -/
def resolveGroupStoreConfig (envFreeDisable envFreeReenable : Option Nat)
    (envUsageDisable envUsageReenable : Option GoFloat32) (c : GroupStoreConfig) :
    GroupStoreConfig :=
  let fd := match envFreeDisable with | some v => v | none => c.FreeDisableThreshold
  let fd := if fd = 0 then 8589934592 else fd
  let fr := match envFreeReenable with | some v => v | none => c.FreeReenableThreshold
  let fr := if fr = 0 then 17179869184 else fr
  let ud := match envUsageDisable with | some v => v | none => c.UsageDisableThreshold
  let ud := if ud.isZero then GoFloat32.finite 95 0 else ud
  let ud := if ud.isNegative then GoFloat32.finite 0 0 else ud
  let ur := match envUsageReenable with | some v => v | none => c.UsageReenableThreshold
  let ur := if ur.isZero then GoFloat32.finite 90 0 else ur
  let ur := if ur.isNegative then GoFloat32.finite 0 0 else ur
  { FreeDisableThreshold := fd, FreeReenableThreshold := fr,
    UsageDisableThreshold := ud, UsageReenableThreshold := ur }

/-- Method `diskWatcherConfig`. -/
def valueDiskWatcherStore.diskWatcherConfig (vs : valueDiskWatcherStore)
    (cfg : GroupStoreConfig) : valueDiskWatcherStore :=
  { vs with diskWatcherState :=
      { vs.diskWatcherState with
        freeDisableThreshold := cfg.FreeDisableThreshold,
        freeReenableThreshold := cfg.FreeReenableThreshold,
        usageDisableThreshold := cfg.UsageDisableThreshold,
        usageReenableThreshold := cfg.UsageReenableThreshold } }

/-- One pass of the loop of `diskWatcher` after the sleep. `du` is what
`du.NewDiskUsage` reports for a path at that time, and `disabled` the local variable;
the result is the store and `disabled` afterwards. -/
def valueDiskWatcherStore.diskWatcherPoll (vs : valueDiskWatcherStore)
    (du : String → DiskUsage) (disabled : Bool) : valueDiskWatcherStore × Bool :=
  let u := du vs.path
  let utoc := if vs.pathtoc ≠ vs.path then du vs.pathtoc else u
  let st : valueDiskWatcherState := { vs.diskWatcherState with
              free := u.Free, used := u.Used, size := u.Size,
              freetoc := utoc.Free, usedtoc := utoc.Used, sizetoc := utoc.Size }
  let usage := u.Usage
  let usagetoc := utoc.Usage
  if disabled then
    if (st.freeReenableThreshold = 0
          ∨ (st.free ≥ st.freeReenableThreshold ∧ st.freetoc ≥ st.freeReenableThreshold))
        ∧ (st.usageReenableThreshold.isZero = true
          ∨ (usage.le st.usageReenableThreshold = true
              ∧ usagetoc.le st.usageReenableThreshold = true))
    then
      ({ vs with
         diskWatcherState := st,
         calls := vs.calls ++
           [WatcherCall.logCritical
              "passed the free/usage threshold for automatic re-enabling\n",
            WatcherCall.enableWrites false] }, false)
    else ({ vs with diskWatcherState := st }, true)
  else
    if (st.freeDisableThreshold ≠ 0
          ∧ (st.free ≤ st.freeDisableThreshold ∨ st.freetoc ≤ st.freeDisableThreshold))
        ∨ (st.usageDisableThreshold.isZero = false
          ∧ (usage.ge st.usageDisableThreshold = true
              ∨ usagetoc.ge st.usageDisableThreshold = true))
    then
      ({ vs with
         diskWatcherState := st,
         calls := vs.calls ++
           [WatcherCall.logCritical
              "passed the free/usage threshold for automatic disabling\n",
            WatcherCall.disableWrites false] }, true)
    else ({ vs with diskWatcherState := st }, false)

/-- The loop of `diskWatcher` over the polls that happen, in order, from a value of
`disabled` on. -/
def valueDiskWatcherStore.diskWatcherLoop :
    List (String → DiskUsage) → valueDiskWatcherStore → Bool → valueDiskWatcherStore × Bool
  | [], vs, disabled => (vs, disabled)
  | du :: rest, vs, disabled =>
    let r := vs.diskWatcherPoll du disabled
    diskWatcherLoop rest r.1 r.2

/-- Method `diskWatcher` over the polls that happen: `disabled` starts as `false`. -/
def valueDiskWatcherStore.diskWatcher (polls : List (String → DiskUsage))
    (vs : valueDiskWatcherStore) : valueDiskWatcherStore × Bool :=
  valueDiskWatcherStore.diskWatcherLoop polls vs false

/-- The calls of `disableWrites` and `enableWrites` in a list of calls, `true` for
`disableWrites`. -/
def writeSwitches : List WatcherCall → List Bool
  | [] => []
  | WatcherCall.logCritical _ :: rest => writeSwitches rest
  | WatcherCall.disableWrites _ :: rest => true :: writeSwitches rest
  | WatcherCall.enableWrites _ :: rest => false :: writeSwitches rest

/-- Whether a list of switches alternates, starting with the given one. -/
def alternates : Bool → List Bool → Bool
  | _, [] => true
  | next, b :: rest => b == next && alternates (!next) rest

/-- A store for the disk watcher with the given thresholds for free bytes and the usage
checks switched off. -/
def testWatcherStore (freeDisable freeReenable : Nat) : valueDiskWatcherStore :=
  { path := "data", pathtoc := "toc",
    diskWatcherState :=
      { freeDisableThreshold := freeDisable, freeReenableThreshold := freeReenable,
        usageDisableThreshold := GoFloat32.finite 0 0,
        usageReenableThreshold := GoFloat32.finite 0 0,
        free := 0, used := 0, size := 0, freetoc := 0, usedtoc := 0, sizetoc := 0 },
    calls := [] }

/-- Disk readings with the given free bytes on the data path and on the TOC path. -/
def testUsage (free freetoc : Nat) : String → DiskUsage := fun path =>
  if path = "data" then { Free := free, Used := 0, Size := free, Usage := GoFloat32.finite 0 0 }
  else { Free := freetoc, Used := 0, Size := freetoc, Usage := GoFloat32.finite 0 0 }


/-! ## Sizes in the configuration (`groupconfig_GEN_.go`) -/

/-- Conversion of an integer to Go's `int` and `int64` (64 bits): the value in
`[-2^63, 2^63)` with the same low 64 bits. -/
def i64 (x : Int) : Int :=
  (x + 9223372036854775808) % 18446744073709551616 - 9223372036854775808

/-- Modelled from the spec: the constant `_GROUP_FILE_ENTRY_SIZE`, whose declaration is
not among the sources. The spec gives the TOC entry of the group variant 40 bytes. -/
def GROUP_FILE_ENTRY_SIZE : Int := 40

/-- The fields of `GroupStoreConfig` of type `int`, and `FlusherThreshold` of type
`int32`, that size the pages, the reader pool and the message pools; the thresholds of
the disk watcher are the fields of `GroupStoreConfig` above. -/
structure GroupStoreConfigSizes where
  ValueCap : Int
  Workers : Int
  ChecksumInterval : Int
  PageSize : Int
  minValueAlloc : Int
  FileReaders : Int
  InBulkSetWorkers : Int
  InBulkSetAckWorkers : Int
  OutBulkSetAckMsgs : Int
  FlusherThreshold : Int
  AuditAgeThreshold : Int
deriving DecidableEq, Repr

/-- What `resolveGroupStoreConfig` does with the fields of `GroupStoreConfigSizes`, in
the order of the source. `env name` is the number that the environment variable `name`
holds, if the variable is set and `strconv.Atoi` accepts it; `gomaxprocs` is
`runtime.GOMAXPROCS(0)`; `entrySize` is the constant `_GROUP_FILE_ENTRY_SIZE`, and
`8 + entrySize` the constant `_GROUP_PAGE_SIZE_MIN`. Sums and products are those of
`int`; a quotient is rounded towards zero. -/
def resolveGroupStoreConfigSizes (env : String → Option Int) (gomaxprocs entrySize : Int)
    (c : GroupStoreConfigSizes) : GroupStoreConfigSizes :=
  let valueCap : Int := match env "GROUPSTORE_VALUE_CAP" with | some v => v | none => c.ValueCap
  let valueCap : Int := if valueCap = 0 then 1048576 else valueCap
  let valueCap : Int := if valueCap < 0 then 0 else valueCap
  let valueCap : Int := if valueCap > 1048576 then 1048576 else valueCap
  let workers : Int := match env "GROUPSTORE_WORKERS" with | some v => v | none => c.Workers
  let workers : Int := if workers = 0 then gomaxprocs else workers
  let workers : Int := if workers < 1 then 1 else workers
  let checksumInterval : Int :=
    match env "GROUPSTORE_CHECKSUM_INTERVAL" with | some v => v | none => c.ChecksumInterval
  let checksumInterval : Int := if checksumInterval = 0 then 64 * 1024 - 4 else checksumInterval
  let checksumInterval : Int :=
    if checksumInterval < (GROUP_FILE_HEADER_SIZE : Int) then (GROUP_FILE_HEADER_SIZE : Int)
    else checksumInterval
  let pageSize : Int := match env "GROUPSTORE_PAGE_SIZE" with | some v => v | none => c.PageSize
  let pageSize : Int := if pageSize = 0 then 4 * 1024 * 1024 else pageSize
  let pageSize : Int :=
    if pageSize < i64 (valueCap + checksumInterval) then i64 (valueCap + checksumInterval)
    else pageSize
  let pageSize : Int := if pageSize < i64 (8 + entrySize) then i64 (8 + entrySize) else pageSize
  let pageSize : Int := if pageSize > 4294967295 - 1 then 4294967295 - 1 else pageSize
  let minValueAlloc : Int :=
    i64 (Int.tdiv checksumInterval (i64 (Int.tdiv pageSize entrySize + 1)) + 1)
  let fileReaders : Int :=
    match env "GROUPSTORE_FILE_READERS" with | some v => v | none => c.FileReaders
  let fileReaders : Int := if fileReaders = 0 then workers else fileReaders
  let fileReaders : Int := if fileReaders < 1 then 1 else fileReaders
  let inBulkSetWorkers : Int :=
    match env "GROUPSTORE_IN_BULK_SET_WORKERS" with | some v => v | none => c.InBulkSetWorkers
  let inBulkSetWorkers : Int := if inBulkSetWorkers = 0 then workers else inBulkSetWorkers
  let inBulkSetWorkers : Int := if inBulkSetWorkers < 1 then 1 else inBulkSetWorkers
  let inBulkSetAckWorkers : Int :=
    match env "GROUPSTORE_IN_BULK_SET_ACK_WORKERS" with
    | some v => v
    | none => c.InBulkSetAckWorkers
  let inBulkSetAckWorkers : Int := if inBulkSetAckWorkers = 0 then workers else inBulkSetAckWorkers
  let inBulkSetAckWorkers : Int := if inBulkSetAckWorkers < 1 then 1 else inBulkSetAckWorkers
  let outBulkSetAckMsgs : Int :=
    match env "GROUPSTORE_OUT_BULK_SET_ACK_MSGS" with
    | some v => v
    | none => c.OutBulkSetAckMsgs
  let outBulkSetAckMsgs : Int :=
    if outBulkSetAckMsgs = 0 then i64 (inBulkSetAckWorkers * 4) else outBulkSetAckMsgs
  let outBulkSetAckMsgs : Int := if outBulkSetAckMsgs < 1 then 1 else outBulkSetAckMsgs
  let flusherThreshold : Int :=
    match env "GROUPSTORE_FLUSHER_THRESHOLD" with
    | some v => i32 v
    | none => c.FlusherThreshold
  let flusherThreshold : Int :=
    if flusherThreshold = 0 then i32 (Int.tdiv (i32 pageSize) entrySize)
    else flusherThreshold
  let flusherThreshold : Int := if flusherThreshold < 0 then 0 else flusherThreshold
  let auditAgeThreshold : Int :=
    match env "GROUPSTORE_AUDIT_AGE_THRESHOLD" with
    | some v => v
    | none => c.AuditAgeThreshold
  let auditAgeThreshold : Int := if auditAgeThreshold = 0 then 604800 else auditAgeThreshold
  let auditAgeThreshold : Int := if auditAgeThreshold < 1 then 1 else auditAgeThreshold
  { ValueCap := valueCap, Workers := workers, ChecksumInterval := checksumInterval,
    PageSize := pageSize, minValueAlloc := minValueAlloc, FileReaders := fileReaders,
    InBulkSetWorkers := inBulkSetWorkers, InBulkSetAckWorkers := inBulkSetAckWorkers,
    OutBulkSetAckMsgs := outBulkSetAckMsgs, FlusherThreshold := flusherThreshold,
    AuditAgeThreshold := auditAgeThreshold }

/-- No environment variable is set. -/
def noEnv : String → Option Int := fun _ => none

/-- The zero value of the configuration, with every setting left to its default. -/
def zeroSizes : GroupStoreConfigSizes :=
  { ValueCap := 0, Workers := 0, ChecksumInterval := 0, PageSize := 0, minValueAlloc := 0,
    FileReaders := 0, InBulkSetWorkers := 0, InBulkSetAckWorkers := 0,
    OutBulkSetAckMsgs := 0, FlusherThreshold := 0, AuditAgeThreshold := 0 }


/-! ## Push replication (`grouppushreplication_GEN_.go`) -/

/-- The values that `outPushReplicationPass` computes once from the ring and the number
of workers, before the workers start. -/
structure pushReplicationPieces where
  partitionShift : Nat
  partitionMax : Nat
  workerMax : Nat
  workerPartitionPiece : Nat
deriving DecidableEq, Repr

/-- The head of `outPushReplicationPass`, from `pbc := ring.PartitionBitCount()` (a
`uint16`) and `store.pushReplicationState.outWorkers` (an `int`), in `uint64`
arithmetic. `none` is the panic of the division by `workerMax + 1 = 0`. -/
def outPushReplicationPieces (pbc : Nat) (outWorkers : Int) : Option pushReplicationPieces :=
  let partitionShift := u64 ((64 + 65536 - pbc % 65536) % 65536)
  let partitionMax := u64 (u64 (1 <<< (pbc % 65536)) + 18446744073709551615)
  let workerMax := ((outWorkers - 1) % 18446744073709551616).toNat
  if u64 (workerMax + 1) = 0 then none
  else
    some { partitionShift := partitionShift, partitionMax := partitionMax,
           workerMax := workerMax,
           workerPartitionPiece := u64 (1 <<< partitionShift) / u64 (workerMax + 1) }

/-- The key range `(rangeBegin, rangeEnd)` that the closure `work` computes for a
partition and a worker, in `uint64` arithmetic. -/
def pushReplicationPieces.workRange (s : pushReplicationPieces) (partition worker : Nat) :
    Nat × Nat :=
  let partitionOnLeftBits := u64 (partition <<< s.partitionShift)
  let rangeBegin := u64 (partitionOnLeftBits + u64 (s.workerPartitionPiece * worker))
  let rangeEnd :=
    if worker ≠ s.workerMax then
      u64 (u64 (partitionOnLeftBits + u64 (s.workerPartitionPiece * u64 (worker + 1)))
            + 18446744073709551615)
    else if partition ≠ s.partitionMax then
      u64 (u64 (u64 (partition + 1) <<< s.partitionShift) + 18446744073709551615)
    else 18446744073709551615
  (rangeBegin, rangeEnd)

/-- The `partitionBegin` of a worker. -/
def pushReplicationPieces.partitionBegin (s : pushReplicationPieces) (worker : Nat) : Nat :=
  u64 (u64 (s.partitionMax + 1) / u64 (s.workerMax + 1) * worker)

/-- The loop `for partition := partitionBegin; ; { ... }` of a worker while `abort`
stays 0 and the ring keeps its version: the partitions visited, in order, each with
whether `work` was called for it (the node is not responsible for it). `fuel` bounds
the number of iterations. -/
def pushReplicationPieces.partitionLoop (s : pushReplicationPieces) (responsible : Nat → Bool)
    (partitionBegin : Nat) : Nat → Nat → List (Nat × Bool) → Option (List (Nat × Bool))
  | 0, _, _ => none
  | fuel + 1, partition, visited =>
    let visited := visited ++ [(partition, !responsible (u32 partition))]
    let partition := u64 (partition + 1)
    let partition := if partition > s.partitionMax then 0 else partition
    if partition = partitionBegin then some visited
    else partitionLoop s responsible partitionBegin fuel partition visited

/-- The arguments with which `ScanCallback` calls its callback for one location. -/
structure ScannedRecord where
  keyA : Nat
  keyB : Nat
  nameKeyA : Nat
  nameKeyB : Nat
  timestampbits : Nat
  length : Nat
deriving DecidableEq, Repr

/-- The callback that `work` passes to `store.locmap.ScanCallback`, on the captured
variables `list` and `availableBytes`: the variables afterwards and the result.
`tsbDeletion` is `_TSB_DELETION` and `entryHeaderLength` is
`_GROUP_BULK_SET_MSG_ENTRY_HEADER_LENGTH`, both declared outside the available
sources. -/
def scanCallback (tsbDeletion tombstoneCutoff : Nat) (entryHeaderLength : Int)
    (st : List Nat × Int) (r : ScannedRecord) : (List Nat × Int) × Bool :=
  let inMsgLength : Int := i64 (entryHeaderLength + (r.length : Int))
  if r.timestampbits &&& tsbDeletion = 0 ∨ r.timestampbits ≥ tombstoneCutoff then
    let list := st.1 ++ [r.keyA, r.keyB, r.nameKeyA, r.nameKeyB]
    let availableBytes : Int := i64 (st.2 - inMsgLength)
    if availableBytes < inMsgLength then ((list, availableBytes), false)
    else ((list, availableBytes), true)
  else (st, true)

/-- The call of `store.locmap.ScanCallback` in `work`, given the locations for which
the location map calls the callback, in order: it stops at the first `false`. -/
def scanGather (tsbDeletion tombstoneCutoff : Nat) (entryHeaderLength : Int) :
    List ScannedRecord → List Nat × Int → List Nat × Int
  | [], st => st
  | r :: rest, st =>
    let res := scanCallback tsbDeletion tombstoneCutoff entryHeaderLength st r
    if res.2 then scanGather tsbDeletion tombstoneCutoff entryHeaderLength rest res.1
    else res.1

/-- A call `bsm.add(keyA, keyB, nameKeyA, nameKeyB, timestampbits, valbuf)` made by
`work`, with the `err` that the `store.read` before it returned. -/
structure pushAdd where
  keyA : Nat
  keyB : Nat
  nameKeyA : Nat
  nameKeyB : Nat
  timestampbits : Nat
  value : ByteSlice
  err : Option GoError
deriving DecidableEq, Repr

/-- The variables of the loop of `work` that builds the message: the store as far as
`store.read` uses it, the message `bsm`, the buffer `valbuf`, the counter
`store.outBulkSetPushValues` and the calls of `bsm.add` made so far. -/
structure pushLoopState (σ μ : Type) where
  store : σ
  bsm : μ
  valbuf : ByteSlice
  outBulkSetPushValues : Int
  adds : List pushAdd

/-- The loop `for i := 0; i < len(list); i += 4` of `work`. `read` is `store.read` and
`add` is `bsm.add`, both declared outside the available sources; `tsbLocalRemoval` and
`tsbDeletion` are `_TSB_LOCAL_REMOVAL` and `_TSB_DELETION`. `none` is the panic of an
index out of range. -/
def pushMessageLoop {σ μ : Type} (tsbLocalRemoval tsbDeletion cutoff tombstoneCutoff : Nat)
    (read : σ → Nat → Nat → Nat → Nat → ByteSlice → σ × Nat × ByteSlice × Option GoError)
    (add : μ → Nat → Nat → Nat → Nat → Nat → ByteSlice → μ × Bool) :
    List Nat → pushLoopState σ μ → Option (pushLoopState σ μ)
  | [], st => some st
  | keyA :: keyB :: nameKeyA :: nameKeyB :: rest, st =>
    match st.valbuf.reslice 0 with
    | none => none
    | some empty =>
      let r := read st.store keyA keyB nameKeyA nameKeyB empty
      let timestampbits := r.2.1
      let err := r.2.2.2
      let st1 : pushLoopState σ μ := { st with store := r.1, valbuf := r.2.2.1 }
      if (err = some GoError.ErrNotFound ∧ timestampbits = 0)
          ∨ (err ≠ some GoError.ErrNotFound ∧ err ≠ none) then
        pushMessageLoop tsbLocalRemoval tsbDeletion cutoff tombstoneCutoff read add rest st1
      else if timestampbits &&& tsbLocalRemoval = 0 ∧ timestampbits < cutoff
          ∧ (timestampbits &&& tsbDeletion = 0 ∨ timestampbits ≥ tombstoneCutoff) then
        let a := add st1.bsm keyA keyB nameKeyA nameKeyB timestampbits st1.valbuf
        let st2 : pushLoopState σ μ :=
          { st1 with
            bsm := a.1,
            adds := st1.adds ++ [{ keyA := keyA, keyB := keyB, nameKeyA := nameKeyA,
                                   nameKeyB := nameKeyB, timestampbits := timestampbits,
                                   value := st1.valbuf, err := err }] }
        if a.2 then
          pushMessageLoop tsbLocalRemoval tsbDeletion cutoff tombstoneCutoff read add rest
            { st2 with outBulkSetPushValues := atomicAddInt32 st2.outBulkSetPushValues 1 }
        else some st2
      else
        pushMessageLoop tsbLocalRemoval tsbDeletion cutoff tombstoneCutoff read add rest st1
  | _, _ => none

/-- The cutoffs of `work`: `timestampbitsNow`, `cutoff` and `tombstoneCutoff`, from the
clock in microseconds, `_TSB_UTIL_BITS`, `store.replicationIgnoreRecent` and
`store.tombstoneDiscardState.age`, in `uint64` arithmetic. -/
def pushCutoffs (nowMicro : Int) (tsbUtilBits replicationIgnoreRecent age : Nat) : Nat × Nat :=
  let timestampbitsNow := u64 ((nowMicro % 18446744073709551616).toNat <<< tsbUtilBits)
  (u64 (timestampbitsNow + 18446744073709551616 - u64 replicationIgnoreRecent),
   u64 (timestampbitsNow + 18446744073709551616 - u64 age))

/-- The part of `work` from the cutoffs to the end of the loop that builds the message,
given the locations that the scan reports, whether `abort` is set and whether the ring
still has the version of the start of the pass; `msgCap` is `store.bulkSetState.msgCap`
and `newMsg` the result of `store.newOutBulkSetMsg()`. The result is `none` when `work`
returns before building a message and otherwise the state after the loop, whose `bsm`
goes to `MsgToOtherReplicas`; the outer `none` is a panic. -/
def pushWork {σ μ : Type} (tsbLocalRemoval tsbDeletion tsbUtilBits : Nat)
    (entryHeaderLength : Int) (nowMicro : Int) (replicationIgnoreRecent age : Nat)
    (msgCap : Int) (scanned : List ScannedRecord) (abort ringChanged : Bool)
    (read : σ → Nat → Nat → Nat → Nat → ByteSlice → σ × Nat × ByteSlice × Option GoError)
    (add : μ → Nat → Nat → Nat → Nat → Nat → ByteSlice → μ × Bool)
    (store : σ) (newMsg : μ) (valbuf : ByteSlice) (outBulkSetPushValues : Int) :
    Option (Option (pushLoopState σ μ)) :=
  let cutoffs := pushCutoffs nowMicro tsbUtilBits replicationIgnoreRecent age
  let list := (scanGather tsbDeletion cutoffs.2 entryHeaderLength scanned
                ([], i64 msgCap)).1
  if list.length ≤ 0 ∨ abort then some none
  else if ringChanged then some none
  else
    match pushMessageLoop tsbLocalRemoval tsbDeletion cutoffs.1 cutoffs.2 read add list
        { store := store, bsm := newMsg, valbuf := valbuf,
          outBulkSetPushValues := outBulkSetPushValues, adds := [] } with
    | none => none
    | some st => some (some st)


/-! ## Audit (`groupaudit_GEN_.go`) -/

/-- Function `strings.HasSuffix(s, suffix)`. The names that matter here are ASCII, for
which characters and bytes coincide. -/
def stringsHasSuffix (s suffix : String) : Bool :=
  decide (s.data.length ≥ suffix.data.length) &&
    decide (s.data.drop (s.data.length - suffix.data.length) = suffix.data)

/-- Slice expression `s[:len(s)-n]` of a string; `none` is the panic for `n > len(s)`. -/
def stringDropRight (s : String) (n : Nat) : Option String :=
  if n ≤ s.data.length then some (String.mk (s.data.take (s.data.length - n))) else none

/-- The digits loop of `strconv.ParseUint(s, 10, 64)`: the value of a string of decimal
digits, `none` for a character that is not a digit. -/
def parseDigits : List Char → Nat → Option Nat
  | [], acc => some acc
  | c :: cs, acc =>
    if 48 ≤ c.toNat ∧ c.toNat ≤ 57 then parseDigits cs (acc * 10 + (c.toNat - 48)) else none

/-- Function `strconv.ParseInt(s, 10, 64)` of the Go standard library: an optional sign
and at least one decimal digit, with a value in `[-2^63, 2^63 - 1]`; `none` stands for
a non-nil `err` (syntax or range). -/
def strconvParseInt (s : String) : Option Int :=
  match s.data with
  | [] => none
  | c :: cs =>
    let neg : Bool := c = '-'
    let ds := if c = '+' ∨ c = '-' then cs else c :: cs
    if ds = [] then none
    else
      match parseDigits ds 0 with
      | none => none
      | some un =>
        if neg = false ∧ un ≥ 9223372036854775808 then none
        else if neg = true ∧ un > 9223372036854775808 then none
        else some (if neg then -(un : Int) else (un : Int))

/-- The fields of `DefaultGroupStore` that `auditPass` reads; `ageThreshold` is
`store.auditState.ageThreshold`. -/
structure auditStore where
  path : String
  pathtoc : String
  activeTOCA : Nat
  activeTOCB : Nat
  ageThreshold : Int
deriving DecidableEq, Repr

/-- Method `auditConfig`: `int64(cfg.AuditAgeThreshold) * int64(time.Second)`. -/
def auditConfig (store : auditStore) (auditAgeThreshold : Int) : auditStore :=
  { store with ageThreshold := i64 (i64 auditAgeThreshold * 1000000000) }

/-- The outcome of the tests at the head of the loop body of `auditPass` for one name:
one of the four `continue` statements, or the check of the file, with the timestamp
`namets` of the name. -/
inductive auditChoice where
  | notTOC
  | badTimestamp
  | current
  | young
  | check (namets : Int)
deriving DecidableEq, Repr

/-- The head of the loop body of `auditPass` for one name, with `now` the value of
`time.Now().UnixNano()`. `none` is the panic of a slice out of range. -/
def auditSelect (store : auditStore) (now : Int) (name : String) : Option auditChoice :=
  if ¬ stringsHasSuffix name ".grouptoc" then some .notTOC
  else
    match stringDropRight name ".grouptoc".data.length with
    | none => none
    | some stem =>
      match strconvParseInt stem with
      | none => some .badTimestamp
      | some namets =>
        if namets = 0 then some .badTimestamp
        else if namets = i64 (store.activeTOCA : Int) ∨ namets = i64 (store.activeTOCB : Int) then
          some .current
        else if namets ≥ i64 (now - store.ageThreshold) then some .young
        else some (.check namets)

/-- How the check of one file ends, which the contents of the two files and the arrival
of notifications decide: it passes, it fails, or a notification arrives during it. -/
inductive auditVerdict where
  | passed
  | failed
  | notified (action : Int)
deriving DecidableEq, Repr

/-- The value that `auditPass` returns: `nil`, the notification received, or the new
notification with the action `_BG_DISABLE` after a failed audit. -/
inductive auditReturn where
  | nil
  | received (action : Int)
  | disable
deriving DecidableEq, Repr

/-- Whether the head of the loop body sends a name on to the check. -/
def auditChecks (store : auditStore) (now : Int) (name : String) : Bool :=
  match auditSelect store now name with
  | some (.check _) => true
  | _ => false

/-- What a pass does that can be seen from outside: the names logged with
`audit: bad timestamp in name`, the names whose check began, the paths passed to
`osOpenReadSeeker`, and the names whose audit failed. -/
structure auditLog where
  errors : List String
  checked : List String
  opened : List String
  failed : List String
deriving DecidableEq, Repr

/-- The shuffle of `auditPass`: `shuffledNames[x] = names[y]` for each `x, y` of
`store.rand.Perm(len(names))`, given as `perm`; `none` is the panic of an index out of
range. -/
def auditShuffle (names : List String) : List Nat → Nat → Option (List String)
  | [], x => some (List.replicate (names.length - x) "")
  | y :: perm, x =>
    if x < names.length then
      match names.get? y with
      | none => none
      | some name => (auditShuffle names perm (x + 1)).map (fun l => name :: l)
    else none

/-- The loop `for i := 0; i < len(names); i++` of `auditPass` from index `i` on.
`notify i` is the notification found on `notifyChan` by the `select` of iteration `i`,
`now i` the clock of that iteration, `dataOpens` tells whether `osOpenReadSeeker`
succeeds on a data file, and `verdict` how the check of a file whose data file opened
ends. `none` is the panic of a slice out of range. -/
def auditPassLoop (store : auditStore) (notify : Nat → Option Int) (now : Nat → Int)
    (dataOpens : String → Bool) (verdict : String → auditVerdict) :
    List String → Nat → auditLog → Option (auditLog × auditReturn)
  | [], _, log => some (log, .nil)
  | name :: rest, i, log =>
    match notify i with
    | some action => some (log, .received action)
    | none =>
      match auditSelect store (now i) name with
      | none => none
      | some .badTimestamp =>
        auditPassLoop store notify now dataOpens verdict rest (i + 1)
          { log with errors := log.errors ++ [name] }
      | some .notTOC => auditPassLoop store notify now dataOpens verdict rest (i + 1) log
      | some .current => auditPassLoop store notify now dataOpens verdict rest (i + 1) log
      | some .young => auditPassLoop store notify now dataOpens verdict rest (i + 1) log
      | some (.check _) =>
        match stringDropRight name 3 with
        | none => none
        | some dataName =>
          let log1 : auditLog :=
            { log with checked := log.checked ++ [name],
                       opened := log.opened ++ [pathJoin store.path dataName] }
          if dataOpens (pathJoin store.path dataName) = false then
            some ({ log1 with failed := log1.failed ++ [name] }, .disable)
          else
            let log2 : auditLog :=
              { log1 with opened := log1.opened ++ [pathJoin store.pathtoc name] }
            match verdict name with
            | .notified action => some (log2, .received action)
            | .passed => auditPassLoop store notify now dataOpens verdict rest (i + 1) log2
            | .failed => some ({ log2 with failed := log2.failed ++ [name] }, .disable)

/-- Method `auditPass` once the directory `store.pathtoc` has been listed: `names` is the
result of `Readdirnames(-1)` and `perm` that of `store.rand.Perm(len(names))`. -/
def auditPass (store : auditStore) (names : List String) (perm : List Nat)
    (notify : Nat → Option Int) (now : Nat → Int) (dataOpens : String → Bool)
    (verdict : String → auditVerdict) : Option (auditLog × auditReturn) :=
  match auditShuffle names perm 0 with
  | none => none
  | some shuffled =>
    auditPassLoop store notify now dataOpens verdict shuffled 0
      { errors := [], checked := [], opened := [], failed := [] }

/-- A store for the examples of the audit: data in the default path `.`, TOC files
under `toc/`, active TOC files 7 and 8, and an age threshold of one second. -/
def testAuditStore : auditStore :=
  auditConfig { path := ".", pathtoc := "toc/", activeTOCA := 7, activeTOCB := 8,
                ageThreshold := 0 } 1


/-! ## The goroutines of the writer (`groupstorefile_GEN_.go`) -/

/-- A store-file being written together with the channels `writerChecksumBufChan` and
`writerToDiskBufChan`, taken as FIFO queues, and the local variables `seq` and
`lastWasNil` of the goroutine `writer`; `writerDone` records its send on
`writerDoneChan`. A `none` on `writerToDiskBufChan` is the `nil` buffer. -/
structure writerPipeline where
  fl : groupStoreFile
  writerChecksumBufChan : List groupStoreFileWriteBuf
  writerToDiskBufChan : List (Option groupStoreFileWriteBuf)
  seq : Nat
  lastWasNil : Bool
  writerDone : Bool
deriving DecidableEq, Repr

namespace writerPipeline

/-- The pipeline of a file that `createGroupReadWriteFile` has just returned: both
channels are empty and `writer` is about to enter its loop. -/
def start (fl : groupStoreFile) : writerPipeline :=
  { fl := fl, writerChecksumBufChan := [], writerToDiskBufChan := [], seq := 0,
    lastWasNil := false, writerDone := false }

/-- One iteration of the loop of `writer`. `none` stands for a receive on the empty
channel, which waits for a sender, and for a panic while releasing memblocks. -/
def writerStep (p : writerPipeline) : Option writerPipeline :=
  match p.writerToDiskBufChan with
  | [] => none
  | none :: q =>
    if p.lastWasNil then some { p with writerToDiskBufChan := q, writerDone := true }
    else some { p with writerToDiskBufChan := q ++ [none], lastWasNil := true }
  | some buf :: q =>
    if buf.seq ≠ p.seq then
      some { p with writerToDiskBufChan := q ++ [some buf], lastWasNil := false }
    else
      match p.fl.writer buf with
      | none => none
      | some fl1 =>
        some { p with fl := fl1, writerToDiskBufChan := q, seq := p.seq + 1,
                      lastWasNil := false }

/-- The goroutine `writer` running on its own until it leaves its loop; `fuel` bounds
the number of iterations. -/
def writerLoop : Nat → writerPipeline → Option writerPipeline
  | 0, _ => none
  | fuel + 1, p =>
    match p.writerStep with
    | none => none
    | some p1 => if p1.writerDone then some p1 else writerLoop fuel p1

/-- One iteration of the loop of a `writingChecksummer` on a non-nil buffer. -/
def checksummerStep (p : writerPipeline) : Option writerPipeline :=
  match p.writerChecksumBufChan with
  | [] => none
  | buf :: q =>
    match groupStoreFile.writingChecksummer p.fl.store.checksumInterval buf with
    | none => none
    | some summed =>
      some { p with writerChecksumBufChan := q,
                    writerToDiskBufChan := p.writerToDiskBufChan ++ [some summed] }

/-- The branch of `write` taken when the current buffer is full, while the other
goroutines do not run: the buffer is sent on `writerChecksumBufChan` and the next free
buffer becomes current. `none` also stands for the receive on an empty
`writerFreeBufChan`, which waits for the writer. -/
def rotate (p : writerPipeline) : Option writerPipeline :=
  match p.fl.writerCurrentBuf with
  | none => none
  | some cur =>
    match p.fl.writerFreeBufChan with
    | [] => none
    | next :: free =>
      some { p with
        writerChecksumBufChan := p.writerChecksumBufChan ++ [cur],
        fl := { p.fl with writerFreeBufChan := free,
                          writerCurrentBuf := some { next with seq := cur.seq + 1 } } }

/-- The `for left > 0` loop of `write`, while the other goroutines do not run. -/
def writeLoop (values : List Nat) : Nat → writerPipeline → Nat → Option writerPipeline
  | 0, p, left => if left > 0 then none else some p
  | fuel + 1, p, left =>
    if left > 0 then do
      let cur ← p.fl.writerCurrentBuf
      let (buf, n) ← goCopyInto cur.buf cur.offset p.fl.store.checksumInterval
        (values.drop (values.length - left))
      let p1 : writerPipeline := { p with
        fl := { p.fl with
          writerOffset := u32 (p.fl.writerOffset + n),
          writerCurrentBuf := some { cur with buf := buf, offset := u32 (cur.offset + n) } } }
      let p2 ← if u32 (cur.offset + n) ≥ p.fl.store.checksumInterval then p1.rotate else some p1
      writeLoop values fuel p2 (left - n)
    else some p

/-- Method `write` for a non-nil memblock, while the other goroutines do not run: the
pipeline afterwards and the memblock as updated through the pointer. -/
def write (p : writerPipeline) (memBlock : groupMemBlock) :
    Option (writerPipeline × groupMemBlock) :=
  let mb : groupMemBlock := { memBlock with fileID := p.fl.id, fileOffset := p.fl.writerOffset }
  if mb.values.length < 1 then
    (p.fl.freeMemBlock mb).map (fun fl1 => ({ p with fl := fl1 }, mb))
  else do
    let p1 ← writeLoop mb.values (mb.values.length + 1) p mb.values.length
    let cur ← p1.fl.writerCurrentBuf
    if cur.offset = 0 then
      (p1.fl.freeMemBlock mb).map (fun fl2 => ({ p1 with fl := fl2 }, mb))
    else
      pure ({ p1 with
              fl := { p1.fl with
                      writerCurrentBuf :=
                        some { cur with memBlocks := cur.memBlocks ++ [mb] } } }, mb)

end writerPipeline

/-- A store in the manner of the tests with two workers, and so two page buffers. -/
def testStore2 (checksumInterval : Nat) : DefaultGroupStore :=
  { path := ".", checksumInterval := checksumInterval, workers := 2, fileReaders := 1,
    freeableMemBlockChans := [[]], freeableMemBlockChanCaps := [2], logged := [] }

/-- The file that `createGroupReadWriteFile` returns on `testStore2 64` when the clock
reads 0: the header fills half of the first page and one more buffer is free. -/
def testWriteFile2 : groupStoreFile :=
  { store := testStore2 64, name := "0000000000000000000.group", id := 1, nameTimestamp := 0,
    readerFPs := [{ content := [], pos := 0 }], disk := [], writerOffset := 32,
    writerFreeBufChan := [newWriteBuf (testStore2 64)],
    writerCurrentBuf :=
      some { seq := 0,
             buf := strBytes "GROUPSTORE v0               " ++ [0, 0, 0, 64]
                      ++ List.replicate 36 0,
             offset := 32, memBlocks := [] },
    freeableMemBlockChanIndex := 0 }

/-! # Theorems -/

/-! ## Basic facts -/

/-- Cleaning in `path.Join`: the default path `.` leaves the file name alone, a
trailing or doubled `/` is dropped, and `..` removes the element before it. -/
theorem pathJoin_cleans :
    pathJoin "." "0000000000000012345.group" = "0000000000000012345.group" ∧
    pathJoin "/" "5.group" = "/5.group" ∧
    pathJoin "a/" "5.group" = "a/5.group" ∧
    pathJoin "a//b/./c/.." "5.group" = "a/b/5.group" ∧
    pathJoin "../a" "5.group" = "../a/5.group" ∧
    pathJoin "" "5.group" = "5.group" ∧
    pathJoin "a" "" = "a" ∧
    pathJoin "" "" = "" := by
  decide

theorem goSlice_eq (b : List Nat) (lo hi : Nat) (h1 : lo ≤ hi) (h2 : hi ≤ b.length) :
    goSlice b lo hi = some ((b.take hi).drop lo) := by
  simp [goSlice, h1, h2]

theorem goCopyInto_eq (b : List Nat) (lo hi : Nat) (src : List Nat) (h1 : lo ≤ hi)
    (h2 : hi ≤ b.length) :
    goCopyInto b lo hi src =
      some (b.take lo ++ src.take (min (hi - lo) src.length)
              ++ b.drop (lo + min (hi - lo) src.length), min (hi - lo) src.length) := by
  simp [goCopyInto, h1, h2]

theorem putUint32At_eq (b : List Nat) (pos v : Nat) (h : pos + 4 ≤ b.length) :
    putUint32At b pos v = some (b.take pos ++ be32 v ++ b.drop (pos + 4)) := by
  simp [putUint32At, h]

theorem length_be32 (v : Nat) : (be32 v).length = 4 := rfl

theorem u32_of_lt {n : Nat} (h : n < 4294967296) : u32 n = n := Nat.mod_eq_of_lt h

theorem u32_add_u32 (a b : Nat) : u32 (u32 a + b) = u32 (a + b) := by
  simp [u32, Nat.add_mod]

/-! ## Facts about the framing -/

theorem framePages_append (ci : Nat) (k m : Nat) (P R : List Nat) (hP : P.length = k * ci) :
    framePages ci (k + m) (P ++ R) = framePages ci k P ++ framePages ci m R := by
  induction k generalizing P with
  | zero =>
    have : P = [] := by
      apply List.eq_nil_of_length_eq_zero
      simpa using hP
    subst this
    simp [framePages]
  | succ k ih =>
    have hlen : ci ≤ P.length := by
      rw [hP]; exact Nat.le_mul_of_pos_left ci (Nat.succ_pos k)
    have htake : (P ++ R).take ci = P.take ci := by
      rw [List.take_append_of_le_length hlen]
    have hdrop : (P ++ R).drop ci = P.drop ci ++ R := by
      rw [List.drop_append_of_le_length hlen]
    have hP2 : (P.drop ci).length = k * ci := by
      rw [List.length_drop, hP, Nat.succ_mul]; omega
    rw [Nat.succ_add]
    simp only [framePages, htake, hdrop, ih (P.drop ci) hP2, List.append_assoc]

theorem pageCount_zero (ci : Nat) (h : 0 < ci) : pageCount ci 0 = 0 := by
  unfold pageCount
  apply Nat.div_eq_of_lt
  omega

theorem pageCount_add (ci k r : Nat) (h : 0 < ci) :
    pageCount ci (k * ci + r) = k + pageCount ci r := by
  unfold pageCount
  have : k * ci + r + ci - 1 = (r + ci - 1) + ci * k := by
    rw [Nat.mul_comm]; omega
  rw [this, Nat.add_mul_div_left _ _ h]
  omega

theorem pageCount_small (ci r : Nat) (h0 : 0 < r) (h1 : r ≤ ci) : pageCount ci r = 1 := by
  unfold pageCount
  have h : 0 < ci := by omega
  have e : r + ci - 1 = (r - 1) + ci * 1 := by omega
  rw [e, Nat.add_mul_div_left _ _ h, Nat.div_eq_of_lt (by omega)]

theorem pageCount_large (ci r : Nat) (h0 : 0 < ci) (h1 : ci < r) :
    pageCount ci r = 1 + pageCount ci (r - ci) := by
  have e : r = 1 * ci + (r - ci) := by omega
  conv_lhs => rw [e]
  exact pageCount_add ci 1 (r - ci) h0

theorem pageCount_pos (ci r : Nat) (h0 : 0 < ci) (h1 : 0 < r) : 0 < pageCount ci r := by
  unfold pageCount
  apply Nat.div_pos <;> omega

theorem frame_nil (ci : Nat) (h : 0 < ci) : frame ci [] = [] := by
  simp [frame, pageCount_zero ci h, framePages]

theorem frame_append (ci k : Nat) (P R : List Nat) (h : 0 < ci) (hP : P.length = k * ci) :
    frame ci (P ++ R) = framePages ci k P ++ frame ci R := by
  unfold frame
  rw [List.length_append, hP, pageCount_add ci k R.length h, framePages_append ci k _ P R hP]

theorem frame_small (ci : Nat) (Q : List Nat) (h0 : 0 < Q.length) (h1 : Q.length ≤ ci) :
    frame ci Q = Q ++ be32 (murmur3.Sum32 Q) := by
  unfold frame
  rw [pageCount_small ci Q.length h0 h1]
  simp [framePages, List.take_of_length_le h1]

theorem frame_large (ci : Nat) (X : List Nat) (h0 : 0 < ci) (h1 : ci < X.length) :
    frame ci X = X.take ci ++ be32 (murmur3.Sum32 (X.take ci)) ++ frame ci (X.drop ci) := by
  unfold frame
  rw [pageCount_large ci X.length h0 h1, Nat.add_comm 1, List.length_drop]
  simp [framePages]

theorem frame_step (ci : Nat) (X : List Nat) (h0 : 0 < ci) (h1 : X ≠ []) :
    frame ci X = X.take ci ++ be32 (murmur3.Sum32 (X.take ci)) ++ frame ci (X.drop ci) := by
  have hpos : 0 < X.length := List.length_pos.mpr h1
  by_cases hc : ci < X.length
  · exact frame_large ci X h0 hc
  · have hle : X.length ≤ ci := by omega
    rw [frame_small ci X hpos hle, List.take_of_length_le hle, List.drop_of_length_le hle,
      frame_nil ci h0, List.append_nil]

theorem frameOpen_small (ci : Nat) (Q : List Nat) (h0 : 0 < Q.length) (h1 : Q.length ≤ ci) :
    frameOpen ci Q = Q := by
  unfold frameOpen
  rw [pageCount_small ci Q.length h0 h1]
  simp [framePages]

theorem frameOpen_large (ci : Nat) (X : List Nat) (h0 : 0 < ci) (h1 : ci < X.length) :
    frameOpen ci X = X.take ci ++ be32 (murmur3.Sum32 (X.take ci)) ++ frameOpen ci (X.drop ci) := by
  unfold frameOpen
  have hp : 0 < pageCount ci (X.length - ci) := pageCount_pos ci _ h0 (by omega)
  rw [pageCount_large ci X.length h0 h1, List.length_drop]
  have e1 : 1 + pageCount ci (X.length - ci) - 1 = (pageCount ci (X.length - ci) - 1) + 1 := by
    omega
  rw [e1]
  simp only [framePages, List.append_assoc, List.drop_drop]
  congr 3
  congr 1
  rw [Nat.add_mul]; omega

theorem frameOpen_append (ci k : Nat) (P R : List Nat) (h : 0 < ci) (hP : P.length = k * ci)
    (hR : R ≠ []) : frameOpen ci (P ++ R) = framePages ci k P ++ frameOpen ci R := by
  have hpos : 0 < pageCount ci R.length := pageCount_pos ci _ h (List.length_pos.mpr hR)
  unfold frameOpen
  rw [List.length_append, hP, pageCount_add ci k R.length h]
  have e1 : k + pageCount ci R.length - 1 = k + (pageCount ci R.length - 1) := by omega
  rw [e1, framePages_append ci k _ P R hP, List.append_assoc]
  congr 2
  rw [Nat.add_mul, ← hP, List.drop_append]

theorem length_framePages (ci n : Nat) (s : List Nat) (h : n * ci ≤ s.length) :
    (framePages ci n s).length = n * ci + 4 * n := by
  induction n generalizing s with
  | zero => simp [framePages]
  | succ n ih =>
    have e : (n + 1) * ci = n * ci + ci := by rw [Nat.add_mul, Nat.one_mul]
    rw [e] at h
    have h2 : n * ci ≤ (s.drop ci).length := by rw [List.length_drop]; omega
    simp only [framePages, List.length_append, length_be32, ih _ h2, List.length_take]
    rw [Nat.min_eq_left (by omega), e]
    omega

theorem stripChecksums_framePages (ci k fuel : Nat) (P : List Nat) (h : 0 < ci)
    (hP : P.length = k * ci) (hf : k ≤ fuel) :
    stripChecksums ci fuel (framePages ci k P) = P := by
  induction k generalizing P fuel with
  | zero =>
    have : P = [] := List.eq_nil_of_length_eq_zero (by simpa using hP)
    subst this
    cases fuel <;> simp [framePages, stripChecksums]
  | succ k ih =>
    obtain ⟨fuel, rfl⟩ : ∃ f, fuel = f + 1 := ⟨fuel - 1, by omega⟩
    have hlen : ci ≤ P.length := by
      rw [hP]; exact Nat.le_mul_of_pos_left ci (Nat.succ_pos k)
    have hP2 : (P.drop ci).length = k * ci := by
      rw [List.length_drop, hP, Nat.succ_mul]; omega
    have hne : P.take ci ≠ [] := by
      intro hc
      have := congrArg List.length hc
      rw [List.length_take, Nat.min_eq_left hlen] at this
      simp at this; omega
    have htl : (P.take ci).length = ci := by rw [List.length_take, Nat.min_eq_left hlen]
    simp only [framePages, stripChecksums, List.append_assoc]
    rw [if_neg (by simp [hne])]
    rw [List.take_append_of_le_length (by omega), List.take_of_length_le (by omega)]
    have e : ci + 4 = (P.take ci ++ be32 (murmur3.Sum32 (P.take ci))).length := by
      rw [List.length_append, htl, length_be32]
    rw [← List.append_assoc, e, List.drop_left, ih _ _ hP2 (by omega), List.take_append_drop]

/-! ## Releasing memblocks -/

theorem sendsFit_mono (caps : List Nat) :
    ∀ (k j : Nat) (held : List Nat) (idx : Nat), j ≤ k →
      sendsFit caps k held idx = true → sendsFit caps j held idx = true := by
  intro k
  induction k with
  | zero =>
    intro j held idx hj _
    have : j = 0 := by omega
    subst this
    rfl
  | succ k ih =>
    intro j held idx hj h
    cases j with
    | zero => rfl
    | succ j =>
      simp only [sendsFit, Bool.and_eq_true, decide_eq_true_eq] at h ⊢
      exact ⟨h.1, ih j _ _ (by omega) h.2⟩

theorem hasRoom_mono (fl : groupStoreFile) {j k : Nat} (h : j ≤ k)
    (hr : fl.hasRoom k) : fl.hasRoom j :=
  sendsFit_mono _ k j _ _ h hr

theorem getD_map_length (chans : List (List groupMemBlock)) (i : Nat) :
    (chans.map List.length).getD i 0 = (chans.getD i []).length := by
  rw [List.getD_eq_getElem?_getD, List.getD_eq_getElem?_getD, List.getElem?_map]
  cases chans[i]? <;> rfl

theorem map_length_modify (m : groupMemBlock) :
    ∀ (chans : List (List groupMemBlock)) (n : Nat),
      (List.modify (fun c => c ++ [m]) n chans).map List.length
        = List.modify (fun k => k + 1) n (chans.map List.length) := by
  intro chans
  induction chans with
  | nil => intro n; cases n <;> rfl
  | cons c cs ih =>
    intro n
    cases n with
    | zero => simp [List.modify_zero_cons]
    | succ n => simp [List.modify_succ_cons, ih]

/-- With one channel, as in the repository's tests, `k` releases find room exactly when
the channel has room for `k` more memblocks. -/
theorem sendsFit_one_channel (cap : Nat) :
    ∀ (k held : Nat), held ≤ cap → (sendsFit [cap] k [held] 0 = true ↔ held + k ≤ cap) := by
  intro k
  induction k with
  | zero => intro held h; simp [sendsFit, h]
  | succ k ih =>
    intro held h
    simp only [sendsFit, List.length_singleton, Nat.lt_one_iff, decide_True, Bool.true_and,
      List.getD_cons_zero, Bool.and_eq_true, decide_eq_true_eq, ge_iff_le, Nat.le_refl,
      if_true, List.modify_zero_cons, List.modifyHead_cons]
    constructor
    · rintro ⟨h1, h2⟩
      have := (ih (held + 1) (by omega)).mp h2
      omega
    · intro h1
      exact ⟨by omega, (ih (held + 1) (by omega)).mpr (by omega)⟩

/-- A release that has room returns, and leaves room for the releases after it. -/
theorem freeMemBlock_spec (fl : groupStoreFile) (m : groupMemBlock) (k : Nat)
    (hr : fl.hasRoom (k + 1)) :
    ∃ fl1, fl.freeMemBlock m = some fl1 ∧ Kept fl fl1 ∧ fl1.hasRoom k := by
  unfold groupStoreFile.hasRoom at hr
  simp only [sendsFit, Bool.and_eq_true, decide_eq_true_eq, List.length_map] at hr
  obtain ⟨⟨h, h2⟩, h3⟩ := hr
  rw [getD_map_length] at h2
  unfold groupStoreFile.freeMemBlock
  rw [if_pos h, if_pos h2]
  refine ⟨_, rfl, ⟨rfl, rfl, rfl, rfl, rfl, rfl, ?_⟩, ?_⟩
  · show (if _ then 0 else _) < (List.modify _ _ _).length
    rw [List.length_modify]
    split
    · omega
    · rename_i h2
      exact Nat.lt_of_not_le h2
  · show sendsFit fl.store.freeableMemBlockChanCaps k
        ((List.modify (fun c => c ++ [m]) fl.freeableMemBlockChanIndex
          fl.store.freeableMemBlockChans).map List.length)
        (if fl.freeableMemBlockChanIndex + 1 ≥ fl.store.freeableMemBlockChans.length then 0
         else fl.freeableMemBlockChanIndex + 1) = true
    rw [map_length_modify]
    exact h3

theorem freeMemBlocks_spec (ms : List groupMemBlock) (fl : groupStoreFile) (k : Nat)
    (h : fl.freeableMemBlockChanIndex < fl.store.freeableMemBlockChans.length)
    (hr : fl.hasRoom (ms.length + k)) :
    ∃ fl1, fl.freeMemBlocks ms = some fl1 ∧ Kept fl fl1 ∧ fl1.hasRoom k := by
  induction ms generalizing fl with
  | nil =>
    exact ⟨fl, rfl, ⟨rfl, rfl, rfl, rfl, rfl, rfl, h⟩,
      hasRoom_mono _ (by simp) hr⟩
  | cons m ms ih =>
    obtain ⟨fl1, h1, k1, r1⟩ := freeMemBlock_spec fl m (ms.length + k)
      (hasRoom_mono _ (by simp only [List.length_cons]; omega) hr)
    obtain ⟨fl2, h2, k2, r2⟩ := ih fl1 k1.chans r1
    refine ⟨fl2, by simp [groupStoreFile.freeMemBlocks, h1, h2], ?_, r2⟩
    exact ⟨k2.disk.trans k1.disk, k2.cur.trans k1.cur, k2.free.trans k1.free,
      k2.woff.trans k1.woff, k2.id.trans k1.id, k2.ci.trans k1.ci, k2.chans⟩

theorem Roomy.mono {fl : groupStoreFile} {j k : Nat} (h : j ≤ k) (r : Roomy fl k) :
    Roomy fl j :=
  ⟨fun c hc => hasRoom_mono _ (by omega) (r.cur c hc), r.free⟩

theorem Roomy.after_release {fl fl1 : groupStoreFile} {j : Nat} (k : Kept fl fl1)
    (free : ∀ b ∈ fl.writerFreeBufChan, b.memBlocks = [])
    (hr : ∀ c, fl.writerCurrentBuf = some c → fl1.hasRoom (c.memBlocks.length + j)) :
    Roomy fl1 j :=
  ⟨fun c hc => hr c (by rw [← k.cur]; exact hc), fun b hb => free b (by rw [← k.free]; exact hb)⟩

theorem Writing.of_kept {fl fl1 : groupStoreFile} {P Q : List Nat} (w : Writing fl P Q)
    (k : Kept fl fl1) : Writing fl1 P Q := by
  obtain ⟨⟨cp, cu, ⟨c, hc1, hc2, hc3, hc4⟩, fi⟩, ch, fr, ⟨n, hn1, hn2⟩, wo⟩ := w
  refine ⟨⟨by rw [k.ci]; exact cp, by rw [k.ci]; exact cu,
    ⟨c, by rw [k.cur]; exact hc1, by rw [k.ci]; exact hc2, hc3, hc4⟩, by rw [k.ci]; exact fi⟩,
    k.chans, ?_, ⟨n, by rw [k.ci]; exact hn1, by rw [k.ci, k.disk]; exact hn2⟩,
    by rw [k.woff]; exact wo⟩
  intro b hb
  rw [k.free] at hb
  rw [k.ci]
  exact fr b hb

/-! ## Rotation of the current buffer -/

theorem writingChecksummer_full (ci : Nat) (c : groupStoreFileWriteBuf) (Q : List Nat)
    (hlen : c.buf.length = ci + 4) (hQ : Q.length = ci) (hc : c.buf.take Q.length = Q) :
    groupStoreFile.writingChecksummer ci c =
      some { c with buf := Q ++ be32 (murmur3.Sum32 Q) } := by
  have h1 : goSlice c.buf 0 ci = some Q := by
    rw [goSlice_eq _ _ _ (Nat.zero_le _) (by omega), ← hQ, hc]; rfl
  have h2 : ∀ v, putUint32At c.buf ci v = some (Q ++ be32 v) := by
    intro v
    rw [putUint32At_eq _ _ _ (by omega), ← hQ, hc, List.drop_of_length_le (by omega),
      List.append_nil]
  simp [groupStoreFile.writingChecksummer, h1, h2]

theorem rotate_spec (fl : groupStoreFile) (P Q : List Nat) (w : Writing fl P Q)
    (hQ : Q.length = fl.store.checksumInterval) (j : Nat) (r : Roomy fl j) :
    ∃ fl1, fl.rotate = some fl1 ∧ Writing fl1 (P ++ Q) [] ∧ fl1.id = fl.id ∧
      fl1.store.checksumInterval = fl.store.checksumInterval ∧ Roomy fl1 j := by
  obtain ⟨⟨cp, cu, ⟨c, hc1, hc2, hc3, hc4⟩, fi⟩, ch, fr, ⟨n, hn1, hn2⟩, wo⟩ := w
  have hsum := writingChecksummer_full fl.store.checksumInterval c Q hc2 hQ hc4
  obtain ⟨fl2, h2, k2, r2⟩ := freeMemBlocks_spec c.memBlocks
    { fl with disk := fl.disk ++ (Q ++ be32 (murmur3.Sum32 Q)) } j ch (r.cur c hc1)
  have r2b : fl2.hasRoom (0 + j) := by rw [Nat.zero_add]; exact r2
  have hw : groupStoreFile.writer fl { c with buf := Q ++ be32 (murmur3.Sum32 Q) } =
      some { fl2 with writerFreeBufChan := fl2.writerFreeBufChan ++
        [{ c with buf := Q ++ be32 (murmur3.Sum32 Q), memBlocks := [], offset := 0 }] } := by
    simp [groupStoreFile.writer, h2]
  have hdisk : fl2.disk = framePages fl.store.checksumInterval (n + 1) (P ++ Q) := by
    rw [k2.disk, framePages_append _ n 1 P Q hn1]
    show fl.disk ++ _ = _
    rw [hn2]
    simp [framePages, ← hQ]
  have hpages : (P ++ Q).length = (n + 1) * fl.store.checksumInterval := by
    rw [List.length_append, hn1, hQ, Nat.add_mul, Nat.one_mul]
  have hwo : fl2.writerOffset = u32 ((P ++ Q).length + ([] : List Nat).length) := by
    rw [k2.woff]
    show fl.writerOffset = _
    rw [wo, List.length_append]; rfl
  have hfree2 : fl2.writerFreeBufChan = fl.writerFreeBufChan := k2.free
  have hci2 : fl2.store.checksumInterval = fl.store.checksumInterval := k2.ci
  have hid2 : fl2.id = fl.id := k2.id
  have hblen : (Q ++ be32 (murmur3.Sum32 Q)).length = fl.store.checksumInterval + 4 := by
    rw [List.length_append, hQ, length_be32]
  cases hf : fl.writerFreeBufChan with
  | nil =>
    refine ⟨{ fl2 with
        writerFreeBufChan := [],
        writerCurrentBuf := (some { c with buf := Q ++ be32 (murmur3.Sum32 Q), memBlocks := [],
                                           offset := 0, seq := c.seq + 1 }) },
      ?_, ?_, hid2, hci2, ?_⟩
    · simp [groupStoreFile.rotate, hc1, hsum, hw, hfree2, hf]
    · refine ⟨⟨by rw [hci2]; exact cp, by rw [hci2]; exact cu,
        ⟨_, rfl, by rw [hci2]; exact hblen, rfl, rfl⟩, Nat.zero_le _⟩, k2.chans, ?_,
        ⟨n + 1, by rw [hci2]; exact hpages, by rw [hci2]; exact hdisk⟩, hwo⟩
      intro b hb
      exact absurd hb (List.not_mem_nil b)
    · refine ⟨?_, fun b hb => absurd hb (List.not_mem_nil b)⟩
      intro c1 hc
      cases hc
      exact r2b
  | cons nx rest =>
    have hnx := fr nx (by rw [hf]; exact List.mem_cons_self _ _)
    refine ⟨{ fl2 with
        writerFreeBufChan := (rest ++
          [{ c with buf := Q ++ be32 (murmur3.Sum32 Q), memBlocks := [], offset := 0 }]),
        writerCurrentBuf := (some { nx with seq := c.seq + 1 }) },
      ?_, ?_, hid2, hci2, ?_⟩
    · simp [groupStoreFile.rotate, hc1, hsum, hw, hfree2, hf]
    · refine ⟨⟨by rw [hci2]; exact cp, by rw [hci2]; exact cu,
        ⟨_, rfl, by rw [hci2]; exact hnx.1, hnx.2, rfl⟩, Nat.zero_le _⟩, k2.chans, ?_,
        ⟨n + 1, by rw [hci2]; exact hpages, by rw [hci2]; exact hdisk⟩, hwo⟩
      intro b hb
      show b.buf.length = fl2.store.checksumInterval + 4 ∧ b.offset = 0
      rw [hci2]
      rcases List.mem_append.mp hb with hb1 | hb1
      · exact fr b (by rw [hf]; exact List.mem_cons_of_mem _ hb1)
      · rw [List.mem_singleton] at hb1
        subst hb1
        exact ⟨hblen, rfl⟩
    · have hnx0 : nx.memBlocks = [] := r.free nx (by rw [hf]; exact List.mem_cons_self _ _)
      refine ⟨?_, ?_⟩
      · intro c1 hc
        cases hc
        show fl2.hasRoom (nx.memBlocks.length + j)
        rw [hnx0]
        exact r2b
      · intro b hb
        rcases List.mem_append.mp hb with hb1 | hb1
        · exact r.free b (by rw [hf]; exact List.mem_cons_of_mem _ hb1)
        · rw [List.mem_singleton] at hb1
          subst hb1
          rfl

/-! ## The copy loop of `write` -/

theorem writeLoop_spec (values : List Nat) (fuel j : Nat) :
    ∀ (fl : groupStoreFile) (P Q : List Nat) (left : Nat), Writing fl P Q → Roomy fl j →
      left ≤ values.length →
      (left + 1 ≤ fuel ∨ (left ≤ fuel ∧ Q.length < fl.store.checksumInterval)) →
      ∃ fl1 P1 Q1, groupStoreFile.writeLoop values fuel fl left = some fl1 ∧
        Writing fl1 P1 Q1 ∧
        P1 ++ Q1 = P ++ Q ++ values.drop (values.length - left) ∧ fl1.id = fl.id ∧
        fl1.store.checksumInterval = fl.store.checksumInterval ∧ Roomy fl1 j := by
  induction fuel with
  | zero =>
    intro fl P Q left w r _ hf
    have h0 : left = 0 := by omega
    subst h0
    exact ⟨fl, P, Q, by simp [groupStoreFile.writeLoop], w, by simp, rfl, rfl, r⟩
  | succ fuel ih =>
    intro fl P Q left w r hl hf
    by_cases h0 : left = 0
    · subst h0
      exact ⟨fl, P, Q, by simp [groupStoreFile.writeLoop], w, by simp, rfl, rfl, r⟩
    have hpos : left > 0 := Nat.pos_of_ne_zero h0
    obtain ⟨⟨cp, cu, ⟨c, hc1, hc2, hc3, hc4⟩, fi⟩, ch, fr, ⟨k, hk1, hk2⟩, wo⟩ := w
    -- the bytes still to be copied and the number copied in this round
    have hrest : (values.drop (values.length - left)).length = left := by
      rw [List.length_drop]; omega
    have hcopy : goCopyInto c.buf c.offset fl.store.checksumInterval
        (values.drop (values.length - left)) =
        some (c.buf.take Q.length ++
                (values.drop (values.length - left)).take
                  (min (fl.store.checksumInterval - Q.length) left)
                ++ c.buf.drop (Q.length + min (fl.store.checksumInterval - Q.length) left),
              min (fl.store.checksumInterval - Q.length) left) := by
      rw [goCopyInto_eq _ _ _ _ (by omega) (by omega), hrest, hc3]
    have hn : min (fl.store.checksumInterval - Q.length) left ≤ left := Nat.min_le_right _ _
    have hn2 : min (fl.store.checksumInterval - Q.length) left ≤
        fl.store.checksumInterval - Q.length := Nat.min_le_left _ _
    generalize hnd : min (fl.store.checksumInterval - Q.length) left = n at hcopy hn hn2
    have hoff : u32 (c.offset + n) = Q.length + n := by
      rw [hc3]; exact u32_of_lt (by omega)
    have htk : ((values.drop (values.length - left)).take n).length = n := by
      rw [List.length_take, hrest]; exact Nat.min_eq_left hn
    -- the file after the copy
    have w1 : Writing
        { fl with
          writerOffset := u32 (fl.writerOffset + n),
          writerCurrentBuf := (some { c with
            buf := c.buf.take Q.length ++ (values.drop (values.length - left)).take n
              ++ c.buf.drop (Q.length + n),
            offset := u32 (c.offset + n) }) }
        P (Q ++ (values.drop (values.length - left)).take n) := by
      refine ⟨⟨cp, cu, ⟨_, rfl, ?_, ?_, ?_⟩, ?_⟩, ch, fr, ⟨k, hk1, hk2⟩, ?_⟩
      · show List.length (_ ++ _ ++ _) = fl.store.checksumInterval + 4
        simp only [List.length_append, List.length_take, List.length_drop, htk, hc2]
        omega
      · show u32 (c.offset + n) = _
        rw [hoff, List.length_append, htk]
      · show List.take _ (_ ++ _ ++ _) = _
        rw [hc4, List.take_left]
      · show List.length (_ ++ _) ≤ fl.store.checksumInterval
        rw [List.length_append, htk]; omega
      · show u32 (fl.writerOffset + n) = _
        rw [wo, u32_add_u32, List.length_append, htk, Nat.add_assoc]
    have r1 : Roomy
        { fl with
          writerOffset := u32 (fl.writerOffset + n),
          writerCurrentBuf := (some { c with
            buf := c.buf.take Q.length ++ (values.drop (values.length - left)).take n
              ++ c.buf.drop (Q.length + n),
            offset := u32 (c.offset + n) }) } j := by
      refine ⟨?_, r.free⟩
      intro c1 hc
      cases hc
      exact r.cur c hc1
    -- the rotation, when the buffer is full
    have hrot : ∃ fl2 P2 Q2,
        ((u32 (c.offset + n) ≥ fl.store.checksumInterval ∧
          groupStoreFile.rotate
            { fl with
              writerOffset := u32 (fl.writerOffset + n),
              writerCurrentBuf := (some { c with
                buf := c.buf.take Q.length ++ (values.drop (values.length - left)).take n
                  ++ c.buf.drop (Q.length + n),
                offset := u32 (c.offset + n) }) } = some fl2) ∨
         (¬ u32 (c.offset + n) ≥ fl.store.checksumInterval ∧
          fl2 = { fl with
              writerOffset := u32 (fl.writerOffset + n),
              writerCurrentBuf := (some { c with
                buf := c.buf.take Q.length ++ (values.drop (values.length - left)).take n
                  ++ c.buf.drop (Q.length + n),
                offset := u32 (c.offset + n) }) })) ∧
        Writing fl2 P2 Q2 ∧
        P2 ++ Q2 = P ++ (Q ++ (values.drop (values.length - left)).take n) ∧
        Q2.length < fl.store.checksumInterval ∧ fl2.id = fl.id ∧
        fl2.store.checksumInterval = fl.store.checksumInterval ∧ Roomy fl2 j := by
      by_cases hfull : u32 (c.offset + n) ≥ fl.store.checksumInterval
      · have hfull2 := hfull
        rw [hoff] at hfull2
        obtain ⟨fl2, e2, w2, i2, c2, r2⟩ := rotate_spec _ P _ w1
          (by show List.length (_ ++ _) = fl.store.checksumInterval
              rw [List.length_append, htk]; omega) j r1
        exact ⟨fl2, _, [], Or.inl ⟨hfull, e2⟩, w2, by simp, cp, i2, c2, r2⟩
      · have hfull2 := hfull
        rw [hoff] at hfull2
        exact ⟨_, P, _, Or.inr ⟨hfull, rfl⟩, w1, rfl,
          by rw [List.length_append, htk]; omega, rfl, rfl, r1⟩
    obtain ⟨fl2, P2, Q2, e2, w2, hPQ, hQ2, i2, c2, r2⟩ := hrot
    have hleft : left - n ≤ fuel := by
      rcases hf with hf | ⟨hf, hq⟩
      · omega
      · have : 0 < n := by
          rw [← hnd]; exact Nat.lt_min.mpr ⟨by omega, hpos⟩
        omega
    obtain ⟨fl3, P3, Q3, e3, w3, hPQ3, i3, c3, r3⟩ :=
      ih fl2 P2 Q2 (left - n) w2 r2 (by omega) (Or.inr ⟨hleft, by rw [c2]; exact hQ2⟩)
    refine ⟨fl3, P3, Q3, ?_, w3, ?_, i3.trans i2, c3.trans c2, r3⟩
    · rcases e2 with ⟨hfull, e2⟩ | ⟨hfull, e2⟩
      · simp only [groupStoreFile.writeLoop, if_pos hpos, hc1, Option.bind_eq_bind,
          Option.some_bind, hcopy, hnd, if_pos hfull, e2]
        exact e3
      · subst e2
        simp only [groupStoreFile.writeLoop, if_pos hpos, hc1, Option.bind_eq_bind,
          Option.some_bind, hcopy, hnd, if_neg hfull]
        exact e3
    · rw [hPQ3, hPQ]
      have e : values.length - (left - n) = (values.length - left) + n := by omega
      rw [e, ← List.drop_drop]
      simp only [List.append_assoc]
      rw [List.take_append_drop]

/-! ## `write`, runs of `write`, and creation -/

theorem Writing.with_memBlocks {fl : groupStoreFile} {P Q : List Nat} (w : Writing fl P Q)
    (c : groupStoreFileWriteBuf) (hc : fl.writerCurrentBuf = some c) (mbs : List groupMemBlock) :
    Writing { fl with writerCurrentBuf := (some { c with memBlocks := mbs }) } P Q := by
  obtain ⟨⟨cp, cu, ⟨c1, hc1, hc2, hc3, hc4⟩, fi⟩, ch, fr, pg, wo⟩ := w
  rw [hc] at hc1
  cases hc1
  exact ⟨⟨cp, cu, ⟨_, rfl, hc2, hc3, hc4⟩, fi⟩, ch, fr, pg, wo⟩

theorem write_spec (fl : groupStoreFile) (P Q : List Nat) (m : groupMemBlock)
    (w : Writing fl P Q) (j : Nat) (r : Roomy fl (j + 1)) :
    ∃ fl1 P1 Q1,
      fl.write m = some (fl1, { m with fileID := fl.id, fileOffset := fl.writerOffset }) ∧
      Writing fl1 P1 Q1 ∧ P1 ++ Q1 = P ++ Q ++ m.values ∧ fl1.id = fl.id ∧
      fl1.store.checksumInterval = fl.store.checksumInterval ∧ Roomy fl1 j := by
  by_cases hv : m.values.length < 1
  · have hnil : m.values = [] := List.eq_nil_of_length_eq_zero (by omega)
    obtain ⟨c, hc1, -⟩ := w.curBuf.cur
    obtain ⟨fl1, e1, k1, q1⟩ := freeMemBlock_spec fl
      { m with fileID := fl.id, fileOffset := fl.writerOffset } (c.memBlocks.length + j)
      (r.cur c hc1)
    refine ⟨fl1, P, Q, ?_, w.of_kept k1, by simp [hnil], k1.id, k1.ci, ?_⟩
    · simp [groupStoreFile.write, hv, e1]
    · refine Roomy.after_release k1 r.free ?_
      intro c1 hc
      rw [hc1] at hc
      cases hc
      exact q1
  · obtain ⟨fl1, P1, Q1, e1, w1, hPQ, i1, c1, r1⟩ :=
      writeLoop_spec m.values (m.values.length + 1) (j + 1) fl P Q m.values.length w r
        (Nat.le_refl _) (Or.inl (Nat.le_refl _))
    rw [Nat.sub_self, List.drop_zero] at hPQ
    obtain ⟨c, hc1, hc2, hc3, hc4⟩ := w1.curBuf.cur
    by_cases ho : c.offset = 0
    · obtain ⟨fl2, e2, k2, q2⟩ := freeMemBlock_spec fl1
        { m with fileID := fl.id, fileOffset := fl.writerOffset } (c.memBlocks.length + j)
        (r1.cur c hc1)
      refine ⟨fl2, P1, Q1, ?_, w1.of_kept k2, hPQ, k2.id.trans i1, k2.ci.trans c1, ?_⟩
      · simp [groupStoreFile.write, hv, e1, hc1, ho, e2]
      · refine Roomy.after_release k2 r1.free ?_
        intro c2 hc
        rw [hc1] at hc
        cases hc
        exact q2
    · refine ⟨_, P1, Q1, ?_, w1.with_memBlocks c hc1
        (c.memBlocks ++ [{ m with fileID := fl.id, fileOffset := fl.writerOffset }]),
        hPQ, i1, c1, ?_⟩
      · simp [groupStoreFile.write, hv, e1, hc1, ho]
      · refine ⟨?_, r1.free⟩
        intro c2 hc
        cases hc
        refine hasRoom_mono _ ?_ (r1.cur c hc1)
        simp only [List.length_append, List.length_singleton]
        omega

theorem writeAll_spec (ms : List groupMemBlock) (j : Nat) :
    ∀ (fl : groupStoreFile) (P Q : List Nat), Writing fl P Q → Roomy fl (ms.length + j) →
      ∃ fl1 P1 Q1,
        fl.writeAll ms = some (fl1, stamped fl.id (P.length + Q.length) ms) ∧
        Writing fl1 P1 Q1 ∧ P1 ++ Q1 = P ++ Q ++ allValues ms ∧ fl1.id = fl.id ∧
        fl1.store.checksumInterval = fl.store.checksumInterval ∧ Roomy fl1 j := by
  induction ms with
  | nil =>
    intro fl P Q w r
    exact ⟨fl, P, Q, rfl, w, by simp [allValues], rfl, rfl, r.mono (by simp)⟩
  | cons m ms ih =>
    intro fl P Q w r
    obtain ⟨fl1, P1, Q1, e1, w1, hPQ1, i1, c1, r1⟩ := write_spec fl P Q m w (ms.length + j)
      (r.mono (by simp only [List.length_cons]; omega))
    obtain ⟨fl2, P2, Q2, e2, w2, hPQ2, i2, c2, r2⟩ := ih fl1 P1 Q1 w1 r1
    refine ⟨fl2, P2, Q2, ?_, w2, ?_, i2.trans i1, c2.trans c1, r2⟩
    · have hlen : P1.length + Q1.length = P.length + Q.length + m.values.length := by
        have := congrArg List.length hPQ1
        simp only [List.length_append] at this
        omega
      simp only [groupStoreFile.writeAll, e1, Option.bind_eq_bind, Option.some_bind, e2,
        stamped, i1, hlen, w.woff]
      rfl
    · rw [hPQ2, hPQ1]
      simp [allValues]

theorem length_fileHead (magic : String) (ci : Nat) (hm : 28 ≤ (strBytes magic).length) :
    (fileHead magic ci).length = 32 := by
  simp only [fileHead, List.length_append, List.length_take, length_be32]
  omega

theorem create_spec {σ : Type} (magic ext : String) (store : DefaultGroupStore) (now : Int)
    (cw : String → Except GoError Unit) (ors : String → Except GoError (List Nat))
    (alb : σ → Except GoError Nat × σ) (reg reg1 : σ) (fl : groupStoreFile)
    (h : createReadWriteFile magic ext store now cw ors alb reg = some (.ok fl, reg1))
    (hm : 28 ≤ (strBytes magic).length)
    (hci : 32 ≤ store.checksumInterval) (hci4 : store.checksumInterval + 4 < 4294967296)
    (hch : 0 < store.freeableMemBlockChans.length) (j : Nat) (hroom : store.hasRoom j) :
    Writing fl [] (fileHead magic store.checksumInterval) ∧ fl.store = store ∧
      Roomy fl j := by
  have hhead := length_fileHead magic store.checksumInterval hm
  unfold createReadWriteFile at h
  simp only at h
  split at h
  · simp at h
  · split at h
    · simp at h
    · rename_i cur free hbufs
      split at h
      · simp at h
      · rename_i readers hreaders
        split at h
        · simp at h
        · rename_i id reg2 hadd
          simp only [Option.some.injEq, Prod.mk.injEq, Except.ok.injEq] at h
          obtain ⟨hfl, -⟩ := h
          subst hfl
          have hcur : cur = newWriteBuf store := by
            have hmem : cur ∈ newFreeBufs store := by rw [hbufs]; exact List.mem_cons_self _ _
            exact List.eq_of_mem_replicate hmem
          have hfree : ∀ b ∈ free, b = newWriteBuf store := by
            intro b hb
            have hmem : b ∈ newFreeBufs store := by rw [hbufs]; exact List.mem_cons_of_mem _ hb
            exact List.eq_of_mem_replicate hmem
          have hu : u32 (store.checksumInterval + 4) = store.checksumInterval + 4 :=
            u32_of_lt hci4
          subst hcur
          simp only [newWriteBuf, List.length_replicate, hu, hhead]
          have hmin : min (store.checksumInterval + 4) 32 = 32 := by omega
          rw [hmin]
          refine ⟨⟨⟨by show 0 < store.checksumInterval; omega, hci4, ⟨_, rfl, ?_, ?_, ?_⟩, ?_⟩,
            hch, ?_, ⟨0, by simp, rfl⟩, ?_⟩, trivial, ⟨?_, ?_⟩⟩
          · show List.length (_ ++ _) = store.checksumInterval + 4
            simp only [List.length_append, List.length_take, List.length_drop,
              List.length_replicate, hhead]
            omega
          · show u32 32 = _
            rw [hhead]; rfl
          · show List.take _ (_ ++ _) = _
            rw [hhead, ← hhead, List.take_length, List.take_left]
          · show (fileHead magic store.checksumInterval).length ≤ store.checksumInterval
            omega
          · intro b hb
            rw [hfree b hb]
            refine ⟨?_, rfl⟩
            show List.length (List.replicate _ 0) = store.checksumInterval + 4
            rw [List.length_replicate, hu]
          · show u32 32 = _
            rw [hhead]; rfl
          · intro c1 hc
            cases hc
            show store.hasRoom (0 + j)
            rw [Nat.zero_add]
            exact hroom
          · intro b hb
            rw [hfree b hb]
            rfl

/-! ## The trailer loops -/

theorem strBytes_TERM : strBytes "TERM" = [84, 69, 82, 77] := by decide

theorem strBytes_TERM_v0 : strBytes "TERM v0 " = [84, 69, 82, 77, 32, 118, 48, 32] := by decide

theorem length_be64 (v : Nat) : (be64 v).length = 8 := rfl

theorem length_term (x : Nat) : (valueFile.term x).length = 16 := by
  simp [valueFile.term, length_be64, strBytes_TERM]

theorem take_drop_fill (ci : Nat) (Q rest : List Nat) (hQ : Q.length ≤ ci) :
    (Q ++ rest).take ci = Q ++ rest.take (min (ci - Q.length) rest.length) ∧
    (Q ++ rest).drop ci = rest.drop (min (ci - Q.length) rest.length) := by
  rw [List.take_append_eq_append_take, List.drop_append_eq_append_drop,
    List.take_of_length_le hQ, List.drop_of_length_le hQ, List.nil_append]
  by_cases h : ci - Q.length ≤ rest.length
  · rw [Nat.min_eq_left h]; exact ⟨rfl, rfl⟩
  · have h2 : rest.length ≤ ci - Q.length := by omega
    rw [Nat.min_eq_right h2, List.take_of_length_le h2, List.drop_of_length_le h2,
      List.take_of_length_le (Nat.le_refl _), List.drop_of_length_le (Nat.le_refl _)]
    exact ⟨rfl, rfl⟩

theorem valueCloseLoop_spec (t : List Nat) (fuel : Nat) :
    ∀ (fl : groupStoreFile) (Q : List Nat) (left : Nat), CurBuf fl Q → left ≤ t.length →
      (left + 1 ≤ fuel ∨ (left ≤ fuel ∧ Q.length < fl.store.checksumInterval)) →
      ∃ fl1, valueFile.closeWritingLoop t fuel fl left = some fl1 ∧
        fl1.disk = fl.disk ++
          (if left = 0 then [] else
            frame fl.store.checksumInterval (Q ++ t.drop (t.length - left))) ∧
        fl1.store = fl.store ∧
        fl1.freeableMemBlockChanIndex = fl.freeableMemBlockChanIndex ∧
        ∃ c c1, fl.writerCurrentBuf = some c ∧ fl1.writerCurrentBuf = some c1 ∧
          c1.memBlocks = c.memBlocks := by
  induction fuel with
  | zero =>
    intro fl Q left w _ hf
    have h0 : left = 0 := by omega
    subst h0
    obtain ⟨c, hc1, -⟩ := w.cur
    exact ⟨fl, by simp [valueFile.closeWritingLoop], by simp, rfl, rfl, c, c, hc1, hc1, rfl⟩
  | succ fuel ih =>
    intro fl Q left w hl hf
    obtain ⟨cp, cu, ⟨c, hc1, hc2, hc3, hc4⟩, fi⟩ := w
    by_cases h0 : left = 0
    · subst h0
      exact ⟨fl, by simp [valueFile.closeWritingLoop], by simp, rfl, rfl, c, c, hc1, hc1, rfl⟩
    have hpos : left > 0 := Nat.pos_of_ne_zero h0
    have hrest : (t.drop (t.length - left)).length = left := by
      rw [List.length_drop]; omega
    have hcopy : goCopyInto c.buf c.offset fl.store.checksumInterval
        (t.drop (t.length - left)) =
        some (c.buf.take Q.length ++
                (t.drop (t.length - left)).take
                  (min (fl.store.checksumInterval - Q.length) left)
                ++ c.buf.drop (Q.length + min (fl.store.checksumInterval - Q.length) left),
              min (fl.store.checksumInterval - Q.length) left) := by
      rw [goCopyInto_eq _ _ _ _ (by omega) (by omega), hrest, hc3]
    obtain ⟨htake, hdrop⟩ := take_drop_fill fl.store.checksumInterval Q
      (t.drop (t.length - left)) fi
    rw [hrest] at htake hdrop
    have hn : min (fl.store.checksumInterval - Q.length) left ≤ left := Nat.min_le_right _ _
    have hn2 : min (fl.store.checksumInterval - Q.length) left ≤
        fl.store.checksumInterval - Q.length := Nat.min_le_left _ _
    generalize hnd : min (fl.store.checksumInterval - Q.length) left = n
      at hcopy hn hn2 htake hdrop
    have hoff : u32 (c.offset + n) = Q.length + n := by
      rw [hc3]; exact u32_of_lt (by omega)
    have hoff4 : u32 (Q.length + n + 4) = Q.length + n + 4 := u32_of_lt (by omega)
    have htk : ((t.drop (t.length - left)).take n).length = n := by
      rw [List.length_take, hrest]; exact Nat.min_eq_left hn
    -- the buffer after the copy, its filled part, and the buffer with the checksum
    have hblen : (c.buf.take Q.length ++ (t.drop (t.length - left)).take n
        ++ c.buf.drop (Q.length + n)).length = fl.store.checksumInterval + 4 := by
      simp only [List.length_append, List.length_take, List.length_drop, htk, hc2]
      omega
    have hfilled : (c.buf.take Q.length ++ (t.drop (t.length - left)).take n
        ++ c.buf.drop (Q.length + n)).take (Q.length + n) =
        Q ++ (t.drop (t.length - left)).take n := by
      rw [hc4]
      have e : Q.length + n = (Q ++ (t.drop (t.length - left)).take n).length := by
        rw [List.length_append, htk]
      rw [e, List.take_left]
    have hpage : goSlice (c.buf.take Q.length ++ (t.drop (t.length - left)).take n
        ++ c.buf.drop (Q.length + n)) 0 (Q.length + n) =
        some (Q ++ (t.drop (t.length - left)).take n) := by
      rw [goSlice_eq _ _ _ (Nat.zero_le _) (by rw [hblen]; omega), hfilled]; rfl
    have hput : ∀ v, putUint32At (c.buf.take Q.length ++ (t.drop (t.length - left)).take n
        ++ c.buf.drop (Q.length + n)) (Q.length + n) v =
        some (Q ++ (t.drop (t.length - left)).take n ++ be32 v ++
          (c.buf.take Q.length ++ (t.drop (t.length - left)).take n
            ++ c.buf.drop (Q.length + n)).drop (Q.length + n + 4)) := by
      intro v
      rw [putUint32At_eq _ _ _ (by rw [hblen]; omega), hfilled]
    have hb1len : ∀ v, (Q ++ (t.drop (t.length - left)).take n ++ be32 v ++
          (c.buf.take Q.length ++ (t.drop (t.length - left)).take n
            ++ c.buf.drop (Q.length + n)).drop (Q.length + n + 4)).length =
        fl.store.checksumInterval + 4 := by
      intro v
      rw [List.length_append, List.length_drop, hblen]
      simp only [List.length_append, htk, length_be32]
      omega
    have hout : ∀ v, goSlice (Q ++ (t.drop (t.length - left)).take n ++ be32 v ++
          (c.buf.take Q.length ++ (t.drop (t.length - left)).take n
            ++ c.buf.drop (Q.length + n)).drop (Q.length + n + 4)) 0 (Q.length + n + 4) =
        some (Q ++ (t.drop (t.length - left)).take n ++ be32 v) := by
      intro v
      rw [goSlice_eq _ _ _ (Nat.zero_le _) (by rw [hb1len]; omega)]
      have e : Q.length + n + 4 = (Q ++ (t.drop (t.length - left)).take n ++ be32 v).length := by
        simp only [List.length_append, htk, length_be32]
      rw [e, List.take_left]; rfl
    have hleft : left - n ≤ fuel := by
      rcases hf with hf | ⟨hf, hq⟩
      · omega
      · have : 0 < n := by
          rw [← hnd]; exact Nat.lt_min.mpr ⟨by omega, hpos⟩
        omega
    obtain ⟨fl3, e3, d3, s3, i3, c3, c4, hc3a, hc4a, hmb⟩ :=
      ih { fl with
           disk := fl.disk ++ (Q ++ (t.drop (t.length - left)).take n ++
             be32 (murmur3.Sum32 (Q ++ (t.drop (t.length - left)).take n))),
           writerCurrentBuf := (some { c with
             buf := Q ++ (t.drop (t.length - left)).take n ++
               be32 (murmur3.Sum32 (Q ++ (t.drop (t.length - left)).take n)) ++
               (c.buf.take Q.length ++ (t.drop (t.length - left)).take n
                 ++ c.buf.drop (Q.length + n)).drop (Q.length + n + 4),
             offset := 0 }) }
        [] (left - n)
        ⟨cp, cu, ⟨_, rfl, hb1len _, rfl, rfl⟩, Nat.zero_le _⟩ (by omega) (Or.inr ⟨hleft, cp⟩)
    refine ⟨fl3, ?_, ?_, s3, i3, c, c4, hc1, hc4a, ?_⟩
    · simp only [valueFile.closeWritingLoop, if_pos hpos, hc1, Option.bind_eq_bind,
        Option.some_bind, hcopy, hoff, hpage, hput, hoff4, hout]
      exact e3
    · have hne : Q ++ t.drop (t.length - left) ≠ [] := by
        intro hnil
        have := congrArg List.length hnil
        simp only [List.length_append, hrest, List.length_nil] at this
        omega
      have hstep := frame_step fl.store.checksumInterval _ cp hne
      rw [htake, hdrop] at hstep
      have d3a : fl3.disk = fl.disk ++ (Q ++ (t.drop (t.length - left)).take n ++
          be32 (murmur3.Sum32 (Q ++ (t.drop (t.length - left)).take n))) ++
          (if left - n = 0 then [] else
            frame fl.store.checksumInterval ([] ++ t.drop (t.length - (left - n)))) := d3
      have e : t.length - (left - n) = (t.length - left) + n := by omega
      rw [d3a, if_neg h0, hstep, List.append_assoc, e, ← List.drop_drop, List.nil_append]
      congr 2
      by_cases h1 : left - n = 0
      · rw [if_pos h1]
        have : (List.drop n (List.drop (t.length - left) t)) = [] := by
          apply List.eq_nil_of_length_eq_zero
          rw [List.length_drop, hrest]; exact h1
        rw [this, frame_nil _ cp]
      · rw [if_neg h1]
    · rw [hmb]
      simp only [Option.some.injEq] at hc3a
      rw [← hc3a]

theorem groupCloseLoop_spec (t : List Nat) (fuel : Nat) :
    ∀ (fl : groupStoreFile) (Q : List Nat) (left : Nat), CurBuf fl Q → left ≤ t.length →
      (left + 1 ≤ fuel ∨ (left ≤ fuel ∧ Q.length < fl.store.checksumInterval)) →
      ∃ fl1, groupStoreFile.closeWritingLoop t fuel fl left = some fl1 ∧
        fl1.disk = fl.disk ++
          (if left = 0 then [] else
            frameOpen fl.store.checksumInterval (Q ++ t.drop (t.length - left))) ∧
        fl1.store = fl.store ∧
        fl1.freeableMemBlockChanIndex = fl.freeableMemBlockChanIndex ∧
        ∃ c c1, fl.writerCurrentBuf = some c ∧ fl1.writerCurrentBuf = some c1 ∧
          c1.memBlocks = c.memBlocks := by
  induction fuel with
  | zero =>
    intro fl Q left w _ hf
    have h0 : left = 0 := by omega
    subst h0
    obtain ⟨c, hc1, -⟩ := w.cur
    exact ⟨fl, by simp [groupStoreFile.closeWritingLoop], by simp, rfl, rfl, c, c, hc1, hc1, rfl⟩
  | succ fuel ih =>
    intro fl Q left w hl hf
    obtain ⟨cp, cu, ⟨c, hc1, hc2, hc3, hc4⟩, fi⟩ := w
    by_cases h0 : left = 0
    · subst h0
      exact ⟨fl, by simp [groupStoreFile.closeWritingLoop], by simp, rfl, rfl, c, c, hc1, hc1,
        rfl⟩
    have hpos : left > 0 := Nat.pos_of_ne_zero h0
    have hrest : (t.drop (t.length - left)).length = left := by
      rw [List.length_drop]; omega
    have hcopy : goCopyInto c.buf c.offset fl.store.checksumInterval
        (t.drop (t.length - left)) =
        some (c.buf.take Q.length ++
                (t.drop (t.length - left)).take
                  (min (fl.store.checksumInterval - Q.length) left)
                ++ c.buf.drop (Q.length + min (fl.store.checksumInterval - Q.length) left),
              min (fl.store.checksumInterval - Q.length) left) := by
      rw [goCopyInto_eq _ _ _ _ (by omega) (by omega), hrest, hc3]
    obtain ⟨htake, hdrop⟩ := take_drop_fill fl.store.checksumInterval Q
      (t.drop (t.length - left)) fi
    rw [hrest] at htake hdrop
    have hn : min (fl.store.checksumInterval - Q.length) left ≤ left := Nat.min_le_right _ _
    have hn2 : min (fl.store.checksumInterval - Q.length) left ≤
        fl.store.checksumInterval - Q.length := Nat.min_le_left _ _
    have hn3 : min (fl.store.checksumInterval - Q.length) left < left →
        min (fl.store.checksumInterval - Q.length) left =
          fl.store.checksumInterval - Q.length := by
      intro h; omega
    generalize hnd : min (fl.store.checksumInterval - Q.length) left = n
      at hcopy hn hn2 hn3 htake hdrop
    have hoff : u32 (c.offset + n) = Q.length + n := by
      rw [hc3]; exact u32_of_lt (by omega)
    have hoff4 : u32 (Q.length + n + 4) = Q.length + n + 4 := u32_of_lt (by omega)
    have htk : ((t.drop (t.length - left)).take n).length = n := by
      rw [List.length_take, hrest]; exact Nat.min_eq_left hn
    have hblen : (c.buf.take Q.length ++ (t.drop (t.length - left)).take n
        ++ c.buf.drop (Q.length + n)).length = fl.store.checksumInterval + 4 := by
      simp only [List.length_append, List.length_take, List.length_drop, htk, hc2]
      omega
    have hfilled : (c.buf.take Q.length ++ (t.drop (t.length - left)).take n
        ++ c.buf.drop (Q.length + n)).take (Q.length + n) =
        Q ++ (t.drop (t.length - left)).take n := by
      rw [hc4]
      have e : Q.length + n = (Q ++ (t.drop (t.length - left)).take n).length := by
        rw [List.length_append, htk]
      rw [e, List.take_left]
    have hpage : goSlice (c.buf.take Q.length ++ (t.drop (t.length - left)).take n
        ++ c.buf.drop (Q.length + n)) 0 (Q.length + n) =
        some (Q ++ (t.drop (t.length - left)).take n) := by
      rw [goSlice_eq _ _ _ (Nat.zero_le _) (by rw [hblen]; omega), hfilled]; rfl
    have hput : ∀ v, putUint32At (c.buf.take Q.length ++ (t.drop (t.length - left)).take n
        ++ c.buf.drop (Q.length + n)) (Q.length + n) v =
        some (Q ++ (t.drop (t.length - left)).take n ++ be32 v ++
          (c.buf.take Q.length ++ (t.drop (t.length - left)).take n
            ++ c.buf.drop (Q.length + n)).drop (Q.length + n + 4)) := by
      intro v
      rw [putUint32At_eq _ _ _ (by rw [hblen]; omega), hfilled]
    have hb1len : ∀ v, (Q ++ (t.drop (t.length - left)).take n ++ be32 v ++
          (c.buf.take Q.length ++ (t.drop (t.length - left)).take n
            ++ c.buf.drop (Q.length + n)).drop (Q.length + n + 4)).length =
        fl.store.checksumInterval + 4 := by
      intro v
      rw [List.length_append, List.length_drop, hblen]
      simp only [List.length_append, htk, length_be32]
      omega
    have hout : ∀ v, goSlice (Q ++ (t.drop (t.length - left)).take n ++ be32 v ++
          (c.buf.take Q.length ++ (t.drop (t.length - left)).take n
            ++ c.buf.drop (Q.length + n)).drop (Q.length + n + 4)) 0 (Q.length + n + 4) =
        some (Q ++ (t.drop (t.length - left)).take n ++ be32 v) := by
      intro v
      rw [goSlice_eq _ _ _ (Nat.zero_le _) (by rw [hb1len]; omega)]
      have e : Q.length + n + 4 = (Q ++ (t.drop (t.length - left)).take n ++ be32 v).length := by
        simp only [List.length_append, htk, length_be32]
      rw [e, List.take_left]; rfl
    have hleft : left - n ≤ fuel := by
      rcases hf with hf | ⟨hf, hq⟩
      · omega
      · have : 0 < n := by
          rw [← hnd]; exact Nat.lt_min.mpr ⟨by omega, hpos⟩
        omega
    have hXlen : (Q ++ t.drop (t.length - left)).length = Q.length + left := by
      rw [List.length_append, hrest]
    by_cases hmore : left - n > 0
    · -- the page is full and the trailer goes on in the next page
      have hnfull : n = fl.store.checksumInterval - Q.length := hn3 (by omega)
      obtain ⟨fl3, e3, d3, s3, i3, c3, c4, hc3a, hc4a, hmb⟩ :=
        ih { fl with
             disk := fl.disk ++ (Q ++ (t.drop (t.length - left)).take n ++
               be32 (murmur3.Sum32 (Q ++ (t.drop (t.length - left)).take n))),
             writerCurrentBuf := (some { c with
               buf := Q ++ (t.drop (t.length - left)).take n ++
                 be32 (murmur3.Sum32 (Q ++ (t.drop (t.length - left)).take n)) ++
                 (c.buf.take Q.length ++ (t.drop (t.length - left)).take n
                   ++ c.buf.drop (Q.length + n)).drop (Q.length + n + 4),
               offset := 0 }) }
          [] (left - n)
          ⟨cp, cu, ⟨_, rfl, hb1len _, rfl, rfl⟩, Nat.zero_le _⟩ (by omega) (Or.inr ⟨hleft, cp⟩)
      refine ⟨fl3, ?_, ?_, s3, i3, c, c4, hc1, hc4a, ?_⟩
      · simp only [groupStoreFile.closeWritingLoop, if_pos hpos, hc1, Option.bind_eq_bind,
          Option.some_bind, hcopy, hoff, if_pos hmore, hpage, hput, hoff4, hout,
          Option.pure_def]
        exact e3
      · have hstep := frameOpen_large fl.store.checksumInterval
          (Q ++ t.drop (t.length - left)) cp (by rw [hXlen]; omega)
        rw [htake, hdrop] at hstep
        have d3a : fl3.disk = fl.disk ++ (Q ++ (t.drop (t.length - left)).take n ++
            be32 (murmur3.Sum32 (Q ++ (t.drop (t.length - left)).take n))) ++
            (if left - n = 0 then [] else
              frameOpen fl.store.checksumInterval ([] ++ t.drop (t.length - (left - n)))) := d3
        have e : t.length - (left - n) = (t.length - left) + n := by omega
        rw [d3a, if_neg h0, hstep, List.append_assoc, e, ← List.drop_drop, List.nil_append,
          if_neg (by omega)]
      · rw [hmb]
        simp only [Option.some.injEq] at hc3a
        rw [← hc3a]
    · -- the rest of the trailer fits: the page is written without a checksum
      have hnl : n = left := by omega
      have hall : (t.drop (t.length - left)).take n = t.drop (t.length - left) := by
        rw [hnl]; exact List.take_of_length_le (by rw [hrest])
      have hout2 : goSlice (c.buf.take Q.length ++ (t.drop (t.length - left)).take n
          ++ c.buf.drop (Q.length + n)) 0 (Q.length + n) =
          some (Q ++ t.drop (t.length - left)) := by
        rw [hpage, hall]
      obtain ⟨fl3, e3, d3, s3, i3, c3, c4, hc3a, hc4a, hmb⟩ :=
        ih { fl with
             disk := fl.disk ++ (Q ++ t.drop (t.length - left)),
             writerCurrentBuf := (some { c with
               buf := c.buf.take Q.length ++ (t.drop (t.length - left)).take n
                   ++ c.buf.drop (Q.length + n),
               offset := 0 }) }
          [] (left - n)
          ⟨cp, cu, ⟨_, rfl, hblen, rfl, rfl⟩, Nat.zero_le _⟩ (by omega) (Or.inr ⟨hleft, cp⟩)
      refine ⟨fl3, ?_, ?_, s3, i3, c, c4, hc1, hc4a, ?_⟩
      · simp only [groupStoreFile.closeWritingLoop, if_pos hpos, hc1, Option.bind_eq_bind,
          Option.some_bind, hcopy, hoff, if_neg hmore, hout2, Option.pure_def]
        exact e3
      · have hsmall := frameOpen_small fl.store.checksumInterval
          (Q ++ t.drop (t.length - left)) (by rw [hXlen]; omega) (by rw [hXlen]; omega)
        have d3a : fl3.disk = fl.disk ++ (Q ++ t.drop (t.length - left)) ++
            (if left - n = 0 then [] else
              frameOpen fl.store.checksumInterval ([] ++ t.drop (t.length - (left - n)))) := d3
        rw [d3a, if_neg h0, hsmall, if_pos (by omega), List.append_nil]
      · rw [hmb]
        simp only [Option.some.injEq] at hc3a
        rw [← hc3a]

/-! ## `closeWriting` and the logical stream -/

theorem valueClose_spec (fl : groupStoreFile) (P Q : List Nat) (w : Writing fl P Q)
    (r : Roomy fl 0) :
    ∃ fl1, valueFile.closeWriting fl = some fl1 ∧
      fl1.disk = frame fl.store.checksumInterval (P ++ Q ++ valueFile.term fl.writerOffset) ∧
      fl1.writerCurrentBuf = none := by
  obtain ⟨c, hc1, -⟩ := w.curBuf.cur
  obtain ⟨k, hk1, hk2⟩ := w.pages
  obtain ⟨fl1, e1, d1, s1, i1, c0, c1, hc0, hc1a, hmb⟩ :=
    valueCloseLoop_spec (valueFile.term fl.writerOffset)
      ((valueFile.term fl.writerOffset).length + 1) fl Q (valueFile.term fl.writerOffset).length
      w.curBuf (Nat.le_refl _) (Or.inl (Nat.le_refl _))
  obtain ⟨fl2, e2, k2, -⟩ := freeMemBlocks_spec c1.memBlocks fl1 0
    (by rw [s1, i1]; exact w.chans)
    (by unfold groupStoreFile.hasRoom; rw [s1, i1, hmb]; exact r.cur c0 hc0)
  refine ⟨{ fl2 with writerFreeBufChan := [], writerCurrentBuf := none }, ?_, ?_, rfl⟩
  · unfold valueFile.closeWriting
    rw [hc1]
    simp only [Option.bind_eq_bind, e1, Option.some_bind, hc1a, e2, Option.pure_def]
  · show fl2.disk = _
    rw [k2.disk, d1, if_neg (by rw [length_term]; omega), Nat.sub_self, List.drop_zero, hk2,
      List.append_assoc, frame_append _ k P _ w.curBuf.ci_pos hk1]

theorem groupClose_spec (fl : groupStoreFile) (P Q : List Nat) (w : Writing fl P Q)
    (r : Roomy fl 0) :
    ∃ fl1, groupStoreFile.closeWriting fl = some fl1 ∧
      fl1.disk = frameOpen fl.store.checksumInterval (P ++ Q ++ strBytes "TERM v0 ") ∧
      fl1.writerCurrentBuf = none := by
  obtain ⟨c, hc1, -⟩ := w.curBuf.cur
  obtain ⟨k, hk1, hk2⟩ := w.pages
  have hlen : (strBytes "TERM v0 ").length = 8 := by rw [strBytes_TERM_v0]; rfl
  obtain ⟨fl1, e1, d1, s1, i1, c0, c1, hc0, hc1a, hmb⟩ :=
    groupCloseLoop_spec (strBytes "TERM v0 ")
      ((strBytes "TERM v0 ").length + 1) fl Q (strBytes "TERM v0 ").length
      w.curBuf (Nat.le_refl _) (Or.inl (Nat.le_refl _))
  obtain ⟨fl2, e2, k2, -⟩ := freeMemBlocks_spec c1.memBlocks fl1 0
    (by rw [s1, i1]; exact w.chans)
    (by unfold groupStoreFile.hasRoom; rw [s1, i1, hmb]; exact r.cur c0 hc0)
  refine ⟨{ fl2 with writerFreeBufChan := [], writerCurrentBuf := none }, ?_, ?_, rfl⟩
  · unfold groupStoreFile.closeWriting
    rw [hc1]
    simp only [Option.bind_eq_bind, e1, Option.some_bind, hc1a, e2, Option.pure_def]
  · show fl2.disk = _
    have hne : Q ++ strBytes "TERM v0 " ≠ [] := by
      intro h
      have := congrArg List.length h
      simp only [List.length_append, hlen, List.length_nil] at this
      omega
    rw [k2.disk, d1, if_neg (by rw [hlen]; omega), Nat.sub_self, List.drop_zero, hk2,
      List.append_assoc, frameOpen_append _ k P _ w.curBuf.ci_pos hk1 hne]

theorem logicalStream_spec (fl : groupStoreFile) (P Q : List Nat) (w : Writing fl P Q) :
    fl.logicalStream = P ++ Q := by
  obtain ⟨c, hc1, hc2, hc3, hc4⟩ := w.curBuf.cur
  obtain ⟨k, hk1, hk2⟩ := w.pages
  unfold groupStoreFile.logicalStream
  rw [hc1, hk2]
  simp only [hc3, hc4]
  rw [stripChecksums_framePages _ k _ P w.curBuf.ci_pos hk1]
  rw [length_framePages _ _ _ (by rw [hk1])]
  omega

/-! ## Files from creation to close -/

theorem written_spec {σ : Type} (magic ext : String) (store : DefaultGroupStore) (now : Int)
    (cw : String → Except GoError Unit) (ors : String → Except GoError (List Nat))
    (alb : σ → Except GoError Nat × σ) (reg reg1 : σ) (fl : groupStoreFile)
    (h : createReadWriteFile magic ext store now cw ors alb reg = some (.ok fl, reg1))
    (hm : 28 ≤ (strBytes magic).length)
    (hci : 32 ≤ store.checksumInterval) (hci4 : store.checksumInterval + 4 < 4294967296)
    (hch : 0 < store.freeableMemBlockChans.length) (ms : List groupMemBlock)
    (hroom : store.hasRoom ms.length) :
    ∃ fl1 P Q, fl.writeAll ms = some (fl1, stamped fl.id 32 ms) ∧ Writing fl1 P Q ∧
      P ++ Q = fileHead magic store.checksumInterval ++ allValues ms ∧
      fl1.store.checksumInterval = store.checksumInterval ∧ fl1.id = fl.id ∧
      Roomy fl1 0 := by
  obtain ⟨w, hs, r⟩ := create_spec magic ext store now cw ors alb reg reg1 fl h hm hci hci4 hch
    (ms.length + 0) hroom
  obtain ⟨fl1, P, Q, e1, w1, hPQ, i1, c1, r1⟩ := writeAll_spec ms 0 fl [] _ w r
  rw [List.length_nil, Nat.zero_add, length_fileHead magic _ hm] at e1
  rw [List.nil_append] at hPQ
  exact ⟨fl1, P, Q, e1, w1, hPQ, by rw [c1, hs], i1, r1⟩

/-! ## Memblocks after a run of `write` -/

theorem allValues_cons (m : groupMemBlock) (ms : List groupMemBlock) :
    allValues (m :: ms) = m.values ++ allValues ms := by
  simp [allValues]

theorem stamped_length (id : Nat) (ms : List groupMemBlock) :
    ∀ off, (stamped id off ms).length = ms.length := by
  induction ms with
  | nil => intro off; rfl
  | cons m ms ih => intro off; simp [stamped, ih]

theorem stamped_get (id : Nat) (ms : List groupMemBlock) :
    ∀ (off i : Nat) (m : groupMemBlock), ms[i]? = some m →
      (stamped id off ms)[i]? =
        some ({ values := m.values, fileID := id,
                fileOffset := u32 (off + (allValues (ms.take i)).length) } : groupMemBlock) := by
  induction ms with
  | nil => intro off i m h; simp at h
  | cons hd tl ih =>
    intro off i m h
    cases i with
    | zero =>
      simp only [List.getElem?_cons_zero, Option.some.injEq] at h
      subst h
      simp [stamped, allValues]
    | succ i =>
      simp only [List.getElem?_cons_succ] at h
      simp only [stamped, List.getElem?_cons_succ, List.take_succ_cons, allValues_cons,
        List.length_append]
      rw [ih (off + hd.values.length) i m h, Nat.add_assoc]

theorem allValues_split (ms : List groupMemBlock) :
    ∀ (i : Nat) (m : groupMemBlock), ms[i]? = some m →
      allValues ms = allValues (ms.take i) ++ (m.values ++ allValues (ms.drop (i + 1))) := by
  induction ms with
  | nil => intro i m h; simp at h
  | cons hd tl ih =>
    intro i m h
    cases i with
    | zero =>
      simp only [List.getElem?_cons_zero, Option.some.injEq] at h
      subst h
      simp [allValues]
    | succ i =>
      simp only [List.getElem?_cons_succ] at h
      simp only [List.take_succ_cons, List.drop_succ_cons, allValues_cons, List.append_assoc]
      rw [← ih i m h]

theorem stream_slice (head : List Nat) (hhead : head.length = 32) (ms : List groupMemBlock)
    (i : Nat) (m : groupMemBlock) (h : ms[i]? = some m) :
    ((head ++ allValues ms).drop (32 + (allValues (ms.take i)).length)).take m.values.length
      = m.values := by
  rw [allValues_split ms i m h, ← List.append_assoc]
  have e : 32 + (allValues (ms.take i)).length = (head ++ allValues (ms.take i)).length := by
    rw [List.length_append, hhead]
  rw [e, List.drop_left, List.take_left]

/-- C1 (amended): in a store whose checksum interval `CI` satisfies `32 <= CI` and
`CI + 4 < 2^32` and whose channels for freeable memblocks (at least one) have room for
the memblocks written, released to the channels in turn from channel 0
(`store.hasRoom`), every run of `write` calls on a freshly created store-file (the three creation functions are `createReadWriteFile` at their header
literal) returns, gives the i-th memblock the file's id (also when its values are
empty) and the offset `(32 + sum of the lengths before it) mod 2^32`, leaves
`writerOffset = (32 + total) mod 2^32`, and hands the pipeline the logical stream
`header ++ values`, which holds the i-th values at `[32 + sum, 32 + sum + len)`; when
`32 + total < 2^32` these are the offsets stored in `writerOffset` and `fileOffset`.
Without the room a release of a memblock waits for a receiver of the channel. -/
theorem c1_write_sets_offsets {σ : Type} (magic ext : String) (store : DefaultGroupStore)
    (now : Int) (cw : String → Except GoError Unit)
    (ors : String → Except GoError (List Nat))
    (alb : σ → Except GoError Nat × σ) (reg reg1 : σ) (fl : groupStoreFile)
    (h : createReadWriteFile magic ext store now cw ors alb reg = some (.ok fl, reg1))
    (hm : 28 ≤ (strBytes magic).length)
    (hci : 32 ≤ store.checksumInterval) (hci4 : store.checksumInterval + 4 < 4294967296)
    (hch : 0 < store.freeableMemBlockChans.length) (ms : List groupMemBlock)
    (hroom : store.hasRoom ms.length) :
    ∃ fl1 ms1, fl.writeAll ms = some (fl1, ms1) ∧ ms1.length = ms.length ∧
      (∀ i m, ms[i]? = some m →
        ms1[i]? = some ({ values := m.values, fileID := fl.id,
                          fileOffset := u32 (32 + (allValues (ms.take i)).length) } :
                        groupMemBlock)) ∧
      fl1.writerOffset = u32 (32 + (allValues ms).length) ∧
      fl1.logicalStream = fileHead magic store.checksumInterval ++ allValues ms ∧
      (∀ i m, ms[i]? = some m →
        (fl1.logicalStream.drop (32 + (allValues (ms.take i)).length)).take m.values.length
          = m.values) ∧
      (32 + (allValues ms).length < 4294967296 →
        fl1.writerOffset = 32 + (allValues ms).length ∧
        ∀ i m1, ms1[i]? = some m1 →
          m1.fileOffset = 32 + (allValues (ms.take i)).length ∧
          (fl1.logicalStream.drop m1.fileOffset).take m1.values.length = m1.values) := by
  obtain ⟨fl1, P, Q, e1, w1, hPQ, c1, i1, -⟩ :=
    written_spec magic ext store now cw ors alb reg reg1 fl h hm hci hci4 hch ms hroom
  have hhead := length_fileHead magic store.checksumInterval hm
  have hstream : fl1.logicalStream = fileHead magic store.checksumInterval ++ allValues ms := by
    rw [logicalStream_spec fl1 P Q w1, hPQ]
  have hwo : fl1.writerOffset = u32 (32 + (allValues ms).length) := by
    rw [w1.woff, ← List.length_append, hPQ, List.length_append, hhead]
  refine ⟨fl1, stamped fl.id 32 ms, e1, stamped_length _ _ _, ?_, hwo, hstream, ?_, ?_⟩
  · intro i m hi
    exact stamped_get fl.id ms 32 i m hi
  · intro i m hi
    rw [hstream]
    exact stream_slice _ hhead ms i m hi
  · intro hsmall
    refine ⟨by rw [hwo]; exact u32_of_lt hsmall, ?_⟩
    intro i m1 hi
    have hlt : i < ms.length := by
      have := (List.getElem?_eq_some.mp hi).1
      rw [stamped_length] at this
      exact this
    have hm0 : ms[i]? = some ms[i] := List.getElem?_eq_getElem hlt
    have hst := stamped_get fl.id ms 32 i ms[i] hm0
    rw [hi] at hst
    simp only [Option.some.injEq] at hst
    have hle : (allValues (ms.take i)).length ≤ (allValues ms).length := by
      rw [allValues_split ms i ms[i] hm0]
      simp only [List.length_append]
      omega
    have hoff : m1.fileOffset = 32 + (allValues (ms.take i)).length := by
      rw [hst]
      exact u32_of_lt (by omega)
    refine ⟨hoff, ?_⟩
    rw [hoff, hstream]
    have hv : m1.values = ms[i].values := by rw [hst]
    rw [hv]
    exact stream_slice _ hhead ms i ms[i] hm0

/-- C1, witness: a group store-file with checksum interval 32 and the memblocks
`[1,2,3]`, `[]`, `[4]`, in a store whose channel has room for 4 memblocks: the offsets
are 32, 35, 35 and `writerOffset` ends at 36. -/
theorem c1_write_sets_offsets_witness :
    ∃ fl, createGroupReadWriteFile (testStore 32) 0 okWriteCloser (openBytes [])
            okAddLocBlock () = some (.ok fl, ()) ∧
      (testStore 32).hasRoom 3 ∧
      ∃ fl1 ms1, fl.writeAll [⟨[1, 2, 3], 0, 0⟩, ⟨[], 9, 9⟩, ⟨[4], 0, 0⟩] = some (fl1, ms1) ∧
        ms1[0]? = some ⟨[1, 2, 3], 1, 32⟩ ∧ ms1[1]? = some ⟨[], 1, 35⟩ ∧
        ms1[2]? = some ⟨[4], 1, 35⟩ ∧ fl1.writerOffset = 36 ∧
        fl1.logicalStream = strBytes "GROUPSTORE v0               " ++ [0, 0, 0, 32, 1, 2, 3, 4] := by
  refine ⟨_, rfl, by decide, ?_⟩
  obtain ⟨fl1, ms1, e1, -, hget, hwo, hstream, -⟩ :=
    c1_write_sets_offsets "GROUPSTORE v0                   " ".group" (testStore 32) 0
      okWriteCloser (openBytes []) okAddLocBlock () () _ rfl (by decide) (by decide)
      (by decide) (by decide) [⟨[1, 2, 3], 0, 0⟩, ⟨[], 9, 9⟩, ⟨[4], 0, 0⟩] (by decide)
  exact ⟨fl1, ms1, e1, hget 0 _ rfl, hget 1 _ rfl, hget 2 _ rfl, hwo, hstream⟩

/-- C1, counterexample, in three parts. After one memblock of `2^32 - 32` bytes,
`writerOffset` is 0 and not `32 + 4294967264`: the offset is a `uint32` and wraps. In a
store set up as in `TestGroupValuesFileWritingEmpty2`, with one channel for freeable
memblocks made for one memblock, the write of a first empty memblock returns and the
write of a second one does not: its release finds the channel full. And with the
checksum interval `2^32 - 4` the buffers have `(2^32 - 4) + 4 = 0` bytes in `uint32`,
and the write of one byte does not return (the slice `buf[0:4294967292]` is out of
range). -/
theorem c1_counterexample :
    (∃ fl, createGroupReadWriteFile (testStore 65532) 0 okWriteCloser (openBytes [])
            okAddLocBlock () = some (.ok fl, ()) ∧
      ∃ fl1 ms1, fl.writeAll [⟨List.replicate 4294967264 0, 0, 0⟩] = some (fl1, ms1) ∧
        fl1.writerOffset = 0 ∧
        fl1.writerOffset ≠ 32 + (allValues [⟨List.replicate 4294967264 0, 0, 0⟩]).length) ∧
    (∃ fl, createGroupReadWriteFile { testStore 65532 with freeableMemBlockChanCaps := [1] } 0
            okWriteCloser (openBytes []) okAddLocBlock () = some (.ok fl, ()) ∧
      ¬ ({ testStore 65532 with freeableMemBlockChanCaps := [1] } : DefaultGroupStore).hasRoom 2 ∧
      (∃ fl1 ms1, fl.writeAll [⟨[], 0, 0⟩] = some (fl1, ms1)) ∧
      fl.writeAll [⟨[], 0, 0⟩, ⟨[], 0, 0⟩] = none) ∧
    (∃ fl, createGroupReadWriteFile (testStore 4294967292) 0 okWriteCloser (openBytes [])
            okAddLocBlock () = some (.ok fl, ()) ∧
      32 ≤ (testStore 4294967292).checksumInterval ∧
      (testStore 4294967292).hasRoom 1 ∧
      fl.writeAll [⟨[1], 0, 0⟩] = none) := by
  refine ⟨?_, ⟨_, rfl, by decide, ⟨_, _, rfl⟩, rfl⟩,
    ⟨_, rfl, by decide, by decide, by decide⟩⟩
  refine ⟨_, rfl, ?_⟩
  obtain ⟨fl1, P, Q, e1, w1, hPQ, -, -⟩ :=
    written_spec "GROUPSTORE v0                   " ".group" (testStore 65532) 0
      okWriteCloser (openBytes []) okAddLocBlock () () _ rfl (by decide) (by decide)
      (by decide) (by decide) [⟨List.replicate 4294967264 0, 0, 0⟩] (by decide)
  have hlen : (allValues [⟨List.replicate 4294967264 0, 0, 0⟩]).length = 4294967264 := by
    rw [allValues_cons]
    show List.length (List.replicate 4294967264 0 ++ allValues []) = 4294967264
    rw [List.length_append, List.length_replicate]
    rfl
  have hwo : fl1.writerOffset = 0 := by
    rw [w1.woff, ← List.length_append, hPQ, List.length_append,
      length_fileHead _ _ (by decide), hlen]
    rfl
  exact ⟨fl1, _, e1, hwo, by rw [hwo, hlen]; decide⟩

/-! ## Length of a framed stream -/

theorem length_framePages_min (ci n : Nat) (s : List Nat) :
    (framePages ci n s).length = min (n * ci) s.length + 4 * n := by
  induction n generalizing s with
  | zero => simp [framePages]
  | succ n ih =>
    have e : (n + 1) * ci = n * ci + ci := by rw [Nat.add_mul, Nat.one_mul]
    simp only [framePages, List.length_append, length_be32, ih, List.length_take,
      List.length_drop, e]
    omega

theorem le_pageCount_mul (ci len : Nat) (h : 0 < ci) : len ≤ pageCount ci len * ci := by
  unfold pageCount
  have h1 := Nat.div_add_mod (len + ci - 1) ci
  have h2 := Nat.mod_lt (len + ci - 1) h
  rw [Nat.mul_comm] at h1
  omega

theorem length_frame (ci : Nat) (s : List Nat) (h : 0 < ci) :
    (frame ci s).length = s.length + 4 * pageCount ci s.length := by
  unfold frame
  rw [length_framePages_min, Nat.min_eq_right (le_pageCount_mul ci s.length h)]

/-- C2 (amended): for the value file writer `valueFile`, for every checksum interval
`CI` with `32 <= CI` and `CI + 4 < 2^32` and every run of writes of `N` data bytes in
all, in a store whose channels for freeable memblocks (at least one) have room for the
memblocks written, released to the channels in turn from channel 0 (`store.hasRoom`),
the writes and `closeWriting` return, and the bytes on disk are the framing of `S = header(32) ++ data(N) ++ trailer(16)`: `S` cut into
chunks of `CI` bytes, the last one shorter but not empty, each followed by its
big-endian murmur3-32. The length is `L + 4*ceil(L/CI)` with `L = N + 48`, which is
`N + 52` when `N + 48 <= CI`. -/
theorem c2_value_file_is_framed {σ : Type} (store : DefaultGroupStore)
    (now : Int) (cw : String → Except GoError Unit)
    (ors : String → Except GoError (List Nat))
    (alb : σ → Except GoError Nat × σ) (reg reg1 : σ) (fl : groupStoreFile)
    (h : createValueFile store now cw ors alb reg = some (.ok fl, reg1))
    (hci : 32 ≤ store.checksumInterval) (hci4 : store.checksumInterval + 4 < 4294967296)
    (hch : 0 < store.freeableMemBlockChans.length) (ms : List groupMemBlock)
    (hroom : store.hasRoom ms.length) :
    ∃ fl1 ms1 fl2, fl.writeAll ms = some (fl1, ms1) ∧ valueFile.closeWriting fl1 = some fl2 ∧
      fl2.disk = frame store.checksumInterval
        (fileHead "VALUESTORE v0                   " store.checksumInterval ++ allValues ms
          ++ valueFile.term (u32 (32 + (allValues ms).length))) ∧
      fl2.disk.length = ((allValues ms).length + 48)
        + 4 * pageCount store.checksumInterval ((allValues ms).length + 48) ∧
      ((allValues ms).length + 48 ≤ store.checksumInterval →
        fl2.disk.length = (allValues ms).length + 52) := by
  obtain ⟨fl1, P, Q, e1, w1, hPQ, c1, -, r1⟩ :=
    written_spec "VALUESTORE v0                   " ".value" store now cw ors alb reg reg1 fl h
      (by decide) hci hci4 hch ms hroom
  obtain ⟨fl2, e2, d2, -⟩ := valueClose_spec fl1 P Q w1 r1
  have hhead := length_fileHead "VALUESTORE v0                   " store.checksumInterval
    (by decide)
  have hwo : fl1.writerOffset = u32 (32 + (allValues ms).length) := by
    rw [w1.woff, ← List.length_append, hPQ, List.length_append, hhead]
  rw [hPQ, c1, hwo] at d2
  have hlen : (fileHead "VALUESTORE v0                   " store.checksumInterval
      ++ allValues ms ++ valueFile.term (u32 (32 + (allValues ms).length))).length
      = (allValues ms).length + 48 := by
    simp only [List.length_append, hhead, length_term]
    omega
  have hdl : fl2.disk.length = ((allValues ms).length + 48)
      + 4 * pageCount store.checksumInterval ((allValues ms).length + 48) := by
    rw [d2, length_frame _ _ (by omega), hlen]
  refine ⟨fl1, _, fl2, e1, e2, d2, hdl, ?_⟩
  intro hsmall
  rw [hdl, pageCount_small _ _ (by omega) hsmall]

/-- C2, witness: a value file with checksum interval 32 and the data `[1,2,3]` has
`51 + 4*2 = 59` bytes. -/
theorem c2_value_file_is_framed_witness :
    ∃ fl, createValueFile (testStore 32) 0 okWriteCloser (openBytes []) okAddLocBlock ()
            = some (.ok fl, ()) ∧
      32 ≤ (testStore 32).checksumInterval ∧ (testStore 32).checksumInterval + 4 < 4294967296 ∧
      (testStore 32).hasRoom 1 ∧
      ∃ fl1 ms1 fl2, fl.writeAll [⟨[1, 2, 3], 0, 0⟩] = some (fl1, ms1) ∧
        valueFile.closeWriting fl1 = some fl2 ∧ fl2.disk.length = 59 := by
  refine ⟨_, rfl, by decide, by decide, by decide, ?_⟩
  obtain ⟨fl1, ms1, fl2, e1, e2, -, hlen, -⟩ :=
    c2_value_file_is_framed (testStore 32) 0 okWriteCloser (openBytes []) okAddLocBlock () () _
      rfl (by decide) (by decide) (by decide) [⟨[1, 2, 3], 0, 0⟩] (by decide)
  exact ⟨fl1, ms1, fl2, e1, e2, hlen⟩

/-- C2, counterexample, in three parts. With the checksum interval `2^32 - 4`, which is
at least 32, the buffers have `(2^32 - 4) + 4 = 0` bytes in `uint32`; creation succeeds
with nothing in the buffer, and `closeWriting` of the empty file does not return (the
slice `buf[0:4294967292]` is out of range) with no byte on disk. With the checksum
interval 32 the empty file is closed with 56 bytes, not 52: the 48 bytes of header and
trailer take two pages, each with its checksum. And with one channel for freeable
memblocks made for one memblock, `closeWriting` after two memblocks does not return:
the release of the second finds the channel full. -/
theorem c2_counterexample :
    (∃ fl, createValueFile (testStore 4294967292) 0 okWriteCloser (openBytes [])
            okAddLocBlock () = some (.ok fl, ()) ∧
      32 ≤ (testStore 4294967292).checksumInterval ∧
      fl.writeAll [] = some (fl, []) ∧ fl.disk = [] ∧
      valueFile.closeWriting fl = none) ∧
    (∃ fl, createValueFile (testStore 32) 0 okWriteCloser (openBytes [])
            okAddLocBlock () = some (.ok fl, ()) ∧
      32 ≤ (testStore 32).checksumInterval ∧
      fl.writeAll [] = some (fl, []) ∧
      ∃ fl2, valueFile.closeWriting fl = some fl2 ∧
        fl2.disk.length = 56 ∧ fl2.disk.length ≠ 52) ∧
    (∃ fl, createValueFile { testStore 32 with freeableMemBlockChanCaps := [1] } 0
            okWriteCloser (openBytes []) okAddLocBlock () = some (.ok fl, ()) ∧
      ¬ ({ testStore 32 with freeableMemBlockChanCaps := [1] } : DefaultGroupStore).hasRoom 2 ∧
      ∃ fl1 ms1, fl.writeAll [⟨[1], 0, 0⟩, ⟨[2], 0, 0⟩] = some (fl1, ms1) ∧
        valueFile.closeWriting fl1 = none) := by
  refine ⟨⟨_, rfl, by decide, rfl, rfl, by decide⟩, ⟨_, rfl, by decide, rfl, ?_⟩,
    ⟨_, rfl, by decide, _, _, rfl, by decide⟩⟩
  obtain ⟨fl1, P, Q, e1, w1, hPQ, c1, -, r1⟩ :=
    written_spec "VALUESTORE v0                   " ".value" (testStore 32) 0 okWriteCloser
      (openBytes []) okAddLocBlock () () _ rfl (by decide) (by decide) (by decide)
      (by decide) [] (by decide)
  simp only [groupStoreFile.writeAll, Option.some.injEq, Prod.mk.injEq] at e1
  obtain ⟨fl2, e2, d2, -⟩ := valueClose_spec fl1 P Q w1 r1
  rw [← e1.1] at e2
  have hlen : fl2.disk.length = 56 := by
    have h48 : (P ++ Q ++ valueFile.term fl1.writerOffset).length = 48 := by
      rw [List.length_append, hPQ, length_term]
      rfl
    rw [d2, length_frame _ _ w1.curBuf.ci_pos, h48, c1]
    rfl
  exact ⟨fl2, e2, hlen, by rw [hlen]; decide⟩
/-! ## Big-endian integers -/

theorem or_low (a i b : Nat) (hb : b < 2 ^ i) : (2 ^ i * a) ||| b = 2 ^ i * a + b :=
  (Nat.mul_add_lt_is_or hb a).symm

theorem beUint32_bytes (a b c d : Nat) (rest : List Nat) (hb : b < 256) (hc : c < 256)
    (hd : d < 256) :
    beUint32 (a :: b :: c :: d :: rest) = some (a * 16777216 + b * 65536 + c * 256 + d) := by
  simp only [beUint32, Nat.shiftLeft_eq, Option.some.injEq]
  have e1 : a * 2 ^ 24 ||| b * 2 ^ 16 = 2 ^ 16 * (a * 256 + b) := by
    rw [Nat.mul_comm a, or_low a 24 (b * 2 ^ 16) (by norm_num; omega)]; norm_num; omega
  have e2 : 2 ^ 16 * (a * 256 + b) ||| c * 2 ^ 8 = 2 ^ 8 * (a * 65536 + b * 256 + c) := by
    rw [or_low _ 16 (c * 2 ^ 8) (by norm_num; omega)]; norm_num; omega
  rw [e1, e2, or_low _ 8 d (by norm_num; omega)]
  norm_num; omega

theorem beUint32_be32 (v : Nat) (rest : List Nat) (hv : v < 4294967296) :
    beUint32 (be32 v ++ rest) = some v := by
  show beUint32 (_ :: _ :: _ :: _ :: rest) = some v
  rw [beUint32_bytes _ _ _ _ _ (Nat.mod_lt _ (by decide)) (Nat.mod_lt _ (by decide))
    (Nat.mod_lt _ (by decide))]
  congr 1
  omega

theorem beUint64_bytes (b0 b1 b2 b3 b4 b5 b6 b7 : Nat) (rest : List Nat) (h1 : b1 < 256)
    (h2 : b2 < 256) (h3 : b3 < 256) (h4 : b4 < 256) (h5 : b5 < 256) (h6 : b6 < 256)
    (h7 : b7 < 256) :
    beUint64 (b0 :: b1 :: b2 :: b3 :: b4 :: b5 :: b6 :: b7 :: rest) =
      some (b0 * 72057594037927936 + b1 * 281474976710656 + b2 * 1099511627776
        + b3 * 4294967296 + b4 * 16777216 + b5 * 65536 + b6 * 256 + b7) := by
  simp only [beUint64, Nat.shiftLeft_eq, Option.some.injEq]
  have e1 : b0 * 2 ^ 56 ||| b1 * 2 ^ 48 = 2 ^ 48 * (b0 * 256 + b1) := by
    rw [Nat.mul_comm b0, or_low b0 56 (b1 * 2 ^ 48) (by norm_num; omega)]; norm_num; omega
  have e2 : 2 ^ 48 * (b0 * 256 + b1) ||| b2 * 2 ^ 40 =
      2 ^ 40 * (b0 * 65536 + b1 * 256 + b2) := by
    rw [or_low _ 48 (b2 * 2 ^ 40) (by norm_num; omega)]; norm_num; omega
  have e3 : 2 ^ 40 * (b0 * 65536 + b1 * 256 + b2) ||| b3 * 2 ^ 32 =
      2 ^ 32 * (b0 * 16777216 + b1 * 65536 + b2 * 256 + b3) := by
    rw [or_low _ 40 (b3 * 2 ^ 32) (by norm_num; omega)]; norm_num; omega
  have e4 : 2 ^ 32 * (b0 * 16777216 + b1 * 65536 + b2 * 256 + b3) ||| b4 * 2 ^ 24 =
      2 ^ 24 * (b0 * 4294967296 + b1 * 16777216 + b2 * 65536 + b3 * 256 + b4) := by
    rw [or_low _ 32 (b4 * 2 ^ 24) (by norm_num; omega)]; norm_num; omega
  have e5 : 2 ^ 24 * (b0 * 4294967296 + b1 * 16777216 + b2 * 65536 + b3 * 256 + b4)
      ||| b5 * 2 ^ 16 =
      2 ^ 16 * (b0 * 1099511627776 + b1 * 4294967296 + b2 * 16777216 + b3 * 65536
        + b4 * 256 + b5) := by
    rw [or_low _ 24 (b5 * 2 ^ 16) (by norm_num; omega)]; norm_num; omega
  have e6 : 2 ^ 16 * (b0 * 1099511627776 + b1 * 4294967296 + b2 * 16777216 + b3 * 65536
        + b4 * 256 + b5) ||| b6 * 2 ^ 8 =
      2 ^ 8 * (b0 * 281474976710656 + b1 * 1099511627776 + b2 * 4294967296 + b3 * 16777216
        + b4 * 65536 + b5 * 256 + b6) := by
    rw [or_low _ 16 (b6 * 2 ^ 8) (by norm_num; omega)]; norm_num; omega
  rw [e1, e2, e3, e4, e5, e6, or_low _ 8 b7 (by norm_num; omega)]
  norm_num; omega

theorem beUint64_be64 (v : Nat) (rest : List Nat) (hv : v < 18446744073709551616) :
    beUint64 (be64 v ++ rest) = some v := by
  show beUint64 (_ :: _ :: _ :: _ :: _ :: _ :: _ :: _ :: rest) = some v
  rw [beUint64_bytes _ _ _ _ _ _ _ _ _ (Nat.mod_lt _ (by decide)) (Nat.mod_lt _ (by decide))
    (Nat.mod_lt _ (by decide)) (Nat.mod_lt _ (by decide)) (Nat.mod_lt _ (by decide))
    (Nat.mod_lt _ (by decide)) (Nat.mod_lt _ (by decide))]
  congr 1
  omega
/-! ## The end of a framed stream -/

theorem split_at_page (ci : Nat) (S0 : List Nat) (h : 0 < ci) :
    (S0.take (S0.length / ci * ci)).length = S0.length / ci * ci ∧
    (S0.drop (S0.length / ci * ci)).length = S0.length % ci := by
  have h1 := Nat.div_add_mod S0.length ci
  rw [Nat.mul_comm] at h1
  rw [List.length_take, List.length_drop]
  omega

theorem frame_tail (ci : Nat) (S0 t : List Nat) (h : 0 < ci) (ht : 0 < t.length)
    (hfit : S0.length % ci + t.length ≤ ci) :
    frame ci (S0 ++ t) =
      (framePages ci (S0.length / ci) (S0.take (S0.length / ci * ci))
          ++ S0.drop (S0.length / ci * ci))
        ++ (t ++ be32 (murmur3.Sum32 ((S0 ++ t).drop (S0.length / ci * ci)))) := by
  obtain ⟨hP, hQ⟩ := split_at_page ci S0 h
  have hdrop : (S0 ++ t).drop (S0.length / ci * ci) = S0.drop (S0.length / ci * ci) ++ t := by
    rw [List.drop_append_of_le_length (by rw [List.length_take] at hP; omega)]
  have hsplit : S0 ++ t = S0.take (S0.length / ci * ci) ++ (S0.drop (S0.length / ci * ci) ++ t) := by
    rw [← List.append_assoc, List.take_append_drop]
  rw [hdrop]
  conv_lhs => rw [hsplit]
  rw [frame_append ci _ _ _ h hP,
    frame_small ci _ (by rw [List.length_append]; omega) (by rw [List.length_append, hQ]; exact hfit)]
  simp only [List.append_assoc]

theorem frameOpen_tail (ci : Nat) (S0 t : List Nat) (h : 0 < ci) (ht : 0 < t.length)
    (hfit : S0.length % ci + t.length ≤ ci) :
    frameOpen ci (S0 ++ t) =
      (framePages ci (S0.length / ci) (S0.take (S0.length / ci * ci))
          ++ S0.drop (S0.length / ci * ci)) ++ t := by
  obtain ⟨hP, hQ⟩ := split_at_page ci S0 h
  have hsplit : S0 ++ t = S0.take (S0.length / ci * ci) ++ (S0.drop (S0.length / ci * ci) ++ t) := by
    rw [← List.append_assoc, List.take_append_drop]
  have hne : S0.drop (S0.length / ci * ci) ++ t ≠ [] := by
    intro hnil
    have := congrArg List.length hnil
    simp only [List.length_append, List.length_nil] at this
    omega
  conv_lhs => rw [hsplit]
  rw [frameOpen_append ci _ _ _ h hP hne,
    frameOpen_small ci _ (by rw [List.length_append]; omega) (by rw [List.length_append, hQ]; exact hfit)]
  simp only [List.append_assoc]

theorem drop_length_sub (A X : List Nat) : (A ++ X).drop ((A ++ X).length - X.length) = X := by
  rw [List.length_append, Nat.add_sub_cancel, List.drop_left]

/-- C3 (amended): for the value file writer `valueFile` with `32 <= CI` and
`CI + 4 < 2^32`, in a store whose channels for freeable memblocks (at least one) have
room for the memblocks written, released to the channels in turn from channel 0
(`store.hasRoom`), for every run of writes of `N` data bytes in all such that the trailer does not straddle a page boundary,
`(32 + N) mod CI + 16 <= CI`, the writes and `closeWriting` return and the last 20 bytes
of the closed file are a big-endian `uint32` 0, `(32 + N) mod 2^32` as a big-endian `uint64`,
the 4 bytes `TERM`, and the checksum of the final page; so bytes `[len-8, len-4)` are
`TERM`, and `Uint64(bytes[len-16:])` is `32 + N` when `32 + N < 2^32`. -/
theorem c3_value_trailer {σ : Type} (store : DefaultGroupStore)
    (now : Int) (cw : String → Except GoError Unit)
    (ors : String → Except GoError (List Nat))
    (alb : σ → Except GoError Nat × σ) (reg reg1 : σ) (fl : groupStoreFile)
    (h : createValueFile store now cw ors alb reg = some (.ok fl, reg1))
    (hci : 32 ≤ store.checksumInterval) (hci4 : store.checksumInterval + 4 < 4294967296)
    (hch : 0 < store.freeableMemBlockChans.length) (ms : List groupMemBlock)
    (hroom : store.hasRoom ms.length)
    (hfit : (32 + (allValues ms).length) % store.checksumInterval + 16
      ≤ store.checksumInterval) :
    ∃ fl1 ms1 fl2, fl.writeAll ms = some (fl1, ms1) ∧ valueFile.closeWriting fl1 = some fl2 ∧
      fl2.disk.drop (fl2.disk.length - 20) =
        [0, 0, 0, 0] ++ be64 (u32 (32 + (allValues ms).length)) ++ strBytes "TERM" ++
          be32 (murmur3.Sum32
            ((fileHead "VALUESTORE v0                   " store.checksumInterval
                ++ allValues ms ++ valueFile.term (u32 (32 + (allValues ms).length))).drop
              ((32 + (allValues ms).length) / store.checksumInterval
                * store.checksumInterval))) ∧
      (fl2.disk.drop (fl2.disk.length - 8)).take 4 = strBytes "TERM" ∧
      (32 + (allValues ms).length < 4294967296 →
        beUint64 (fl2.disk.drop (fl2.disk.length - 16)) = some (32 + (allValues ms).length)) := by
  obtain ⟨fl1, P, Q, e1, w1, hPQ, c1, -, r1⟩ :=
    written_spec "VALUESTORE v0                   " ".value" store now cw ors alb reg reg1 fl h
      (by decide) hci hci4 hch ms hroom
  obtain ⟨fl2, e2, d2, -⟩ := valueClose_spec fl1 P Q w1 r1
  have hhead := length_fileHead "VALUESTORE v0                   " store.checksumInterval
    (by decide)
  have hwo : fl1.writerOffset = u32 (32 + (allValues ms).length) := by
    rw [w1.woff, ← List.length_append, hPQ, List.length_append, hhead]
  have hS0 : (fileHead "VALUESTORE v0                   " store.checksumInterval
      ++ allValues ms).length = 32 + (allValues ms).length := by
    rw [List.length_append, hhead]
  rw [hPQ, c1, hwo, frame_tail _ _ _ (by omega) (by rw [length_term]; omega)
    (by rw [hS0, length_term]; exact hfit), hS0] at d2
  generalize hA : framePages store.checksumInterval
      ((32 + (allValues ms).length) / store.checksumInterval)
      ((fileHead "VALUESTORE v0                   " store.checksumInterval
          ++ allValues ms).take
        ((32 + (allValues ms).length) / store.checksumInterval * store.checksumInterval))
      ++ (fileHead "VALUESTORE v0                   " store.checksumInterval
          ++ allValues ms).drop
        ((32 + (allValues ms).length) / store.checksumInterval * store.checksumInterval) = A
    at d2
  generalize hck : be32 (murmur3.Sum32
      ((fileHead "VALUESTORE v0                   " store.checksumInterval
          ++ allValues ms ++ valueFile.term (u32 (32 + (allValues ms).length))).drop
        ((32 + (allValues ms).length) / store.checksumInterval * store.checksumInterval)))
      = ck at d2
  have hcklen : ck.length = 4 := by rw [← hck]; rfl
  have htl : (valueFile.term (u32 (32 + (allValues ms).length)) ++ ck).length = 20 := by
    rw [List.length_append, length_term, hcklen]
  have h20 : fl2.disk.drop (fl2.disk.length - 20) =
      valueFile.term (u32 (32 + (allValues ms).length)) ++ ck := by
    rw [d2, ← htl]; exact drop_length_sub _ _
  have hlen : fl2.disk.length = A.length + 20 := by
    rw [d2, List.length_append, htl]
  have hsplit : ∀ j, j ≤ 20 → fl2.disk.drop (fl2.disk.length - 20 + j) =
      (valueFile.term (u32 (32 + (allValues ms).length)) ++ ck).drop j := by
    intro j _
    rw [← h20, List.drop_drop, Nat.add_comm]
  refine ⟨fl1, _, fl2, e1, e2, ?_, ?_, ?_⟩
  · rw [h20]
    simp [valueFile.term]
  · have e : fl2.disk.length - 8 = fl2.disk.length - 20 + 12 := by omega
    rw [e, hsplit 12 (by omega)]
    simp [valueFile.term, be64, be32, strBytes_TERM]
  · intro hsmall
    have e : fl2.disk.length - 16 = fl2.disk.length - 20 + 4 := by omega
    rw [e, hsplit 4 (by omega), u32_of_lt hsmall]
    have : (valueFile.term (32 + (allValues ms).length) ++ ck).drop 4 =
        be64 (32 + (allValues ms).length) ++ (strBytes "TERM" ++ ck) := by
      simp [valueFile.term]
    rw [this]
    exact beUint64_be64 _ _ (by omega)

/-- C3, witness: checksum interval 32 and 3 data bytes; `35 mod 32 + 16 <= 32`. -/
theorem c3_value_trailer_witness :
    ∃ fl, createValueFile (testStore 32) 0 okWriteCloser (openBytes []) okAddLocBlock ()
            = some (.ok fl, ()) ∧
      (testStore 32).hasRoom 1 ∧
      (32 + (allValues [⟨[1, 2, 3], 0, 0⟩]).length) % (testStore 32).checksumInterval + 16
        ≤ (testStore 32).checksumInterval ∧
      ∃ fl1 ms1 fl2, fl.writeAll [⟨[1, 2, 3], 0, 0⟩] = some (fl1, ms1) ∧
        valueFile.closeWriting fl1 = some fl2 ∧
        (fl2.disk.drop (fl2.disk.length - 8)).take 4 = strBytes "TERM" ∧
        beUint64 (fl2.disk.drop (fl2.disk.length - 16)) = some 35 := by
  refine ⟨_, rfl, by decide, by decide, ?_⟩
  obtain ⟨fl1, ms1, fl2, e1, e2, -, hterm, h64⟩ :=
    c3_value_trailer (testStore 32) 0 okWriteCloser (openBytes []) okAddLocBlock () () _
      rfl (by decide) (by decide) (by decide) [⟨[1, 2, 3], 0, 0⟩] (by decide) (by decide)
  exact ⟨fl1, ms1, fl2, e1, e2, hterm, h64 (by decide)⟩

/-- C3, counterexample, in three parts. Checksum interval 32 and 20 data bytes: the
trailer starts at logical offset 52 and straddles the page boundary at 64, the file ends
with the last 4 trailer bytes and their checksum, bytes `[len-16, len-8)` are 4 trailer
bytes followed by the checksum of the page before, and `Uint64(bytes[len-16:])` is not
`32 + 20`. With one channel for freeable memblocks made for one memblock,
`closeWriting` after two memblocks of 3 bytes does not return and leaves no trailer at
the end of the file: the release of the second memblock finds the channel full. And
with the checksum interval `2^32 - 4` the buffers have `(2^32 - 4) + 4 = 0` bytes in
`uint32`, and `closeWriting` of the empty file does not return. -/
theorem c3_counterexample :
    (∃ fl, createValueFile (testStore 32) 0 okWriteCloser (openBytes []) okAddLocBlock ()
            = some (.ok fl, ()) ∧
      ∃ fl1 ms1 fl2, fl.writeAll [⟨List.replicate 20 7, 0, 0⟩] = some (fl1, ms1) ∧
        valueFile.closeWriting fl1 = some fl2 ∧
        fl2.disk.length = 80 ∧
        (fl2.disk.drop (fl2.disk.length - 16)).take 4 = [0, 0, 0, 52] ∧
        beUint64 (fl2.disk.drop (fl2.disk.length - 16)) ≠ some (32 + 20)) ∧
    (∃ fl, createValueFile { testStore 32 with freeableMemBlockChanCaps := [1] } 0
            okWriteCloser (openBytes []) okAddLocBlock () = some (.ok fl, ()) ∧
      ¬ ({ testStore 32 with freeableMemBlockChanCaps := [1] } : DefaultGroupStore).hasRoom 2 ∧
      ∃ fl1 ms1, fl.writeAll [⟨[1, 2, 3], 0, 0⟩, ⟨[4, 5, 6], 0, 0⟩] = some (fl1, ms1) ∧
        valueFile.closeWriting fl1 = none) ∧
    (∃ fl, createValueFile (testStore 4294967292) 0 okWriteCloser (openBytes [])
            okAddLocBlock () = some (.ok fl, ()) ∧
      32 ≤ (testStore 4294967292).checksumInterval ∧
      (testStore 4294967292).hasRoom 0 ∧
      fl.writeAll [] = some (fl, []) ∧
      valueFile.closeWriting fl = none) := by
  refine ⟨⟨_, rfl, _, _, _, rfl, rfl, ?_, ?_, ?_⟩, ⟨_, rfl, by decide, _, _, rfl, by decide⟩,
    ⟨_, rfl, by decide, by decide, rfl, by decide⟩⟩
  · decide
  · decide
  · decide

/-! ## Group and value-store files from creation to close -/

theorem length_frameOpen (ci : Nat) (s : List Nat) (h : 0 < ci) (hs : s ≠ []) :
    (frameOpen ci s).length = s.length + 4 * (pageCount ci s.length - 1) := by
  have hpos : 0 < pageCount ci s.length := pageCount_pos ci _ h (List.length_pos.mpr hs)
  have hle := le_pageCount_mul ci s.length h
  have hlt : (pageCount ci s.length - 1) * ci < s.length := by
    unfold pageCount at *
    have h1 := Nat.div_add_mod (s.length + ci - 1) ci
    have h2 := Nat.mod_lt (s.length + ci - 1) h
    have h3 : ((s.length + ci - 1) / ci - 1) * ci = (s.length + ci - 1) / ci * ci - ci := by
      rw [Nat.sub_mul, Nat.one_mul]
    rw [Nat.mul_comm] at h1
    have hspos : 0 < s.length := List.length_pos.mpr hs
    omega
  unfold frameOpen
  rw [List.length_append, length_framePages_min, List.length_drop]
  omega

theorem groupClosed_spec {σ : Type} (magic ext : String) (store : DefaultGroupStore) (now : Int)
    (cw : String → Except GoError Unit) (ors : String → Except GoError (List Nat))
    (alb : σ → Except GoError Nat × σ) (reg reg1 : σ) (fl : groupStoreFile)
    (h : createReadWriteFile magic ext store now cw ors alb reg = some (.ok fl, reg1))
    (hm : 28 ≤ (strBytes magic).length)
    (hci : 32 ≤ store.checksumInterval) (hci4 : store.checksumInterval + 4 < 4294967296)
    (hch : 0 < store.freeableMemBlockChans.length) (ms : List groupMemBlock)
    (hroom : store.hasRoom ms.length) :
    ∃ fl1 fl2, fl.writeAll ms = some (fl1, stamped fl.id 32 ms) ∧
      groupStoreFile.closeWriting fl1 = some fl2 ∧
      fl2.disk = frameOpen store.checksumInterval
        (fileHead magic store.checksumInterval ++ allValues ms ++ strBytes "TERM v0 ") := by
  obtain ⟨fl1, P, Q, e1, w1, hPQ, c1, -, r1⟩ :=
    written_spec magic ext store now cw ors alb reg reg1 fl h hm hci hci4 hch ms hroom
  obtain ⟨fl2, e2, d2, -⟩ := groupClose_spec fl1 P Q w1 r1
  rw [hPQ, c1] at d2
  exact ⟨fl1, fl2, e1, e2, d2⟩

/-- C4 (the code at the failing input): the scenario of `TestGroupValuesFileWritingEmpty`,
a group store-file with checksum interval 65532 created and closed with nothing
written. The file consists of the 32 header bytes followed by `TERM v0 `: 40 bytes, not
the `32 + 65532 + 4` bytes of the claim and of the test. -/
theorem c4_empty_group_file_has_40_bytes :
    ∃ fl, createGroupReadWriteFile (testStore 65532) 0 okWriteCloser (openBytes [])
            okAddLocBlock () = some (.ok fl, ()) ∧
      ∃ fl2, groupStoreFile.closeWriting fl = some fl2 ∧
        fl2.disk = strBytes "GROUPSTORE v0               " ++ be32 65532 ++ strBytes "TERM v0 " ∧
        fl2.disk.length = 40 ∧ fl2.disk.length ≠ 32 + 65532 + 4 := by
  refine ⟨_, rfl, ?_⟩
  obtain ⟨fl1, fl2, e1, e2, d2⟩ :=
    groupClosed_spec "GROUPSTORE v0                   " ".group" (testStore 65532) 0
      okWriteCloser (openBytes []) okAddLocBlock () () _ rfl (by decide) (by decide)
      (by decide) (by decide) [] (by decide)
  simp only [groupStoreFile.writeAll, Option.some.injEq, Prod.mk.injEq] at e1
  have hS : fileHead "GROUPSTORE v0                   " (testStore 65532).checksumInterval
      ++ allValues [] ++ strBytes "TERM v0 " =
      strBytes "GROUPSTORE v0               " ++ be32 65532 ++ strBytes "TERM v0 " := by
    decide
  have hd : fl2.disk =
      strBytes "GROUPSTORE v0               " ++ be32 65532 ++ strBytes "TERM v0 " := by
    rw [d2, hS]
    exact frameOpen_small _ _ (by decide) (by decide)
  rw [← e1.1] at e2
  refine ⟨fl2, e2, hd, ?_, ?_⟩
  · rw [hd]; decide
  · rw [hd]; decide

/-- C5 (amended): for `32 <= CI`, `CI + 4 < 2^32` and every run of writes of `N` data
bytes in all to a group store-file or a `valueStoreFile` (one `closeWriting`), in a
store whose channels for freeable memblocks (at least one) have room for the memblocks
written, released to the channels in turn from channel 0 (`store.hasRoom`), if the
trailer does not straddle a page boundary,
`(32 + N) mod CI + 8 <= CI`, then the writes and `closeWriting` return and the last 8
bytes of the closed file are the ASCII bytes `TERM v0 `. -/
theorem c5_trailer_ends_file {σ : Type} (magic ext : String) (store : DefaultGroupStore)
    (now : Int) (cw : String → Except GoError Unit)
    (ors : String → Except GoError (List Nat))
    (alb : σ → Except GoError Nat × σ) (reg reg1 : σ) (fl : groupStoreFile)
    (h : createReadWriteFile magic ext store now cw ors alb reg = some (.ok fl, reg1))
    (hm : 28 ≤ (strBytes magic).length)
    (hci : 32 ≤ store.checksumInterval) (hci4 : store.checksumInterval + 4 < 4294967296)
    (hch : 0 < store.freeableMemBlockChans.length) (ms : List groupMemBlock)
    (hroom : store.hasRoom ms.length)
    (hfit : (32 + (allValues ms).length) % store.checksumInterval + 8
      ≤ store.checksumInterval) :
    ∃ fl1 ms1 fl2, fl.writeAll ms = some (fl1, ms1) ∧
      groupStoreFile.closeWriting fl1 = some fl2 ∧
      valueStoreFile.closeWriting fl1 = some fl2 ∧
      fl2.disk.drop (fl2.disk.length - 8) = strBytes "TERM v0 " := by
  obtain ⟨fl1, fl2, e1, e2, d2⟩ :=
    groupClosed_spec magic ext store now cw ors alb reg reg1 fl h hm hci hci4 hch ms hroom
  have hlen : (strBytes "TERM v0 ").length = 8 := by rw [strBytes_TERM_v0]; rfl
  have hS0 : (fileHead magic store.checksumInterval ++ allValues ms).length
      = 32 + (allValues ms).length := by
    rw [List.length_append, length_fileHead magic _ hm]
  rw [frameOpen_tail _ _ _ (by omega) (by rw [hlen]; omega)
    (by rw [hS0, hlen]; exact hfit)] at d2
  refine ⟨fl1, _, fl2, e1, e2, e2, ?_⟩
  rw [d2, ← hlen]
  exact drop_length_sub _ _

/-- C5, witness: a group store-file with checksum interval 32 and 3 data bytes. -/
theorem c5_trailer_ends_file_witness :
    ∃ fl, createGroupReadWriteFile (testStore 32) 0 okWriteCloser (openBytes [])
            okAddLocBlock () = some (.ok fl, ()) ∧
      (testStore 32).hasRoom 1 ∧
      (32 + (allValues [⟨[1, 2, 3], 0, 0⟩]).length) % (testStore 32).checksumInterval + 8
        ≤ (testStore 32).checksumInterval ∧
      ∃ fl1 ms1 fl2, fl.writeAll [⟨[1, 2, 3], 0, 0⟩] = some (fl1, ms1) ∧
        groupStoreFile.closeWriting fl1 = some fl2 ∧
        fl2.disk.drop (fl2.disk.length - 8) = strBytes "TERM v0 " := by
  refine ⟨_, rfl, by decide, by decide, ?_⟩
  obtain ⟨fl1, ms1, fl2, e1, e2, -, hterm⟩ :=
    c5_trailer_ends_file "GROUPSTORE v0                   " ".group" (testStore 32) 0
      okWriteCloser (openBytes []) okAddLocBlock () () _
      rfl (by decide) (by decide) (by decide) (by decide) [⟨[1, 2, 3], 0, 0⟩] (by decide)
      (by decide)
  exact ⟨fl1, ms1, fl2, e1, e2, hterm⟩

/-- C5, counterexample, in three parts. Checksum interval 32 and 25 data bytes: the
trailer starts at logical offset 57; its first 7 bytes fill the page, the checksum of
the page follows, and the file ends with ` v0`, the 4 checksum bytes and the last
trailer byte. With one channel for freeable memblocks made for one memblock,
`closeWriting` after two memblocks of one byte does not return: the release of the
second memblock finds the channel full. And with the checksum interval `2^32 - 4` the
buffers have `(2^32 - 4) + 4 = 0` bytes in `uint32`, and `closeWriting` of the empty
file does not return. -/
theorem c5_counterexample :
    (∃ fl, createGroupReadWriteFile (testStore 32) 0 okWriteCloser (openBytes [])
            okAddLocBlock () = some (.ok fl, ()) ∧
      ∃ fl1 ms1 fl2, fl.writeAll [⟨List.replicate 25 7, 0, 0⟩] = some (fl1, ms1) ∧
        groupStoreFile.closeWriting fl1 = some fl2 ∧
        fl2.disk.length = 73 ∧
        (fl2.disk.drop (fl2.disk.length - 8)).take 3 = [32, 118, 48] ∧
        fl2.disk.drop (fl2.disk.length - 1) = [32] ∧
        fl2.disk.drop (fl2.disk.length - 8) ≠ strBytes "TERM v0 ") ∧
    (∃ fl, createGroupReadWriteFile { testStore 32 with freeableMemBlockChanCaps := [1] } 0
            okWriteCloser (openBytes []) okAddLocBlock () = some (.ok fl, ()) ∧
      ¬ ({ testStore 32 with freeableMemBlockChanCaps := [1] } : DefaultGroupStore).hasRoom 2 ∧
      ∃ fl1 ms1, fl.writeAll [⟨[1], 0, 0⟩, ⟨[2], 0, 0⟩] = some (fl1, ms1) ∧
        groupStoreFile.closeWriting fl1 = none) ∧
    (∃ fl, createGroupReadWriteFile (testStore 4294967292) 0 okWriteCloser (openBytes [])
            okAddLocBlock () = some (.ok fl, ()) ∧
      32 ≤ (testStore 4294967292).checksumInterval ∧
      (testStore 4294967292).hasRoom 0 ∧
      fl.writeAll [] = some (fl, []) ∧
      groupStoreFile.closeWriting fl = none) := by
  refine ⟨⟨_, rfl, _, _, _, rfl, rfl, ?_, ?_, ?_, ?_⟩,
    ⟨_, rfl, by decide, _, _, rfl, by decide⟩,
    ⟨_, rfl, by decide, by decide, rfl, by decide⟩⟩
  · decide
  · decide
  · decide
  · decide

/-- C6 (what the code does, against the claim): for `32 <= CI`, `CI + 4 < 2^32`, a store
whose channels for freeable memblocks (at least one) have room for the memblocks
written, released to the channels in turn from channel 0, and every run of writes of `N` data bytes in all,
`closeWriting` of `groupStoreFile` and `valueStoreFile` returns and leaves on disk the
bytes `header ++ data ++ "TERM v0 "` in chunks of `CI` bytes of which every chunk but
the last is followed by its big-endian murmur3-32, and the last chunk, of 1 to `CI`
bytes, is followed by nothing: no checksum covers the last page. The file has
`L + 4*(ceil(L/CI) - 1)` bytes with `L = N + 40`, one checksum short of the framing
that `valueFile.closeWriting` writes. -/
theorem c6_last_page_has_no_checksum {σ : Type} (magic ext : String)
    (store : DefaultGroupStore)
    (now : Int) (cw : String → Except GoError Unit)
    (ors : String → Except GoError (List Nat))
    (alb : σ → Except GoError Nat × σ) (reg reg1 : σ) (fl : groupStoreFile)
    (h : createReadWriteFile magic ext store now cw ors alb reg = some (.ok fl, reg1))
    (hm : 28 ≤ (strBytes magic).length)
    (hci : 32 ≤ store.checksumInterval) (hci4 : store.checksumInterval + 4 < 4294967296)
    (hch : 0 < store.freeableMemBlockChans.length) (ms : List groupMemBlock)
    (hroom : store.hasRoom ms.length) :
    ∃ fl1 ms1 fl2, fl.writeAll ms = some (fl1, ms1) ∧
      groupStoreFile.closeWriting fl1 = some fl2 ∧
      valueStoreFile.closeWriting fl1 = some fl2 ∧
      fl2.disk = frameOpen store.checksumInterval
        (fileHead magic store.checksumInterval ++ allValues ms ++ strBytes "TERM v0 ") ∧
      fl2.disk.length = ((allValues ms).length + 40)
        + 4 * (pageCount store.checksumInterval ((allValues ms).length + 40) - 1) := by
  obtain ⟨fl1, fl2, e1, e2, d2⟩ :=
    groupClosed_spec magic ext store now cw ors alb reg reg1 fl h hm hci hci4 hch ms hroom
  have hlen : (strBytes "TERM v0 ").length = 8 := by rw [strBytes_TERM_v0]; rfl
  have hS : (fileHead magic store.checksumInterval ++ allValues ms
      ++ strBytes "TERM v0 ").length = (allValues ms).length + 40 := by
    simp only [List.length_append, length_fileHead magic _ hm, hlen]
    omega
  refine ⟨fl1, _, fl2, e1, e2, e2, d2, ?_⟩
  rw [d2, length_frameOpen _ _ (by omega) (by
    intro hnil
    have := congrArg List.length hnil
    rw [hS] at this
    simp at this), hS]

/-- C6, witness: a group store-file with checksum interval 32 and 3 data bytes has
`43 + 4*1 = 47` bytes. -/
theorem c6_last_page_has_no_checksum_witness :
    ∃ fl, createGroupReadWriteFile (testStore 32) 0 okWriteCloser (openBytes [])
            okAddLocBlock () = some (.ok fl, ()) ∧
      (testStore 32).hasRoom 1 ∧
      ∃ fl1 ms1 fl2, fl.writeAll [⟨[1, 2, 3], 0, 0⟩] = some (fl1, ms1) ∧
        groupStoreFile.closeWriting fl1 = some fl2 ∧ fl2.disk.length = 47 := by
  refine ⟨_, rfl, by decide, ?_⟩
  obtain ⟨fl1, ms1, fl2, e1, e2, -, -, hlen⟩ :=
    c6_last_page_has_no_checksum "GROUPSTORE v0                   " ".group" (testStore 32) 0
      okWriteCloser (openBytes []) okAddLocBlock () () _
      rfl (by decide) (by decide) (by decide) (by decide) [⟨[1, 2, 3], 0, 0⟩] (by decide)
  exact ⟨fl1, ms1, fl2, e1, e2, hlen⟩

/-- C6, the failing input: a group store-file with checksum interval 64, created and
closed. The file is its single page of 40 bytes, header and `TERM v0 `, with no
checksum behind it: it is not the framing with a checksum after every page, and its
last 4 bytes are ` v0 ` and not the murmur3-32 of the page. -/
theorem c6_counterexample :
    ∃ fl, createGroupReadWriteFile (testStore 64) 0 okWriteCloser (openBytes [])
            okAddLocBlock () = some (.ok fl, ()) ∧
      ∃ fl2, groupStoreFile.closeWriting fl = some fl2 ∧
        fl2.disk = strBytes "GROUPSTORE v0               " ++ be32 64 ++ strBytes "TERM v0 " ∧
        fl2.disk ≠ frame 64
          (strBytes "GROUPSTORE v0               " ++ be32 64 ++ strBytes "TERM v0 ") ∧
        fl2.disk.drop (fl2.disk.length - 4) ≠ be32 (murmur3.Sum32 fl2.disk) := by
  refine ⟨_, rfl, _, rfl, ?_, ?_, ?_⟩
  · decide
  · decide
  · decide

/-! ## The header -/

theorem create_stream {σ : Type} (magic ext : String) (store : DefaultGroupStore) (now : Int)
    (cw : String → Except GoError Unit) (ors : String → Except GoError (List Nat))
    (alb : σ → Except GoError Nat × σ) (reg reg1 : σ) (fl : groupStoreFile)
    (h : createReadWriteFile magic ext store now cw ors alb reg = some (.ok fl, reg1))
    (hm : 28 ≤ (strBytes magic).length)
    (hci4 : 28 ≤ store.checksumInterval ∧ store.checksumInterval + 4 < 4294967296) :
    fl.logicalStream = fileHead magic store.checksumInterval := by
  have hhead := length_fileHead magic store.checksumInterval hm
  unfold createReadWriteFile at h
  simp only at h
  split at h
  · simp at h
  · split at h
    · simp at h
    · rename_i cur free hbufs
      split at h
      · simp at h
      · split at h
        · simp at h
        · simp only [Option.some.injEq, Prod.mk.injEq, Except.ok.injEq] at h
          obtain ⟨hfl, -⟩ := h
          subst hfl
          have hcur : cur = newWriteBuf store := by
            have hmem : cur ∈ newFreeBufs store := by rw [hbufs]; exact List.mem_cons_self _ _
            exact List.eq_of_mem_replicate hmem
          have hu : u32 (store.checksumInterval + 4) = store.checksumInterval + 4 :=
            u32_of_lt hci4.2
          subst hcur
          have hmin : min (store.checksumInterval + 4) 32 = 32 := by omega
          simp only [groupStoreFile.logicalStream, newWriteBuf, List.length_replicate, hu,
            hhead, hmin, List.length_nil, stripChecksums, List.nil_append]
          have e : u32 32 = (List.take 32 (fileHead magic store.checksumInterval)).length := by
            rw [List.length_take, hhead]; rfl
          rw [e, List.take_left, ← hhead, List.take_length]

theorem readHeader_ok (magic path : String) (ors : String → Except GoError (List Nat))
    (ci : Nat) (rest : List Nat) (hm : (strBytes magic).length = 28)
    (hfile : ors path = .ok (strBytes magic ++ be32 ci ++ rest))
    (hci : 32 ≤ ci) (hci2 : ci < 4294967296) :
    readHeader magic path ors = (ci, []) := by
  have h32 : (strBytes magic ++ be32 ci).length = 32 := by
    rw [List.length_append, hm, length_be32]
  have htake : (strBytes magic ++ be32 ci ++ rest).take 32 = strBytes magic ++ be32 ci := by
    rw [← h32, List.take_left]
  have hread : ioReadFull (strBytes magic ++ be32 ci ++ rest) GROUP_FILE_HEADER_SIZE =
      .ok (strBytes magic ++ be32 ci) := by
    unfold ioReadFull GROUP_FILE_HEADER_SIZE
    rw [if_pos (by rw [List.length_append, h32]; omega), htake]
  have h28 : (strBytes magic ++ be32 ci).take 28 = strBytes magic := by
    rw [← hm, List.take_left]
  have hd28 : (strBytes magic ++ be32 ci).drop 28 = be32 ci ++ [] := by
    rw [← hm, List.drop_left, List.append_nil]
  unfold readHeader
  simp only [hfile, hread, h28, hd28, beUint32_be32 ci [] hci2, ne_eq, not_true_eq_false,
    if_false]
  rw [if_neg (by unfold GROUP_FILE_HEADER_SIZE; omega)]

/-- C7 (amended): header round trip. For every checksum interval `CI` with
`32 <= CI < 2^32`: if moreover `CI + 4 < 2^32`, the first 32 bytes produced by
`createGroupReadWriteFile` are the 28 bytes `GROUPSTORE v0` padded with spaces followed
by `CI` as a big-endian `uint32`; and `readGroupHeader` applied to any file starting
with those 32 bytes returns `(CI, no errors)`. The same holds for
`createValueReadWriteFile` and `readValueHeader` with `VALUESTORE v0`. -/
theorem c7_header_round_trip {σ : Type} (store : DefaultGroupStore)
    (hci : 32 ≤ store.checksumInterval) (hlt : store.checksumInterval < 4294967296) :
    (store.checksumInterval + 4 < 4294967296 →
      ∀ (now : Int) (cw : String → Except GoError Unit)
        (ors : String → Except GoError (List Nat))
        (alb : σ → Except GoError Nat × σ) (reg reg1 : σ) (fl : groupStoreFile),
        createGroupReadWriteFile store now cw ors alb reg = some (.ok fl, reg1) →
        fl.logicalStream =
          strBytes "GROUPSTORE v0               " ++ be32 store.checksumInterval) ∧
    (∀ (path : String) (rest : List Nat),
        readGroupHeader path
            (openBytes (strBytes "GROUPSTORE v0               "
              ++ be32 store.checksumInterval ++ rest))
          = (store.checksumInterval, [])) ∧
    (store.checksumInterval + 4 < 4294967296 →
      ∀ (now : Int) (cw : String → Except GoError Unit)
        (ors : String → Except GoError (List Nat))
        (alb : σ → Except GoError Nat × σ) (reg reg1 : σ) (fl : groupStoreFile),
        createValueReadWriteFile store now cw ors alb reg = some (.ok fl, reg1) →
        fl.logicalStream =
          strBytes "VALUESTORE v0               " ++ be32 store.checksumInterval) ∧
    (∀ (path : String) (rest : List Nat),
        readValueHeader path
            (openBytes (strBytes "VALUESTORE v0               "
              ++ be32 store.checksumInterval ++ rest))
          = (store.checksumInterval, [])) := by
  refine ⟨?_, ?_, ?_, ?_⟩
  · intro hci4 now cw ors alb reg reg1 fl h
    rw [create_stream "GROUPSTORE v0                   " ".group" store now cw ors alb reg reg1
      fl h (by decide) ⟨by omega, hci4⟩]
    unfold fileHead
    congr 1
  · intro path rest
    exact readHeader_ok _ path _ store.checksumInterval rest (by decide) rfl hci hlt
  · intro hci4 now cw ors alb reg reg1 fl h
    rw [create_stream "VALUESTORE v0                   " ".value" store now cw ors alb reg reg1
      fl h (by decide) ⟨by omega, hci4⟩]
    unfold fileHead
    congr 1
  · intro path rest
    exact readHeader_ok _ path _ store.checksumInterval rest (by decide) rfl hci hlt

/-- C7, witness: the checksum interval 65532 of the tests. -/
theorem c7_header_round_trip_witness :
    32 ≤ (testStore 65532).checksumInterval ∧
    (testStore 65532).checksumInterval + 4 < 4294967296 ∧
    (∀ fl, createGroupReadWriteFile (testStore 65532) 0 okWriteCloser (openBytes [])
            okAddLocBlock () = some (.ok fl, ()) →
        fl.logicalStream = strBytes "GROUPSTORE v0               " ++ [0, 0, 255, 252]) ∧
    readGroupHeader "12345.group"
        (openBytes (strBytes "GROUPSTORE v0               " ++ [0, 0, 255, 252]
          ++ strBytes "0123456789abcdef")) = (65532, []) := by
  have h := @c7_header_round_trip Unit (testStore 65532) (by decide) (by decide)
  exact ⟨by decide, by decide,
    fun fl hfl => h.1 (by decide) 0 okWriteCloser (openBytes []) okAddLocBlock () () fl hfl,
    h.2.1 "12345.group" (strBytes "0123456789abcdef")⟩

/-- C7, counterexample: the checksum interval `2^32 - 4` lies in `[32, 2^32)`, but the
buffer allocated for it has `(2^32 - 4) + 4 = 0` bytes in `uint32`: `copy` stores no
header byte and the file starts with no bytes at all. -/
theorem c7_counterexample :
    ∃ fl, createGroupReadWriteFile (testStore 4294967292) 0 okWriteCloser (openBytes [])
            okAddLocBlock () = some (.ok fl, ()) ∧
      32 ≤ (testStore 4294967292).checksumInterval ∧
      (testStore 4294967292).checksumInterval < 4294967296 ∧
      fl.logicalStream = [] ∧ fl.writerOffset = 0 ∧
      fl.logicalStream ≠ strBytes "GROUPSTORE v0               " ++ be32 4294967292 := by
  refine ⟨_, rfl, by decide, by decide, ?_, ?_, ?_⟩
  · decide
  · decide
  · decide


theorem beUint32_isSome (l : List Nat) (h : 4 ≤ l.length) : ∃ v, beUint32 l = some v := by
  match l, h with
  | b0 :: b1 :: b2 :: b3 :: _, _ => exact ⟨_, rfl⟩

theorem beUint32_take (l : List Nat) (n : Nat) (h : 4 ≤ n) :
    beUint32 (l.take n) = beUint32 l := by
  obtain ⟨k, rfl⟩ : ∃ k, n = k + 4 := ⟨n - 4, by omega⟩
  match l with
  | [] => simp
  | [_] => simp [beUint32]
  | [_, _] => simp [beUint32]
  | [_, _, _] => simp [beUint32]
  | b0 :: b1 :: b2 :: b3 :: rest => simp [beUint32, List.take]

theorem readHeader_spec (magic path : String) (ors : String → Except GoError (List Nat)) :
    ((readHeader magic path ors).1 ≠ 0 ↔
      ∃ file, ors path = .ok file ∧ 32 ≤ file.length ∧ file.take 28 = strBytes magic ∧
        ∃ ci, beUint32 (file.drop 28) = some ci ∧ 32 ≤ ci) ∧
    ((readHeader magic path ors).1 ≠ 0 →
      ∃ file, ors path = .ok file ∧ beUint32 (file.drop 28) = some (readHeader magic path ors).1
        ∧ (readHeader magic path ors).2 = []) ∧
    ((readHeader magic path ors).1 = 0 → (readHeader magic path ors).2 ≠ []) := by
  unfold readHeader
  cases hopen : ors path with
  | error e => simp
  | ok file =>
    simp only [Except.ok.injEq, exists_eq_left']
    by_cases hlen : 32 ≤ file.length
    · have hread : ioReadFull file GROUP_FILE_HEADER_SIZE = .ok (file.take 32) := by
        unfold ioReadFull GROUP_FILE_HEADER_SIZE
        rw [if_pos hlen]
      have h28 : (file.take 32).take 28 = file.take 28 := by
        rw [List.take_take]; rfl
      have hbe : beUint32 ((file.take 32).drop 28) = beUint32 (file.drop 28) := by
        rw [List.drop_take]
        exact beUint32_take _ _ (by omega)
      obtain ⟨ci, hci⟩ := beUint32_isSome (file.drop 28) (by rw [List.length_drop]; omega)
      simp only [hread, h28, hbe, hci, hlen, true_and, Option.some.injEq, exists_eq_left']
      by_cases hmagic : file.take 28 = strBytes magic
      · simp only [hmagic, ne_eq, not_true_eq_false, if_false, true_and]
        by_cases hsmall : ci < GROUP_FILE_HEADER_SIZE
        · have : ¬ 32 ≤ ci := by unfold GROUP_FILE_HEADER_SIZE at hsmall; omega
          simp [hsmall, this]
        · have h32 : 32 ≤ ci := by unfold GROUP_FILE_HEADER_SIZE at hsmall; omega
          have hne : ci ≠ 0 := by omega
          simp [hsmall, h32, hne]
      · simp [hmagic]
    · have hread : ∃ e, ioReadFull file GROUP_FILE_HEADER_SIZE = .error e := by
        unfold ioReadFull GROUP_FILE_HEADER_SIZE
        rw [if_neg hlen]
        by_cases h0 : file.length = 0
        · exact ⟨_, by rw [if_pos h0]⟩
        · exact ⟨_, by rw [if_neg h0]⟩
      obtain ⟨e, he⟩ := hread
      simp [he, hlen]

theorem newReadFile_header_failed {σ : Type} (magic ext : String) (store : DefaultGroupStore)
    (nameTimestamp : Int) (ors : String → Except GoError (List Nat))
    (alb : σ → Except GoError Nat × σ) (reg : σ)
    (h : (readHeader magic (pathJoin store.path (sprintf019d nameTimestamp ++ ext)) ors).1 = 0) :
    newReadFile magic ext store nameTimestamp ors alb reg =
      (.error (.errorsNew "header check failed"),
       { store with
         logged := (store.logged ++
          (readHeader magic (pathJoin store.path (sprintf019d nameTimestamp ++ ext)) ors).2.map
            (fun e => (pathJoin store.path (sprintf019d nameTimestamp ++ ext), e))) },
       reg) := by
  unfold newReadFile
  simp only [h, if_true]

/-- C8: `readGroupHeader` returns a non-zero checksum interval if and only if the file
can be opened, has at least 32 bytes, its first 28 bytes are `GROUPSTORE v0` padded with
spaces, and the big-endian `uint32` at bytes 28..32 is at least 32 (it then returns
that value and no error); in every other case it returns 0 with a non-empty error list,
and `newGroupReadFile` fails with the error `header check failed`, having logged the
errors and without calling `addLocBlock` (the registry is unchanged). The same holds
for `readValueHeader` and `newValueReadFile` with `VALUESTORE v0`. -/
theorem c8_header_check {σ : Type} (store : DefaultGroupStore) (nameTimestamp : Int)
    (path : String) (ors : String → Except GoError (List Nat))
    (alb : σ → Except GoError Nat × σ) (reg : σ) :
    (((readGroupHeader path ors).1 ≠ 0 ↔
        ∃ file, ors path = .ok file ∧ 32 ≤ file.length ∧
          file.take 28 = strBytes "GROUPSTORE v0               " ∧
          ∃ ci, beUint32 (file.drop 28) = some ci ∧ 32 ≤ ci) ∧
      ((readGroupHeader path ors).1 ≠ 0 →
        ∃ file, ors path = .ok file ∧
          beUint32 (file.drop 28) = some (readGroupHeader path ors).1 ∧
          (readGroupHeader path ors).2 = []) ∧
      ((readGroupHeader path ors).1 = 0 → (readGroupHeader path ors).2 ≠ []) ∧
      ((readGroupHeader (pathJoin store.path (sprintf019d nameTimestamp ++ ".group")) ors).1 = 0 →
        (newGroupReadFile store nameTimestamp ors alb reg).1 =
            .error (.errorsNew "header check failed") ∧
        (newGroupReadFile store nameTimestamp ors alb reg).2.2 = reg)) ∧
    (((readValueHeader path ors).1 ≠ 0 ↔
        ∃ file, ors path = .ok file ∧ 32 ≤ file.length ∧
          file.take 28 = strBytes "VALUESTORE v0               " ∧
          ∃ ci, beUint32 (file.drop 28) = some ci ∧ 32 ≤ ci) ∧
      ((readValueHeader path ors).1 ≠ 0 →
        ∃ file, ors path = .ok file ∧
          beUint32 (file.drop 28) = some (readValueHeader path ors).1 ∧
          (readValueHeader path ors).2 = []) ∧
      ((readValueHeader path ors).1 = 0 → (readValueHeader path ors).2 ≠ []) ∧
      ((readValueHeader (pathJoin store.path (sprintf019d nameTimestamp ++ ".value")) ors).1 = 0 →
        (newValueReadFile store nameTimestamp ors alb reg).1 =
            .error (.errorsNew "header check failed") ∧
        (newValueReadFile store nameTimestamp ors alb reg).2.2 = reg)) := by
  refine ⟨⟨(readHeader_spec _ path ors).1, (readHeader_spec _ path ors).2.1,
      (readHeader_spec _ path ors).2.2, ?_⟩,
    ⟨(readHeader_spec _ path ors).1, (readHeader_spec _ path ors).2.1,
      (readHeader_spec _ path ors).2.2, ?_⟩⟩
  · intro h
    have := newReadFile_header_failed "GROUPSTORE v0               " ".group" store
      nameTimestamp ors alb reg h
    unfold newGroupReadFile
    rw [this]
    exact ⟨rfl, rfl⟩
  · intro h
    have := newReadFile_header_failed "VALUESTORE v0               " ".value" store
      nameTimestamp ors alb reg h
    unfold newValueReadFile
    rw [this]
    exact ⟨rfl, rfl⟩

/-- C8, witness: a header that names 31 as its checksum interval, and a file that cannot
be opened; in both cases `readGroupHeader` returns 0 with one error and
`newGroupReadFile` fails with `header check failed`. -/
theorem c8_header_check_witness :
    readGroupHeader "0000000000000012345.group"
        (openBytes (strBytes "GROUPSTORE v0               " ++ [0, 0, 0, 31]))
      = (0, [GoError.checksumIntervalTooSmall 31]) ∧
    (newGroupReadFile (testStore 65532) 12345
        (openBytes (strBytes "GROUPSTORE v0               " ++ [0, 0, 0, 31]))
        okAddLocBlock ()).1 = .error (.errorsNew "header check failed") ∧
    (newGroupReadFile (testStore 65532) 12345 (fun _ => .error (GoError.other 2))
        okAddLocBlock ()).1 = .error (.errorsNew "header check failed") := by
  refine ⟨by decide, ?_, ?_⟩
  · exact ((c8_header_check (testStore 65532) 12345 ""
      (openBytes (strBytes "GROUPSTORE v0               " ++ [0, 0, 0, 31]))
      okAddLocBlock ()).1.2.2.2 (by decide)).1
  · exact ((c8_header_check (testStore 65532) 12345 ""
      (fun _ => .error (GoError.other 2)) okAddLocBlock ()).1.2.2.2 (by decide)).1

/-! ## Reads -/

/-- C9: for every store-file, keys, offset, length and buffer, if `timestampbits` has
the `_TSB_DELETION` bit set, `read` returns the timestampbits, the buffer as it was
(a nil buffer stays nil) and `ErrNotFound`, and leaves the file and its readers
untouched: no seek and no read. -/
theorem c9_read_deleted (tsbDeletion : Nat) (fl : groupStoreFile)
    (keyA keyB nameKeyA nameKeyB timestampbits offset length : Nat) (value : ByteSlice)
    (h : timestampbits &&& tsbDeletion ≠ 0) :
    fl.read tsbDeletion keyA keyB nameKeyA nameKeyB timestampbits offset length value =
      some (fl, timestampbits, value, some GoError.ErrNotFound) := by
  unfold groupStoreFile.read
  rw [if_pos h]

/-- C9, witness: the read of `TestGroupValuesFileReading` with `0x300|_TSB_DELETION`,
the deletion bit taken as `0x80`, and a nil buffer. -/
theorem c9_read_deleted_witness :
    (0x300 ||| 0x80) &&& 0x80 ≠ 0 ∧
    testReadFile.read 0x80 1 2 0 0 (0x300 ||| 0x80) 36 5 ByteSlice.nil =
      some (testReadFile, 0x300 ||| 0x80, ByteSlice.nil, some GoError.ErrNotFound) :=
  ⟨by decide, c9_read_deleted 0x80 testReadFile 1 2 0 0 (0x300 ||| 0x80) 36 5 ByteSlice.nil
    (by decide)⟩

theorem extend_bytes (v : ByteSlice) (length : Nat) :
    ∃ tail, (v.extend length).bytes = v.bytes ++ tail ∧ tail.length = length := by
  unfold ByteSlice.extend
  by_cases h : v.len + length ≤ v.cap
  · rw [if_pos h]
    cases v with
    | nil =>
      have : length = 0 := by
        simp only [ByteSlice.len, ByteSlice.cap, ByteSlice.bytes, ByteSlice.room,
          List.length_nil] at h
        omega
      subst this
      exact ⟨[], rfl, rfl⟩
    | mk data spare =>
      simp only [ByteSlice.len, ByteSlice.cap, ByteSlice.bytes, ByteSlice.room] at h
      exact ⟨spare.take length, rfl, by rw [List.length_take]; omega⟩
  · rw [if_neg h]
    exact ⟨List.replicate length 0, rfl, List.length_replicate _ _⟩

theorem fillTail_bytes (w : ByteSlice) (d tail got : List Nat) (length : Nat)
    (hw : w.bytes = d ++ tail) (ht : tail.length = length) (hg : got.length = length) :
    (w.fillTail length got).bytes = d ++ got := by
  cases w with
  | nil =>
    simp only [ByteSlice.bytes] at hw
    have hd : d = [] := (List.append_eq_nil.mp hw.symm).1
    have htl : tail = [] := (List.append_eq_nil.mp hw.symm).2
    subst hd htl
    simp only [List.length_nil] at ht
    subst ht
    have : got = [] := List.eq_nil_of_length_eq_zero hg
    subst this
    rfl
  | mk data spare =>
    simp only [ByteSlice.bytes] at hw
    subst hw
    have e : (d ++ tail).length - length = d.length := by
      rw [List.length_append, ht, Nat.add_sub_cancel]
    show (d ++ tail).take ((d ++ tail).length - length) ++ got ++
      ((d ++ tail).drop ((d ++ tail).length - length)).drop got.length = d ++ got
    rw [e, List.take_left, List.drop_left, List.drop_of_length_le (by omega), List.append_nil]

/-- C10: for every store-file with at least one reader whose readers all see the
logical content `C`, every timestampbits without the deletion bit, and every buffer
(nil, or with any length and capacity): when `offset + length <= len(C)`, `read`
returns the timestampbits, the buffer with its bytes kept and exactly the `length`
bytes `C[offset : offset+length]` appended, and no error; when the range
`[offset, offset+length)` holds a position past the end of `C`, `read` returns an error
and still the timestampbits passed in. -/
theorem c10_read_appends (tsbDeletion : Nat) (fl : groupStoreFile) (C : List Nat)
    (keyA keyB nameKeyA nameKeyB timestampbits offset length : Nat) (value : ByteSlice)
    (hreaders : 0 < fl.readerFPs.length)
    (hC : ∀ r ∈ fl.readerFPs, r.content = C)
    (hts : timestampbits &&& tsbDeletion = 0) :
    (offset + length ≤ C.length →
      ∃ fl1 value1,
        fl.read tsbDeletion keyA keyB nameKeyA nameKeyB timestampbits offset length value =
          some (fl1, timestampbits, value1, none) ∧
        value1.bytes = value.bytes ++ (C.drop offset).take length ∧
        value1.len = value.len + length) ∧
    ((∃ p, offset ≤ p ∧ p < offset + length ∧ C.length ≤ p) →
      ∃ fl1 value1 err,
        fl.read tsbDeletion keyA keyB nameKeyA nameKeyB timestampbits offset length value =
          some (fl1, timestampbits, value1, some err)) := by
  have hi : (keyA >>> 1) % fl.readerFPs.length < fl.readerFPs.length := Nat.mod_lt _ hreaders
  have hget : fl.readerFPs.get? ((keyA >>> 1) % fl.readerFPs.length) =
      some (fl.readerFPs.get ⟨_, hi⟩) := List.get?_eq_get hi
  have hcontent : (fl.readerFPs.get ⟨_, hi⟩).content = C :=
    hC _ (List.get_mem _ _ _)
  have hne : ¬ fl.readerFPs.length = 0 := by omega
  have hgot : ((C.drop offset).take length).length = min length (C.length - offset) := by
    rw [List.length_take, List.length_drop]
  constructor
  · intro hin
    obtain ⟨tail, hext, htail⟩ := extend_bytes value length
    have hlen : ((C.drop offset).take length).length = length := by rw [hgot]; omega
    have hrd : ∃ fl1,
        fl.read tsbDeletion keyA keyB nameKeyA nameKeyB timestampbits offset length value =
          some (fl1, timestampbits,
            (value.extend length).fillTail length ((C.drop offset).take length), none) := by
      unfold groupStoreFile.read
      rw [if_neg (by rw [hts]; simp), if_neg hne]
      simp only [hget, ChecksummedReader.ReadFull, ChecksummedReader.Seek, hcontent, hlen, if_true]
      exact ⟨_, rfl⟩
    obtain ⟨fl1, e⟩ := hrd
    have hb := fillTail_bytes _ _ tail _ length hext htail hlen
    refine ⟨fl1, _, e, hb, ?_⟩
    unfold ByteSlice.len
    rw [hb, List.length_append, hlen]
  · rintro ⟨p, hp1, hp2, hp3⟩
    have hlen : ((C.drop offset).take length).length ≠ length := by rw [hgot]; omega
    by_cases h0 : ((C.drop offset).take length).length = 0
    · have hl0 : ¬ (0 = length) := by rw [h0] at hlen; exact hlen
      unfold groupStoreFile.read
      rw [if_neg (by rw [hts]; simp), if_neg hne]
      simp only [hget, ChecksummedReader.ReadFull, ChecksummedReader.Seek, hcontent, h0, hl0,
        if_true, if_false]
      exact ⟨_, _, GoError.EOF, rfl⟩
    · unfold groupStoreFile.read
      rw [if_neg (by rw [hts]; simp), if_neg hne]
      simp only [hget, ChecksummedReader.ReadFull, ChecksummedReader.Seek, hcontent, hlen, h0,
        if_false]
      exact ⟨_, _, GoError.ErrUnexpectedEOF, rfl⟩

/-- C10, witness: the reads of `TestGroupValuesFileReading`: 5 bytes at offset 36
appended to the buffer `testing`, and 5 bytes at offset 44 of the 48-byte file. -/
theorem c10_read_appends_witness :
    (∃ fl1 value1,
      testReadFile.read 0x80 1 2 0 0 0x300 36 5 (ByteSlice.mk (strBytes "testing") []) =
        some (fl1, 0x300, value1, none) ∧
      value1.bytes = strBytes "testing45678") ∧
    (∃ fl1 value1 err,
      testReadFile.read 0x80 1 2 0 0 0x300 44 5 ByteSlice.nil =
        some (fl1, 0x300, value1, some err)) := by
  have hC : ∀ r ∈ testReadFile.readerFPs, r.content =
      strBytes "GROUPSTORE v0               " ++ [0, 0, 255, 252]
        ++ strBytes "0123456789abcdef" := by decide
  refine ⟨?_, ?_⟩
  · obtain ⟨fl1, value1, e, hb, -⟩ :=
      (c10_read_appends 0x80 testReadFile _ 1 2 0 0 0x300 36 5
        (ByteSlice.mk (strBytes "testing") []) (by decide) hC (by decide)).1 (by decide)
    exact ⟨fl1, value1, e, by rw [hb]; decide⟩
  · exact (c10_read_appends 0x80 testReadFile _ 1 2 0 0 0x300 44 5
        ByteSlice.nil (by decide) hC (by decide)).2 ⟨48, by decide, by decide, by decide⟩

/-! ## Bulk-set-ack messages -/

theorem reslice_mk (data spare : List Nat) (n : Nat) (h : n ≤ data.length + spare.length) :
    (ByteSlice.mk data spare).reslice n
      = some (ByteSlice.mk ((data ++ spare).take n) ((data ++ spare).drop n)) := by
  simp [ByteSlice.reslice, ByteSlice.cap, ByteSlice.bytes, ByteSlice.room, h]

theorem putUint64At_mk (data spare : List Nat) (pos x : Nat) (h : pos + 8 ≤ data.length) :
    (ByteSlice.mk data spare).putUint64At pos x
      = some (ByteSlice.mk (data.take pos ++ be64 x ++ data.drop (pos + 8)) spare) := by
  simp [ByteSlice.putUint64At, ByteSlice.len, ByteSlice.bytes, h]

theorem putUint64At_append (pre rest spare : List Nat) (pos x : Nat) (hpos : pos = pre.length)
    (h : 8 ≤ rest.length) :
    (ByteSlice.mk (pre ++ rest) spare).putUint64At pos x
      = some (ByteSlice.mk (pre ++ be64 x ++ rest.drop 8) spare) := by
  subst hpos
  rw [putUint64At_mk _ _ _ _ (by simp; omega)]
  simp [List.take_append, List.drop_append]

/-- What `add` does: with room for the entry and one more byte the entry is stored
behind the body, otherwise the message stays as it is. -/
theorem add_spec (bsam : groupBulkSetAckMsg) (e : AckEntry) :
    bsam.add e.keyA e.keyB e.nameKeyA e.nameKeyB e.timestampbits =
      if bsam.body.len + 40 < bsam.body.cap then
        some ({ body := ByteSlice.mk (bsam.body.bytes ++ e.encode) (bsam.body.room.drop 40) },
              true)
      else some (bsam, false) := by
  obtain ⟨body⟩ := bsam
  unfold groupBulkSetAckMsg.add
  simp only [GROUP_BULK_SET_ACK_MSG_ENTRY_LENGTH, ge_iff_le]
  by_cases h : body.len + 40 < body.cap
  · rw [if_neg (by omega), if_pos h]
    cases body with
    | nil => simp [ByteSlice.len, ByteSlice.cap, ByteSlice.bytes, ByteSlice.room] at h
    | mk data spare =>
      simp only [ByteSlice.len, ByteSlice.cap, ByteSlice.bytes, ByteSlice.room] at h ⊢
      have hs : 40 ≤ spare.length := by omega
      have ht : (spare.take 40).length = 40 := by
        rw [List.length_take, Nat.min_eq_left hs]
      rw [reslice_mk _ _ _ (by omega)]
      have e1 : (data ++ spare).take (data.length + 40) = data ++ spare.take 40 := by
        rw [List.take_append]
      have e2 : (data ++ spare).drop (data.length + 40) = spare.drop 40 := by
        rw [List.drop_append]
      rw [e1, e2]
      generalize spare.take 40 = t at ht
      simp only [Option.bind_eq_bind, Option.some_bind]
      rw [putUint64At_append data t _ _ _ rfl (by omega)]
      simp only [Option.some_bind, List.append_assoc]
      rw [← List.append_assoc data, putUint64At_append _ (t.drop 8) _ _ _
        (by simp [length_be64]) (by simp; omega)]
      simp only [Option.some_bind, List.append_assoc, List.drop_drop]
      rw [← List.append_assoc (be64 e.keyA), ← List.append_assoc data,
        putUint64At_append _ (t.drop 16) _ _ _
        (by simp [length_be64]) (by simp; omega)]
      simp only [Option.some_bind, List.append_assoc, List.drop_drop]
      rw [← List.append_assoc (be64 e.keyB), ← List.append_assoc (be64 e.keyA),
        ← List.append_assoc data,
        putUint64At_append _ (t.drop 24) _ _ _
        (by simp [length_be64]) (by simp; omega)]
      simp only [Option.some_bind, List.append_assoc, List.drop_drop]
      rw [← List.append_assoc (be64 e.nameKeyA), ← List.append_assoc (be64 e.keyB),
        ← List.append_assoc (be64 e.keyA), ← List.append_assoc data,
        putUint64At_append _ (t.drop 32) _ _ _
        (by simp [length_be64]) (by simp; omega)]
      simp only [Option.some_bind, List.append_assoc, List.drop_drop]
      have hd : t.drop 40 = [] := List.drop_of_length_le (by omega)
      simp [AckEntry.encode, hd]
  · rw [if_pos (by omega), if_neg h]

theorem addAll_spec (es : List AckEntry) (bsam bsam' : groupBulkSetAckMsg)
    (h : bsam.addAll es = some (bsam', List.replicate es.length true)) :
    bsam'.body.bytes = bsam.body.bytes ++ es.flatMap AckEntry.encode := by
  induction es generalizing bsam with
  | nil =>
    simp only [groupBulkSetAckMsg.addAll, Option.some.injEq, Prod.mk.injEq] at h
    rw [← h.1]; simp
  | cons e es ih =>
    simp only [groupBulkSetAckMsg.addAll] at h
    rw [add_spec] at h
    by_cases hfit : bsam.body.len + 40 < bsam.body.cap
    · rw [if_pos hfit] at h
      simp only [] at h
      split at h
      · exact absurd h (by simp)
      · rename_i b2 oks hrec
        simp only [Option.some.injEq, Prod.mk.injEq, List.length_cons, List.replicate_succ,
          List.cons.injEq, true_and] at h
        obtain ⟨h1, h2⟩ := h
        subst h1 h2
        rw [ih _ hrec]
        simp [ByteSlice.bytes]
    · rw [if_neg hfit] at h
      simp only [] at h
      split at h
      · exact absurd h (by simp)
      · simp [List.replicate_succ] at h

theorem newOutBulkSetAckMsg_spec {σ : Type} (vs vs' : groupBulkSetAckStore σ)
    (bsam : groupBulkSetAckMsg) (h : vs.newOutBulkSetAckMsg = some (bsam, vs')) :
    bsam.body.bytes = [] := by
  unfold groupBulkSetAckStore.newOutBulkSetAckMsg at h
  split at h
  · exact absurd h (by simp)
  · rename_i m free hm
    split at h
    · exact absurd h (by simp)
    · rename_i body hb
      simp only [Option.some.injEq, Prod.mk.injEq] at h
      rw [← h.1]
      unfold ByteSlice.reslice at hb
      split at hb
      · split at hb
        · simp only [Option.some.injEq] at hb; rw [← hb]; rfl
        · simp only [Option.some.injEq] at hb; rw [← hb]; simp [ByteSlice.bytes]
      · exact absurd hb (by simp)

/-- C11: whenever `add` returns true the body has grown by exactly 40 bytes, the bytes
it had are unchanged, and the 40 new bytes are keyA, keyB, nameKeyA, nameKeyB and
timestampbits as 8-byte big-endian integers in that order; and after `n` successful
adds on a message from `newOutBulkSetAckMsg`, `MsgLength()` is `40*n` and
`WriteContent` hands exactly the concatenation of the `n` encoded entries to the writer,
returning what the writer returns. -/
theorem c11_add_encoding {σ ω : Type} (m m1 : groupBulkSetAckMsg)
    (keyA keyB nameKeyA nameKeyB timestampbits : Nat)
    (vs vs' : groupBulkSetAckStore σ) (bsam bsam' : groupBulkSetAckMsg) (es : List AckEntry)
    (Write : ω → List Nat → ω × Nat × Option GoError) (w : ω)
    (hadd : m.add keyA keyB nameKeyA nameKeyB timestampbits = some (m1, true))
    (hnew : vs.newOutBulkSetAckMsg = some (bsam, vs'))
    (hadds : bsam.addAll es = some (bsam', List.replicate es.length true)) :
    (m1.body.len = m.body.len + 40 ∧
      m1.body.bytes = m.body.bytes ++
        (be64 keyA ++ be64 keyB ++ be64 nameKeyA ++ be64 nameKeyB ++ be64 timestampbits)) ∧
    bsam'.MsgLength = 40 * es.length ∧
    bsam'.body.bytes = es.flatMap AckEntry.encode ∧
    bsam'.WriteContent Write w = Write w (es.flatMap AckEntry.encode) := by
  have hb := addAll_spec es bsam bsam' hadds
  rw [newOutBulkSetAckMsg_spec vs vs' bsam hnew, List.nil_append] at hb
  have hlen : ∀ l : List AckEntry, (l.flatMap AckEntry.encode).length = 40 * l.length := by
    intro l
    induction l with
    | nil => rfl
    | cons a l ih =>
      rw [List.flatMap_cons, List.length_append, ih, List.length_cons]
      simp [AckEntry.encode, length_be64]; omega
  refine ⟨?_, ?_, hb, ?_⟩
  · have h := add_spec m ⟨keyA, keyB, nameKeyA, nameKeyB, timestampbits⟩
    simp only [] at h
    rw [hadd] at h
    split at h
    · simp only [Option.some.injEq, Prod.mk.injEq, and_true] at h
      rw [h]
      simp [ByteSlice.len, ByteSlice.bytes, AckEntry.encode, length_be64]
    · simp at h
  · unfold groupBulkSetAckMsg.MsgLength ByteSlice.len
    rw [hb, hlen]
  · unfold groupBulkSetAckMsg.WriteContent
    rw [hb]

theorem c11_add_encoding_witness :
    (⟨ByteSlice.mk (AckEntry.encode ⟨1, 2, 3, 4, 0x500⟩ ++ AckEntry.encode ⟨6, 7, 8, 9, 0xa00⟩)
        (List.replicate 20 0)⟩ : groupBulkSetAckMsg).body.bytes =
      [0, 0, 0, 0, 0, 0, 0, 1, 0, 0, 0, 0, 0, 0, 0, 2, 0, 0, 0, 0, 0, 0, 0, 3,
       0, 0, 0, 0, 0, 0, 0, 4, 0, 0, 0, 0, 0, 0, 5, 0] ++
      ([0, 0, 0, 0, 0, 0, 0, 6] ++ [0, 0, 0, 0, 0, 0, 0, 7] ++ [0, 0, 0, 0, 0, 0, 0, 8] ++
       [0, 0, 0, 0, 0, 0, 0, 9] ++ [0, 0, 0, 0, 0, 0, 10, 0]) ∧
    (⟨ByteSlice.mk (AckEntry.encode ⟨1, 2, 3, 4, 0x500⟩) (List.replicate 60 0)⟩ :
        groupBulkSetAckMsg).MsgLength = 40 ∧
    (⟨ByteSlice.mk (AckEntry.encode ⟨1, 2, 3, 4, 0x500⟩) (List.replicate 60 0)⟩ :
        groupBulkSetAckMsg).WriteContent bytesBufferWrite [] =
      ([0, 0, 0, 0, 0, 0, 0, 1, 0, 0, 0, 0, 0, 0, 0, 2, 0, 0, 0, 0, 0, 0, 0, 3,
        0, 0, 0, 0, 0, 0, 0, 4, 0, 0, 0, 0, 0, 0, 5, 0], 40, none) := by
  have h := c11_add_encoding (σ := Unit)
    ⟨ByteSlice.mk (AckEntry.encode ⟨1, 2, 3, 4, 0x500⟩) (List.replicate 60 0)⟩
    ⟨ByteSlice.mk (AckEntry.encode ⟨1, 2, 3, 4, 0x500⟩ ++ AckEntry.encode ⟨6, 7, 8, 9, 0xa00⟩)
      (List.replicate 20 0)⟩
    6 7 8 9 0xa00 (testAckStore 100) _ ⟨ByteSlice.mk [] (List.replicate 100 0)⟩
    ⟨ByteSlice.mk (AckEntry.encode ⟨1, 2, 3, 4, 0x500⟩) (List.replicate 60 0)⟩
    [⟨1, 2, 3, 4, 0x500⟩] bytesBufferWrite [] (by decide) rfl (by decide)
  exact ⟨h.1.2, h.2.1, h.2.2.2⟩

theorem addAll_exact_cap (es : List AckEntry) (e : AckEntry) (bsam : groupBulkSetAckMsg)
    (h : bsam.body.len + 40 * (es.length + 1) = bsam.body.cap) :
    (bsam.addAll (es ++ [e])).map Prod.snd = some (List.replicate es.length true ++ [false]) := by
  induction es generalizing bsam with
  | nil =>
    simp only [List.nil_append, groupBulkSetAckMsg.addAll]
    rw [add_spec, if_neg (by simp at h; omega)]
    rfl
  | cons a es ih =>
    simp only [List.cons_append, groupBulkSetAckMsg.addAll]
    rw [add_spec, if_pos (by simp at h; omega)]
    simp only []
    have h1 := ih ⟨ByteSlice.mk (bsam.body.bytes ++ a.encode) (bsam.body.room.drop 40)⟩ (by
      simp only [ByteSlice.len, ByteSlice.cap, ByteSlice.bytes, ByteSlice.room,
        List.length_append, List.length_drop, List.length_cons] at h ⊢
      have : a.encode.length = 40 := by simp [AckEntry.encode, length_be64]
      omega)
    split
    · rename_i hnone
      simp only [List.append_eq] at hnone
      rw [hnone] at h1; simp at h1
    · rename_i b2 oks hsome
      simp only [List.append_eq] at hsome
      rw [hsome] at h1
      simp only [Option.map_some', Option.some.injEq] at h1
      simp [h1, List.replicate_succ]

/-- C12: `add` returns true exactly when the entry and one byte more fit behind the
body, `n + 40 < c`, and otherwise returns false and leaves the message as it is. With
capacity 40 + 3 the first `add` succeeds and the second returns false; with capacity
exactly 40 the first `add` already returns false, and a message of capacity `40*k` takes
`k - 1` entries and refuses the `k`-th. -/
theorem c12_add_needs_a_spare_byte :
    (∀ (bsam : groupBulkSetAckMsg) (keyA keyB nameKeyA nameKeyB timestampbits : Nat),
      bsam.add keyA keyB nameKeyA nameKeyB timestampbits =
        if bsam.body.len + 40 < bsam.body.cap then
          some ({ body := ByteSlice.mk
                    (bsam.body.bytes ++ AckEntry.encode
                      ⟨keyA, keyB, nameKeyA, nameKeyB, timestampbits⟩)
                    (bsam.body.room.drop 40) }, true)
        else some (bsam, false)) ∧
    ((⟨ByteSlice.mk [] (List.replicate 43 0)⟩ : groupBulkSetAckMsg).addAll
        [⟨1, 2, 3, 4, 0x500⟩, ⟨6, 7, 8, 9, 0xa00⟩]).map Prod.snd = some [true, false] ∧
    (⟨ByteSlice.mk [] (List.replicate 40 0)⟩ : groupBulkSetAckMsg).add 1 2 3 4 0x500 =
      some (⟨ByteSlice.mk [] (List.replicate 40 0)⟩, false) ∧
    (∀ (es : List AckEntry) (e : AckEntry),
      ((⟨ByteSlice.mk [] (List.replicate (40 * (es.length + 1)) 0)⟩ :
          groupBulkSetAckMsg).addAll (es ++ [e])).map Prod.snd =
        some (List.replicate es.length true ++ [false])) := by
  refine ⟨fun bsam keyA keyB nameKeyA nameKeyB timestampbits =>
    add_spec bsam ⟨keyA, keyB, nameKeyA, nameKeyB, timestampbits⟩, by decide, by decide, ?_⟩
  intro es e
  exact addAll_exact_cap es e _ (by simp [ByteSlice.len, ByteSlice.cap, ByteSlice.bytes,
    ByteSlice.room])


/-! ## Incoming bulk-set-ack messages -/

theorem beUint64_isSome (l : List Nat) (h : 8 ≤ l.length) : ∃ v, beUint64 l = some v := by
  match l, h with
  | _ :: _ :: _ :: _ :: _ :: _ :: _ :: _ :: _, _ => exact ⟨_, rfl⟩

theorem beUint64_take (l : List Nat) (n : Nat) (h : 8 ≤ n) :
    beUint64 (l.take n) = beUint64 l := by
  obtain ⟨k, rfl⟩ : ∃ k, n = k + 8 := ⟨n - 8, by omega⟩
  match l with
  | [] => simp
  | [_] => simp [beUint64]
  | [_, _] => simp [beUint64]
  | [_, _, _] => simp [beUint64]
  | [_, _, _, _] => simp [beUint64]
  | [_, _, _, _, _] => simp [beUint64]
  | [_, _, _, _, _, _] => simp [beUint64]
  | [_, _, _, _, _, _, _] => simp [beUint64]
  | _ :: _ :: _ :: _ :: _ :: _ :: _ :: _ :: rest => simp [beUint64, List.take]

theorem uint64_at (b : List Nat) (o j : Nat) (h : o + 40 ≤ b.length) (hj : j + 8 ≤ 40) :
    (goSlice b (o + j) b.length).bind beUint64 = beUint64 (((b.drop o).take 40).drop j) ∧
    ∃ v, beUint64 (((b.drop o).take 40).drop j) = some v := by
  have e : beUint64 (((b.drop o).take 40).drop j) = beUint64 (b.drop (o + j)) := by
    rw [List.drop_take, List.drop_drop, beUint64_take _ _ (by omega)]
  rw [goSlice_eq _ _ _ (by omega) (Nat.le_refl _), List.take_length, Option.some_bind, e]
  exact ⟨rfl, beUint64_isSome _ (by rw [List.length_drop]; omega)⟩

theorem decodeAckEntry_at (b : List Nat) (o : Nat) (h : o + 40 ≤ b.length) :
    ∃ e, decodeAckEntry ((b.drop o).take 40) = some e ∧
      (goSlice b o b.length).bind beUint64 = some e.keyA ∧
      (goSlice b (o + 8) b.length).bind beUint64 = some e.keyB ∧
      (goSlice b (o + 16) b.length).bind beUint64 = some e.nameKeyA ∧
      (goSlice b (o + 24) b.length).bind beUint64 = some e.nameKeyB ∧
      (goSlice b (o + 32) b.length).bind beUint64 = some e.timestampbits := by
  obtain ⟨h0, v0, e0⟩ := uint64_at b o 0 h (by omega)
  obtain ⟨h1, v1, e1⟩ := uint64_at b o 8 h (by omega)
  obtain ⟨h2, v2, e2⟩ := uint64_at b o 16 h (by omega)
  obtain ⟨h3, v3, e3⟩ := uint64_at b o 24 h (by omega)
  obtain ⟨h4, v4, e4⟩ := uint64_at b o 32 h (by omega)
  rw [Nat.add_zero] at h0
  rw [List.drop_zero] at h0 e0
  refine ⟨⟨v0, v1, v2, v3, v4⟩, ?_, ?_, ?_, ?_, ?_, ?_⟩
  · simp [decodeAckEntry, e0, e1, e2, e3, e4]
  · rw [h0, e0]
  · rw [h1, e1]
  · rw [h2, e2]
  · rw [h3, e3]
  · rw [h4, e4]

theorem inBulkSetAckEntries_spec {σ : Type} (tsbLocalRemoval : Nat)
    (write : σ → Nat → Nat → Nat → Nat → Nat → ByteSlice → Bool → σ × Nat × Option GoError)
    (ring : Option Ring) (b : List Nat) (m : Nat) (hm : 40 * m ≤ b.length) (n : Nat) :
    ∀ (k fuel : Nat) (vs : groupBulkSetAckStore σ), k + n = m → n < fuel →
      vs.inBulkSetAckEntries tsbLocalRemoval write ring b (40 * m) fuel (40 * k) =
        some (((List.range' k n).filterMap
                (fun i => decodeAckEntry ((b.drop (40 * i)).take 40))).foldl
              (groupBulkSetAckStore.ackEntry tsbLocalRemoval write ring) vs) := by
  induction n with
  | zero =>
    intro k fuel vs hk hf
    obtain ⟨f, rfl⟩ : ∃ f, fuel = f + 1 := ⟨fuel - 1, by omega⟩
    unfold groupBulkSetAckStore.inBulkSetAckEntries
    rw [if_neg (by omega)]
    rfl
  | succ n ih =>
    intro k fuel vs hk hf
    obtain ⟨f, rfl⟩ : ∃ f, fuel = f + 1 := ⟨fuel - 1, by omega⟩
    obtain ⟨e, he, hA, hB, hnA, hnB, hts⟩ := decodeAckEntry_at b (40 * k) (by omega)
    unfold groupBulkSetAckStore.inBulkSetAckEntries
    rw [if_pos (by omega)]
    have hnext : 40 * k + GROUP_BULK_SET_ACK_MSG_ENTRY_LENGTH = 40 * (k + 1) := by
      simp [GROUP_BULK_SET_ACK_MSG_ENTRY_LENGTH]; omega
    simp only [Option.bind_eq_bind] at hA hB hnA hnB hts ⊢
    rw [hA]
    simp only [Option.some_bind, hnext, hts, hB, hnA, hnB]
    rw [List.range'_succ, List.filterMap_cons, he, List.foldl_cons]
    by_cases hr : notResponsible ring e.keyA = true
    · rw [if_pos hr]
      rw [ih (k + 1) f _ (by omega) (by omega)]
      congr 2
      unfold groupBulkSetAckStore.ackEntry
      rw [if_pos hr]
    · rw [if_neg hr]
      rw [ih (k + 1) f _ (by omega) (by omega)]
      congr 2
      unfold groupBulkSetAckStore.ackEntry
      rw [if_neg hr]

theorem ackEntry_state {σ : Type} (tsbLocalRemoval : Nat)
    (write : σ → Nat → Nat → Nat → Nat → Nat → ByteSlice → Bool → σ × Nat × Option GoError)
    (ring : Option Ring) (vs : groupBulkSetAckStore σ) (e : AckEntry) :
    (vs.ackEntry tsbLocalRemoval write ring e).bulkSetAckState = vs.bulkSetAckState ∧
    (vs.ackEntry tsbLocalRemoval write ring e).locmap =
      (if notResponsible ring e.keyA then
        (write vs.locmap e.keyA e.keyB e.nameKeyA e.nameKeyB
          (e.timestampbits ||| tsbLocalRemoval) ByteSlice.nil true).1
       else vs.locmap) ∧
    (vs.ackEntry tsbLocalRemoval write ring e).inBulkSetAckWrites =
      (if notResponsible ring e.keyA then atomicAddInt32 vs.inBulkSetAckWrites 1
       else vs.inBulkSetAckWrites) := by
  unfold groupBulkSetAckStore.ackEntry
  by_cases hr : notResponsible ring e.keyA = true
  · simp only [hr, if_true]
    split
    · exact ⟨rfl, rfl, rfl⟩
    · split <;> exact ⟨rfl, rfl, rfl⟩
  · simp only [hr, if_false, Bool.false_eq_true]
    exact ⟨trivial, trivial, trivial⟩

theorem foldl_ackEntry {σ : Type} (tsbLocalRemoval : Nat)
    (write : σ → Nat → Nat → Nat → Nat → Nat → ByteSlice → Bool → σ × Nat × Option GoError)
    (ring : Option Ring) (es : List AckEntry) (vs : groupBulkSetAckStore σ) :
    (es.foldl (groupBulkSetAckStore.ackEntry tsbLocalRemoval write ring) vs).bulkSetAckState
      = vs.bulkSetAckState ∧
    (es.foldl (groupBulkSetAckStore.ackEntry tsbLocalRemoval write ring) vs).locmap =
      (es.filter (fun e => notResponsible ring e.keyA)).foldl
        (fun s e => (write s e.keyA e.keyB e.nameKeyA e.nameKeyB
          (e.timestampbits ||| tsbLocalRemoval) ByteSlice.nil true).1) vs.locmap := by
  induction es generalizing vs with
  | nil => exact ⟨rfl, rfl⟩
  | cons e es ih =>
    obtain ⟨h1, h2, h3⟩ := ackEntry_state tsbLocalRemoval write ring vs e
    rw [List.foldl_cons]
    obtain ⟨i1, i2⟩ := ih (vs.ackEntry tsbLocalRemoval write ring e)
    refine ⟨i1.trans h1, ?_⟩
    rw [i2, h2, List.filter_cons]
    by_cases hr : notResponsible ring e.keyA = true
    · simp only [hr, if_true, List.foldl_cons]
    · simp only [hr, if_false, Bool.false_eq_true]

theorem foldl_ackEntry_none {σ : Type} (tsbLocalRemoval : Nat)
    (write : σ → Nat → Nat → Nat → Nat → Nat → ByteSlice → Bool → σ × Nat × Option GoError)
    (ring : Option Ring) (es : List AckEntry) (vs : groupBulkSetAckStore σ)
    (h : ∀ e ∈ es, notResponsible ring e.keyA = false) :
    es.foldl (groupBulkSetAckStore.ackEntry tsbLocalRemoval write ring) vs = vs := by
  induction es generalizing vs with
  | nil => rfl
  | cons e es ih =>
    rw [List.foldl_cons]
    have : vs.ackEntry tsbLocalRemoval write ring e = vs := by
      unfold groupBulkSetAckStore.ackEntry
      rw [h e (List.mem_cons_self _ _)]
      rfl
    rw [this]
    exact ih vs (fun x hx => h x (List.mem_cons_of_mem _ hx))

/-- The worker on one waiting message: every whole entry of the body is handled in
order, the message goes back on the free pool, and the worker waits for the next. -/
theorem inBulkSetAck_one {σ : Type} (tsbLocalRemoval : Nat)
    (write : σ → Nat → Nat → Nat → Nat → Nat → ByteSlice → Bool → σ × Nat × Option GoError)
    (ring : Option Ring) (vs : groupBulkSetAckStore σ) (bsam : groupBulkSetAckMsg)
    (fuel : Nat) (hq : vs.bulkSetAckState.inMsgChan = [some bsam]) (hf : 2 ≤ fuel) :
    ∃ vs1, vs1 = (ackEntries bsam.body.bytes).foldl
        (groupBulkSetAckStore.ackEntry tsbLocalRemoval write ring)
        { vs with bulkSetAckState := { vs.bulkSetAckState with inMsgChan := [] } } ∧
      vs.inBulkSetAck tsbLocalRemoval write ring fuel =
        some ({ vs1 with bulkSetAckState :=
                  { vs1.bulkSetAckState with
                    inFreeMsgChan := vs1.bulkSetAckState.inFreeMsgChan ++ [bsam] } },
              false) := by
  refine ⟨_, rfl, ?_⟩
  obtain ⟨f, rfl⟩ : ∃ f, fuel = f + 2 := ⟨fuel - 2, by omega⟩
  unfold groupBulkSetAckStore.inBulkSetAck
  rw [hq]
  simp only [GROUP_BULK_SET_ACK_MSG_ENTRY_LENGTH]
  have hl : bsam.body.bytes.length / 40 * 40 = 40 * (bsam.body.bytes.length / 40) :=
    Nat.mul_comm _ _
  have hsp := inBulkSetAckEntries_spec tsbLocalRemoval write ring bsam.body.bytes
    (bsam.body.bytes.length / 40) (Nat.mul_div_le _ _) (bsam.body.bytes.length / 40) 0
    (bsam.body.bytes.length + 1)
    { vs with bulkSetAckState := { vs.bulkSetAckState with inMsgChan := [] } }
    (Nat.zero_add _) (Nat.lt_succ_of_le (Nat.div_le_self _ _))
  rw [Nat.mul_zero] at hsp
  rw [hl, hsp]
  simp only []
  unfold groupBulkSetAckStore.inBulkSetAck
  rw [← List.range_eq_range']
  have hs := (foldl_ackEntry tsbLocalRemoval write ring (ackEntries bsam.body.bytes)
    { vs with bulkSetAckState := { vs.bulkSetAckState with inMsgChan := [] } }).1
  unfold ackEntries at hs ⊢
  simp only [hs]


theorem partition_shift (r : Ring) (keyA : Nat) (hP : r.PartitionBitCount ≤ 32)
    (hk : keyA < 18446744073709551616) :
    rightwardPartitionShift (some r) = 64 - r.PartitionBitCount ∧
    u32 (keyA >>> rightwardPartitionShift (some r)) = keyA >>> (64 - r.PartitionBitCount) := by
  have hs : rightwardPartitionShift (some r) = 64 - r.PartitionBitCount := by
    show u64 (64 + 18446744073709551616 - r.PartitionBitCount) = _
    unfold u64
    omega
  refine ⟨hs, ?_⟩
  rw [hs, Nat.shiftRight_eq_div_pow]
  apply u32_of_lt
  have h1 : (2 : Nat) ^ 64 = 2 ^ (64 - r.PartitionBitCount) * 2 ^ r.PartitionBitCount := by
    rw [← Nat.pow_add]; congr 1; omega
  have h2 : (2 : Nat) ^ r.PartitionBitCount ≤ 2 ^ 32 := Nat.pow_le_pow_right (by decide) hP
  have h3 : keyA < 2 ^ (64 - r.PartitionBitCount) * 2 ^ r.PartitionBitCount := by
    rw [← h1]; exact hk
  have h4 : keyA / 2 ^ (64 - r.PartitionBitCount) < 2 ^ r.PartitionBitCount :=
    Nat.div_lt_of_lt_mul h3
  exact Nat.lt_of_lt_of_le h4 h2

/-- C13: with a ring, `inBulkSetAck` handles one waiting message by issuing, for each
whole 40-byte entry whose partition `uint32(keyA >> (64 - P))` the ring does not hold the
local node responsible for, exactly one `write` of that key with the timestamp bits
`tsb | _TSB_LOCAL_REMOVAL`, a nil value and `internal = true`, in the order of the
entries, and no other write (for `P <= 32` the partition is `keyA >> (64 - P)` itself).
So, with the store's `write` and `read` as the spec describes them, the stored record
(1,2,3,4) at 0x500 acked at 0x500 becomes a record at `0x500|LOCAL_REMOVAL` without a
value, and a later read returns `ErrNotFound` with that timestamp and no value. -/
theorem c13_not_responsible_removes {σ : Type} (tsbLocalRemoval : Nat)
    (write : σ → Nat → Nat → Nat → Nat → Nat → ByteSlice → Bool → σ × Nat × Option GoError)
    (r : Ring) (vs : groupBulkSetAckStore σ) (bsam : groupBulkSetAckMsg) (fuel : Nat)
    (tsbDeletion tsbCompactionRewrite : Nat) (r2 : Ring)
    (vs2 : groupBulkSetAckStore (List LocEntry)) (bsam2 : groupBulkSetAckMsg)
    (hq : vs.bulkSetAckState.inMsgChan = [some bsam]) (hf : 2 ≤ fuel)
    (hq2 : vs2.bulkSetAckState.inMsgChan = [some bsam2])
    (hbody : bsam2.body.bytes = AckEntry.encode ⟨1, 2, 3, 4, 0x500⟩)
    (hstored : vs2.locmap = (specWrite tsbCompactionRewrite [] 1 2 3 4 0x500
      (ByteSlice.mk (strBytes "testing") []) true).1)
    (hr2 : r2.Responsible (u32 (1 >>> rightwardPartitionShift (some r2))) = false)
    (hflag : 0x500 < 0x500 ||| tsbLocalRemoval) :
    (∃ vs', vs.inBulkSetAck tsbLocalRemoval write (some r) fuel = some (vs', false) ∧
      vs'.locmap =
        ((ackEntries bsam.body.bytes).filter
          (fun e => !r.Responsible (u32 (e.keyA >>> rightwardPartitionShift (some r))))).foldl
          (fun s e => (write s e.keyA e.keyB e.nameKeyA e.nameKeyB
            (e.timestampbits ||| tsbLocalRemoval) ByteSlice.nil true).1) vs.locmap) ∧
    (r.PartitionBitCount ≤ 32 → ∀ keyA, keyA < 18446744073709551616 →
      u32 (keyA >>> rightwardPartitionShift (some r)) = keyA >>> (64 - r.PartitionBitCount)) ∧
    (∃ vs2', vs2.inBulkSetAck tsbLocalRemoval (specWrite tsbCompactionRewrite) (some r2) fuel
        = some (vs2', false) ∧
      specLookup vs2'.locmap 1 2 3 4 = some ⟨1, 2, 3, 4, 0x500 ||| tsbLocalRemoval, []⟩ ∧
      specRead tsbDeletion tsbLocalRemoval vs2'.locmap 1 2 3 4 ByteSlice.nil =
        (0x500 ||| tsbLocalRemoval, ByteSlice.nil, some GoError.ErrNotFound)) := by
  refine ⟨?_, fun hP keyA hk => (partition_shift r keyA hP hk).2, ?_⟩
  · obtain ⟨vs1, h1, h2⟩ := inBulkSetAck_one tsbLocalRemoval write (some r) vs bsam fuel hq hf
    refine ⟨_, h2, ?_⟩
    show vs1.locmap = _
    rw [h1, (foldl_ackEntry tsbLocalRemoval write (some r) _ _).2]
    rfl
  · obtain ⟨vs1, h1, h2⟩ := inBulkSetAck_one tsbLocalRemoval (specWrite tsbCompactionRewrite)
      (some r2) vs2 bsam2 fuel hq2 hf
    have hloc : vs1.locmap = [⟨1, 2, 3, 4, 0x500 ||| tsbLocalRemoval, []⟩] := by
      rw [h1, (foldl_ackEntry tsbLocalRemoval _ (some r2) _ _).2, hbody]
      have he : ackEntries (AckEntry.encode ⟨1, 2, 3, 4, 0x500⟩) = [⟨1, 2, 3, 4, 0x500⟩] := by
        decide
      have hn : notResponsible (some r2) 1 = true := by
        unfold notResponsible
        simp only [hr2, Bool.not_false]
      rw [he]
      show List.foldl _ vs2.locmap (List.filter _ _) = _
      rw [List.filter_cons]
      simp only [hn, if_true, List.filter_nil, List.foldl_cons, List.foldl_nil, hstored]
      have h0 : ¬ (0 > 1280 ∨ 0 = 1280 ∧ 1280 &&& tsbCompactionRewrite = 0) := by omega
      have h5 : ¬ (1280 > 1280 ||| tsbLocalRemoval ∨
          1280 = 1280 ||| tsbLocalRemoval ∧
            (1280 ||| tsbLocalRemoval) &&& tsbCompactionRewrite = 0) := by omega
      simp [specWrite, specLookup, h0, h5, ByteSlice.bytes]
    have hne : (0x500 ||| tsbLocalRemoval) &&& tsbLocalRemoval ≠ 0 := by
      have e : (0x500 ||| tsbLocalRemoval) &&& tsbLocalRemoval = tsbLocalRemoval := by
        apply Nat.eq_of_testBit_eq
        intro i
        simp only [Nat.testBit_and, Nat.testBit_or]
        cases Nat.testBit 0x500 i <;> cases Nat.testBit tsbLocalRemoval i <;> rfl
      rw [e]
      intro h0
      rw [h0] at hflag
      simp at hflag
    refine ⟨_, h2, ?_, ?_⟩
    · show specLookup vs1.locmap 1 2 3 4 = _
      rw [hloc]; rfl
    · show specRead tsbDeletion tsbLocalRemoval vs1.locmap 1 2 3 4 ByteSlice.nil = _
      rw [hloc]
      simp only [specRead, specLookup, List.find?, beq_self_eq_true, Bool.and_self]
      rw [if_pos (Or.inr hne)]

theorem c13_not_responsible_removes_witness :
    (∃ vs', (testInStore ([] : List (AckEntry × ByteSlice × Bool))
        (AckEntry.encode ⟨1, 2, 3, 4, 0x500⟩ ++ AckEntry.encode ⟨6, 7, 8, 9, 0xa00⟩)).inBulkSetAck
          0x20 recordWrite (some testRing) 2 = some (vs', false) ∧
      vs'.locmap = [(⟨1, 2, 3, 4, 0x520⟩, ByteSlice.nil, true),
                    (⟨6, 7, 8, 9, 0xa20⟩, ByteSlice.nil, true)]) ∧
    (∃ vs2', (testInStore ([⟨1, 2, 3, 4, 0x500, strBytes "testing"⟩] : List LocEntry)
        (AckEntry.encode ⟨1, 2, 3, 4, 0x500⟩)).inBulkSetAck 0x20 (specWrite 0x40)
          (some testRing) 2 = some (vs2', false) ∧
      specRead 0x80 0x20 vs2'.locmap 1 2 3 4 ByteSlice.nil =
        (0x520, ByteSlice.nil, some GoError.ErrNotFound)) := by
  have h := c13_not_responsible_removes 0x20 recordWrite testRing
    (testInStore ([] : List (AckEntry × ByteSlice × Bool))
      (AckEntry.encode ⟨1, 2, 3, 4, 0x500⟩ ++ AckEntry.encode ⟨6, 7, 8, 9, 0xa00⟩))
    ⟨ByteSlice.mk (AckEntry.encode ⟨1, 2, 3, 4, 0x500⟩ ++ AckEntry.encode ⟨6, 7, 8, 9, 0xa00⟩) []⟩
    2 0x80 0x40 testRing
    (testInStore ([⟨1, 2, 3, 4, 0x500, strBytes "testing"⟩] : List LocEntry)
      (AckEntry.encode ⟨1, 2, 3, 4, 0x500⟩))
    ⟨ByteSlice.mk (AckEntry.encode ⟨1, 2, 3, 4, 0x500⟩) []⟩
    rfl (by decide) rfl rfl (by decide) rfl (by decide)
  obtain ⟨⟨vs', h1, h2⟩, _, ⟨vs2', h3, _, h4⟩⟩ := h
  refine ⟨⟨vs', h1, ?_⟩, ⟨vs2', h3, h4⟩⟩
  rw [h2]
  decide


/-- C14: when the MsgRing has no ring, or the ring holds the local node responsible for
the partition of the keyA of every whole entry, `inBulkSetAck` handles a waiting message
without any `write`: the state that `write` works on and every counter are as before, so
every record reads back as before; the only change is that the message has moved from
`inMsgChan` to the free pool. And whatever the ring says, the message ends up on the
free pool. -/
theorem c14_responsible_keeps_records {σ : Type} (tsbLocalRemoval : Nat)
    (write : σ → Nat → Nat → Nat → Nat → Nat → ByteSlice → Bool → σ × Nat × Option GoError)
    (ring anyRing : Option Ring) (vs : groupBulkSetAckStore σ) (bsam : groupBulkSetAckMsg)
    (fuel : Nat) (hq : vs.bulkSetAckState.inMsgChan = [some bsam]) (hf : 2 ≤ fuel)
    (hresp : ring = none ∨ ∃ r, ring = some r ∧ ∀ e ∈ ackEntries bsam.body.bytes,
      r.Responsible (u32 (e.keyA >>> rightwardPartitionShift ring)) = true) :
    vs.inBulkSetAck tsbLocalRemoval write ring fuel =
      some ({ vs with bulkSetAckState :=
                { vs.bulkSetAckState with
                  inMsgChan := [],
                  inFreeMsgChan := vs.bulkSetAckState.inFreeMsgChan ++ [bsam] } }, false) ∧
    (∃ vs', vs.inBulkSetAck tsbLocalRemoval write anyRing fuel = some (vs', false) ∧
      vs'.bulkSetAckState.inMsgChan = [] ∧
      vs'.bulkSetAckState.inFreeMsgChan = vs.bulkSetAckState.inFreeMsgChan ++ [bsam]) := by
  constructor
  · obtain ⟨vs1, h1, h2⟩ := inBulkSetAck_one tsbLocalRemoval write ring vs bsam fuel hq hf
    have hnone : ∀ e ∈ ackEntries bsam.body.bytes, notResponsible ring e.keyA = false := by
      intro e he
      rcases hresp with h | ⟨r, hr, h⟩
      · rw [h]; rfl
      · have := h e he
        rw [hr] at this ⊢
        unfold notResponsible
        simp only [this, Bool.not_true]
    rw [foldl_ackEntry_none tsbLocalRemoval write ring _ _ hnone] at h1
    rw [h2, h1]
  · obtain ⟨vs1, h1, h2⟩ := inBulkSetAck_one tsbLocalRemoval write anyRing vs bsam fuel hq hf
    have hs := (foldl_ackEntry tsbLocalRemoval write anyRing (ackEntries bsam.body.bytes)
      { vs with bulkSetAckState := { vs.bulkSetAckState with inMsgChan := [] } }).1
    rw [← h1] at hs
    refine ⟨_, h2, ?_, ?_⟩
    · show vs1.bulkSetAckState.inMsgChan = []
      rw [hs]
    · show vs1.bulkSetAckState.inFreeMsgChan ++ [bsam] = _
      rw [hs]

theorem c14_responsible_keeps_records_witness :
    ((testInStore ([⟨1, 2, 3, 4, 0x500, strBytes "testing"⟩] : List LocEntry)
        (AckEntry.encode ⟨1, 2, 3, 4, 0x500⟩)).inBulkSetAck 0x20 (specWrite 0x40) none 2).map
      (fun p => specRead 0x80 0x20 p.1.locmap 1 2 3 4 ByteSlice.nil) =
      some (0x500, ByteSlice.mk (strBytes "testing") [], none) := by
  rw [(c14_responsible_keeps_records 0x20 (specWrite 0x40) none (some testRing)
    (testInStore ([⟨1, 2, 3, 4, 0x500, strBytes "testing"⟩] : List LocEntry)
      (AckEntry.encode ⟨1, 2, 3, 4, 0x500⟩))
    ⟨ByteSlice.mk (AckEntry.encode ⟨1, 2, 3, 4, 0x500⟩) []⟩ 2 rfl (by decide) (Or.inl rfl)).1]
  decide


theorem filterMap_all_some {α β : Type} (f : α → Option β) (l : List α)
    (h : ∀ x ∈ l, ∃ y, f x = some y) : (l.filterMap f).map some = l.map f := by
  induction l with
  | nil => rfl
  | cons a l ih =>
    obtain ⟨y, hy⟩ := h a (List.mem_cons_self _ _)
    rw [List.filterMap_cons, hy, List.map_cons, List.map_cons, hy,
      ih (fun x hx => h x (List.mem_cons_of_mem _ hx))]

theorem ackEntries_spec (b : List Nat) :
    (ackEntries b).length = b.length / 40 ∧
    ∀ i, i < b.length / 40 →
      (ackEntries b)[i]? = decodeAckEntry ((b.drop (40 * i)).take 40) := by
  have hall : ∀ x ∈ List.range (b.length / 40),
      ∃ y, (fun i => decodeAckEntry ((b.drop (40 * i)).take 40)) x = some y := by
    intro x hx
    have hx1 : x < b.length / 40 := List.mem_range.mp hx
    have hx2 : 40 * (b.length / 40) ≤ b.length := Nat.mul_div_le _ _
    obtain ⟨e, he, _⟩ := decodeAckEntry_at b (40 * x) (by omega)
    exact ⟨e, he⟩
  have hm := filterMap_all_some _ _ hall
  constructor
  · have := congrArg List.length hm
    rw [List.length_map, List.length_map, List.length_range] at this
    exact this
  · intro i hi
    have := congrArg (fun l => l[i]?) hm
    simp only [List.getElem?_map, List.getElem?_range hi, Option.map_some'] at this
    unfold ackEntries
    cases hg : ((List.range (b.length / 40)).filterMap
        (fun i => decodeAckEntry ((b.drop (40 * i)).take 40)))[i]? with
    | none => rw [hg] at this; simp at this
    | some a => rw [hg] at this; simpa using this

theorem ackEntries_same_head (b b2 : List Nat)
    (htake : b2.take (40 * (b.length / 40)) = b.take (40 * (b.length / 40)))
    (hlen : b2.length / 40 = b.length / 40) : ackEntries b2 = ackEntries b := by
  unfold ackEntries
  rw [hlen]
  apply List.filterMap_congr
  intro i hi
  have hi1 : i < b.length / 40 := List.mem_range.mp hi
  have key : ∀ c : List Nat, (c.drop (40 * i)).take 40
      = ((c.take (40 * (b.length / 40))).drop (40 * i)).take 40 := by
    intro c
    rw [List.drop_take, List.take_take, Nat.min_eq_left (by omega)]
  rw [key b2, key b, htake]

/-- C15: for a body of `n` bytes, whatever `n` is, `inBulkSetAck` does not panic; it
handles exactly `floor(n/40)` entries in order, the `i`-th read from the bytes
`[40*i, 40*i+40)`; and a body that has the same first `40*floor(n/40)` bytes and the
same number of whole entries has the same effect on the store and its counters, so the
`n mod 40` bytes behind the last whole entry are not read. -/
theorem c15_whole_entries_only {σ : Type} (tsbLocalRemoval : Nat)
    (write : σ → Nat → Nat → Nat → Nat → Nat → ByteSlice → Bool → σ × Nat × Option GoError)
    (ring : Option Ring) (vs : groupBulkSetAckStore σ) (bsam bsam2 : groupBulkSetAckMsg)
    (fuel : Nat) (hq : vs.bulkSetAckState.inMsgChan = [some bsam]) (hf : 2 ≤ fuel)
    (htake : bsam2.body.bytes.take (40 * (bsam.body.bytes.length / 40))
      = bsam.body.bytes.take (40 * (bsam.body.bytes.length / 40)))
    (hlen : bsam2.body.bytes.length / 40 = bsam.body.bytes.length / 40) :
    (ackEntries bsam.body.bytes).length = bsam.body.bytes.length / 40 ∧
    (∀ i, i < bsam.body.bytes.length / 40 →
      (ackEntries bsam.body.bytes)[i]? =
        decodeAckEntry ((bsam.body.bytes.drop (40 * i)).take 40)) ∧
    ∃ vs1 vs', vs1 = (ackEntries bsam.body.bytes).foldl
        (groupBulkSetAckStore.ackEntry tsbLocalRemoval write ring)
        { vs with bulkSetAckState := { vs.bulkSetAckState with inMsgChan := [] } } ∧
      vs.inBulkSetAck tsbLocalRemoval write ring fuel = some (vs', false) ∧
      vs' = { vs1 with bulkSetAckState :=
                { vs1.bulkSetAckState with
                  inFreeMsgChan := vs1.bulkSetAckState.inFreeMsgChan ++ [bsam] } } ∧
      groupBulkSetAckStore.inBulkSetAck tsbLocalRemoval write ring fuel
          { vs with bulkSetAckState :=
              { vs.bulkSetAckState with inMsgChan := [some bsam2] } } =
        some ({ vs1 with bulkSetAckState :=
                  { vs1.bulkSetAckState with
                    inFreeMsgChan := vs1.bulkSetAckState.inFreeMsgChan ++ [bsam2] } },
              false) := by
  obtain ⟨h1, h2⟩ := ackEntries_spec bsam.body.bytes
  refine ⟨h1, h2, ?_⟩
  obtain ⟨vs1, e1, r1⟩ := inBulkSetAck_one tsbLocalRemoval write ring vs bsam fuel hq hf
  obtain ⟨vs2, e2, r2⟩ := inBulkSetAck_one tsbLocalRemoval write ring
    { vs with bulkSetAckState := { vs.bulkSetAckState with inMsgChan := [some bsam2] } }
    bsam2 fuel rfl hf
  rw [ackEntries_same_head _ _ htake hlen] at e2
  have e3 : vs2 = vs1 := by rw [e1, e2]
  rw [e3] at r2
  exact ⟨vs1, _, e1, r1, rfl, r2⟩

theorem c15_whole_entries_only_witness :
    (ackEntries (AckEntry.encode ⟨1, 2, 3, 4, 0x500⟩ ++ [9, 9, 9])).length = 1 ∧
    ∃ vs' vs2', (testInStore ([] : List (AckEntry × ByteSlice × Bool))
        (AckEntry.encode ⟨1, 2, 3, 4, 0x500⟩ ++ [9, 9, 9])).inBulkSetAck
          0x20 recordWrite (some testRing) 2 = some (vs', false) ∧
      (testInStore ([] : List (AckEntry × ByteSlice × Bool))
        (AckEntry.encode ⟨1, 2, 3, 4, 0x500⟩ ++ [7])).inBulkSetAck
          0x20 recordWrite (some testRing) 2 = some (vs2', false) ∧
      vs2'.locmap = vs'.locmap := by
  have h := c15_whole_entries_only 0x20 recordWrite (some testRing)
    (testInStore ([] : List (AckEntry × ByteSlice × Bool))
      (AckEntry.encode ⟨1, 2, 3, 4, 0x500⟩ ++ [9, 9, 9]))
    ⟨ByteSlice.mk (AckEntry.encode ⟨1, 2, 3, 4, 0x500⟩ ++ [9, 9, 9]) []⟩
    ⟨ByteSlice.mk (AckEntry.encode ⟨1, 2, 3, 4, 0x500⟩ ++ [7]) []⟩
    2 rfl (by decide) (by decide) (by decide)
  obtain ⟨h1, _, vs1, vs', e1, r1, e2, r2⟩ := h
  refine ⟨h1, vs', _, r1, r2, ?_⟩
  rw [e2]


/-! ## Reading an incoming bulk-set-ack message -/

theorem supplies_zero (p : List (List Nat × Option GoError)) : supplies p 0 = true := by
  match p with
  | [] => rfl
  | (chunk, none) :: rest => simp [supplies]
  | (chunk, some e) :: rest => simp [supplies]

theorem stream_cons (chunk : List Nat) (err : Option GoError)
    (rest : List (List Nat × Option GoError)) :
    ioReader.stream ⟨(chunk, err) :: rest⟩ = chunk ++ ioReader.stream ⟨rest⟩ := by
  simp [ioReader.stream]

/-- The loop that reads into `toss` ends: with `left = 0` and no error when the reader
supplies `left` bytes, and otherwise with the first error of the reader, `left` being
what had not been supplied by then. -/
theorem newInBulkSetAckMsgToss_spec (tossLen : Nat) (ht : 0 < tossLen) (fuel : Nat) :
    ∀ (p : List (List Nat × Option GoError)) (left : Nat), left + p.length < fuel →
      (supplies p left = true →
        ∃ r1, newInBulkSetAckMsgToss tossLen fuel ⟨p⟩ left = some (r1, 0, none) ∧
          r1.stream = (ioReader.stream ⟨p⟩).drop left) ∧
      (supplies p left = false →
        ∃ r1, newInBulkSetAckMsgToss tossLen fuel ⟨p⟩ left
            = some (r1, left - (failure p).1, some (failure p).2) ∧
          (failure p).1 ≤ left) := by
  induction fuel with
  | zero => intro p left h; omega
  | succ fuel ih =>
    intro p left hf
    by_cases h0 : left = 0
    · subst h0
      constructor
      · intro _
        exact ⟨⟨p⟩, by simp [newInBulkSetAckMsgToss], by simp⟩
      · intro h; rw [supplies_zero] at h; exact absurd h (by simp)
    · have hpos : left > 0 := Nat.pos_of_ne_zero h0
      have ht1 : 0 < (if left < tossLen then left else tossLen) := by split <;> omega
      have ht2 : (if left < tossLen then left else tossLen) ≤ left := by split <;> omega
      have hstep : newInBulkSetAckMsgToss tossLen (fuel + 1) ⟨p⟩ left =
          (if ((ioReader.Read ⟨p⟩ (if left < tossLen then left else tossLen)).2.1) ≠ none then
            some ((ioReader.Read ⟨p⟩ (if left < tossLen then left else tossLen)).2.2,
              left - (ioReader.Read ⟨p⟩ (if left < tossLen then left else tossLen)).1.length,
              (ioReader.Read ⟨p⟩ (if left < tossLen then left else tossLen)).2.1)
          else newInBulkSetAckMsgToss tossLen fuel
            (ioReader.Read ⟨p⟩ (if left < tossLen then left else tossLen)).2.2
            (left - (ioReader.Read ⟨p⟩ (if left < tossLen then left else tossLen)).1.length)) := by
        rw [newInBulkSetAckMsgToss, if_pos hpos]
      generalize (if left < tossLen then left else tossLen) = t at ht1 ht2 hstep
      rw [hstep]
      match p, hf with
      | [], hf =>
        have hr : ioReader.Read ⟨[]⟩ t = ([], some GoError.EOF, ⟨[]⟩) := rfl
        rw [hr]
        simp only [ne_eq, reduceCtorEq, not_false_eq_true, if_true, List.length_nil, Nat.sub_zero]
        constructor
        · intro h; simp [supplies, h0] at h
        · intro _; exact ⟨_, rfl, Nat.zero_le _⟩
      | (chunk, err) :: rest, hf =>
        simp only [List.length_cons] at hf
        by_cases hc : chunk.length ≤ t
        · have hr : ioReader.Read ⟨(chunk, err) :: rest⟩ t = (chunk, err, ⟨rest⟩) := by
            simp [ioReader.Read, hc]
          rw [hr]
          cases err with
          | some e =>
            simp only [ne_eq, reduceCtorEq, not_false_eq_true, if_true]
            constructor
            · intro h
              simp only [supplies, Bool.or_eq_true, beq_iff_eq, decide_eq_true_eq] at h
              omega
            · intro _
              exact ⟨_, rfl, by simp only [failure]; omega⟩
          | none =>
            simp only [ne_eq, not_true_eq_false, if_false]
            obtain ⟨i1, i2⟩ := ih rest (left - chunk.length) (by omega)
            have hsup : supplies ((chunk, none) :: rest) left
                = supplies rest (left - chunk.length) := by
              simp only [supplies]
              split
              · rename_i hle
                have : left - chunk.length = 0 := by omega
                rw [this, supplies_zero]
              · rfl
            rw [hsup]
            constructor
            · intro h
              obtain ⟨r1, e1, e2⟩ := i1 h
              refine ⟨r1, e1, ?_⟩
              rw [e2, stream_cons]
              have : left = chunk.length + (left - chunk.length) := by omega
              nth_rewrite 2 [this]
              rw [List.drop_append]
            · intro h
              obtain ⟨r1, e1, e2⟩ := i2 h
              refine ⟨r1, ?_, ?_⟩
              · rw [e1]; simp only [failure]
                congr 3; omega
              · simp only [failure]; omega
        · have hr : ioReader.Read ⟨(chunk, err) :: rest⟩ t
              = (chunk.take t, none, ⟨(chunk.drop t, err) :: rest⟩) := by
            simp [ioReader.Read, hc]
          rw [hr]
          simp only [ne_eq, not_true_eq_false, if_false, List.length_take]
          have hmin : min t chunk.length = t := by omega
          rw [hmin]
          obtain ⟨i1, i2⟩ := ih ((chunk.drop t, err) :: rest) (left - t)
            (by simp only [List.length_cons]; omega)
          have hsup : supplies ((chunk, err) :: rest) left
              = supplies ((chunk.drop t, err) :: rest) (left - t) := by
            cases err with
            | none =>
              simp only [supplies, List.length_drop]
              by_cases hle : left ≤ chunk.length
              · rw [if_pos hle, if_pos (by omega)]
              · rw [if_neg hle, if_neg (by omega)]
                congr 1; omega
            | some e =>
              simp only [supplies, List.length_drop]
              rw [Bool.eq_iff_iff]
              simp only [Bool.or_eq_true, beq_iff_eq, decide_eq_true_eq]
              omega
          have hfail : failure ((chunk, err) :: rest)
              = (t + (failure ((chunk.drop t, err) :: rest)).1,
                 (failure ((chunk.drop t, err) :: rest)).2) := by
            cases err with
            | none => simp only [failure, List.length_drop]; congr 1; omega
            | some e => simp only [failure, List.length_drop]; congr 1; omega
          rw [hsup, hfail]
          constructor
          · intro h
            obtain ⟨r1, e1, e2⟩ := i1 h
            refine ⟨r1, e1, ?_⟩
            rw [e2, stream_cons, stream_cons]
            have e3 : chunk.drop t ++ ioReader.stream ⟨rest⟩
                = (chunk ++ ioReader.stream ⟨rest⟩).drop t :=
              (List.drop_append_of_le_length (by omega)).symm
            rw [e3, List.drop_drop]
            congr 1; omega
          · intro h
            obtain ⟨r1, e1, e2⟩ := i2 h
            refine ⟨r1, ?_, ?_⟩
            · rw [e1]; congr 3; simp only []; omega
            · simp only []; omega

theorem fill_step (body got : List Nat) (n : Nat) (hn : n ≤ body.length)
    (hg : got.length ≤ body.length - n) :
    (body.take n ++ got ++ body.drop (n + got.length)).length = body.length ∧
    (body.take n ++ got ++ body.drop (n + got.length)).take (n + got.length)
      = body.take n ++ got := by
  have h1 : (body.take n ++ got).length = n + got.length := by
    rw [List.length_append, List.length_take, Nat.min_eq_left hn]
  constructor
  · rw [List.length_append, h1, List.length_drop]; omega
  · rw [List.take_append_of_le_length (by omega), List.take_of_length_le (by omega)]

/-- The loop that fills the body ends: with the body filled from the reader and no
error when the reader supplies what is missing, and otherwise with the first error of
the reader, `n` counting what had been supplied by then. -/
theorem newInBulkSetAckMsgFill_spec (fuel : Nat) :
    ∀ (p : List (List Nat × Option GoError)) (body : List Nat) (n : Nat), n ≤ body.length →
      (body.length - n) + p.length < fuel →
      (supplies p (body.length - n) = true →
        ∃ r1, newInBulkSetAckMsgFill fuel ⟨p⟩ body n
            = some (r1, body.take n ++ (ioReader.stream ⟨p⟩).take (body.length - n),
                    body.length, none) ∧
          r1.stream = (ioReader.stream ⟨p⟩).drop (body.length - n)) ∧
      (supplies p (body.length - n) = false →
        ∃ r1 body1, newInBulkSetAckMsgFill fuel ⟨p⟩ body n
            = some (r1, body1, n + (failure p).1, some (failure p).2) ∧
          body1.length = body.length ∧ (failure p).1 ≤ body.length - n) := by
  induction fuel with
  | zero => intro p body n _ h; omega
  | succ fuel ih =>
    intro p body n hn hf
    by_cases h0 : n = body.length
    · subst h0
      constructor
      · intro _
        refine ⟨⟨p⟩, ?_, by simp⟩
        simp [newInBulkSetAckMsgFill]
      · intro h; rw [Nat.sub_self, supplies_zero] at h; exact absurd h (by simp)
    · have hstep : newInBulkSetAckMsgFill (fuel + 1) ⟨p⟩ body n =
          (if ((ioReader.Read ⟨p⟩ (body.length - n)).2.1) ≠ none then
            some ((ioReader.Read ⟨p⟩ (body.length - n)).2.2,
              body.take n ++ (ioReader.Read ⟨p⟩ (body.length - n)).1
                ++ body.drop (n + (ioReader.Read ⟨p⟩ (body.length - n)).1.length),
              n + (ioReader.Read ⟨p⟩ (body.length - n)).1.length,
              (ioReader.Read ⟨p⟩ (body.length - n)).2.1)
          else newInBulkSetAckMsgFill fuel (ioReader.Read ⟨p⟩ (body.length - n)).2.2
            (body.take n ++ (ioReader.Read ⟨p⟩ (body.length - n)).1
              ++ body.drop (n + (ioReader.Read ⟨p⟩ (body.length - n)).1.length))
            (n + (ioReader.Read ⟨p⟩ (body.length - n)).1.length)) := by
        rw [newInBulkSetAckMsgFill, if_pos h0, if_neg (by omega)]
      have hleft : 0 < body.length - n := by omega
      generalize hleq : body.length - n = left at hf hstep hleft
      rw [hstep]
      match p, hf with
      | [], hf =>
        have hr : ioReader.Read ⟨[]⟩ left = ([], some GoError.EOF, ⟨[]⟩) := rfl
        rw [hr]
        simp only [ne_eq, reduceCtorEq, not_false_eq_true, if_true, List.length_nil,
          Nat.add_zero, List.append_nil, List.take_append_drop]
        constructor
        · intro h; simp [supplies] at h; omega
        · intro _; exact ⟨_, _, rfl, rfl, Nat.zero_le _⟩
      | (chunk, err) :: rest, hf =>
        simp only [List.length_cons] at hf
        by_cases hc : chunk.length ≤ left
        · have hr : ioReader.Read ⟨(chunk, err) :: rest⟩ left = (chunk, err, ⟨rest⟩) := by
            simp [ioReader.Read, hc]
          rw [hr]
          obtain ⟨b1, b2⟩ := fill_step body chunk n hn (by omega)
          cases err with
          | some e =>
            simp only [ne_eq, reduceCtorEq, not_false_eq_true, if_true]
            constructor
            · intro h
              simp only [supplies, Bool.or_eq_true, beq_iff_eq, decide_eq_true_eq] at h
              omega
            · intro _
              exact ⟨_, _, rfl, b1, by simp only [failure]; omega⟩
          | none =>
            simp only [ne_eq, not_true_eq_false, if_false]
            obtain ⟨i1, i2⟩ := ih rest _ (n + chunk.length) (by rw [b1]; omega)
              (by rw [b1]; omega)
            rw [b1, b2] at i1
            rw [b1] at i2
            have hl1 : body.length - (n + chunk.length) = left - chunk.length := by omega
            rw [hl1] at i1 i2
            have hsup : supplies ((chunk, none) :: rest) left
                = supplies rest (left - chunk.length) := by
              simp only [supplies]
              split
              · rename_i hle
                have : left - chunk.length = 0 := by omega
                rw [this, supplies_zero]
              · rfl
            rw [hsup]
            constructor
            · intro h
              obtain ⟨r1, e1, e2⟩ := i1 h
              refine ⟨r1, ?_, ?_⟩
              · rw [e1, stream_cons]
                have : left = chunk.length + (left - chunk.length) := by omega
                nth_rewrite 2 [this]
                rw [List.take_append, List.append_assoc]
              · rw [e2, stream_cons]
                have : left = chunk.length + (left - chunk.length) := by omega
                nth_rewrite 2 [this]
                rw [List.drop_append]
            · intro h
              obtain ⟨r1, body1, e1, e2, e3⟩ := i2 h
              refine ⟨r1, body1, ?_, e2, ?_⟩
              · rw [e1]; simp only [failure, Nat.add_assoc]
              · simp only [failure]; omega
        · have hr : ioReader.Read ⟨(chunk, err) :: rest⟩ left
              = (chunk.take left, none, ⟨(chunk.drop left, err) :: rest⟩) := by
            simp [ioReader.Read, hc]
          rw [hr]
          simp only [ne_eq, not_true_eq_false, if_false, List.length_take]
          have hmin : min left chunk.length = left := by omega
          rw [hmin]
          have hgl : (chunk.take left).length = left := by
            rw [List.length_take, hmin]
          obtain ⟨b1, b2⟩ := fill_step body (chunk.take left) n hn (by omega)
          rw [hgl] at b1 b2
          obtain ⟨i1, _⟩ := ih ((chunk.drop left, err) :: rest) _ (n + left)
            (by rw [b1]; omega) (by rw [b1]; simp only [List.length_cons]; omega)
          rw [b1, b2] at i1
          have hl0 : body.length - (n + left) = 0 := by omega
          rw [hl0] at i1
          have hsup : supplies ((chunk, err) :: rest) left = true := by
            cases err with
            | none => simp only [supplies]; rw [if_pos (by omega)]
            | some e =>
              simp only [supplies, Bool.or_eq_true, beq_iff_eq, decide_eq_true_eq]
              omega
          rw [hsup]
          constructor
          · intro _
            obtain ⟨r1, e1, e2⟩ := i1 (supplies_zero _)
            have s1 : List.take left (ioReader.stream ⟨(chunk, err) :: rest⟩)
                = chunk.take left := by
              rw [stream_cons, List.take_append_of_le_length (by omega)]
            have s2 : List.drop left (ioReader.stream ⟨(chunk, err) :: rest⟩)
                = ioReader.stream ⟨(chunk.drop left, err) :: rest⟩ := by
              rw [stream_cons, stream_cons, List.drop_append_of_le_length (by omega)]
            refine ⟨r1, ?_, ?_⟩
            · rw [e1, s1, List.take_zero, List.append_nil]
            · rw [e2, List.drop_zero, s2]
          · intro h; exact absurd h (by simp)


theorem atomicAddInt32_one (x : Int) (h1 : -2147483648 ≤ x) (h2 : x < 2147483647) :
    atomicAddInt32 x 1 = x + 1 := by
  unfold atomicAddInt32 i32
  omega

/-- C17 (amended): with no free message in the pool and a non-empty `toss`, `newInBulkSetAckMsg`
returns for every declared length `l`. When the reader supplies `l` bytes without
reporting an error, exactly the first `l` bytes of the reader are consumed, the result
is `(l, nil)`, nothing is enqueued and only the drop counter changes, by one `int32`
step. When the reader reports its first error `e` with `n <= l` bytes supplied in all,
the result is `(n, e)` and only the invalid counter changes, by one step. (An error that
comes together with the `l`-th byte is a reported error: the result is then `(l, e)`.) -/
theorem c17_drop_keeps_stream_framed {σ : Type} (vs : groupBulkSetAckStore σ)
    (tossLen fuel : Nat) (r : ioReader) (l : Nat)
    (hfree : vs.bulkSetAckState.inFreeMsgChan = []) (ht : 0 < tossLen)
    (hfuel : l + r.pending.length < fuel) :
    (supplies r.pending l = true →
      ∃ r1, vs.newInBulkSetAckMsg tossLen fuel r l =
          some ({ vs with inBulkSetAckDrops := atomicAddInt32 vs.inBulkSetAckDrops 1 },
                r1, l, none) ∧
        r1.stream = r.stream.drop l) ∧
    (supplies r.pending l = false →
      ∃ r1, vs.newInBulkSetAckMsg tossLen fuel r l =
          some ({ vs with inBulkSetAckInvalids := atomicAddInt32 vs.inBulkSetAckInvalids 1 },
                r1, (failure r.pending).1, some (failure r.pending).2) ∧
        (failure r.pending).1 ≤ l) ∧
    (∀ x : Int, -2147483648 ≤ x → x < 2147483647 → atomicAddInt32 x 1 = x + 1) := by
  obtain ⟨p⟩ := r
  obtain ⟨h1, h2⟩ := newInBulkSetAckMsgToss_spec tossLen ht fuel p l hfuel
  refine ⟨?_, ?_, atomicAddInt32_one⟩
  · intro h
    obtain ⟨r1, e1, e2⟩ := h1 h
    refine ⟨r1, ?_, e2⟩
    unfold groupBulkSetAckStore.newInBulkSetAckMsg
    rw [hfree]
    simp only [e1]
  · intro h
    obtain ⟨r1, e1, e2⟩ := h2 h
    refine ⟨r1, ?_, e2⟩
    unfold groupBulkSetAckStore.newInBulkSetAckMsg
    rw [hfree]
    simp only [e1]
    have : l - (l - (failure p).1) = (failure p).1 := by omega
    rw [this]

theorem c17_drop_keeps_stream_framed_witness :
    (∃ r1, ({ testAckStore 8 with
              bulkSetAckState := { inMsgChan := [], inFreeMsgChan := [], outFreeMsgChan := [] } }
            : groupBulkSetAckStore Unit).newInBulkSetAckMsg 4 20
          ⟨[([1, 2, 3, 4, 5, 6], none), ([7, 8, 9, 10, 11, 12], none)]⟩ 10 =
        some ({ testAckStore 8 with
                bulkSetAckState :=
                  { inMsgChan := [], inFreeMsgChan := [], outFreeMsgChan := [] },
                inBulkSetAckDrops := 1 }, r1, 10, none) ∧
      r1.stream = [11, 12]) ∧
    (∃ r1, ({ testAckStore 8 with
              bulkSetAckState := { inMsgChan := [], inFreeMsgChan := [], outFreeMsgChan := [] } }
            : groupBulkSetAckStore Unit).newInBulkSetAckMsg 4 20
          ⟨[([1, 2, 3, 4, 5, 6], none)]⟩ 10 =
        some ({ testAckStore 8 with
                bulkSetAckState :=
                  { inMsgChan := [], inFreeMsgChan := [], outFreeMsgChan := [] },
                inBulkSetAckInvalids := 1 }, r1, 6, some GoError.EOF)) := by
  constructor
  · obtain ⟨r1, h1, h2⟩ := (c17_drop_keeps_stream_framed
      ({ testAckStore 8 with
          bulkSetAckState := { inMsgChan := [], inFreeMsgChan := [], outFreeMsgChan := [] } }
        : groupBulkSetAckStore Unit) 4 20
      ⟨[([1, 2, 3, 4, 5, 6], none), ([7, 8, 9, 10, 11, 12], none)]⟩ 10 rfl (by decide)
      (by decide)).1 (by decide)
    exact ⟨r1, h1, h2⟩
  · obtain ⟨r1, h1, _⟩ := (c17_drop_keeps_stream_framed
      ({ testAckStore 8 with
          bulkSetAckState := { inMsgChan := [], inFreeMsgChan := [], outFreeMsgChan := [] } }
        : groupBulkSetAckStore Unit) 4 20
      ⟨[([1, 2, 3, 4, 5, 6], none)]⟩ 10 rfl (by decide) (by decide)).2.1 (by decide)
    exact ⟨r1, h1⟩

/-- C17, counterexample: a reader that hands over its 3 bytes together with `io.EOF`, as
an `io.Reader` may, and a message of declared length 3 with no free message in the
pool. The reader supplies the 3 bytes and all 3 are consumed, but the result is
`(3, io.EOF)` and the invalid counter is incremented: not `(3, nil)`, and the drop
counter stays as it was. -/
theorem c17_counterexample :
    (ioReader.mk [([1, 2, 3], some GoError.EOF)]).stream.length = 3 ∧
    ({ testAckStore 8 with
        bulkSetAckState := { inMsgChan := [], inFreeMsgChan := [], outFreeMsgChan := [] } }
      : groupBulkSetAckStore Unit).newInBulkSetAckMsg 4 20
        ⟨[([1, 2, 3], some GoError.EOF)]⟩ 3
      = some ({ testAckStore 8 with
                bulkSetAckState :=
                  { inMsgChan := [], inFreeMsgChan := [], outFreeMsgChan := [] },
                inBulkSetAckInvalids := 1 }, ⟨[]⟩, 3, some GoError.EOF) ∧
    supplies [([1, 2, 3], some GoError.EOF)] 3 = false :=
  ⟨by decide, rfl, by decide⟩


theorem reslice_some (v : ByteSlice) (l : Nat) (h : l ≤ v.cap) :
    ∃ v1, v.reslice l = some v1 ∧ v1.bytes.length = l := by
  unfold ByteSlice.reslice
  rw [if_pos h]
  cases v with
  | nil =>
    simp only [ByteSlice.cap, ByteSlice.bytes, ByteSlice.room, List.length_nil] at h
    exact ⟨ByteSlice.nil, rfl, by simp [ByteSlice.bytes]; omega⟩
  | mk data spare =>
    simp only [ByteSlice.cap, ByteSlice.bytes, ByteSlice.room] at h
    exact ⟨_, rfl, by simp [ByteSlice.bytes]; omega⟩

theorem withBytes_bytes (v : ByteSlice) (data : List Nat) (h : data.length = v.bytes.length) :
    (v.withBytes data).bytes = data := by
  cases v with
  | nil =>
    simp only [ByteSlice.bytes, List.length_nil] at h
    rw [List.eq_nil_of_length_eq_zero h]; rfl
  | mk d s => rfl

theorem supplies_le (p : List (List Nat × Option GoError)) :
    ∀ l, supplies p l = true → l ≤ (ioReader.stream ⟨p⟩).length := by
  induction p with
  | nil => intro l h; simp [supplies] at h; omega
  | cons c rest ih =>
    obtain ⟨chunk, err⟩ := c
    intro l h
    rw [stream_cons, List.length_append]
    cases err with
    | none =>
      simp only [supplies] at h
      split at h
      · omega
      · have := ih _ h; omega
    | some e =>
      simp only [supplies, Bool.or_eq_true, beq_iff_eq, decide_eq_true_eq] at h
      omega

/-- C16: with a free message in the pool, `newInBulkSetAckMsg` returns for every
declared length `l` that is within the capacity of the message or is a value of `int`.
When the reader supplies `l` bytes without reporting an error, exactly those bytes are
consumed, the result is `(l, nil)` and a message whose body is those `l` bytes is
enqueued on `inMsgChan`; when the reader reports its first error `e` with `n <= l`
bytes supplied in all, the result is `(n, e)`, nothing is enqueued, the message is back
on the free pool and the invalid counter has made one step. For an `l` above the
capacity that is not a value of `int` the call panics in `make`, whatever the reader
does. -/
theorem c16_read_message {σ : Type} (vs : groupBulkSetAckStore σ) (tossLen fuel : Nat)
    (r : ioReader) (l : Nat) (bsam : groupBulkSetAckMsg) (free : List groupBulkSetAckMsg)
    (hfree : vs.bulkSetAckState.inFreeMsgChan = bsam :: free)
    (hfuel : l + r.pending.length < fuel) :
    (l ≤ bsam.body.cap ∨ l ≤ 9223372036854775807 →
      (supplies r.pending l = true →
        ∃ r1 m, vs.newInBulkSetAckMsg tossLen fuel r l =
            some ({ vs with
                    bulkSetAckState :=
                      { vs.bulkSetAckState with
                        inFreeMsgChan := free,
                        inMsgChan := vs.bulkSetAckState.inMsgChan ++ [some m] },
                    inBulkSetAcks := atomicAddInt32 vs.inBulkSetAcks 1 },
                  r1, l, none) ∧
          m.body.bytes = r.stream.take l ∧ r1.stream = r.stream.drop l) ∧
      (supplies r.pending l = false →
        ∃ r1 m, vs.newInBulkSetAckMsg tossLen fuel r l =
            some ({ vs with
                    bulkSetAckState :=
                      { vs.bulkSetAckState with inFreeMsgChan := free ++ [m] },
                    inBulkSetAckInvalids := atomicAddInt32 vs.inBulkSetAckInvalids 1 },
                  r1, (failure r.pending).1, some (failure r.pending).2) ∧
          (failure r.pending).1 ≤ l)) ∧
    (bsam.body.cap < l ∧ 9223372036854775807 < l →
      vs.newInBulkSetAckMsg tossLen fuel r l = none) := by
  obtain ⟨p⟩ := r
  constructor
  · intro hl
    have hb : ∃ body1, (match (if l > bsam.body.cap then goMake l else some bsam.body) with
        | none => none
        | some body0 => body0.reslice l) = some body1 ∧ body1.bytes.length = l := by
      by_cases hc : l > bsam.body.cap
      · rw [if_pos hc]
        have hm : l ≤ 9223372036854775807 := by omega
        unfold goMake
        rw [if_pos hm]
        exact reslice_some _ _ (by simp [ByteSlice.cap, ByteSlice.bytes, ByteSlice.room])
      · rw [if_neg hc]
        exact reslice_some _ _ (by omega)
    obtain ⟨body1, hb1, hb2⟩ := hb
    have hres : vs.newInBulkSetAckMsg tossLen fuel ⟨p⟩ l =
        (match newInBulkSetAckMsgFill fuel ⟨p⟩ body1.bytes 0 with
          | none => none
          | some (r1, data, n, some err) =>
            some ({ vs with
                    bulkSetAckState :=
                      { vs.bulkSetAckState with
                        inFreeMsgChan := free ++ [⟨body1.withBytes data⟩] },
                    inBulkSetAckInvalids := atomicAddInt32 vs.inBulkSetAckInvalids 1 },
                  r1, n, some err)
          | some (r1, data, _, none) =>
            some ({ vs with
                    bulkSetAckState :=
                      { vs.bulkSetAckState with
                        inFreeMsgChan := free,
                        inMsgChan := vs.bulkSetAckState.inMsgChan
                          ++ [some ⟨body1.withBytes data⟩] },
                    inBulkSetAcks := atomicAddInt32 vs.inBulkSetAcks 1 },
                  r1, l, none)) := by
      unfold groupBulkSetAckStore.newInBulkSetAckMsg
      rw [hfree]
      simp only []
      split at hb1
      · exact absurd hb1 (by simp)
      · simp only [hb1]
    obtain ⟨h1, h2⟩ := newInBulkSetAckMsgFill_spec fuel p body1.bytes 0 (Nat.zero_le _)
      (by rw [hb2]; exact hfuel)
    rw [hb2, Nat.sub_zero] at h1 h2
    constructor
    · intro h
      obtain ⟨r1, e1, e2⟩ := h1 h
      refine ⟨r1, ⟨body1.withBytes ((ioReader.stream ⟨p⟩).take l)⟩, ?_, ?_, e2⟩
      · rw [hres, e1]
        simp
      · have hs : l ≤ (ioReader.stream ⟨p⟩).length := supplies_le p l h
        exact withBytes_bytes _ _ (by rw [List.length_take, hb2]; omega)
    · intro h
      obtain ⟨r1, data, e1, e2, e3⟩ := h2 h
      refine ⟨r1, ⟨body1.withBytes data⟩, ?_, by simpa using e3⟩
      rw [hres, e1]
      simp
  · intro ⟨h1, h2⟩
    unfold groupBulkSetAckStore.newInBulkSetAckMsg
    rw [hfree]
    simp only []
    rw [if_pos h1]
    unfold goMake
    rw [if_neg (by omega)]

theorem c16_read_message_witness :
    (∃ r1 m, (testAckStore 1).newInBulkSetAckMsg 4 20
          ⟨[([1, 2, 3, 4, 5, 6], none), ([7, 8, 9, 10, 11, 12], none)]⟩ 10 =
        some ({ testAckStore 1 with
                bulkSetAckState :=
                  { inMsgChan := [some m], inFreeMsgChan := [],
                    outFreeMsgChan := [newAckMsg 1] },
                inBulkSetAcks := 1 }, r1, 10, none) ∧
      m.body.bytes = [1, 2, 3, 4, 5, 6, 7, 8, 9, 10] ∧ r1.stream = [11, 12]) ∧
    (∃ r1 m, (testAckStore 1).newInBulkSetAckMsg 4 20 ⟨[([1, 2, 3, 4, 5, 6], none)]⟩ 10 =
        some ({ testAckStore 1 with
                bulkSetAckState :=
                  { inMsgChan := [], inFreeMsgChan := [m], outFreeMsgChan := [newAckMsg 1] },
                inBulkSetAckInvalids := 1 }, r1, 6, some GoError.EOF)) ∧
    (testAckStore 1).newInBulkSetAckMsg 4 9223372036854775809 ⟨[]⟩ 9223372036854775808
      = none := by
  refine ⟨?_, ?_, ?_⟩
  · obtain ⟨r1, m, h1, h2, h3⟩ := ((c16_read_message (testAckStore 1) 4 20
      ⟨[([1, 2, 3, 4, 5, 6], none), ([7, 8, 9, 10, 11, 12], none)]⟩ 10 (newAckMsg 1) [] rfl
      (by decide)).1 (Or.inr (by decide))).1 (by decide)
    exact ⟨r1, m, h1, h2, h3⟩
  · obtain ⟨r1, m, h1, _⟩ := ((c16_read_message (testAckStore 1) 4 20
      ⟨[([1, 2, 3, 4, 5, 6], none)]⟩ 10 (newAckMsg 1) [] rfl
      (by decide)).1 (Or.inr (by decide))).2 (by decide)
    exact ⟨r1, m, h1⟩
  · exact (c16_read_message (testAckStore 1) 4 9223372036854775809 ⟨[]⟩
      9223372036854775808 (newAckMsg 1) [] rfl (by decide)).2 ⟨by decide, by decide⟩


/-! ## Flusher -/

/-- C18: on a wake-up of `flusherLauncher` without a notification, with `m` the value
of the modification counter, the launcher goes on running and the counter is reduced
by `m` (in `int32`, whatever was added in between); `Flush()` is called exactly when
`logDebug` is set and `0 < m < flusherThreshold`. Without `logDebug` no wake-up calls
`Flush()`: a store with one modification, threshold 10 and no `logDebug` is not
flushed. -/
theorem c18_flush_needs_logDebug (bgDisable : Int) (store : groupFlusherStore)
    (between : Int) :
    (store.flusherLauncherPass bgDisable none between).2 = true ∧
    (store.flusherLauncherPass bgDisable none between).1.modifications
      = i32 (i32 (store.modifications + between) - store.modifications) ∧
    ((store.flusherLauncherPass bgDisable none between).1.flushes = store.flushes + 1 ↔
      (store.logDebug = true ∧ 0 < store.modifications
        ∧ store.modifications < store.flusherState.flusherThreshold)) ∧
    ((store.flusherLauncherPass bgDisable none between).1.flushes ≠ store.flushes + 1 →
      (store.flusherLauncherPass bgDisable none between).1.flushes = store.flushes) ∧
    (store.logDebug = false →
      (store.flusherLauncherPass bgDisable none between).1.flushes = store.flushes) ∧
    ((⟨⟨60, 10⟩, 1, false, [], [], 0, 0⟩ : groupFlusherStore).flusherLauncherPass
        bgDisable none 0).1 = ⟨⟨60, 10⟩, 0, false, [], [], 0, 0⟩ := by
  have hm : atomicAddInt32 (i32 (store.modifications + between)) (i32 (-store.modifications))
      = i32 (i32 (store.modifications + between) - store.modifications) := by
    unfold atomicAddInt32 i32
    omega
  unfold groupFlusherStore.flusherLauncherPass
  simp only [gt_iff_lt]
  by_cases hc : store.logDebug = true ∧ 0 < store.modifications
      ∧ store.modifications < store.flusherState.flusherThreshold
  · rw [if_pos hc]
    refine ⟨rfl, hm, ⟨fun _ => hc, fun _ => rfl⟩, fun h => absurd rfl h, ?_, by decide⟩
    intro h; rw [h] at hc; exact absurd hc.1 (by simp)
  · rw [if_neg hc]
    refine ⟨rfl, hm, ⟨fun h => ?_, fun h => absurd h hc⟩, fun _ => rfl, fun _ => rfl,
      by decide⟩
    simp only [] at h
    omega


/-! ## Disk watcher -/

/-- A poll while writes are not disabled. -/
theorem diskWatcherPoll_enabled (vs : valueDiskWatcherStore) (du : String → DiskUsage) :
    ((vs.diskWatcherPoll du false).2 = true ↔
      ((vs.diskWatcherState.freeDisableThreshold ≠ 0 ∧
          ((du vs.path).Free ≤ vs.diskWatcherState.freeDisableThreshold ∨
            (if vs.pathtoc ≠ vs.path then du vs.pathtoc else du vs.path).Free
              ≤ vs.diskWatcherState.freeDisableThreshold)) ∨
        (vs.diskWatcherState.usageDisableThreshold.isZero = false ∧
          ((du vs.path).Usage.ge vs.diskWatcherState.usageDisableThreshold = true ∨
            (if vs.pathtoc ≠ vs.path then du vs.pathtoc else du vs.path).Usage.ge
              vs.diskWatcherState.usageDisableThreshold = true)))) ∧
    (vs.diskWatcherPoll du false).1.calls = vs.calls ++
      (if (vs.diskWatcherPoll du false).2 = true then
        [WatcherCall.logCritical "passed the free/usage threshold for automatic disabling\n",
         WatcherCall.disableWrites false]
       else []) := by
  unfold valueDiskWatcherStore.diskWatcherPoll
  simp only [Bool.false_eq_true, if_false]
  generalize (if vs.pathtoc ≠ vs.path then du vs.pathtoc else du vs.path) = utoc
  split <;> simp_all

/-- A poll while writes are disabled. -/
theorem diskWatcherPoll_disabled (vs : valueDiskWatcherStore) (du : String → DiskUsage) :
    ((vs.diskWatcherPoll du true).2 = false ↔
      ((vs.diskWatcherState.freeReenableThreshold = 0 ∨
          ((du vs.path).Free ≥ vs.diskWatcherState.freeReenableThreshold ∧
            (if vs.pathtoc ≠ vs.path then du vs.pathtoc else du vs.path).Free
              ≥ vs.diskWatcherState.freeReenableThreshold)) ∧
        (vs.diskWatcherState.usageReenableThreshold.isZero = true ∨
          ((du vs.path).Usage.le vs.diskWatcherState.usageReenableThreshold = true ∧
            (if vs.pathtoc ≠ vs.path then du vs.pathtoc else du vs.path).Usage.le
              vs.diskWatcherState.usageReenableThreshold = true)))) ∧
    (vs.diskWatcherPoll du true).1.calls = vs.calls ++
      (if (vs.diskWatcherPoll du true).2 = false then
        [WatcherCall.logCritical
           "passed the free/usage threshold for automatic re-enabling\n",
         WatcherCall.enableWrites false]
       else []) := by
  unfold valueDiskWatcherStore.diskWatcherPoll
  simp only [if_true]
  generalize (if vs.pathtoc ≠ vs.path then du vs.pathtoc else du vs.path) = utoc
  split <;> simp_all


/-- C19: a configured free-space threshold of 1 stays 1 through
`resolveGroupStoreConfig` and `diskWatcherConfig`, and the disk watcher goes on
checking against it. With `FreeDisableThreshold = 1` and the usage check off, a poll
disables writes exactly when the free bytes on the data path or on the TOC path are at
most 1; with `FreeReenableThreshold = 1` a poll re-enables writes exactly when both
readings are at least 1. So a reading of 1 free byte on the data path disables
writes, and a reading of 0 free bytes keeps them disabled. -/
theorem c19_threshold_one_still_checks (cfg : GroupStoreConfig) (vs : valueDiskWatcherStore)
    (du : String → DiskUsage) :
    (resolveGroupStoreConfig none none none none
        { cfg with FreeDisableThreshold := 1, FreeReenableThreshold := 1,
                   UsageDisableThreshold := GoFloat32.finite (-1) 0,
                   UsageReenableThreshold := GoFloat32.finite (-1) 0 }).FreeDisableThreshold
      = 1 ∧
    (resolveGroupStoreConfig none none none none
        { cfg with FreeDisableThreshold := 1, FreeReenableThreshold := 1,
                   UsageDisableThreshold := GoFloat32.finite (-1) 0,
                   UsageReenableThreshold := GoFloat32.finite (-1) 0 }).FreeReenableThreshold
      = 1 ∧
    (((vs.diskWatcherConfig (resolveGroupStoreConfig none none none none
        { cfg with FreeDisableThreshold := 1, FreeReenableThreshold := 1,
                   UsageDisableThreshold := GoFloat32.finite (-1) 0,
                   UsageReenableThreshold := GoFloat32.finite (-1) 0 })).diskWatcherPoll
          du false).2 = true ↔
      ((du vs.path).Free ≤ 1 ∨
        (if vs.pathtoc ≠ vs.path then du vs.pathtoc else du vs.path).Free ≤ 1)) ∧
    (((vs.diskWatcherConfig (resolveGroupStoreConfig none none none none
        { cfg with FreeDisableThreshold := 1, FreeReenableThreshold := 1,
                   UsageDisableThreshold := GoFloat32.finite (-1) 0,
                   UsageReenableThreshold := GoFloat32.finite (-1) 0 })).diskWatcherPoll
          du true).2 = false ↔
      ((du vs.path).Free ≥ 1 ∧
        (if vs.pathtoc ≠ vs.path then du vs.pathtoc else du vs.path).Free ≥ 1)) ∧
    ((testWatcherStore 1 1).diskWatcher [testUsage 1 1000]).1.calls =
      [WatcherCall.logCritical "passed the free/usage threshold for automatic disabling\n",
       WatcherCall.disableWrites false] ∧
    ((testWatcherStore 1 1).diskWatcherPoll (testUsage 0 1000) true).2 = true := by
  refine ⟨rfl, rfl, ?_, ?_, by decide, by decide⟩
  · rw [(diskWatcherPoll_enabled _ du).1]
    simp [resolveGroupStoreConfig, valueDiskWatcherStore.diskWatcherConfig,
      GoFloat32.isZero, GoFloat32.isNegative]
  · rw [(diskWatcherPoll_disabled _ du).1]
    simp [resolveGroupStoreConfig, valueDiskWatcherStore.diskWatcherConfig,
      GoFloat32.isZero, GoFloat32.isNegative]


theorem writeSwitches_append (a b : List WatcherCall) :
    writeSwitches (a ++ b) = writeSwitches a ++ writeSwitches b := by
  induction a with
  | nil => rfl
  | cons c a ih =>
    cases c <;> simp [writeSwitches, ih]

/-- The calls made by the loop of `diskWatcher` from a value of `disabled` on: the
switches alternate, the first one reversing `disabled`. -/
theorem diskWatcherLoop_alternates (polls : List (String → DiskUsage)) :
    ∀ (vs : valueDiskWatcherStore) (disabled : Bool),
      ∃ made, (valueDiskWatcherStore.diskWatcherLoop polls vs disabled).1.calls
          = vs.calls ++ made ∧
        alternates (!disabled) (writeSwitches made) = true := by
  induction polls with
  | nil => intro vs disabled; exact ⟨[], by simp [valueDiskWatcherStore.diskWatcherLoop], rfl⟩
  | cons du rest ih =>
    intro vs disabled
    obtain ⟨made, h1, h2⟩ := ih (vs.diskWatcherPoll du disabled).1
      (vs.diskWatcherPoll du disabled).2
    simp only [valueDiskWatcherStore.diskWatcherLoop]
    rw [h1]
    cases disabled with
    | false =>
      rw [(diskWatcherPoll_enabled vs du).2]
      cases hflag : (vs.diskWatcherPoll du false).2 with
      | false =>
        rw [hflag] at h2
        exact ⟨made, by simp, h2⟩
      | true =>
        rw [hflag] at h2
        refine ⟨_, by rw [if_pos rfl, List.append_assoc], ?_⟩
        rw [writeSwitches_append]
        simpa [writeSwitches, alternates] using h2
    | true =>
      rw [(diskWatcherPoll_disabled vs du).2]
      cases hflag : (vs.diskWatcherPoll du true).2 with
      | true =>
        rw [hflag] at h2
        exact ⟨made, by simp, h2⟩
      | false =>
        rw [hflag] at h2
        refine ⟨_, by rw [if_pos rfl, List.append_assoc], ?_⟩
        rw [writeSwitches_append]
        simpa [writeSwitches, alternates] using h2

/-- C20: `diskWatcher` starts with `disabled = false`. On a poll while not disabled it
calls `disableWrites(false)`, and sets `disabled`, exactly when the free bytes on the
data path or the TOC path are at or below `freeDisableThreshold` (if that is not 0) or
the usage on either path is at or above `usageDisableThreshold` (if that is not 0); on
a poll while disabled it calls `enableWrites(false)`, and clears `disabled`, exactly
when the free bytes on both paths are at or above `freeReenableThreshold` (or that is
0) and the usage on both paths is at or below `usageReenableThreshold` (or that is 0).
Otherwise a poll makes no call. So over any sequence of polls the calls alternate
`disableWrites`, `enableWrites`, `disableWrites`, ..., starting with `disableWrites`. -/
theorem c20_disk_watcher_hysteresis (vs : valueDiskWatcherStore) (du : String → DiskUsage)
    (polls : List (String → DiskUsage)) :
    (((vs.diskWatcherPoll du false).2 = true ↔
      ((vs.diskWatcherState.freeDisableThreshold ≠ 0 ∧
          ((du vs.path).Free ≤ vs.diskWatcherState.freeDisableThreshold ∨
            (if vs.pathtoc ≠ vs.path then du vs.pathtoc else du vs.path).Free
              ≤ vs.diskWatcherState.freeDisableThreshold)) ∨
        (vs.diskWatcherState.usageDisableThreshold.isZero = false ∧
          ((du vs.path).Usage.ge vs.diskWatcherState.usageDisableThreshold = true ∨
            (if vs.pathtoc ≠ vs.path then du vs.pathtoc else du vs.path).Usage.ge
              vs.diskWatcherState.usageDisableThreshold = true)))) ∧
     (vs.diskWatcherPoll du false).1.calls = vs.calls ++
      (if (vs.diskWatcherPoll du false).2 = true then
        [WatcherCall.logCritical "passed the free/usage threshold for automatic disabling\n",
         WatcherCall.disableWrites false]
       else [])) ∧
    (((vs.diskWatcherPoll du true).2 = false ↔
      ((vs.diskWatcherState.freeReenableThreshold = 0 ∨
          ((du vs.path).Free ≥ vs.diskWatcherState.freeReenableThreshold ∧
            (if vs.pathtoc ≠ vs.path then du vs.pathtoc else du vs.path).Free
              ≥ vs.diskWatcherState.freeReenableThreshold)) ∧
        (vs.diskWatcherState.usageReenableThreshold.isZero = true ∨
          ((du vs.path).Usage.le vs.diskWatcherState.usageReenableThreshold = true ∧
            (if vs.pathtoc ≠ vs.path then du vs.pathtoc else du vs.path).Usage.le
              vs.diskWatcherState.usageReenableThreshold = true)))) ∧
     (vs.diskWatcherPoll du true).1.calls = vs.calls ++
      (if (vs.diskWatcherPoll du true).2 = false then
        [WatcherCall.logCritical
           "passed the free/usage threshold for automatic re-enabling\n",
         WatcherCall.enableWrites false]
       else [])) ∧
    (∃ made, (vs.diskWatcher polls).1.calls = vs.calls ++ made ∧
      alternates true (writeSwitches made) = true) ∧
    writeSwitches ((testWatcherStore 100 200).diskWatcher
        [testUsage 500 500, testUsage 100 500, testUsage 50 500, testUsage 150 500,
         testUsage 200 200, testUsage 300 99, testUsage 300 99]).1.calls
      = [true, false, true] := by
  refine ⟨diskWatcherPoll_enabled vs du, diskWatcherPoll_disabled vs du, ?_, by decide⟩
  exact diskWatcherLoop_alternates polls vs false


/-! ## Sizes in the configuration -/

theorem i64_of_range {x : Int} (h1 : -9223372036854775808 ≤ x) (h2 : x < 9223372036854775808) :
    i64 x = x := by
  unfold i64
  omega

/-- The resolved sizes, with the resolved value cap and checksum interval named. -/
theorem resolveSizes_spec (gomaxprocs entrySize : Int) (c : GroupStoreConfigSizes) :
    ∃ v ci ps : Int, 0 ≤ v ∧ v ≤ 1048576 ∧ 32 ≤ ci ∧
      (resolveGroupStoreConfigSizes noEnv gomaxprocs entrySize c).ValueCap = v ∧
      (resolveGroupStoreConfigSizes noEnv gomaxprocs entrySize c).ChecksumInterval = ci ∧
      (resolveGroupStoreConfigSizes noEnv gomaxprocs entrySize c).PageSize = ps ∧
      ps = (let p0 : Int := if c.PageSize = 0 then 4 * 1024 * 1024 else c.PageSize
            let p1 : Int := if p0 < i64 (v + ci) then i64 (v + ci) else p0
            let p2 : Int := if p1 < i64 (8 + entrySize) then i64 (8 + entrySize) else p1
            if p2 > 4294967295 - 1 then 4294967295 - 1 else p2) ∧
      (resolveGroupStoreConfigSizes noEnv gomaxprocs entrySize c).minValueAlloc =
        i64 (Int.tdiv ci (i64 (Int.tdiv ps entrySize + 1)) + 1) ∧
      (resolveGroupStoreConfigSizes noEnv gomaxprocs entrySize c).FlusherThreshold =
        (let f : Int := if c.FlusherThreshold = 0 then i32 (Int.tdiv (i32 ps) entrySize)
                        else c.FlusherThreshold
         if f < 0 then 0 else f) := by
  refine ⟨_, _, _, ?_, ?_, ?_, rfl, rfl, rfl, rfl, rfl, rfl⟩
  · simp only [resolveGroupStoreConfigSizes, noEnv]
    split_ifs <;> omega
  · simp only [resolveGroupStoreConfigSizes, noEnv]
    split_ifs <;> omega
  · simp only [resolveGroupStoreConfigSizes, noEnv, GROUP_FILE_HEADER_SIZE]
    split_ifs <;> omega

/-- C21: without environment overrides, `resolveGroupStoreConfig` returns a value cap in
`[0, 1048576]`, a checksum interval of at least 32 and a page size with
`8 + _GROUP_FILE_ENTRY_SIZE <= PageSize <= MaxUint32 - 1` (48 for an entry size of 40);
and whenever the resolved `ValueCap + ChecksumInterval` is itself at most
`MaxUint32 - 1`, also `ValueCap + ChecksumInterval <= PageSize`; whenever that sum is
above `MaxUint32 - 1` and within the range of `int` (at most `2^63 - 1`), the page size
is `MaxUint32 - 1`, below the sum. -/
theorem c21_page_size_bounds (gomaxprocs entrySize : Int) (c : GroupStoreConfigSizes)
    (hE : 0 < entrySize) (hE2 : 8 + entrySize ≤ 4294967294) :
    0 ≤ (resolveGroupStoreConfigSizes noEnv gomaxprocs entrySize c).ValueCap ∧
    (resolveGroupStoreConfigSizes noEnv gomaxprocs entrySize c).ValueCap ≤ 1048576 ∧
    32 ≤ (resolveGroupStoreConfigSizes noEnv gomaxprocs entrySize c).ChecksumInterval ∧
    8 + entrySize ≤ (resolveGroupStoreConfigSizes noEnv gomaxprocs entrySize c).PageSize ∧
    (resolveGroupStoreConfigSizes noEnv gomaxprocs entrySize c).PageSize ≤ 4294967294 ∧
    ((resolveGroupStoreConfigSizes noEnv gomaxprocs entrySize c).ValueCap
        + (resolveGroupStoreConfigSizes noEnv gomaxprocs entrySize c).ChecksumInterval
        ≤ 4294967294 →
      (resolveGroupStoreConfigSizes noEnv gomaxprocs entrySize c).ValueCap
        + (resolveGroupStoreConfigSizes noEnv gomaxprocs entrySize c).ChecksumInterval
        ≤ (resolveGroupStoreConfigSizes noEnv gomaxprocs entrySize c).PageSize) ∧
    (4294967294 < (resolveGroupStoreConfigSizes noEnv gomaxprocs entrySize c).ValueCap
        + (resolveGroupStoreConfigSizes noEnv gomaxprocs entrySize c).ChecksumInterval →
      (resolveGroupStoreConfigSizes noEnv gomaxprocs entrySize c).ValueCap
        + (resolveGroupStoreConfigSizes noEnv gomaxprocs entrySize c).ChecksumInterval
        ≤ 9223372036854775807 →
      (resolveGroupStoreConfigSizes noEnv gomaxprocs entrySize c).PageSize = 4294967294) := by
  obtain ⟨v, ci, ps, hv0, hv1, hci, e1, e2, e3, hps, _, _⟩ :=
    resolveSizes_spec gomaxprocs entrySize c
  rw [e1, e2, e3]
  have h2 : i64 (8 + entrySize) = 8 + entrySize := i64_of_range (by omega) (by omega)
  simp only [h2] at hps
  refine ⟨hv0, hv1, hci, ?_, ?_, ?_, ?_⟩
  · generalize i64 (v + ci) = x at hps
    rw [hps]; split_ifs <;> omega
  · generalize i64 (v + ci) = x at hps
    rw [hps]; split_ifs <;> omega
  · intro hfit
    have h1 : i64 (v + ci) = v + ci := i64_of_range (by omega) (by omega)
    simp only [h1] at hps
    rw [hps]; split_ifs <;> omega
  · intro hbig hint
    have h1 : i64 (v + ci) = v + ci := i64_of_range (by omega) (by omega)
    simp only [h1] at hps
    rw [hps]; split_ifs <;> omega

theorem c21_page_size_bounds_witness :
    (resolveGroupStoreConfigSizes noEnv 8 GROUP_FILE_ENTRY_SIZE zeroSizes).ValueCap = 1048576 ∧
    (resolveGroupStoreConfigSizes noEnv 8 GROUP_FILE_ENTRY_SIZE zeroSizes).ChecksumInterval
      = 65532 ∧
    (resolveGroupStoreConfigSizes noEnv 8 GROUP_FILE_ENTRY_SIZE zeroSizes).PageSize = 4194304 ∧
    (resolveGroupStoreConfigSizes noEnv 8 GROUP_FILE_ENTRY_SIZE zeroSizes).ValueCap
      + (resolveGroupStoreConfigSizes noEnv 8 GROUP_FILE_ENTRY_SIZE zeroSizes).ChecksumInterval
      ≤ (resolveGroupStoreConfigSizes noEnv 8 GROUP_FILE_ENTRY_SIZE zeroSizes).PageSize := by
  have h := c21_page_size_bounds 8 GROUP_FILE_ENTRY_SIZE zeroSizes (by decide) (by decide)
  exact ⟨by decide, by decide, by decide, h.2.2.2.2.2.1 (by decide)⟩

/-- C21, counterexample: a checksum interval of `2^32` (all other fields at their
defaults) resolves to a page size of `MaxUint32 - 1`, below the resolved
`ValueCap + ChecksumInterval`. -/
theorem c21_counterexample :
    (resolveGroupStoreConfigSizes noEnv 8 GROUP_FILE_ENTRY_SIZE
        { zeroSizes with ChecksumInterval := 4294967296 }).PageSize = 4294967294 ∧
    (resolveGroupStoreConfigSizes noEnv 8 GROUP_FILE_ENTRY_SIZE
        { zeroSizes with ChecksumInterval := 4294967296 }).ValueCap = 1048576 ∧
    (resolveGroupStoreConfigSizes noEnv 8 GROUP_FILE_ENTRY_SIZE
        { zeroSizes with ChecksumInterval := 4294967296 }).ChecksumInterval = 4294967296 ∧
    ¬ (max ((resolveGroupStoreConfigSizes noEnv 8 GROUP_FILE_ENTRY_SIZE
                { zeroSizes with ChecksumInterval := 4294967296 }).ValueCap
            + (resolveGroupStoreConfigSizes noEnv 8 GROUP_FILE_ENTRY_SIZE
                { zeroSizes with ChecksumInterval := 4294967296 }).ChecksumInterval)
          48
        ≤ (resolveGroupStoreConfigSizes noEnv 8 GROUP_FILE_ENTRY_SIZE
            { zeroSizes with ChecksumInterval := 4294967296 }).PageSize) :=
  ⟨by decide, by decide, by decide, by decide⟩

/-- C22: with `OutBulkSetAckMsgs = 0` and no environment override, the resolved
`OutBulkSetAckMsgs` is four times the resolved `InBulkSetAckWorkers` (clamped to at least
1), not four times the resolved `InBulkSetWorkers` that the documentation of the field
names: with `InBulkSetWorkers = 2` and `InBulkSetAckWorkers = 3` it is 12, not 8. -/
theorem c22_out_bulk_set_ack_msgs_default :
    (∀ (gomaxprocs entrySize : Int) (c : GroupStoreConfigSizes),
      (resolveGroupStoreConfigSizes noEnv gomaxprocs entrySize
          { c with OutBulkSetAckMsgs := 0 }).OutBulkSetAckMsgs
        = (if i64 ((resolveGroupStoreConfigSizes noEnv gomaxprocs entrySize
              { c with OutBulkSetAckMsgs := 0 }).InBulkSetAckWorkers * 4) < 1 then 1
           else i64 ((resolveGroupStoreConfigSizes noEnv gomaxprocs entrySize
              { c with OutBulkSetAckMsgs := 0 }).InBulkSetAckWorkers * 4))) ∧
    (resolveGroupStoreConfigSizes noEnv 8 GROUP_FILE_ENTRY_SIZE
        { zeroSizes with InBulkSetWorkers := 2, InBulkSetAckWorkers := 3 }).InBulkSetWorkers
      = 2 ∧
    (resolveGroupStoreConfigSizes noEnv 8 GROUP_FILE_ENTRY_SIZE
        { zeroSizes with InBulkSetWorkers := 2, InBulkSetAckWorkers := 3 }).InBulkSetAckWorkers
      = 3 ∧
    (resolveGroupStoreConfigSizes noEnv 8 GROUP_FILE_ENTRY_SIZE
        { zeroSizes with InBulkSetWorkers := 2, InBulkSetAckWorkers := 3 }).OutBulkSetAckMsgs
      = 12 := by
  refine ⟨fun gomaxprocs entrySize c => ?_, by decide, by decide, by decide⟩
  simp only [resolveGroupStoreConfigSizes, noEnv]
  split_ifs <;> rfl

/-- C23: with `FlusherThreshold = 0` and no environment override, the resolved
`FlusherThreshold` is the resolved `PageSize` divided by the entry size 40 only while
the page size is below `2^31`; from `2^31` on, the conversion of the page size to
`int32` before the division makes the threshold 0, although the page holds entries. A
negative `FlusherThreshold` resolves to 0, and with a threshold of 0 no pass of the
flusher flushes. -/
theorem c23_flusher_threshold_default (gomaxprocs : Int) (c : GroupStoreConfigSizes)
    (h0 : c.FlusherThreshold = 0) :
    ((resolveGroupStoreConfigSizes noEnv gomaxprocs GROUP_FILE_ENTRY_SIZE c).PageSize
        < 2147483648 →
      (resolveGroupStoreConfigSizes noEnv gomaxprocs GROUP_FILE_ENTRY_SIZE c).FlusherThreshold
        = (resolveGroupStoreConfigSizes noEnv gomaxprocs GROUP_FILE_ENTRY_SIZE c).PageSize
            / 40) ∧
    (2147483648
        ≤ (resolveGroupStoreConfigSizes noEnv gomaxprocs GROUP_FILE_ENTRY_SIZE c).PageSize →
      (resolveGroupStoreConfigSizes noEnv gomaxprocs GROUP_FILE_ENTRY_SIZE c).FlusherThreshold
        = 0 ∧
      53687091
        ≤ (resolveGroupStoreConfigSizes noEnv gomaxprocs GROUP_FILE_ENTRY_SIZE c).PageSize
            / 40) ∧
    (∀ c1 : GroupStoreConfigSizes, c1.FlusherThreshold < 0 →
      (resolveGroupStoreConfigSizes noEnv gomaxprocs GROUP_FILE_ENTRY_SIZE
        c1).FlusherThreshold = 0) ∧
    (∀ (bgDisable : Int) (store : groupFlusherStore) (n : Option Int) (between : Int),
      store.flusherState.flusherThreshold = 0 →
      (store.flusherLauncherPass bgDisable n between).1.flushes = store.flushes) := by
  obtain ⟨v, ci, ps, hv0, hv1, hci, e1, e2, e3, hps, _, hf⟩ :=
    resolveSizes_spec gomaxprocs GROUP_FILE_ENTRY_SIZE c
  have h2 : i64 (8 + GROUP_FILE_ENTRY_SIZE) = 48 := by decide
  simp only [h2] at hps
  generalize i64 (v + ci) = x at hps
  have hlo : 48 ≤ ps := by rw [hps]; split_ifs <;> omega
  have hhi : ps ≤ 4294967294 := by rw [hps]; split_ifs <;> omega
  rw [hf, e3, h0]
  simp only [if_true, GROUP_FILE_ENTRY_SIZE]
  refine ⟨fun hlt => ?_, fun hge => ?_, fun c1 hneg => ?_, ?_⟩
  · have a1 : i32 ps = ps := by unfold i32; omega
    have a2 : Int.tdiv ps 40 = ps / 40 := Int.tdiv_eq_ediv (by omega) (by omega)
    have a3 : i32 (ps / 40) = ps / 40 := by unfold i32; omega
    rw [a1, a2, a3]
    split_ifs <;> omega
  · have a1 : i32 ps = -(4294967296 - ps) := by unfold i32; omega
    have a2 : Int.tdiv (-(4294967296 - ps)) 40 = -((4294967296 - ps) / 40) := by
      rw [Int.neg_tdiv, Int.tdiv_eq_ediv (by omega) (by omega)]
    have a3 : i32 (-((4294967296 - ps) / 40)) = -((4294967296 - ps) / 40) := by
      unfold i32; omega
    rw [a1, a2, a3]
    refine ⟨?_, by omega⟩
    split_ifs <;> omega
  · obtain ⟨_, _, _, _, _, _, _, _, _, _, _, hf1⟩ :=
      resolveSizes_spec gomaxprocs 40 c1
    rw [hf1]
    simp only
    split_ifs <;> omega
  · intro bgDisable store n between hthr
    unfold groupFlusherStore.flusherLauncherPass
    cases n with
    | some action => simp only; split_ifs <;> rfl
    | none =>
      simp only [hthr]
      split_ifs with hc
      · omega
      · rfl

theorem c23_flusher_threshold_default_witness :
    (resolveGroupStoreConfigSizes noEnv 8 GROUP_FILE_ENTRY_SIZE
        { zeroSizes with PageSize := 2147483648 }).PageSize = 2147483648 ∧
    (resolveGroupStoreConfigSizes noEnv 8 GROUP_FILE_ENTRY_SIZE
        { zeroSizes with PageSize := 2147483648 }).FlusherThreshold = 0 ∧
    53687091 ≤ (resolveGroupStoreConfigSizes noEnv 8 GROUP_FILE_ENTRY_SIZE
        { zeroSizes with PageSize := 2147483648 }).PageSize / 40 :=
  ⟨by decide,
   ((c23_flusher_threshold_default 8 { zeroSizes with PageSize := 2147483648 } rfl).2.1
      (by decide)).1,
   ((c23_flusher_threshold_default 8 { zeroSizes with PageSize := 2147483648 } rfl).2.1
      (by decide)).2⟩

/-- C29: without environment overrides and for a checksum interval in the range of
`int`, the resolved `minValueAlloc` is `ChecksumInterval / (e + 1) + 1` with
`e = PageSize / 40` the number of entries of a full TOC page, so that
`(e + 1) * minValueAlloc > ChecksumInterval`; the bound with `e` in place of `e + 1`
does not follow, and fails for `ValueCap = 5`, the default `ChecksumInterval = 65532`
and `PageSize = 1`, raised to 65537, where `e = 1638`, `minValueAlloc = 40` and
`e * minValueAlloc = 65520`. -/
theorem c29_min_value_alloc (gomaxprocs : Int) (c : GroupStoreConfigSizes)
    (hci : c.ChecksumInterval < 9223372036854775808) :
    (resolveGroupStoreConfigSizes noEnv gomaxprocs GROUP_FILE_ENTRY_SIZE c).minValueAlloc
      = (resolveGroupStoreConfigSizes noEnv gomaxprocs GROUP_FILE_ENTRY_SIZE c).ChecksumInterval
          / ((resolveGroupStoreConfigSizes noEnv gomaxprocs GROUP_FILE_ENTRY_SIZE c).PageSize
              / 40 + 1) + 1 ∧
    (resolveGroupStoreConfigSizes noEnv gomaxprocs GROUP_FILE_ENTRY_SIZE c).ChecksumInterval
      < ((resolveGroupStoreConfigSizes noEnv gomaxprocs GROUP_FILE_ENTRY_SIZE c).PageSize
            / 40 + 1)
        * (resolveGroupStoreConfigSizes noEnv gomaxprocs GROUP_FILE_ENTRY_SIZE c).minValueAlloc
      := by
  have hcihi :
      (resolveGroupStoreConfigSizes noEnv gomaxprocs GROUP_FILE_ENTRY_SIZE c).ChecksumInterval
        < 9223372036854775808 := by
    simp only [resolveGroupStoreConfigSizes, noEnv, GROUP_FILE_HEADER_SIZE]
    split_ifs <;> omega
  obtain ⟨v, ci, ps, hv0, hv1, hci32, e1, e2, e3, hps, hm, _⟩ :=
    resolveSizes_spec gomaxprocs GROUP_FILE_ENTRY_SIZE c
  have h2 : i64 (8 + GROUP_FILE_ENTRY_SIZE) = 48 := by decide
  simp only [h2] at hps
  generalize i64 (v + ci) = x at hps
  have hlo : 48 ≤ ps := by rw [hps]; split_ifs <;> omega
  have hhi : ps ≤ 4294967294 := by rw [hps]; split_ifs <;> omega
  rw [e2] at hcihi
  rw [hm, e2, e3]
  simp only [GROUP_FILE_ENTRY_SIZE]
  have a1 : Int.tdiv ps 40 = ps / 40 := Int.tdiv_eq_ediv (by omega) (by omega)
  have a2 : i64 (ps / 40 + 1) = ps / 40 + 1 := i64_of_range (by omega) (by omega)
  have hd2 : 2 ≤ ps / 40 + 1 := by omega
  rw [a1, a2]
  generalize ps / 40 + 1 = d at hd2
  have hd : 0 < d := by omega
  have a3 : Int.tdiv ci d = ci / d := Int.tdiv_eq_ediv (by omega) (by omega)
  have q0 : 0 ≤ ci / d := Int.ediv_nonneg (by omega) (by omega)
  have q1 : ci / d ≤ ci - 1 := by
    apply Int.ediv_le_of_le_mul hd
    nlinarith
  have a4 : i64 (ci / d + 1) = ci / d + 1 := i64_of_range (by omega) (by omega)
  rw [a3, a4]
  refine ⟨rfl, ?_⟩
  have := Int.lt_ediv_add_one_mul_self ci hd
  rw [Int.mul_comm]
  exact this

theorem c29_min_value_alloc_witness :
    (resolveGroupStoreConfigSizes noEnv 8 GROUP_FILE_ENTRY_SIZE
        { zeroSizes with ValueCap := 5, PageSize := 1 }).ValueCap = 5 ∧
    (resolveGroupStoreConfigSizes noEnv 8 GROUP_FILE_ENTRY_SIZE
        { zeroSizes with ValueCap := 5, PageSize := 1 }).ChecksumInterval = 65532 ∧
    (resolveGroupStoreConfigSizes noEnv 8 GROUP_FILE_ENTRY_SIZE
        { zeroSizes with ValueCap := 5, PageSize := 1 }).PageSize = 65537 ∧
    (resolveGroupStoreConfigSizes noEnv 8 GROUP_FILE_ENTRY_SIZE
        { zeroSizes with ValueCap := 5, PageSize := 1 }).minValueAlloc = 40 ∧
    (65537 : Int) / 40 = 1638 ∧ ¬ ((65537 : Int) / 40 * 40 ≥ 65532) ∧
    (resolveGroupStoreConfigSizes noEnv 8 GROUP_FILE_ENTRY_SIZE
        { zeroSizes with ValueCap := 5, PageSize := 1 }).ChecksumInterval
      < ((resolveGroupStoreConfigSizes noEnv 8 GROUP_FILE_ENTRY_SIZE
            { zeroSizes with ValueCap := 5, PageSize := 1 }).PageSize / 40 + 1)
        * (resolveGroupStoreConfigSizes noEnv 8 GROUP_FILE_ENTRY_SIZE
            { zeroSizes with ValueCap := 5, PageSize := 1 }).minValueAlloc :=
  ⟨by decide, by decide, by decide, by decide, by decide, by decide,
   (c29_min_value_alloc 8 { zeroSizes with ValueCap := 5, PageSize := 1 } (by decide)).2⟩

/-- C28: for every 64-bit `keyA` and every file with at least one reader, the slot
`int(keyA>>1) % len(fl.readerFPs)` that `read` computes is a valid index: the conversion
to `int` keeps `keyA>>1` (it is below `2^63`), the remainder is the mathematical one and
lies in `[0, fanout)`, so `read` returns for all other arguments and, for a record that
is not deleted, replaces exactly the reader at that slot, which is fixed by `keyA` and
the pool size alone. The resolved `FileReaders` is at least 1 for every configuration
and environment. -/
theorem c28_reader_slot_in_range (tsbDeletion : Nat) (fl : groupStoreFile) (keyA : Nat)
    (hk : keyA < 2 ^ 64) (hf : 1 ≤ fl.readerFPs.length) :
    (keyA >>> 1) % fl.readerFPs.length < fl.readerFPs.length ∧
    i64 ((keyA >>> 1 : Nat) : Int) = ((keyA >>> 1 : Nat) : Int) ∧
    Int.tmod (i64 ((keyA >>> 1 : Nat) : Int)) (fl.readerFPs.length : Int)
      = (((keyA >>> 1) % fl.readerFPs.length : Nat) : Int) ∧
    (∀ keyB nameKeyA nameKeyB timestampbits offset length value,
      (fl.read tsbDeletion keyA keyB nameKeyA nameKeyB timestampbits offset length
        value).isSome = true) ∧
    (∀ keyB nameKeyA nameKeyB timestampbits offset length value,
      timestampbits &&& tsbDeletion = 0 →
      ∃ r1 v1 err,
        fl.read tsbDeletion keyA keyB nameKeyA nameKeyB timestampbits offset length value
          = some ({ fl with
                    readerFPs :=
                      fl.readerFPs.set ((keyA >>> 1) % fl.readerFPs.length) r1 },
                  timestampbits, v1, err)) ∧
    (∀ (env : String → Option Int) (gomaxprocs entrySize : Int) (c : GroupStoreConfigSizes),
      1 ≤ (resolveGroupStoreConfigSizes env gomaxprocs entrySize c).FileReaders) := by
  have hlt : (keyA >>> 1) % fl.readerFPs.length < fl.readerFPs.length :=
    Nat.mod_lt _ (by omega)
  have hsh : keyA >>> 1 < 2 ^ 63 := by
    rw [Nat.shiftRight_eq_div_pow]; omega
  have hi : i64 ((keyA >>> 1 : Nat) : Int) = ((keyA >>> 1 : Nat) : Int) :=
    i64_of_range (by omega) (by omega)
  have hget : ∃ r, fl.readerFPs.get? ((keyA >>> 1) % fl.readerFPs.length) = some r :=
    ⟨fl.readerFPs.get ⟨_, hlt⟩, List.get?_eq_get hlt⟩
  obtain ⟨r, hr⟩ := hget
  refine ⟨hlt, hi, ?_, ?_, ?_, ?_⟩
  · rw [hi, Int.tmod_eq_emod (by omega) (by omega)]
    exact (Int.natCast_mod _ _).symm
  · intro keyB nameKeyA nameKeyB timestampbits offset length value
    unfold groupStoreFile.read
    split_ifs with h1 h2
    · rfl
    · omega
    · simp only [hr]; rfl
  · intro keyB nameKeyA nameKeyB timestampbits offset length value hdel
    unfold groupStoreFile.read
    rw [if_neg (by simp [hdel]), if_neg (by omega)]
    simp only [hr]
    exact ⟨_, _, _, rfl⟩
  · intro env gomaxprocs entrySize c
    simp only [resolveGroupStoreConfigSizes]
    split_ifs <;> omega

theorem c28_reader_slot_in_range_witness :
    (0xFFFFFFFFFFFFFFFF >>> 1) % testReadFile.readerFPs.length
      < testReadFile.readerFPs.length :=
  (c28_reader_slot_in_range 0x100 testReadFile 0xFFFFFFFFFFFFFFFF (by decide)
    (by decide)).1


/-! ## Push replication -/

theorem u64_of_lt {n : Nat} (h : n < 18446744073709551616) : u64 n = n := by
  unfold u64; omega

theorem pow_split (pbc : Nat) (h : pbc ≤ 64) :
    2 ^ (64 - pbc) * 2 ^ pbc = 18446744073709551616 := by
  rw [← Nat.pow_add, Nat.sub_add_cancel h]

theorem pow_pbc_bounds (pbc : Nat) (hp1 : 1 ≤ pbc) (hp2 : pbc ≤ 32) :
    2 ≤ 2 ^ pbc ∧ 2 ^ pbc ≤ 4294967296 ∧ 4294967296 ≤ 2 ^ (64 - pbc)
      ∧ 2 ^ (64 - pbc) ≤ 9223372036854775808 := by
  have a := Nat.pow_le_pow_right (show 0 < 2 by decide) hp1
  have b := Nat.pow_le_pow_right (show 0 < 2 by decide) hp2
  have c := Nat.pow_le_pow_right (show 0 < 2 by decide) (show 32 ≤ 64 - pbc by omega)
  have d := Nat.pow_le_pow_right (show 0 < 2 by decide) (show 64 - pbc ≤ 63 by omega)
  norm_num at a b c d
  exact ⟨a, b, c, d⟩

theorem outPushReplicationPieces_spec (pbc W : Nat) (hp1 : 1 ≤ pbc) (hp2 : pbc ≤ 32)
    (hW1 : 1 ≤ W) (hW2 : W ≤ 2 ^ (64 - pbc)) :
    outPushReplicationPieces pbc (W : Int)
      = some { partitionShift := 64 - pbc, partitionMax := 2 ^ pbc - 1, workerMax := W - 1,
               workerPartitionPiece := 2 ^ (64 - pbc) / W } := by
  obtain ⟨hP1, hP2, hS1, hS2⟩ := pow_pbc_bounds pbc hp1 hp2
  have e1 : u64 ((64 + 65536 - pbc % 65536) % 65536) = 64 - pbc := by
    unfold u64; omega
  have e2 : u64 (u64 (1 <<< (pbc % 65536)) + 18446744073709551615) = 2 ^ pbc - 1 := by
    rw [Nat.mod_eq_of_lt (by omega), Nat.one_shiftLeft]
    unfold u64; omega
  have e3 : (((W : Int) - 1) % 18446744073709551616).toNat = W - 1 := by
    have : ((W : Int) - 1) % 18446744073709551616 = ((W - 1 : Nat) : Int) := by omega
    rw [this, Int.toNat_ofNat]
  have e4 : u64 (W - 1 + 1) = W := by unfold u64; omega
  have e5 : u64 (1 <<< (64 - pbc)) = 2 ^ (64 - pbc) := by
    rw [Nat.one_shiftLeft]; unfold u64; omega
  unfold outPushReplicationPieces
  simp only [e1, e2, e3, e4, e5]
  rw [if_neg (by omega)]

/-- Closed form of the key range of a worker. -/
theorem workRange_spec (pbc W p w : Nat) (hp1 : 1 ≤ pbc) (hp2 : pbc ≤ 32)
    (hW1 : 1 ≤ W) (hW2 : W ≤ 2 ^ (64 - pbc)) (hp : p < 2 ^ pbc) (hw : w < W)
    (s : pushReplicationPieces)
    (hs : s = { partitionShift := 64 - pbc, partitionMax := 2 ^ pbc - 1, workerMax := W - 1,
                workerPartitionPiece := 2 ^ (64 - pbc) / W }) :
    s.workRange p w
      = (p * 2 ^ (64 - pbc) + 2 ^ (64 - pbc) / W * w,
         if w + 1 < W then p * 2 ^ (64 - pbc) + 2 ^ (64 - pbc) / W * (w + 1) - 1
         else (p + 1) * 2 ^ (64 - pbc) - 1) ∧
    1 ≤ 2 ^ (64 - pbc) / W ∧
    2 ^ (64 - pbc) / W * (w + 1) ≤ 2 ^ (64 - pbc) ∧
    (p + 1) * 2 ^ (64 - pbc) ≤ 18446744073709551616 := by
  obtain ⟨hP1, hP2, hS1, hS2⟩ := pow_pbc_bounds pbc hp1 hp2
  have hsp := pow_split pbc (by omega)
  have hpiece : 1 ≤ 2 ^ (64 - pbc) / W := Nat.div_pos hW2 (by omega)
  have hB : 2 ^ (64 - pbc) / W * (w + 1) ≤ 2 ^ (64 - pbc) :=
    Nat.le_trans (Nat.mul_le_mul_left _ (show w + 1 ≤ W by omega)) (Nat.div_mul_le_self _ _)
  have hA : (p + 1) * 2 ^ (64 - pbc) ≤ 18446744073709551616 := by
    rw [← hsp, Nat.mul_comm]
    exact Nat.mul_le_mul_left _ (by omega)
  refine ⟨?_, hpiece, hB, hA⟩
  subst hs
  unfold pushReplicationPieces.workRange
  simp only [Nat.shiftLeft_eq]
  generalize hS : 2 ^ (64 - pbc) = S at *
  generalize hQ : S / W = piece at *
  have hA2 : (p + 1) * S = p * S + S := by rw [Nat.add_mul, Nat.one_mul]
  have hB2 : piece * (w + 1) = piece * w + piece := by rw [Nat.mul_add, Nat.mul_one]
  rw [hA2] at hA
  rw [hB2] at hB
  generalize hX : p * S = A at *
  generalize hY : piece * w = B at *
  have x1 : u64 A = A := u64_of_lt (by omega)
  have x2 : u64 B = B := u64_of_lt (by omega)
  have x3 : u64 (A + B) = A + B := u64_of_lt (by omega)
  have x4 : u64 (w + 1) = w + 1 := u64_of_lt (by omega)
  have x5 : u64 (p + 1) = p + 1 := u64_of_lt (by omega)
  rw [x1, x2, x3, x4, x5, hB2, hA2]
  by_cases hlast : w + 1 < W
  · have hB3 : piece * (w + 2) ≤ S := by
      rw [← hQ]
      exact Nat.le_trans (Nat.mul_le_mul_left _ (show w + 2 ≤ W by omega))
        (Nat.div_mul_le_self _ _)
    have hB4 : piece * (w + 2) = B + piece + piece := by
      rw [show w + 2 = (w + 1) + 1 from rfl, Nat.mul_add, Nat.mul_one, hB2]
    rw [hB4] at hB3
    have x6 : u64 (B + piece) = B + piece := u64_of_lt (by omega)
    have x7 : u64 (A + (B + piece)) = A + (B + piece) := u64_of_lt (by omega)
    rw [if_pos (by omega), if_pos hlast, x6, x7]
    refine Prod.ext rfl ?_
    show u64 (A + (B + piece) + 18446744073709551615) = A + (B + piece) - 1
    unfold u64; omega
  · rw [if_neg (by omega), if_neg hlast]
    by_cases hpm : p = 2 ^ pbc - 1
    · rw [if_neg (by omega)]
      refine Prod.ext rfl ?_
      show 18446744073709551615 = A + S - 1
      have : A + S = 18446744073709551616 := by
        rw [← hA2, hpm, Nat.sub_add_cancel (by omega), Nat.mul_comm]; exact hsp
      omega
    · rw [if_pos hpm]
      refine Prod.ext rfl ?_
      have : (p + 2) * S ≤ 18446744073709551616 := by
        rw [← hsp, Nat.mul_comm]
        exact Nat.mul_le_mul_left _ (by omega)
      have h3 : (p + 2) * S = A + S + S := by
        rw [show p + 2 = (p + 1) + 1 from rfl, Nat.add_mul, Nat.one_mul, hA2]
      have x8 : u64 (A + S) = A + S := u64_of_lt (by omega)
      show u64 (u64 (A + S) + 18446744073709551615) = A + S - 1
      rw [x8]
      unfold u64; omega

/-- The ascending part of the partition loop: `n` iterations from `lo` that neither
pass `partitionMax` nor meet `partitionBegin`. -/
theorem partitionLoop_ascend (s : pushReplicationPieces) (responsible : Nat → Bool)
    (b : Nat) (hM : s.partitionMax + 1 < 18446744073709551616) :
    ∀ (n lo fuel : Nat) (vis : List (Nat × Bool)), lo + n ≤ s.partitionMax →
      (∀ x, lo < x → x ≤ lo + n → x ≠ b) →
      s.partitionLoop responsible b (fuel + n) lo vis
        = s.partitionLoop responsible b fuel (lo + n)
            (vis ++ (List.range' lo n).map (fun x => (x, !responsible (u32 x)))) := by
  intro n
  induction n with
  | zero =>
    intro lo fuel vis _ _
    simp
  | succ n ih =>
    intro lo fuel vis hle hne
    have e : fuel + (n + 1) = (fuel + n) + 1 := by omega
    rw [e, pushReplicationPieces.partitionLoop]
    have x1 : u64 (lo + 1) = lo + 1 := u64_of_lt (by omega)
    have c1 : ¬ (lo + 1 > s.partitionMax) := by omega
    have c2 : ¬ (lo + 1 = b) := hne (lo + 1) (by omega) (by omega)
    simp only [x1, if_neg c1, if_neg c2]
    rw [ih (lo + 1) fuel _ (by omega) (fun x h1 h2 => hne x (by omega) (by omega))]
    have e2 : lo + 1 + n = lo + (n + 1) := by omega
    rw [e2, List.range'_succ, List.map_cons, List.append_assoc]
    rfl

/-- The partition loop of a worker visits the partitions from `partitionBegin` up to
`partitionMax` and then those from 0 up to `partitionBegin - 1`, and stops. -/
theorem partitionLoop_spec (s : pushReplicationPieces) (responsible : Nat → Bool)
    (b : Nat) (hM : s.partitionMax + 1 < 18446744073709551616) (hb : b ≤ s.partitionMax) :
    s.partitionLoop responsible b (s.partitionMax + 1) b []
      = some ((List.range' b (s.partitionMax + 1 - b) ++ List.range' 0 b).map
                (fun x => (x, !responsible (u32 x)))) := by
  have x1 : u64 (s.partitionMax + 1) = s.partitionMax + 1 := u64_of_lt hM
  rcases Nat.eq_zero_or_pos b with h0 | hpos
  · subst h0
    have h := partitionLoop_ascend s responsible 0 hM s.partitionMax 0 1 []
      (by omega) (fun x h1 _ => by omega)
    rw [Nat.add_comm 1 s.partitionMax] at h
    rw [h, pushReplicationPieces.partitionLoop]
    have c1 : s.partitionMax + 1 > s.partitionMax := by omega
    simp only [x1, Nat.zero_add, if_pos c1, if_true]
    simp only [List.nil_append, Nat.sub_zero, List.range'_zero, List.append_nil,
      List.range'_concat, List.map_append, List.map_cons, List.map_nil, Nat.one_mul,
      Nat.zero_add]
  · have h := partitionLoop_ascend s responsible b hM (s.partitionMax - b) b (b + 1) []
      (by omega) (fun x h1 _ => by omega)
    have e1 : b + 1 + (s.partitionMax - b) = s.partitionMax + 1 := by omega
    have e2 : b + (s.partitionMax - b) = s.partitionMax := by omega
    rw [e1, e2] at h
    rw [h]
    have e3 : b + 1 = (b - 1 + 1) + 1 := by omega
    rw [e3, pushReplicationPieces.partitionLoop]
    have c1 : s.partitionMax + 1 > s.partitionMax := by omega
    have c2 : ¬ (0 = b) := by omega
    simp only [x1, if_pos c1, if_neg c2]
    have h2 := partitionLoop_ascend s responsible b hM (b - 1) 0 1
      ([] ++ List.map (fun x => (x, !responsible (u32 x)))
              (List.range' b (s.partitionMax - b))
        ++ [(s.partitionMax, !responsible (u32 s.partitionMax))])
      (by omega) (fun x h1 h2 => by omega)
    rw [Nat.add_comm 1 (b - 1)] at h2
    rw [h2, pushReplicationPieces.partitionLoop]
    have x2 : u64 (0 + (b - 1) + 1) = b := by rw [u64_of_lt (by omega)]; omega
    have c3 : ¬ (b > s.partitionMax) := by omega
    simp only [x2, if_neg c3, if_true]
    have e4 : s.partitionMax + 1 - b = (s.partitionMax - b) + 1 := by omega
    have e5 : List.range' 0 b = List.range' 0 (b - 1) ++ [0 + (b - 1)] := by
      have h5 : b = b - 1 + 1 := by omega
      rw [Nat.zero_add]
      nth_rewrite 1 [h5]
      rw [List.range'_concat, Nat.one_mul, Nat.zero_add]
    rw [e4, List.range'_concat, Nat.one_mul, e2, e5]
    simp only [List.nil_append, List.map_append, List.map_cons, List.map_nil,
      List.append_assoc]

/-- Ranges cut as `work` cuts them cover `[A, A + S)` and are pairwise disjoint. -/
theorem ranges_cover (S W A : Nat) (hW1 : 1 ≤ W) (hW2 : W ≤ S) :
    (∀ key, (A ≤ key ∧ key < A + S) ↔
      ∃ w, w < W ∧ A + S / W * w ≤ key ∧
        key ≤ (if w + 1 < W then A + S / W * (w + 1) - 1 else A + S - 1)) ∧
    (∀ w v key, w < W → v < W →
      A + S / W * w ≤ key →
      key ≤ (if w + 1 < W then A + S / W * (w + 1) - 1 else A + S - 1) →
      A + S / W * v ≤ key →
      key ≤ (if v + 1 < W then A + S / W * (v + 1) - 1 else A + S - 1) → w = v) := by
  have hpiece : 1 ≤ S / W := Nat.div_pos hW2 (by omega)
  have hle : ∀ w, w < W → S / W * (w + 1) ≤ S := fun w hw =>
    Nat.le_trans (Nat.mul_le_mul_left _ (show w + 1 ≤ W by omega)) (Nat.div_mul_le_self _ _)
  have hsucc : ∀ w, S / W * (w + 1) = S / W * w + S / W := fun w => by
    rw [Nat.mul_add, Nat.mul_one]
  have hmono : ∀ w v, w + 1 ≤ v → S / W * (w + 1) ≤ S / W * v := fun w v h =>
    Nat.mul_le_mul_left _ h
  generalize hP : S / W = piece at *
  have hsep : ∀ w v key, w < v → v < W → 
      key ≤ (if w + 1 < W then A + piece * (w + 1) - 1 else A + S - 1) →
      A + piece * v ≤ key → False := by
    intro w v key hwv hv h1 h2
    rw [if_pos (by omega)] at h1
    have a := hmono w v (by omega)
    have b := hsucc w
    generalize piece * (w + 1) = X at *
    generalize piece * v = Y at *
    omega
  refine ⟨fun key => ⟨fun h => ?_, fun h => ?_⟩, ?_⟩
  · obtain ⟨h1, h2⟩ := h
    have hq1 : (key - A) / piece * piece ≤ key - A := Nat.div_mul_le_self _ _
    have hq2 : key - A < ((key - A) / piece + 1) * piece := by
      have := Nat.lt_succ_self ((key - A) / piece)
      exact (Nat.div_lt_iff_lt_mul (by omega)).mp this
    by_cases hc : (key - A) / piece + 1 < W
    · refine ⟨(key - A) / piece, by omega, ?_, ?_⟩
      · rw [Nat.mul_comm] at hq1
        generalize piece * ((key - A) / piece) = X at *
        omega
      · rw [if_pos hc]
        rw [Nat.mul_comm] at hq2
        generalize piece * ((key - A) / piece + 1) = X at *
        omega
    · refine ⟨W - 1, by omega, ?_, ?_⟩
      · have a : piece * (W - 1) ≤ piece * ((key - A) / piece) :=
          Nat.mul_le_mul_left _ (by omega)
        rw [Nat.mul_comm] at hq1
        generalize piece * ((key - A) / piece) = X at *
        generalize piece * (W - 1) = Y at *
        omega
      · rw [if_neg (by omega)]
        omega
  · obtain ⟨w, hw, h1, h2⟩ := h
    have a := hle w hw
    have b := hsucc w
    split_ifs at h2
    · generalize piece * (w + 1) = X at *
      generalize piece * w = Y at *
      omega
    · generalize piece * (w + 1) = X at *
      generalize piece * w = Y at *
      omega
  · intro w v key hw hv h1 h2 h3 h4
    rcases Nat.lt_trichotomy w v with h | h | h
    · exact (hsep w v key h hv h2 h3).elim
    · exact h
    · exact (hsep v w key h hw h4 h1).elim

/-- C30: for a partition bit count `pbc` in `[1, 32]`, a number of workers `W` in
`[1, 2^(64-pbc)]` and a partition `p < 2^pbc`, the key ranges that `work` computes in
`uint64` arithmetic equal the unbounded expressions (no wrap-around), each is non-empty,
the first begins at `p << (64-pbc)`, each next one begins right after the previous end,
and the last ends at `((p+1) << (64-pbc)) - 1`, which is `MaxUint64` for the last
partition; a key lies in one of the ranges exactly when its top `pbc` bits are `p`, and
then in one range only; and the partition loop of every worker, started at a `partitionBegin` within
`[0, 2^pbc - 1]`, visits every partition exactly once within `2^pbc` iterations and
stops, calling `work` for the partitions the node is not responsible for. -/
theorem c30_push_ranges_tile (pbc W p : Nat) (hp1 : 1 ≤ pbc) (hp2 : pbc ≤ 32) (hW1 : 1 ≤ W)
    (hW2 : W ≤ 2 ^ (64 - pbc)) (hp : p < 2 ^ pbc) :
    ∃ s, outPushReplicationPieces pbc (W : Int) = some s ∧
      s.partitionShift = 64 - pbc ∧ s.partitionMax = 2 ^ pbc - 1 ∧ s.workerMax = W - 1 ∧
      s.workerPartitionPiece = 2 ^ (64 - pbc) / W ∧
      (∀ w, w < W →
        (s.workRange p w).1 = p * 2 ^ (64 - pbc) + 2 ^ (64 - pbc) / W * w ∧
        (s.workRange p w).1 ≤ (s.workRange p w).2 ∧
        (w + 1 < W →
          (s.workRange p w).2 + 1 = p * 2 ^ (64 - pbc) + 2 ^ (64 - pbc) / W * (w + 1))) ∧
      (s.workRange p 0).1 = p <<< (64 - pbc) ∧
      (∀ w, w + 1 < W → (s.workRange p (w + 1)).1 = (s.workRange p w).2 + 1) ∧
      (s.workRange p (W - 1)).2 = ((p + 1) <<< (64 - pbc)) - 1 ∧
      (p = 2 ^ pbc - 1 → (s.workRange p (W - 1)).2 = 18446744073709551615) ∧
      (∀ key, key >>> (64 - pbc) = p ↔
        ∃ w, w < W ∧ (s.workRange p w).1 ≤ key ∧ key ≤ (s.workRange p w).2) ∧
      (∀ w v key, w < W → v < W →
        (s.workRange p w).1 ≤ key → key ≤ (s.workRange p w).2 →
        (s.workRange p v).1 ≤ key → key ≤ (s.workRange p v).2 → w = v) ∧
      (∀ (w : Nat) (responsible : Nat → Bool), w < W →
        s.partitionBegin w ≤ s.partitionMax ∧
        ∃ visited,
          s.partitionLoop responsible (s.partitionBegin w) (2 ^ pbc) (s.partitionBegin w) []
            = some visited ∧
          (visited.map Prod.fst).Perm (List.range (2 ^ pbc)) ∧
          ∀ x ∈ visited, x.2 = !responsible x.1) := by
  obtain ⟨hP1, hP2, hS1, hS2⟩ := pow_pbc_bounds pbc hp1 hp2
  have hsp := pow_split pbc (by omega)
  obtain ⟨hcover, hdisj⟩ := ranges_cover (2 ^ (64 - pbc)) W (p * 2 ^ (64 - pbc)) hW1 hW2
  have hrange : ∀ w, w < W →
      pushReplicationPieces.workRange
        { partitionShift := 64 - pbc, partitionMax := 2 ^ pbc - 1, workerMax := W - 1,
          workerPartitionPiece := 2 ^ (64 - pbc) / W } p w
      = (p * 2 ^ (64 - pbc) + 2 ^ (64 - pbc) / W * w,
         if w + 1 < W then p * 2 ^ (64 - pbc) + 2 ^ (64 - pbc) / W * (w + 1) - 1
         else p * 2 ^ (64 - pbc) + 2 ^ (64 - pbc) - 1) := by
    intro w hw
    rw [(workRange_spec pbc W p w hp1 hp2 hW1 hW2 hp hw _ rfl).1, Nat.add_mul, Nat.one_mul]
  refine ⟨_, outPushReplicationPieces_spec pbc W hp1 hp2 hW1 hW2, rfl, rfl, rfl, rfl,
    ?_, ?_, ?_, ?_, ?_, ?_, ?_, ?_⟩
  · intro w hw
    obtain ⟨e, h1, h2, h3⟩ := workRange_spec pbc W p w hp1 hp2 hW1 hW2 hp hw _ rfl
    rw [e]
    have hB2 : 2 ^ (64 - pbc) / W * (w + 1) = 2 ^ (64 - pbc) / W * w + 2 ^ (64 - pbc) / W := by
      rw [Nat.mul_add, Nat.mul_one]
    have hA2 : (p + 1) * 2 ^ (64 - pbc) = p * 2 ^ (64 - pbc) + 2 ^ (64 - pbc) := by
      rw [Nat.add_mul, Nat.one_mul]
    rw [hB2] at h2 ⊢
    rw [hA2] at h3 ⊢
    generalize p * 2 ^ (64 - pbc) = A at *
    generalize 2 ^ (64 - pbc) / W * w = B at *
    generalize 2 ^ (64 - pbc) / W = piece at *
    generalize 2 ^ (64 - pbc) = S at *
    refine ⟨rfl, ?_, ?_⟩
    · show A + B ≤ (if w + 1 < W then A + (B + piece) - 1 else A + S - 1)
      split_ifs
      · exact (by omega : A + B ≤ A + (B + piece) - 1)
      · exact (by omega : A + B ≤ A + S - 1)
    · intro hlt
      show (if _ then _ else _) + 1 = _
      rw [if_pos hlt]
      omega
  · obtain ⟨e, _, _, _⟩ := workRange_spec pbc W p 0 hp1 hp2 hW1 hW2 hp (by omega) _ rfl
    rw [e, Nat.shiftLeft_eq]
    show p * 2 ^ (64 - pbc) + 2 ^ (64 - pbc) / W * 0 = _
    rw [Nat.mul_zero, Nat.add_zero]
  · intro w hw
    obtain ⟨e, h1, h2, h3⟩ :=
      workRange_spec pbc W p w hp1 hp2 hW1 hW2 hp (by omega) _ rfl
    obtain ⟨e1, _, _, _⟩ := workRange_spec pbc W p (w + 1) hp1 hp2 hW1 hW2 hp hw _ rfl
    rw [e, e1]
    have hB2 : 2 ^ (64 - pbc) / W * (w + 1) = 2 ^ (64 - pbc) / W * w + 2 ^ (64 - pbc) / W := by
      rw [Nat.mul_add, Nat.mul_one]
    show _ = (if _ then _ else _) + 1
    rw [if_pos hw, hB2]
    generalize p * 2 ^ (64 - pbc) = A at *
    generalize 2 ^ (64 - pbc) / W * w = B at *
    generalize 2 ^ (64 - pbc) / W = piece at *
    omega
  · obtain ⟨e, _, _, _⟩ :=
      workRange_spec pbc W p (W - 1) hp1 hp2 hW1 hW2 hp (by omega) _ rfl
    rw [e, Nat.shiftLeft_eq]
    show (if _ then _ else _) = _
    rw [if_neg (by omega)]
  · intro hpm
    obtain ⟨e, _, _, _⟩ :=
      workRange_spec pbc W p (W - 1) hp1 hp2 hW1 hW2 hp (by omega) _ rfl
    rw [e]
    show (if _ then _ else _) = _
    rw [if_neg (by omega), hpm, Nat.sub_add_cancel (by omega), Nat.mul_comm, hsp]
  · intro key
    have hS : 0 < 2 ^ (64 - pbc) := by omega
    have hkey : key >>> (64 - pbc) = p ↔
        (p * 2 ^ (64 - pbc) ≤ key ∧ key < p * 2 ^ (64 - pbc) + 2 ^ (64 - pbc)) := by
      rw [Nat.shiftRight_eq_div_pow]
      constructor
      · intro h
        have a := Nat.div_mul_le_self key (2 ^ (64 - pbc))
        have b : key < (key / 2 ^ (64 - pbc) + 1) * 2 ^ (64 - pbc) :=
          (Nat.div_lt_iff_lt_mul hS).mp (Nat.lt_succ_self _)
        rw [h] at a b
        rw [Nat.add_mul, Nat.one_mul] at b
        exact ⟨a, b⟩
      · rintro ⟨a, b⟩
        exact Nat.div_eq_of_lt_le a (by rw [Nat.add_mul, Nat.one_mul]; exact b)
    rw [hkey, hcover key]
    constructor
    · rintro ⟨w, hw, h1, h2⟩
      refine ⟨w, hw, ?_, ?_⟩
      · rw [hrange w hw]; exact h1
      · rw [hrange w hw]; exact h2
    · rintro ⟨w, hw, h1, h2⟩
      rw [hrange w hw] at h1 h2
      exact ⟨w, hw, h1, h2⟩
  · intro w v key hw hv h1 h2 h3 h4
    rw [hrange w hw] at h1 h2
    rw [hrange v hv] at h3 h4
    exact hdisj w v key hw hv h1 h2 h3 h4
  · intro w responsible hw
    have hq1 : 2 ^ pbc / W * W ≤ 2 ^ pbc := Nat.div_mul_le_self _ _
    have hq2 : 2 ^ pbc / W * (w + 1) ≤ 2 ^ pbc / W * W :=
      Nat.mul_le_mul_left _ (by omega)
    have hq3 : 2 ^ pbc / W * (w + 1) = 2 ^ pbc / W * w + 2 ^ pbc / W := by
      rw [Nat.mul_add, Nat.mul_one]
    have hq4 : 2 ^ pbc / W * w ≤ 2 ^ pbc - 1 := by
      rcases Nat.eq_zero_or_pos (2 ^ pbc / W) with h0 | h0
      · rw [h0, Nat.zero_mul]; omega
      · omega
    have hb : pushReplicationPieces.partitionBegin
        { partitionShift := 64 - pbc, partitionMax := 2 ^ pbc - 1, workerMax := W - 1,
          workerPartitionPiece := 2 ^ (64 - pbc) / W } w = 2 ^ pbc / W * w := by
      unfold pushReplicationPieces.partitionBegin
      simp only
      have y1 : u64 (2 ^ pbc - 1 + 1) = 2 ^ pbc := by rw [u64_of_lt (by omega)]; omega
      have y2 : u64 (W - 1 + 1) = W := by rw [u64_of_lt (by omega)]; omega
      rw [y1, y2, u64_of_lt (by omega)]
    rw [hb]
    refine ⟨hq4, ?_⟩
    have hl := partitionLoop_spec
      { partitionShift := 64 - pbc, partitionMax := 2 ^ pbc - 1, workerMax := W - 1,
        workerPartitionPiece := 2 ^ (64 - pbc) / W } responsible (2 ^ pbc / W * w)
      (by show 2 ^ pbc - 1 + 1 < 18446744073709551616; omega) hq4
    simp only [Nat.sub_add_cancel (show 1 ≤ 2 ^ pbc by omega)] at hl
    refine ⟨_, hl, ?_, ?_⟩
    · rw [List.map_map]
      have : (Prod.fst ∘ fun x => (x, !responsible (u32 x))) = id := rfl
      rw [this, List.map_id, List.range_eq_range']
      refine List.Perm.trans List.perm_append_comm ?_
      have e := List.range'_append 0 (2 ^ pbc / W * w) (2 ^ pbc - 2 ^ pbc / W * w) 1
      rw [Nat.one_mul, Nat.zero_add] at e
      have e5 : 2 ^ pbc - 2 ^ pbc / W * w + 2 ^ pbc / W * w = 2 ^ pbc := by omega
      rw [e, e5]
    · intro x hx
      rw [List.mem_map] at hx
      obtain ⟨y, hy, rfl⟩ := hx
      rw [List.mem_append, List.mem_range', List.mem_range'] at hy
      have : y < 4294967296 := by
        rcases hy with ⟨i, _, rfl⟩ | ⟨i, _, rfl⟩ <;> omega
      show (!responsible (u32 y)) = !responsible y
      rw [show u32 y = y by unfold u32; omega]

theorem c30_push_ranges_tile_witness :
    ∃ s, outPushReplicationPieces 8 ((4 : Nat) : Int) = some s ∧
      (s.workRange 255 3).2 = 18446744073709551615 :=
  (c30_push_ranges_tile 8 4 255 (by decide) (by decide) (by decide) (by decide)
      (by decide)).imp
    (fun _ h => ⟨h.1, h.2.2.2.2.2.2.2.2.2.1 (by decide)⟩)

/-- The scan gathers whole key quadruples. -/
theorem scanGather_length (tsbDeletion tombstoneCutoff : Nat) (entryHeaderLength : Int) :
    ∀ (recs : List ScannedRecord) (st : List Nat × Int), st.1.length % 4 = 0 →
      (scanGather tsbDeletion tombstoneCutoff entryHeaderLength recs st).1.length % 4 = 0 := by
  intro recs
  induction recs with
  | nil => intro st h; exact h
  | cons r rest ih =>
    intro st h
    unfold scanGather
    simp only
    have hcb : (scanCallback tsbDeletion tombstoneCutoff entryHeaderLength st r).1.1.length % 4
        = 0 := by
      unfold scanCallback
      simp only
      split_ifs <;> simp only [List.length_append, List.length_cons, List.length_nil] <;> omega
    split_ifs
    · exact ih _ hcb
    · exact hcb

/-- The loop that builds the message returns on a list of whole quadruples, and every
call of `bsm.add` that it makes passes the guards on what `store.read` returned. -/
theorem pushMessageLoop_spec {σ μ : Type}
    (tsbLocalRemoval tsbDeletion cutoff tombstoneCutoff : Nat)
    (read : σ → Nat → Nat → Nat → Nat → ByteSlice → σ × Nat × ByteSlice × Option GoError)
    (add : μ → Nat → Nat → Nat → Nat → Nat → ByteSlice → μ × Bool) :
    ∀ (n : Nat) (list : List Nat) (st : pushLoopState σ μ), list.length = 4 * n →
      ∃ st1, pushMessageLoop tsbLocalRemoval tsbDeletion cutoff tombstoneCutoff read add list st
          = some st1 ∧
        ∀ a ∈ st1.adds, a ∈ st.adds ∨
          ((a.err = none ∨ (a.err = some GoError.ErrNotFound ∧ a.timestampbits ≠ 0)) ∧
           a.timestampbits &&& tsbLocalRemoval = 0 ∧ a.timestampbits < cutoff ∧
           (a.timestampbits &&& tsbDeletion = 0 ∨ a.timestampbits ≥ tombstoneCutoff) ∧
           ∃ (s : σ) (vb : ByteSlice),
             (read s a.keyA a.keyB a.nameKeyA a.nameKeyB vb).2
               = (a.timestampbits, a.value, a.err)) := by
  intro n
  induction n with
  | zero =>
    intro list st h
    have : list = [] := List.length_eq_zero.mp (by omega)
    subst this
    exact ⟨st, rfl, fun a ha => Or.inl ha⟩
  | succ n ih =>
    intro list st h
    match list, h with
    | [], h => simp at h
    | [_], h => simp at h; omega
    | [_, _], h => simp at h; omega
    | [_, _, _], h => simp at h; omega
    | keyA :: keyB :: nameKeyA :: nameKeyB :: rest, h =>
      have hrest : rest.length = 4 * n := by
        simp only [List.length_cons] at h; omega
      obtain ⟨empty, he, _⟩ := reslice_some st.valbuf 0 (Nat.zero_le _)
      unfold pushMessageLoop
      simp only [he]
      split_ifs with hskip hgood hadd
      · obtain ⟨st1, e1, i1⟩ := ih rest _ hrest
        exact ⟨st1, e1, i1⟩
      · obtain ⟨st1, e1, i1⟩ := ih rest
          { store := (read st.store keyA keyB nameKeyA nameKeyB empty).1,
            bsm := (add st.bsm keyA keyB nameKeyA nameKeyB
                      (read st.store keyA keyB nameKeyA nameKeyB empty).2.1
                      (read st.store keyA keyB nameKeyA nameKeyB empty).2.2.1).1,
            valbuf := (read st.store keyA keyB nameKeyA nameKeyB empty).2.2.1,
            outBulkSetPushValues := atomicAddInt32 st.outBulkSetPushValues 1,
            adds := st.adds ++ [{ keyA := keyA, keyB := keyB, nameKeyA := nameKeyA,
                                  nameKeyB := nameKeyB,
                                  timestampbits :=
                                    (read st.store keyA keyB nameKeyA nameKeyB empty).2.1,
                                  value :=
                                    (read st.store keyA keyB nameKeyA nameKeyB empty).2.2.1,
                                  err :=
                                    (read st.store keyA keyB nameKeyA nameKeyB
                                      empty).2.2.2 }] } hrest
        refine ⟨st1, e1, fun a ha => ?_⟩
        rcases i1 a ha with hin | hok
        · rw [List.mem_append, List.mem_singleton] at hin
          rcases hin with hin | rfl
          · exact Or.inl hin
          · refine Or.inr ⟨?_, hgood.1, hgood.2.1, hgood.2.2, st.store, empty, rfl⟩
            show (read st.store keyA keyB nameKeyA nameKeyB empty).2.2.2 = none ∨ _
            by_cases h1 : (read st.store keyA keyB nameKeyA nameKeyB empty).2.2.2 = none
            · exact Or.inl h1
            · by_cases h2 : (read st.store keyA keyB nameKeyA nameKeyB empty).2.2.2
                  = some GoError.ErrNotFound
              · refine Or.inr ⟨h2, fun h3 => hskip (Or.inl ⟨h2, h3⟩)⟩
              · exact absurd (Or.inr ⟨h2, h1⟩) hskip
        · exact Or.inr hok
      · refine ⟨_, rfl, fun a ha => ?_⟩
        rw [List.mem_append, List.mem_singleton] at ha
        rcases ha with hin | rfl
        · exact Or.inl hin
        · refine Or.inr ⟨?_, hgood.1, hgood.2.1, hgood.2.2, st.store, empty, rfl⟩
          show (read st.store keyA keyB nameKeyA nameKeyB empty).2.2.2 = none ∨ _
          by_cases h1 : (read st.store keyA keyB nameKeyA nameKeyB empty).2.2.2 = none
          · exact Or.inl h1
          · by_cases h2 : (read st.store keyA keyB nameKeyA nameKeyB empty).2.2.2
                = some GoError.ErrNotFound
            · refine Or.inr ⟨h2, fun h3 => hskip (Or.inl ⟨h2, h3⟩)⟩
            · exact absurd (Or.inr ⟨h2, h1⟩) hskip
      · obtain ⟨st1, e1, i1⟩ := ih rest _ hrest
        exact ⟨st1, e1, i1⟩

/-- While the clock shifted by `_TSB_UTIL_BITS` fits `uint64` and the two ages are not
beyond it, the cutoffs are the exact differences. -/
theorem pushCutoffs_exact (n tsbUtilBits replicationIgnoreRecent age : Nat)
    (hfit : n <<< tsbUtilBits < 18446744073709551616)
    (hr : replicationIgnoreRecent ≤ n <<< tsbUtilBits) (ha : age ≤ n <<< tsbUtilBits) :
    pushCutoffs (n : Int) tsbUtilBits replicationIgnoreRecent age
      = (n <<< tsbUtilBits - replicationIgnoreRecent, n <<< tsbUtilBits - age) := by
  have hn : n ≤ n <<< tsbUtilBits := by
    rw [Nat.shiftLeft_eq]
    exact Nat.le_mul_of_pos_right n (Nat.two_pow_pos _)
  have e1 : ((n : Int) % 18446744073709551616).toNat = n := by
    have : (n : Int) % 18446744073709551616 = (n : Int) := by omega
    rw [this, Int.toNat_ofNat]
  unfold pushCutoffs
  simp only [e1]
  generalize n <<< tsbUtilBits = T at *
  refine Prod.ext ?_ ?_
  · show u64 (u64 T + 18446744073709551616 - u64 replicationIgnoreRecent) = _
    unfold u64; omega
  · show u64 (u64 T + 18446744073709551616 - u64 age) = _
    unfold u64; omega

/-- C25: whatever the scan reports, whatever `store.read` returns and whatever `bsm.add`
answers, `work` returns, and every entry that it adds to the outgoing bulk-set message
is one for which the read just before returned no error, or `ErrNotFound` with non-zero
timestamp bits, and timestamp bits with the `_TSB_LOCAL_REMOVAL` bit clear, below
`cutoff`, and either without the `_TSB_DELETION` bit or not below `tombstoneCutoff`;
`cutoff` and `tombstoneCutoff` are the clock, in timestamp bits, minus
`replicationIgnoreRecent` and minus the tombstone age, exactly so while the clock fits
`uint64` and the ages are not beyond it. -/
theorem c25_local_removal_not_pushed {σ μ : Type} (tsbLocalRemoval tsbDeletion tsbUtilBits : Nat)
    (entryHeaderLength : Int) (nowMicro : Int) (replicationIgnoreRecent age : Nat)
    (msgCap : Int) (scanned : List ScannedRecord) (abort ringChanged : Bool)
    (read : σ → Nat → Nat → Nat → Nat → ByteSlice → σ × Nat × ByteSlice × Option GoError)
    (add : μ → Nat → Nat → Nat → Nat → Nat → ByteSlice → μ × Bool)
    (store : σ) (newMsg : μ) (valbuf : ByteSlice) (outBulkSetPushValues : Int) :
    (∃ res,
      pushWork tsbLocalRemoval tsbDeletion tsbUtilBits entryHeaderLength nowMicro
        replicationIgnoreRecent age msgCap scanned abort ringChanged read add store newMsg
        valbuf outBulkSetPushValues = some res ∧
      ∀ st, res = some st → ∀ a ∈ st.adds,
        (a.err = none ∨ (a.err = some GoError.ErrNotFound ∧ a.timestampbits ≠ 0)) ∧
        a.timestampbits &&& tsbLocalRemoval = 0 ∧
        a.timestampbits
          < (pushCutoffs nowMicro tsbUtilBits replicationIgnoreRecent age).1 ∧
        (a.timestampbits &&& tsbDeletion = 0 ∨
          a.timestampbits ≥ (pushCutoffs nowMicro tsbUtilBits replicationIgnoreRecent age).2) ∧
        ∃ (s : σ) (vb : ByteSlice),
          (read s a.keyA a.keyB a.nameKeyA a.nameKeyB vb).2
            = (a.timestampbits, a.value, a.err)) ∧
    (∀ n : Nat, nowMicro = (n : Int) → n <<< tsbUtilBits < 18446744073709551616 →
      replicationIgnoreRecent ≤ n <<< tsbUtilBits → age ≤ n <<< tsbUtilBits →
      pushCutoffs nowMicro tsbUtilBits replicationIgnoreRecent age
        = (n <<< tsbUtilBits - replicationIgnoreRecent, n <<< tsbUtilBits - age)) := by
  refine ⟨?_, fun n hn hfit hr ha => by
    rw [hn]; exact pushCutoffs_exact n tsbUtilBits replicationIgnoreRecent age hfit hr ha⟩
  unfold pushWork
  simp only
  split_ifs with h1 h2
  · exact ⟨none, rfl, fun st h => by cases h⟩
  · exact ⟨none, rfl, fun st h => by cases h⟩
  · have hlen := scanGather_length tsbDeletion
      (pushCutoffs nowMicro tsbUtilBits replicationIgnoreRecent age).2 entryHeaderLength
      scanned ([], i64 msgCap) rfl
    obtain ⟨st1, e1, i1⟩ := pushMessageLoop_spec tsbLocalRemoval tsbDeletion
      (pushCutoffs nowMicro tsbUtilBits replicationIgnoreRecent age).1
      (pushCutoffs nowMicro tsbUtilBits replicationIgnoreRecent age).2 read add
      ((scanGather tsbDeletion (pushCutoffs nowMicro tsbUtilBits replicationIgnoreRecent age).2
          entryHeaderLength scanned ([], i64 msgCap)).1.length / 4)
      (scanGather tsbDeletion (pushCutoffs nowMicro tsbUtilBits replicationIgnoreRecent age).2
          entryHeaderLength scanned ([], i64 msgCap)).1
      { store := store, bsm := newMsg, valbuf := valbuf,
        outBulkSetPushValues := outBulkSetPushValues, adds := [] } (by omega)
    rw [e1]
    refine ⟨some st1, rfl, fun st h a ha => ?_⟩
    cases h
    rcases i1 a ha with hin | hok
    · cases hin
    · exact hok


/-! ## Audit -/

theorem shuffle_spec (names : List String) :
    ∀ (perm : List Nat) (x : Nat), x + perm.length = names.length →
      (∀ y ∈ perm, y < names.length) →
      auditShuffle names perm x = some (perm.map (fun y => names.getD y "")) := by
  intro perm
  induction perm with
  | nil =>
    intro x hx _
    simp only [List.length_nil, Nat.add_zero] at hx
    simp [auditShuffle, hx]
  | cons y perm ih =>
    intro x hx hy
    simp only [List.length_cons] at hx
    have hylt : y < names.length := hy y (List.mem_cons_self _ _)
    unfold auditShuffle
    rw [if_pos (by omega), List.get?_eq_getElem?, List.getElem?_eq_getElem hylt]
    simp only
    rw [ih (x + 1) (by omega) (fun z hz => hy z (List.mem_cons_of_mem _ hz))]
    simp [List.getD_eq_getElem?_getD, List.getElem?_eq_getElem hylt]

theorem map_getD_range (names : List String) :
    (List.range names.length).map (fun y => names.getD y "") = names := by
  apply List.ext_getElem?
  intro i
  rw [List.getElem?_map]
  by_cases h : i < names.length
  · rw [List.getElem?_range h]
    simp [List.getD_eq_getElem?_getD, List.getElem?_eq_getElem h]
  · rw [List.getElem?_eq_none (by simpa using h), List.getElem?_eq_none (by omega)]
    rfl

theorem stringsHasSuffix_length (s suffix : String) (h : stringsHasSuffix s suffix = true) :
    suffix.data.length ≤ s.data.length := by
  unfold stringsHasSuffix at h
  simp only [Bool.and_eq_true, decide_eq_true_eq] at h
  exact h.1

/-- The head of the loop body sends a name on to the check exactly under the four
conditions, and never panics. -/
theorem auditSelect_spec (store : auditStore) (now : Int) (name : String) :
    (∃ c, auditSelect store now name = some c) ∧
    ∀ t : Int, auditSelect store now name = some (.check t) ↔
      (stringsHasSuffix name ".grouptoc" = true ∧
       strconvParseInt (String.mk (name.data.take (name.data.length - 9))) = some t ∧
       t ≠ 0 ∧ t ≠ i64 (store.activeTOCA : Int) ∧ t ≠ i64 (store.activeTOCB : Int) ∧
       t < i64 (now - store.ageThreshold)) := by
  unfold auditSelect
  by_cases hs : stringsHasSuffix name ".grouptoc" = true
  · have hl := stringsHasSuffix_length _ _ hs
    have hlen : ".grouptoc".data.length = 9 := by decide
    rw [hlen] at hl
    have hd : stringDropRight name ".grouptoc".data.length
        = some (String.mk (name.data.take (name.data.length - 9))) := by
      unfold stringDropRight
      rw [hlen, if_pos hl]
    rw [if_neg (by simp [hs]), hd]
    simp only
    cases hp : strconvParseInt (String.mk (name.data.take (name.data.length - 9))) with
    | none =>
      simp only
      refine ⟨⟨_, rfl⟩, fun t => ⟨fun h => (by cases h), fun h => (by cases h.2.1)⟩⟩
    | some namets =>
      simp only
      refine ⟨?_, fun t => ?_⟩
      · split_ifs <;> exact ⟨_, rfl⟩
      · split_ifs with h0 hcur hyoung
        · refine ⟨fun h => (by cases h), fun h => ?_⟩
          obtain ⟨_, h2, h3, _⟩ := h
          cases h2
          exact absurd h0 h3
        · refine ⟨fun h => (by cases h), fun h => ?_⟩
          obtain ⟨_, h2, _, h4, h5, _⟩ := h
          cases h2
          rcases hcur with hc | hc
          · exact absurd hc h4
          · exact absurd hc h5
        · refine ⟨fun h => (by cases h), fun h => ?_⟩
          obtain ⟨_, h2, _, _, _, h6⟩ := h
          cases h2
          omega
        · refine ⟨fun h => ?_, fun h => ?_⟩
          · cases h
            exact ⟨hs, rfl, h0, fun h => hcur (Or.inl h), fun h => hcur (Or.inr h), by omega⟩
          · obtain ⟨_, h2, _⟩ := h
            cases h2
            rfl
  · rw [if_pos (by simp [hs])]
    refine ⟨⟨_, rfl⟩, fun t => ⟨fun h => (by cases h), fun h => absurd h.1 hs⟩⟩

/-- A pass on which no notification arrives and no audit fails runs through all names
and checks exactly those that the head of the loop body selects. -/
theorem auditPassLoop_spec (store : auditStore) (notify : Nat → Option Int) (now : Nat → Int)
    (dataOpens : String → Bool) (verdict : String → auditVerdict)
    (hrun : ∀ i, notify i = none) :
    ∀ (names : List String) (i : Nat) (log : auditLog),
      (∀ name ∈ names, ∀ d, stringDropRight name 3 = some d →
        dataOpens (pathJoin store.path d) = true) →
      (∀ name ∈ names, verdict name = auditVerdict.passed) →
      ∃ log1, auditPassLoop store notify now dataOpens verdict names i log
          = some (log1, auditReturn.nil) ∧
        log1.checked = log.checked
          ++ ((names.enumFrom i).filter (fun p => auditChecks store (now p.1) p.2)).map
              Prod.snd ∧
        log1.opened = log.opened
          ++ (((names.enumFrom i).filter (fun p => auditChecks store (now p.1) p.2)).map
                Prod.snd).flatMap
              (fun name =>
                [pathJoin store.path (String.mk (name.data.take (name.data.length - 3))),
                 pathJoin store.pathtoc name]) ∧
        log1.failed = log.failed := by
  intro names
  induction names with
  | nil =>
    intro i log _ _
    exact ⟨log, rfl, by simp, by simp, rfl⟩
  | cons name rest ih =>
    intro i log hopen hver
    have hopen1 : ∀ n ∈ rest, ∀ d, stringDropRight n 3 = some d →
        dataOpens (pathJoin store.path d) = true :=
      fun n hn => hopen n (List.mem_cons_of_mem _ hn)
    have hver1 : ∀ n ∈ rest, verdict n = auditVerdict.passed :=
      fun n hn => hver n (List.mem_cons_of_mem _ hn)
    obtain ⟨⟨c, hc⟩, hiff⟩ := auditSelect_spec store (now i) name
    unfold auditPassLoop
    rw [hrun i]
    simp only [hc, List.enumFrom_cons]
    have hskip : (∀ t, c ≠ auditChoice.check t) →
        auditChecks store (now i) name = false := by
      intro hne
      unfold auditChecks
      rw [hc]
      cases c <;> first | rfl | exact absurd rfl (hne _)
    cases c with
    | notTOC =>
      obtain ⟨log1, e1, e2, e3, e4⟩ := ih (i + 1) log hopen1 hver1
      refine ⟨log1, e1, ?_, ?_, e4⟩
      · rw [e2, List.filter_cons_of_neg (by simp [hskip (fun t h => by cases h)])]
      · rw [e3, List.filter_cons_of_neg (by simp [hskip (fun t h => by cases h)])]
    | current =>
      obtain ⟨log1, e1, e2, e3, e4⟩ := ih (i + 1) log hopen1 hver1
      refine ⟨log1, e1, ?_, ?_, e4⟩
      · rw [e2, List.filter_cons_of_neg (by simp [hskip (fun t h => by cases h)])]
      · rw [e3, List.filter_cons_of_neg (by simp [hskip (fun t h => by cases h)])]
    | young =>
      obtain ⟨log1, e1, e2, e3, e4⟩ := ih (i + 1) log hopen1 hver1
      refine ⟨log1, e1, ?_, ?_, e4⟩
      · rw [e2, List.filter_cons_of_neg (by simp [hskip (fun t h => by cases h)])]
      · rw [e3, List.filter_cons_of_neg (by simp [hskip (fun t h => by cases h)])]
    | badTimestamp =>
      obtain ⟨log1, e1, e2, e3, e4⟩ :=
        ih (i + 1) { log with errors := log.errors ++ [name] } hopen1 hver1
      refine ⟨log1, e1, ?_, ?_, e4⟩
      · rw [e2, List.filter_cons_of_neg (by simp [hskip (fun t h => by cases h)])]
      · rw [e3, List.filter_cons_of_neg (by simp [hskip (fun t h => by cases h)])]
    | check t =>
      have hsel : auditChecks store (now i) name = true := by
        unfold auditChecks
        rw [hc]
      have hs := ((hiff t).mp hc).1
      have hl := stringsHasSuffix_length _ _ hs
      have hlen : ".grouptoc".data.length = 9 := by decide
      rw [hlen] at hl
      have hd : stringDropRight name 3
          = some (String.mk (name.data.take (name.data.length - 3))) := by
        unfold stringDropRight
        rw [if_pos (by omega)]
      have ho := hopen name (List.mem_cons_self _ _) _ hd
      have hv := hver name (List.mem_cons_self _ _)
      simp only [hd, ho, hv]
      obtain ⟨log1, e1, e2, e3, e4⟩ := ih (i + 1)
        { errors := log.errors, checked := log.checked ++ [name],
          opened := log.opened
            ++ [pathJoin store.path (String.mk (name.data.take (name.data.length - 3)))]
            ++ [pathJoin store.pathtoc name],
          failed := log.failed } hopen1 hver1
      refine ⟨log1, ?_, ?_, ?_, e4⟩
      · simpa using e1
      · rw [e2, List.filter_cons_of_pos (by simpa using hsel)]
        simp
      · rw [e3, List.filter_cons_of_pos (by simpa using hsel)]
        simp

/-- Every pass returns; the names it has visited when it returns are a leading part of
the list, the names checked are those among them that the head of the loop body selects,
and the files opened are the data file and the TOC file of checked names. A pass that
returns `nil` has visited all names. -/
theorem auditPassLoop_run (store : auditStore) (notify : Nat → Option Int) (now : Nat → Int)
    (dataOpens : String → Bool) (verdict : String → auditVerdict) :
    ∀ (names : List String) (i : Nat) (log : auditLog),
      ∃ log1 ret visited rest,
        auditPassLoop store notify now dataOpens verdict names i log = some (log1, ret) ∧
        names = visited ++ rest ∧
        log1.checked = log.checked
          ++ ((visited.enumFrom i).filter (fun p => auditChecks store (now p.1) p.2)).map
              Prod.snd ∧
        (∀ path ∈ log1.opened, path ∈ log.opened ∨
          ∃ name ∈ ((visited.enumFrom i).filter
              (fun p => auditChecks store (now p.1) p.2)).map Prod.snd,
            path = pathJoin store.path (String.mk (name.data.take (name.data.length - 3)))
              ∨ path = pathJoin store.pathtoc name) ∧
        (ret = auditReturn.nil →
          rest = [] ∧
          log1.opened = log.opened
            ++ (((visited.enumFrom i).filter (fun p => auditChecks store (now p.1) p.2)).map
                  Prod.snd).flatMap
                (fun name =>
                  [pathJoin store.path (String.mk (name.data.take (name.data.length - 3))),
                   pathJoin store.pathtoc name]) ∧
          log1.failed = log.failed) := by
  intro names
  induction names with
  | nil =>
    intro i log
    exact ⟨log, auditReturn.nil, [], [], rfl, rfl, by simp, fun p hp => Or.inl hp,
      fun _ => ⟨rfl, by simp, rfl⟩⟩
  | cons name rest0 ih =>
    intro i log
    unfold auditPassLoop
    cases hn : notify i with
    | some action =>
      exact ⟨log, auditReturn.received action, [], name :: rest0, rfl, rfl, by simp,
        fun p hp => Or.inl hp, fun h => by cases h⟩
    | none =>
      obtain ⟨⟨c, hc⟩, hiff⟩ := auditSelect_spec store (now i) name
      simp only [hc]
      have hskip : (∀ t, c ≠ auditChoice.check t) →
          auditChecks store (now i) name = false := by
        intro hne
        unfold auditChecks
        rw [hc]
        cases c <;> first | rfl | exact absurd rfl (hne _)
      have skipCase : ∀ (logA : auditLog), logA.checked = log.checked →
          logA.opened = log.opened → logA.failed = log.failed →
          auditChecks store (now i) name = false →
          ∃ log1 ret visited rest,
            auditPassLoop store notify now dataOpens verdict rest0 (i + 1) logA
              = some (log1, ret) ∧
            name :: rest0 = visited ++ rest ∧
            log1.checked = log.checked
              ++ ((visited.enumFrom i).filter
                    (fun p => auditChecks store (now p.1) p.2)).map Prod.snd ∧
            (∀ path ∈ log1.opened, path ∈ log.opened ∨
              ∃ name ∈ ((visited.enumFrom i).filter
                  (fun p => auditChecks store (now p.1) p.2)).map Prod.snd,
                path = pathJoin store.path
                    (String.mk (name.data.take (name.data.length - 3)))
                  ∨ path = pathJoin store.pathtoc name) ∧
            (ret = auditReturn.nil →
              rest = [] ∧
              log1.opened = log.opened
                ++ (((visited.enumFrom i).filter
                      (fun p => auditChecks store (now p.1) p.2)).map Prod.snd).flatMap
                    (fun name =>
                      [pathJoin store.path
                         (String.mk (name.data.take (name.data.length - 3))),
                       pathJoin store.pathtoc name]) ∧
              log1.failed = log.failed) := by
        intro logA hA1 hA2 hA3 hfalse
        obtain ⟨log1, ret, visited, rest, e1, e2, e3, e4, e5⟩ := ih (i + 1) logA
        have hf : ((name :: visited).enumFrom i).filter
              (fun p => auditChecks store (now p.1) p.2)
            = (visited.enumFrom (i + 1)).filter
                (fun p => auditChecks store (now p.1) p.2) := by
          rw [List.enumFrom_cons, List.filter_cons_of_neg (by simp [hfalse])]
        refine ⟨log1, ret, name :: visited, rest, e1, by rw [e2]; rfl, ?_, ?_, ?_⟩
        · rw [hf, e3, hA1]
        · rw [hf]
          intro p hp
          rw [← hA2]
          exact e4 p hp
        · rw [hf, ← hA2, ← hA3]
          exact e5
      cases c with
      | notTOC => exact skipCase log rfl rfl rfl (hskip (fun t h => by cases h))
      | current => exact skipCase log rfl rfl rfl (hskip (fun t h => by cases h))
      | young => exact skipCase log rfl rfl rfl (hskip (fun t h => by cases h))
      | badTimestamp =>
        exact skipCase { log with errors := log.errors ++ [name] } rfl rfl rfl
          (hskip (fun t h => by cases h))
      | check t =>
        have hsel : auditChecks store (now i) name = true := by
          unfold auditChecks
          rw [hc]
        have hs := ((hiff t).mp hc).1
        have hl := stringsHasSuffix_length _ _ hs
        have hlen : ".grouptoc".data.length = 9 := by decide
        rw [hlen] at hl
        have hd : stringDropRight name 3
            = some (String.mk (name.data.take (name.data.length - 3))) := by
          unfold stringDropRight
          rw [if_pos (by omega)]
        have hone : (([name] : List String).enumFrom i).filter
              (fun p => auditChecks store (now p.1) p.2) = [(i, name)] := by
          rw [List.enumFrom_cons, List.enumFrom_nil, List.filter_cons_of_pos (by simpa using hsel)]
          rfl
        simp only [hd]
        cases ho : dataOpens
            (pathJoin store.path (String.mk (name.data.take (name.data.length - 3)))) with
        | false =>
          simp only [if_true]
          refine ⟨_, auditReturn.disable, [name], rest0, rfl, rfl, ?_, ?_, fun h => by cases h⟩
          · rw [hone]; rfl
          · rw [hone]
            intro p hp
            simp only [List.mem_append, List.mem_singleton] at hp
            rcases hp with hp | hp
            · exact Or.inl hp
            · exact Or.inr ⟨name, by simp, Or.inl hp⟩
        | true =>
          simp only [Bool.true_eq_false, if_false]
          cases hv : verdict name with
          | notified action =>
            simp only
            refine ⟨_, auditReturn.received action, [name], rest0, rfl, rfl, ?_, ?_,
              fun h => by cases h⟩
            · rw [hone]; rfl
            · rw [hone]
              intro p hp
              simp only [List.mem_append, List.mem_singleton] at hp
              rcases hp with (hp | hp) | hp
              · exact Or.inl hp
              · exact Or.inr ⟨name, by simp, Or.inl hp⟩
              · exact Or.inr ⟨name, by simp, Or.inr hp⟩
          | failed =>
            simp only
            refine ⟨_, auditReturn.disable, [name], rest0, rfl, rfl, ?_, ?_,
              fun h => by cases h⟩
            · rw [hone]; rfl
            · rw [hone]
              intro p hp
              simp only [List.mem_append, List.mem_singleton] at hp
              rcases hp with (hp | hp) | hp
              · exact Or.inl hp
              · exact Or.inr ⟨name, by simp, Or.inl hp⟩
              · exact Or.inr ⟨name, by simp, Or.inr hp⟩
          | passed =>
            simp only
            obtain ⟨log1, ret, visited, rest, e1, e2, e3, e4, e5⟩ := ih (i + 1)
              { errors := log.errors, checked := log.checked ++ [name],
                opened := log.opened
                  ++ [pathJoin store.path
                        (String.mk (name.data.take (name.data.length - 3)))]
                  ++ [pathJoin store.pathtoc name],
                failed := log.failed }
            have hf : ((name :: visited).enumFrom i).filter
                  (fun p => auditChecks store (now p.1) p.2)
                = (i, name) :: (visited.enumFrom (i + 1)).filter
                    (fun p => auditChecks store (now p.1) p.2) := by
              rw [List.enumFrom_cons, List.filter_cons_of_pos (by simpa using hsel)]
            refine ⟨log1, ret, name :: visited, rest, e1, by rw [e2]; rfl, ?_, ?_, ?_⟩
            · rw [hf, e3]
              simp
            · rw [hf]
              intro p hp
              rcases e4 p hp with h | ⟨n, hn, h⟩
              · simp only [List.mem_append, List.mem_singleton] at h
                rcases h with (h | h) | h
                · exact Or.inl h
                · exact Or.inr ⟨name, by simp, Or.inl h⟩
                · exact Or.inr ⟨name, by simp, Or.inr h⟩
              · exact Or.inr ⟨n, by simp only [List.map_cons, List.mem_cons]; exact Or.inr hn, h⟩
            · intro hret
              obtain ⟨r1, r2, r3⟩ := e5 hret
              refine ⟨r1, ?_, r3⟩
              rw [hf, r2]
              simp

/-- C24: `auditPass` always returns. The names it has visited when it returns are a
leading part of a permutation of the directory's names, and a visited name is checked
exactly when it ends with `.grouptoc`, the part before that suffix is read by
`strconv.ParseInt` as an `int64` `t` that is not 0, `t` is neither of the active TOC
timestamps and `t` is below `now - ageThreshold`; no file is opened but the data file of
a checked name, named by the name without its last three characters, and then its TOC
file. A pass that returns `nil` has visited every name, and a pass on which no
notification arrives and no audit fails returns `nil`. The age threshold is
`AuditAgeThreshold` in nanoseconds, and the comparison is the exact one while that
product stays within `int64`. -/
theorem c24_audit_candidates (store : auditStore) (names : List String) (perm : List Nat)
    (notify : Nat → Option Int) (now : Nat → Int) (dataOpens : String → Bool)
    (verdict : String → auditVerdict)
    (hperm : perm.Perm (List.range names.length)) :
    ∃ shuffled log ret visited rest,
      auditShuffle names perm 0 = some shuffled ∧ shuffled.Perm names ∧
      auditPass store names perm notify now dataOpens verdict = some (log, ret) ∧
      shuffled = visited ++ rest ∧
      log.checked
        = (visited.enum.filter (fun p => auditChecks store (now p.1) p.2)).map Prod.snd ∧
      (∀ path ∈ log.opened, ∃ name ∈ log.checked,
        path = pathJoin store.path (String.mk (name.data.take (name.data.length - 3)))
          ∨ path = pathJoin store.pathtoc name) ∧
      (ret = auditReturn.nil →
        rest = [] ∧
        log.opened
          = log.checked.flatMap
              (fun name =>
                [pathJoin store.path (String.mk (name.data.take (name.data.length - 3))),
                 pathJoin store.pathtoc name]) ∧
        log.failed = []) ∧
      ((∀ i, notify i = none) →
        (∀ name ∈ names, ∀ d, stringDropRight name 3 = some d →
          dataOpens (pathJoin store.path d) = true) →
        (∀ name ∈ names, verdict name = auditVerdict.passed) → ret = auditReturn.nil) ∧
      (∀ (nowv : Int) (name : String),
        (auditChecks store nowv name = true ↔
          ∃ t : Int, stringsHasSuffix name ".grouptoc" = true ∧
            strconvParseInt (String.mk (name.data.take (name.data.length - 9))) = some t ∧
            t ≠ 0 ∧ t ≠ i64 (store.activeTOCA : Int) ∧ t ≠ i64 (store.activeTOCB : Int) ∧
            t < i64 (nowv - store.ageThreshold))) ∧
      (∀ (auditAgeThreshold nowv : Int), 1 ≤ auditAgeThreshold →
        auditAgeThreshold * 1000000000 ≤ 9223372036854775807 →
        0 ≤ nowv → nowv ≤ 9223372036854775807 →
        i64 (nowv - (auditConfig store auditAgeThreshold).ageThreshold)
          = nowv - auditAgeThreshold * 1000000000) := by
  have hlen : perm.length = names.length := by
    rw [hperm.length_eq, List.length_range]
  have hmem : ∀ y ∈ perm, y < names.length := fun y hy =>
    List.mem_range.mp (hperm.subset hy)
  have hsh := shuffle_spec names perm 0 (by omega) hmem
  have hp : (perm.map (fun y => names.getD y "")).Perm names := by
    have := hperm.map (fun y => names.getD y "")
    rw [map_getD_range] at this
    exact this
  obtain ⟨log, ret, visited, rest, e1, e2, e3, e4, e5⟩ :=
    auditPassLoop_run store notify now dataOpens verdict
      (perm.map (fun y => names.getD y "")) 0
      { errors := [], checked := [], opened := [], failed := [] }
  have hpass : auditPass store names perm notify now dataOpens verdict = some (log, ret) := by
    unfold auditPass
    rw [hsh]
    exact e1
  have hchecked : log.checked
      = (visited.enum.filter (fun p => auditChecks store (now p.1) p.2)).map Prod.snd := by
    rw [e3, List.nil_append]
    rfl
  refine ⟨_, log, ret, visited, rest, hsh, hp, hpass, e2, hchecked, ?_, ?_, ?_, ?_, ?_⟩
  · intro path hpath
    rcases e4 path hpath with h | ⟨name, hname, h⟩
    · cases h
    · exact ⟨name, by rw [hchecked]; exact hname, h⟩
  · intro hret
    obtain ⟨r1, r2, r3⟩ := e5 hret
    refine ⟨r1, ?_, r3⟩
    rw [r2, List.nil_append, hchecked]
    rfl
  · intro hrun hopen hver
    obtain ⟨log2, f1, _⟩ := auditPassLoop_spec store notify now dataOpens verdict hrun
      (perm.map (fun y => names.getD y "")) 0
      { errors := [], checked := [], opened := [], failed := [] }
      (fun n hn => hopen n (hp.subset hn)) (fun n hn => hver n (hp.subset hn))
    rw [f1] at e1
    cases e1
    rfl
  · intro nowv name
    obtain ⟨⟨c, hc⟩, hiff⟩ := auditSelect_spec store nowv name
    constructor
    · intro h
      unfold auditChecks at h
      rw [hc] at h
      cases c with
      | check t => exact ⟨t, (hiff t).mp hc⟩
      | notTOC => cases h
      | badTimestamp => cases h
      | current => cases h
      | young => cases h
    · rintro ⟨t, ht⟩
      unfold auditChecks
      rw [(hiff t).mpr ht]
  · intro a nowv h1 h2 h3 h4
    unfold auditConfig
    simp only
    rw [i64_of_range (x := a) (by omega) (by omega),
      i64_of_range (x := a * 1000000000) (by omega) (by omega)]
    exact i64_of_range (by omega) (by omega)

theorem c24_audit_candidates_witness :
    ∃ log,
      auditPass testAuditStore
        ["5.grouptoc", "x", "7.grouptoc", "4000000000.grouptoc", "y.grouptoc"]
        [2, 0, 1, 4, 3] (fun _ => none) (fun _ => 5000000000) (fun _ => true)
        (fun _ => auditVerdict.passed) = some (log, auditReturn.nil) ∧
      log.checked = ["5.grouptoc"] ∧ log.opened = ["5.group", "toc/5.grouptoc"] ∧
      ∀ path ∈ log.opened, ∃ name ∈ log.checked,
        path = pathJoin testAuditStore.path
            (String.mk (name.data.take (name.data.length - 3)))
          ∨ path = pathJoin testAuditStore.pathtoc name := by
  obtain ⟨shuffled, log, ret, visited, rest, _, _, h3, _, _, h6, _⟩ :=
    c24_audit_candidates testAuditStore
      ["5.grouptoc", "x", "7.grouptoc", "4000000000.grouptoc", "y.grouptoc"]
      [2, 0, 1, 4, 3] (fun _ => none) (fun _ => 5000000000) (fun _ => true)
      (fun _ => auditVerdict.passed) (by decide)
  have h : auditPass testAuditStore
      ["5.grouptoc", "x", "7.grouptoc", "4000000000.grouptoc", "y.grouptoc"]
      [2, 0, 1, 4, 3] (fun _ => none) (fun _ => 5000000000) (fun _ => true)
      (fun _ => auditVerdict.passed)
      = some ({ errors := ["y.grouptoc"], checked := ["5.grouptoc"],
                opened := ["5.group", "toc/5.grouptoc"], failed := [] },
              auditReturn.nil) := by decide
  rw [h] at h3
  cases h3
  exact ⟨_, h, rfl, rfl, h6⟩

/-! ## The writer goroutine -/

/-- One pass of `writer` on a buffer, when the channels have room for its memblocks: the
buffer is appended to the file and returned, reset, to the free channel. -/
theorem writer_spec (fl : groupStoreFile) (b : groupStoreFileWriteBuf) (j : Nat)
    (h : fl.freeableMemBlockChanIndex < fl.store.freeableMemBlockChans.length)
    (hr : fl.hasRoom (b.memBlocks.length + j)) :
    ∃ fl1, fl.writer b = some fl1 ∧ fl1.disk = fl.disk ++ b.buf ∧
      fl1.writerFreeBufChan = fl.writerFreeBufChan ++ [{ b with memBlocks := [], offset := 0 }] ∧
      fl1.writerCurrentBuf = fl.writerCurrentBuf ∧
      fl1.freeableMemBlockChanIndex < fl1.store.freeableMemBlockChans.length ∧
      fl1.hasRoom j := by
  obtain ⟨fl2, e2, k2, r2⟩ := freeMemBlocks_spec b.memBlocks
    { fl with disk := fl.disk ++ b.buf } j h hr
  refine ⟨{ fl2 with
      writerFreeBufChan := fl2.writerFreeBufChan ++ [{ b with memBlocks := [], offset := 0 }] },
    ?_, k2.disk, ?_, k2.cur, k2.chans, r2⟩
  · unfold groupStoreFile.writer
    simp only [e2, Option.bind_eq_bind, Option.some_bind, Option.pure_def, Option.bind_some]
  · show fl2.writerFreeBufChan ++ _ = _
    rw [k2.free]

/-- Buffers that are not the expected one, and a `nil` not met twice in a row, go round
the queue. -/
theorem writerLoop_requeue :
    ∀ (pre rest : List (Option groupStoreFileWriteBuf)) (fl : groupStoreFile)
      (cs : List groupStoreFileWriteBuf) (seq : Nat) (l : Bool) (fuel : Nat),
      pre.Nodup → (l = true → none ∉ pre) → (∀ b, some b ∈ pre → b.seq ≠ seq) →
      ∃ flag, writerPipeline.writerLoop (fuel + pre.length)
          { fl := fl, writerChecksumBufChan := cs, writerToDiskBufChan := pre ++ rest,
            seq := seq, lastWasNil := l, writerDone := false }
        = writerPipeline.writerLoop fuel
            { fl := fl, writerChecksumBufChan := cs, writerToDiskBufChan := rest ++ pre,
              seq := seq, lastWasNil := flag, writerDone := false } := by
  intro pre
  induction pre with
  | nil =>
    intro rest fl cs seq l fuel _ _ _
    exact ⟨l, by simp⟩
  | cons x pre ih =>
    intro rest fl cs seq l fuel hnd hflag hseq
    have hnd1 : pre.Nodup := (List.nodup_cons.mp hnd).2
    have hx : x ∉ pre := (List.nodup_cons.mp hnd).1
    have e : fuel + (x :: pre).length = (fuel + pre.length) + 1 := by
      simp only [List.length_cons]; omega
    rw [e, writerPipeline.writerLoop]
    cases x with
    | none =>
      have hl : l = false := by
        cases l with
        | false => rfl
        | true => exact absurd (List.mem_cons_self _ _) (hflag rfl)
      subst hl
      obtain ⟨flag, h⟩ := ih (rest ++ [none]) fl cs seq true fuel hnd1 (fun _ => hx)
        (fun b hb => hseq b (List.mem_cons_of_mem _ hb))
      refine ⟨flag, ?_⟩
      simp only [writerPipeline.writerStep, List.cons_append, Bool.false_eq_true, if_false]
      rw [List.append_assoc, h, List.append_assoc]
      rfl
    | some b =>
      have hb : b.seq ≠ seq := hseq b (List.mem_cons_self _ _)
      obtain ⟨flag, h⟩ := ih (rest ++ [some b]) fl cs seq false fuel hnd1
        (fun h => by cases h) (fun c hc => hseq c (List.mem_cons_of_mem _ hc))
      refine ⟨flag, ?_⟩
      simp only [writerPipeline.writerStep, List.cons_append, hb, ne_eq, not_false_eq_true,
        if_true, Bool.false_eq_true, if_false]
      rw [List.append_assoc, h, List.append_assoc]
      rfl

/-- More fuel does not change a result. -/
theorem writerLoop_mono :
    ∀ (fuel : Nat) (p r : writerPipeline), writerPipeline.writerLoop fuel p = some r →
      ∀ d, writerPipeline.writerLoop (fuel + d) p = some r := by
  intro fuel
  induction fuel with
  | zero => intro p r h; cases h
  | succ fuel ih =>
    intro p r h d
    have e : fuel + 1 + d = (fuel + d) + 1 := by omega
    rw [e]
    rw [writerPipeline.writerLoop] at h ⊢
    cases hs : p.writerStep with
    | none => rw [hs] at h; cases h
    | some p1 =>
      rw [hs] at h
      simp only at h ⊢
      split_ifs at h ⊢ with hd
      · exact h
      · exact ih p1 r h d

theorem writer_queue_nodup (B : Nat → groupStoreFileWriteBuf) (hseq : ∀ i, (B i).seq = i)
    (k m : Nat) :
    ((List.range' k m).map (fun i => some (B i)) ++ [none]).Nodup := by
  have hinj : Function.Injective (fun i => some (B i)) := by
    intro i j h
    have h1 : B i = B j := Option.some.inj h
    have h2 := congrArg groupStoreFileWriteBuf.seq h1
    rw [hseq, hseq] at h2
    exact h2
  rw [List.nodup_append]
  refine ⟨(List.nodup_range' k m).map hinj, List.nodup_singleton _, ?_⟩
  intro x hx hx2
  rw [List.mem_singleton] at hx2
  subst hx2
  rw [List.mem_map] at hx
  obtain ⟨i, _, hi⟩ := hx
  cases hi

/-- From a queue that holds the buffers `k .. k+m-1` in any order and one `nil`, the
writer writes them in order and leaves its loop, when the channels have room for the
memblocks of these buffers. -/
theorem writerLoop_drains (B : Nat → groupStoreFileWriteBuf) (hseq : ∀ i, (B i).seq = i)
    (cs : List groupStoreFileWriteBuf) :
    ∀ (m k : Nat) (queue : List (Option groupStoreFileWriteBuf)) (fl : groupStoreFile),
      queue.Perm ((List.range' k m).map (fun i => some (B i)) ++ [none]) →
      fl.freeableMemBlockChanIndex < fl.store.freeableMemBlockChans.length →
      fl.hasRoom (((List.range' k m).map (fun i => (B i).memBlocks.length)).sum) →
      ∀ fuel, (m + 2) * (m + 2) ≤ fuel →
      ∃ fl1, writerPipeline.writerLoop fuel
          { fl := fl, writerChecksumBufChan := cs, writerToDiskBufChan := queue, seq := k,
            lastWasNil := false, writerDone := false }
          = some { fl := fl1, writerChecksumBufChan := cs, writerToDiskBufChan := [],
                   seq := k + m, lastWasNil := true, writerDone := true } ∧
        fl1.disk = fl.disk ++ (List.range' k m).flatMap (fun i => (B i).buf) ∧
        fl1.writerFreeBufChan = fl.writerFreeBufChan
          ++ (List.range' k m).map (fun i => { B i with memBlocks := [], offset := 0 }) ∧
        fl1.writerCurrentBuf = fl.writerCurrentBuf := by
  intro m
  induction m with
  | zero =>
    intro k queue fl hq hv _ fuel hfuel
    have hq1 : queue = [none] := by
      simpa using hq
    subst hq1
    obtain ⟨f, rfl⟩ : ∃ f, fuel = f + 2 := ⟨fuel - 2, by omega⟩
    refine ⟨fl, ?_, by simp, by simp, rfl⟩
    rw [writerPipeline.writerLoop]
    simp only [writerPipeline.writerStep, Bool.false_eq_true, if_false, List.nil_append]
    rw [writerPipeline.writerLoop]
    simp only [writerPipeline.writerStep, if_true, Nat.add_zero]
  | succ m ih =>
    intro k queue fl hq hv hroom fuel hfuel
    have hnd : queue.Nodup := hq.nodup_iff.mpr (writer_queue_nodup B hseq k (m + 1))
    have htarget : (List.range' k (m + 1)).map (fun i => some (B i)) ++ [none]
        = some (B k) :: ((List.range' (k + 1) m).map (fun i => some (B i)) ++ [none]) := by
      rw [List.range'_succ, List.map_cons, List.cons_append]
    rw [htarget] at hq
    have hmem : some (B k) ∈ queue := hq.symm.subset (List.mem_cons_self _ _)
    obtain ⟨pre, post, hsplit⟩ := List.append_of_mem hmem
    subst hsplit
    have hlen := hq.length_eq
    simp only [List.length_append, List.length_cons, List.length_map, List.length_range',
      List.length_nil] at hlen
    have hq2 : (post ++ pre).Perm ((List.range' (k + 1) m).map (fun i => some (B i)) ++ [none]) := by
      have h1 : (some (B k) :: (pre ++ post)).Perm
          (some (B k) :: ((List.range' (k + 1) m).map (fun i => some (B i)) ++ [none])) :=
        List.perm_middle.symm.trans hq
      exact List.perm_append_comm.trans ((List.perm_cons _).mp h1)
    have hndpre : pre.Nodup := (List.nodup_append.mp hnd).1
    have hnotin : some (B k) ∉ pre := by
      intro h
      exact (List.nodup_append.mp hnd).2.2 h (List.mem_cons_self _ _) 
    have hseqpre : ∀ b, some b ∈ pre → b.seq ≠ k := by
      intro b hb hbk
      have hb1 : some b ∈ some (B k) :: ((List.range' (k + 1) m).map (fun i => some (B i)) ++ [none]) :=
        hq.subset (List.mem_append_left _ hb)
      rw [← htarget, List.mem_append, List.mem_map] at hb1
      rcases hb1 with ⟨i, _, hi⟩ | hb1
      · have h1 : B i = b := Option.some.inj hi
        have h2 : i = k := by rw [← hseq i, h1, hbk]
        rw [h2] at h1
        rw [← h1] at hb
        exact hnotin hb
      · simp at hb1
    obtain ⟨f, hf⟩ : ∃ f, fuel = (f + 1) + pre.length := ⟨fuel - 1 - pre.length, by
      have : (m + 1 + 2) * (m + 1 + 2) = (m + 2) * (m + 2) + 2 * m + 5 := by ring
      omega⟩
    have hf2 : (m + 2) * (m + 2) ≤ f := by
      have : (m + 1 + 2) * (m + 1 + 2) = (m + 2) * (m + 2) + 2 * m + 5 := by ring
      omega
    obtain ⟨flag, hrot⟩ := writerLoop_requeue pre (some (B k) :: post) fl cs k false (f + 1)
      hndpre (fun h => by cases h) hseqpre
    rw [List.range'_succ, List.map_cons, List.sum_cons] at hroom
    obtain ⟨fl1, hw, hd1, hfree1, hcur1, hv1, hr1⟩ := writer_spec fl (B k) _ hv hroom
    obtain ⟨fl2, hloop, hd2, hfree2, hcur2⟩ := ih (k + 1) (post ++ pre) fl1 hq2 hv1 hr1 f hf2
    refine ⟨fl2, ?_, ?_, ?_, ?_⟩
    · rw [hf, hrot, writerPipeline.writerLoop]
      simp only [writerPipeline.writerStep, List.cons_append, hseq, ne_eq, not_true_eq_false,
        if_false, hw, Bool.false_eq_true]
      rw [hloop]
      congr 2
      omega
    · rw [hd2, hd1, List.range'_succ, List.flatMap_cons, List.append_assoc]
    · rw [hfree2, hfree1, List.range'_succ, List.map_cons, List.append_assoc]
      rfl
    · rw [hcur2, hcur1]

/-- C27: with `writerToDiskBufChan` a FIFO queue that holds the page buffers with `seq`
0 to `n-1` in any order followed by the `nil` buffer, and channels for freeable
memblocks that have room for the memblocks these buffers carry, released to the
channels in turn (`fl.hasRoom`), the loop of `writer`, given `(n+2)^2` iterations or
more, leaves its loop with `seq = n` and an empty queue, having appended the buffers to
the file once each in the order of their `seq` and returned each, reset, to the free
channel; it cannot leave the loop in any other state; and an
iteration that receives a buffer whose `seq` is not the expected one sends the same
buffer back on the queue and changes nothing else but `lastWasNil`. -/
theorem c27_writer_serializes (fl : groupStoreFile) (B : Nat → groupStoreFileWriteBuf)
    (n : Nat) (order : List Nat) (hseq : ∀ i, (B i).seq = i)
    (horder : order.Perm (List.range n))
    (hchans : fl.freeableMemBlockChanIndex < fl.store.freeableMemBlockChans.length)
    (hroom : fl.hasRoom (((List.range n).map (fun i => (B i).memBlocks.length)).sum)) :
    ∃ fl1,
      (∀ fuel, (n + 2) * (n + 2) ≤ fuel →
        writerPipeline.writerLoop fuel
            { fl := fl, writerChecksumBufChan := [],
              writerToDiskBufChan := order.map (fun i => some (B i)) ++ [none], seq := 0,
              lastWasNil := false, writerDone := false }
          = some { fl := fl1, writerChecksumBufChan := [], writerToDiskBufChan := [],
                   seq := n, lastWasNil := true, writerDone := true }) ∧
      (∀ fuel r,
        writerPipeline.writerLoop fuel
            { fl := fl, writerChecksumBufChan := [],
              writerToDiskBufChan := order.map (fun i => some (B i)) ++ [none], seq := 0,
              lastWasNil := false, writerDone := false } = some r →
        r = { fl := fl1, writerChecksumBufChan := [], writerToDiskBufChan := [],
              seq := n, lastWasNil := true, writerDone := true }) ∧
      fl1.disk = fl.disk ++ (List.range n).flatMap (fun i => (B i).buf) ∧
      fl1.writerFreeBufChan = fl.writerFreeBufChan
        ++ (List.range n).map (fun i => { B i with memBlocks := [], offset := 0 }) ∧
      (∀ (p : writerPipeline) (buf : groupStoreFileWriteBuf)
          (q : List (Option groupStoreFileWriteBuf)),
        p.writerToDiskBufChan = some buf :: q → buf.seq ≠ p.seq →
        p.writerStep
          = some { p with writerToDiskBufChan := q ++ [some buf], lastWasNil := false }) := by
  have hq : (order.map (fun i => some (B i)) ++ [none]).Perm
      ((List.range' 0 n).map (fun i => some (B i)) ++ [none]) := by
    rw [← List.range_eq_range']
    exact (horder.map _).append_right _
  have hdrain := writerLoop_drains B hseq [] n 0 _ fl hq hchans
    (by rw [← List.range_eq_range']; exact hroom)
  obtain ⟨fl1, h1, h2, h3, _⟩ := hdrain ((n + 2) * (n + 2)) (Nat.le_refl _)
  rw [Nat.zero_add] at h1
  rw [← List.range_eq_range'] at h2 h3
  refine ⟨fl1, ?_, ?_, h2, h3, ?_⟩
  · intro fuel hfuel
    obtain ⟨d, rfl⟩ : ∃ d, fuel = (n + 2) * (n + 2) + d := ⟨fuel - (n + 2) * (n + 2), by omega⟩
    exact writerLoop_mono _ _ _ h1 d
  · intro fuel r hr
    have a := writerLoop_mono _ _ _ hr ((n + 2) * (n + 2))
    have b := writerLoop_mono _ _ _ h1 fuel
    rw [Nat.add_comm] at b
    rw [a] at b
    exact Option.some.inj b
  · intro p buf q hp hne
    unfold writerPipeline.writerStep
    rw [hp]
    simp only [hne, ne_eq, not_false_eq_true, if_true]

theorem c27_writer_serializes_witness :
    ∃ fl1,
      writerPipeline.writerLoop 25
          { fl := testReadFile, writerChecksumBufChan := [],
            writerToDiskBufChan :=
              [2, 0, 1].map (fun i => some ({ seq := i, buf := [i, i], offset := 2,
                                              memBlocks := [⟨[i], 0, 0⟩] }
                                            : groupStoreFileWriteBuf)) ++ [none],
            seq := 0, lastWasNil := false, writerDone := false }
        = some { fl := fl1, writerChecksumBufChan := [], writerToDiskBufChan := [],
                 seq := 3, lastWasNil := true, writerDone := true } ∧
      fl1.disk = testReadFile.disk ++ [0, 0, 1, 1, 2, 2] := by
  obtain ⟨fl1, h1, _, h3, _⟩ := c27_writer_serializes testReadFile
    (fun i => { seq := i, buf := [i, i], offset := 2, memBlocks := [⟨[i], 0, 0⟩] }) 3
    [2, 0, 1] (fun _ => rfl) (by decide) (by decide) (by decide)
  exact ⟨fl1, h1 25 (by decide), h3⟩

/-- C26: a memblock whose bytes end exactly on a page boundary is released by `write`
itself, before the page reaches the file. When the current buffer has room for exactly
the bytes of the memblock, a free buffer is at hand (two workers or more) and the
channel for freeable memblocks whose turn it is holds fewer memblocks than its
capacity, `write` returns with the file on disk unchanged, the full page, which holds
the bytes of the memblock, only queued on `writerChecksumBufChan`, and the memblock
already sent to the free pool `freeableMemBlockChans`. -/
theorem c26_release_before_disk_write (p : writerPipeline)
    (cur next : groupStoreFileWriteBuf) (free : List groupStoreFileWriteBuf)
    (memBlock : groupMemBlock)
    (hcur : p.fl.writerCurrentBuf = some cur)
    (hfree : p.fl.writerFreeBufChan = next :: free) (hnext : next.offset = 0)
    (hlen : 1 ≤ memBlock.values.length)
    (hfit : cur.offset + memBlock.values.length = p.fl.store.checksumInterval)
    (hbuf : p.fl.store.checksumInterval ≤ cur.buf.length)
    (hci : p.fl.store.checksumInterval < 4294967296)
    (hchans : p.fl.freeableMemBlockChanIndex < p.fl.store.freeableMemBlockChans.length)
    (hroom : (p.fl.store.freeableMemBlockChans.getD p.fl.freeableMemBlockChanIndex []).length
      < p.fl.store.freeableMemBlockChanCaps.getD p.fl.freeableMemBlockChanIndex 0) :
    ∃ p1 page,
      p.write memBlock
        = some (p1, { memBlock with fileID := p.fl.id, fileOffset := p.fl.writerOffset }) ∧
      p1.fl.disk = p.fl.disk ∧
      p1.writerToDiskBufChan = p.writerToDiskBufChan ∧
      p1.writerChecksumBufChan = p.writerChecksumBufChan ++ [page] ∧
      page.buf.take p.fl.store.checksumInterval
        = cur.buf.take cur.offset ++ memBlock.values ∧
      page.memBlocks = cur.memBlocks ∧
      p1.fl.store.freeableMemBlockChans
        = p.fl.store.freeableMemBlockChans.modify
            (fun c => c ++ [{ memBlock with fileID := p.fl.id,
                                            fileOffset := p.fl.writerOffset }])
            p.fl.freeableMemBlockChanIndex := by
  obtain ⟨f, hf⟩ : ∃ f, memBlock.values.length = f + 1 := ⟨memBlock.values.length - 1, by omega⟩
  have hmin : min (p.fl.store.checksumInterval - cur.offset) memBlock.values.length
      = memBlock.values.length := by omega
  have hcopy := goCopyInto_eq cur.buf cur.offset p.fl.store.checksumInterval memBlock.values
    (by omega) hbuf
  rw [hmin] at hcopy
  have hu : u32 (cur.offset + memBlock.values.length) = p.fl.store.checksumInterval := by
    rw [hfit]; exact u32_of_lt hci
  have hw : p.write memBlock
      = some ({ p with
                writerChecksumBufChan := p.writerChecksumBufChan ++ [{ cur with
                  buf := cur.buf.take cur.offset
                    ++ memBlock.values.take memBlock.values.length
                    ++ cur.buf.drop (cur.offset + memBlock.values.length),
                  offset := p.fl.store.checksumInterval }],
                fl := { p.fl with
                  store := { p.fl.store with
                    freeableMemBlockChans := p.fl.store.freeableMemBlockChans.modify
                      (fun c => c ++ [{ memBlock with fileID := p.fl.id,
                                                      fileOffset := p.fl.writerOffset }])
                      p.fl.freeableMemBlockChanIndex },
                  freeableMemBlockChanIndex :=
                    if p.fl.freeableMemBlockChanIndex + 1
                        ≥ p.fl.store.freeableMemBlockChans.length then 0
                    else p.fl.freeableMemBlockChanIndex + 1,
                  writerOffset := u32 (p.fl.writerOffset + memBlock.values.length),
                  writerFreeBufChan := free,
                  writerCurrentBuf := some { next with seq := cur.seq + 1 } } },
              { memBlock with fileID := p.fl.id, fileOffset := p.fl.writerOffset }) := by
    unfold writerPipeline.write
    simp only
    rw [if_neg (by omega)]
    rw [hf]
    unfold writerPipeline.writeLoop
    rw [← hf]
    simp only [hcur, if_pos (show memBlock.values.length > 0 by omega), Nat.sub_self,
      List.drop_zero, hcopy, hu, Option.bind_eq_bind, Option.some_bind, Option.bind_some,
      ge_iff_le, Nat.le_refl, if_true, writerPipeline.rotate, hfree]
    rw [hf]
    unfold writerPipeline.writeLoop
    simp only [Nat.lt_irrefl, gt_iff_lt, if_false, Option.some_bind, Option.bind_some, hnext,
      if_true, groupStoreFile.freeMemBlock, hchans, hroom, if_pos, Option.map_some',
      Option.pure_def]
  refine ⟨_, _, hw, rfl, rfl, rfl, ?_, rfl, rfl⟩
  show (cur.buf.take cur.offset ++ memBlock.values.take memBlock.values.length
      ++ cur.buf.drop (cur.offset + memBlock.values.length)).take p.fl.store.checksumInterval
    = _
  have hoff : cur.offset ≤ cur.buf.length := by omega
  rw [List.take_length, List.take_append_of_le_length
    (by rw [List.length_append, List.length_take, Nat.min_eq_left hoff]; omega)]
  rw [List.take_of_length_le
    (by rw [List.length_append, List.length_take, Nat.min_eq_left hoff]; omega)]

theorem c26_release_before_disk_write_witness :
    createGroupReadWriteFile (testStore2 64) 0 okWriteCloser (openBytes []) okAddLocBlock ()
      = some (.ok testWriteFile2, ()) ∧
    ∃ p1 page p2 p3, (writerPipeline.start testWriteFile2).write ⟨List.replicate 32 7, 0, 0⟩
        = some (p1, ⟨List.replicate 32 7, 1, 32⟩) ∧
      p1.fl.disk = [] ∧ p1.writerToDiskBufChan = [] ∧
      p1.writerChecksumBufChan = [page] ∧
      page.buf.take 64
        = strBytes "GROUPSTORE v0               " ++ [0, 0, 0, 64] ++ List.replicate 32 7 ∧
      p1.fl.store.freeableMemBlockChans = [[⟨List.replicate 32 7, 1, 32⟩]] ∧
      p1.checksummerStep = some p2 ∧ p2.fl.disk = [] ∧
      p2.writerStep = some p3 ∧ p3.fl.disk.take 64 = page.buf.take 64 := by
  refine ⟨rfl, ?_⟩
  obtain ⟨p1, page, h1, h2, h3, h4, h5, _, h7⟩ := c26_release_before_disk_write
    (writerPipeline.start testWriteFile2)
    { seq := 0,
      buf := strBytes "GROUPSTORE v0               " ++ [0, 0, 0, 64] ++ List.replicate 36 0,
      offset := 32, memBlocks := [] }
    (newWriteBuf (testStore2 64)) [] ⟨List.replicate 32 7, 0, 0⟩ rfl rfl rfl (by decide)
    (by decide) (by decide) (by decide) (by decide) (by decide)
  obtain ⟨q1, q2, q3, e1, e2, e3, e4, e5⟩ :
      ∃ q1 q2 q3, (writerPipeline.start testWriteFile2).write ⟨List.replicate 32 7, 0, 0⟩
          = some (q1, ⟨List.replicate 32 7, 1, 32⟩) ∧
        q1.checksummerStep = some q2 ∧ q2.fl.disk = [] ∧ q2.writerStep = some q3 ∧
        q3.fl.disk.take 64
          = strBytes "GROUPSTORE v0               " ++ [0, 0, 0, 64]
              ++ List.replicate 32 7 :=
    ⟨_, _, _, rfl, rfl, rfl, rfl, by decide⟩
  have h5b : page.buf.take 64
      = strBytes "GROUPSTORE v0               " ++ [0, 0, 0, 64] ++ List.replicate 32 7 :=
    h5.trans (by decide)
  rw [e1] at h1
  cases h1
  exact ⟨p1, page, q2, q3, e1, h2, h3, h4, h5b, h7, e2, e3, e4, e5.trans h5b.symm⟩

end Valuestore
